import Mathlib

/-!
# go-rustplus: a verification development

Shallow embedding of the protocol engines of `chickenfresh/go-rustplus`:

* `fcm/parser/parser.go`  – the framed-stream (MCS) parser,
* `fcm/client/client.go`  – persistent-id dedup and notification fan-out,
* `fcm/crypto/ece.go`     – the Encrypted-Content-Encoding record layer.

Bytes are natural numbers (a well-formed byte is `< 256`), Go `int` values are
`Int`, `uint64` arithmetic is reduced modulo `2 ^ 64` where the source can
overflow.  Callbacks are modelled by an event log carried in the state.
-/

namespace GoRustplus

/-! ## `fcm/constants/constants.go` -/

def MCSVersionTagAndSize : Nat := 0
def MCSTagAndSize : Nat := 1
def MCSSize : Nat := 2
def MCSProtoBytes : Nat := 3

def VersionPacketLen : Nat := 1
def TagPacketLen : Nat := 1
def SizePacketLenMin : Nat := 1
def SizePacketLenMax : Nat := 5

def MCSVersion : Nat := 41

def HeartbeatPingTag : Nat := 0
def HeartbeatAckTag : Nat := 1
def LoginRequestTag : Nat := 2
def LoginResponseTag : Nat := 3
def CloseTag : Nat := 4
def IqStanzaTag : Nat := 7
def DataMessageStanzaTag : Nat := 8
def StreamErrorStanzaTag : Nat := 10

/-! ## `fcm/parser/parser.go` -/

/-- Errors returned by `readVarInt`: `io.EOF` from the byte reader, and the two
errors the function creates itself. -/
inductive VarIntError where
  | eof
  | overflow
  | tooLong
  deriving DecidableEq, Repr

/-- Loop of `readVarInt`: `k` is the number of iterations left (`10 - i`), `r` the
unread bytes of the reader, `x`, `s`, `i` the loop variables of the source.
The result is `(value, bytesRead, err)`. -/
def readVarIntLoop : Nat → List Nat → Nat → Nat → Nat → Nat × Nat × Option VarIntError
  | 0, _, _, _, i => (0, i, some VarIntError.tooLong)
  | _ + 1, [], _, _, i => (0, i, some VarIntError.eof)
  | k + 1, b :: rest, x, s, i =>
    if b < 0x80 then
      if i = 9 ∧ b > 1 then (0, i + 1, some VarIntError.overflow)
      else (x ||| ((b <<< s) % 2 ^ 64), i + 1, none)
    else
      readVarIntLoop k rest (x ||| (((b &&& 0x7f) <<< s) % 2 ^ 64)) (s + 7) (i + 1)

/-- The source function `readVarInt` on a reader holding the bytes `r`. -/
def readVarInt (r : List Nat) : Nat × Nat × Option VarIntError :=
  readVarIntLoop 10 r 0 0 0

/-- Errors handed to the error sink.  `message` gives the Go error text. -/
inductive ParserError where
  | unexpectedState (state : Nat)
  | wrongVersion (version : Nat)
  | unknownTag (tag : Nat)
  | unmarshalFailed (cause : String)
  deriving DecidableEq, Repr

def ParserError.message : ParserError → String
  | ParserError.unexpectedState s => "unexpected state: " ++ toString s
  | ParserError.wrongVersion v => "got wrong version: " ++ toString v
  | ParserError.unknownTag t => "unknown tag: " ++ toString t
  | ParserError.unmarshalFailed c => "failed to unmarshal protobuf: " ++ c

/-- The error is the one `onGotVersion` emits (its text is the only one that
contains the word `version`, up to the text of a protobuf failure). -/
def ParserError.isVersionError : ParserError → Bool
  | ParserError.wrongVersion _ => true
  | _ => false

/-- The protobuf library as seen by the parser: `zero tag` is the empty record
`&fcmproto.X{}` that `buildProtobufFromTag` allocates for a supported tag and
`unmarshal buf m` is `proto.Unmarshal(buf, m)`. -/
structure Proto (M : Type) where
  zero : Nat → M
  unmarshal : List Nat → M → Except String M

/-- A call of one of the two sinks of `Config`. -/
inductive Event (M : Type) where
  | message (tag : Nat) (msg : M)
  | error (e : ParserError)

/-- State of `Parser`.  `events` is the log of sink calls (oldest first);
`crashed` records a Go run-time panic (slice bounds out of range). -/
structure Parser (M : Type) where
  state : Nat
  data : List Nat
  sizePacketSoFar : Nat
  messageTag : Nat
  messageSize : Int
  handshakeComplete : Bool
  isWaitingForData : Bool
  events : List (Event M)
  crashed : Bool

def NewParser (M : Type) : Parser M :=
  { state := MCSVersionTagAndSize
    data := []
    sizePacketSoFar := 0
    messageTag := 0
    messageSize := 0
    handshakeComplete := false
    isWaitingForData := true
    events := []
    crashed := false }

variable {M : Type}

/-- The method `emitError`, with an error handler installed. -/
def emitError (p : Parser M) (e : ParserError) : Parser M :=
  { p with events := p.events ++ [Event.error e] }

/-- Call of `p.config.MessageHandler(tag, msg)`. -/
def emitMessage (p : Parser M) (tag : Nat) (msg : M) : Parser M :=
  { p with events := p.events ++ [Event.message tag msg] }

/-- Conversion `int(size)` of a `uint64` on a 64-bit platform. -/
def uint64ToInt (size : Nat) : Int :=
  if size % 2 ^ 64 < 2 ^ 63 then ((size % 2 ^ 64 : Nat) : Int)
  else ((size % 2 ^ 64 : Nat) : Int) - 2 ^ 64

def buildProtobufFromTag (proto : Proto M) (tag : Nat) : Except ParserError M :=
  if tag = HeartbeatPingTag then Except.ok (proto.zero tag)
  else if tag = HeartbeatAckTag then Except.ok (proto.zero tag)
  else if tag = LoginRequestTag then Except.ok (proto.zero tag)
  else if tag = LoginResponseTag then Except.ok (proto.zero tag)
  else if tag = CloseTag then Except.ok (proto.zero tag)
  else if tag = IqStanzaTag then Except.ok (proto.zero tag)
  else if tag = DataMessageStanzaTag then Except.ok (proto.zero tag)
  else if tag = StreamErrorStanzaTag then Except.ok (proto.zero tag)
  else Except.error (ParserError.unknownTag tag)

/-- First `switch` of `waitForData`; `none` is the `default` branch. -/
def minBytesNeeded (p : Parser M) : Option Int :=
  if p.state = MCSVersionTagAndSize then
    some ((VersionPacketLen + TagPacketLen + SizePacketLenMin : Nat) : Int)
  else if p.state = MCSTagAndSize then some ((TagPacketLen + SizePacketLenMin : Nat) : Int)
  else if p.state = MCSSize then some ((p.sizePacketSoFar + 1 : Nat) : Int)
  else if p.state = MCSProtoBytes then some p.messageSize
  else none

/-- The methods of `Parser` that call each other. -/
inductive Method where
  | waitForData
  | onGotVersion
  | onGotMessageTag
  | onGotMessageSize
  | onGotMessageBytes
  | getNextMessage
  deriving DecidableEq, Repr

/-- What a method body ends with: every call between the methods is the last
statement before `return`, so a body either returns or continues as another
method on the updated state. -/
inductive Next (M : Type) where
  | ret (p : Parser M)
  | call (m : Method) (p : Parser M)

def waitForData (p : Parser M) : Next M :=
  match minBytesNeeded p with
  | none => Next.ret (emitError p (ParserError.unexpectedState p.state))
  | some need =>
    if (p.data.length : Int) < need then Next.ret { p with isWaitingForData := true }
    else if p.state = MCSVersionTagAndSize then Next.call Method.onGotVersion p
    else if p.state = MCSTagAndSize then Next.call Method.onGotMessageTag p
    else if p.state = MCSSize then Next.call Method.onGotMessageSize p
    else if p.state = MCSProtoBytes then Next.call Method.onGotMessageBytes p
    else Next.ret (emitError p (ParserError.unexpectedState p.state))

/-- The method `onGotVersion`; indexing an empty buffer panics. -/
def onGotVersion (p : Parser M) : Next M :=
  match p.data with
  | [] => Next.ret { p with crashed := true }
  | version :: rest =>
    let p := { p with data := rest }
    if version < MCSVersion ∧ version ≠ 38 then
      Next.ret (emitError p (ParserError.wrongVersion version))
    else Next.call Method.onGotMessageTag p

def onGotMessageTag (p : Parser M) : Next M :=
  match p.data with
  | [] => Next.ret { p with crashed := true }
  | tag :: rest => Next.call Method.onGotMessageSize { p with messageTag := tag, data := rest }

/-- The method `onGotMessageSize`: every error of `readVarInt` is taken to mean
that the varint is not complete yet. -/
def onGotMessageSize (p : Parser M) : Next M :=
  match readVarInt p.data with
  | (_, _, some _) =>
    Next.call Method.waitForData { p with sizePacketSoFar := p.data.length, state := MCSSize }
  | (size, bytesRead, none) =>
    let p := { p with messageSize := uint64ToInt size, data := p.data.drop bytesRead,
                      sizePacketSoFar := 0 }
    if p.messageSize > 0 then Next.call Method.waitForData { p with state := MCSProtoBytes }
    else Next.call Method.onGotMessageBytes p

/-- The method `onGotMessageBytes`.  The branch `protoMsg == nil` of the source
is never taken, since every case of `buildProtobufFromTag` returns a pointer to
a record; a negative `messageSize` makes `p.data[:p.messageSize]` panic. -/
def onGotMessageBytes (proto : Proto M) (p : Parser M) : Next M :=
  match buildProtobufFromTag proto p.messageTag with
  | Except.error err => Next.call Method.getNextMessage (emitError p err)
  | Except.ok protoMsg =>
    if p.messageSize = 0 then
      Next.call Method.getNextMessage (emitMessage p p.messageTag protoMsg)
    else if (p.data.length : Int) < p.messageSize then
      Next.call Method.waitForData { p with state := MCSProtoBytes }
    else if p.messageSize < 0 then Next.ret { p with crashed := true }
    else
      let buffer := p.data.take p.messageSize.toNat
      let p := { p with data := p.data.drop p.messageSize.toNat }
      match proto.unmarshal buffer protoMsg with
      | Except.error cause =>
        Next.call Method.getNextMessage (emitError p (ParserError.unmarshalFailed cause))
      | Except.ok msg =>
        let p := emitMessage p p.messageTag msg
        let p :=
          if p.messageTag = LoginResponseTag then
            if p.handshakeComplete then p else { p with handshakeComplete := true }
          else p
        Next.call Method.getNextMessage p

def getNextMessage (p : Parser M) : Next M :=
  Next.call Method.waitForData { p with messageTag := 0, messageSize := 0, state := MCSTagAndSize }

def methodBody (proto : Proto M) : Method → Parser M → Next M
  | Method.waitForData => waitForData
  | Method.onGotVersion => onGotVersion
  | Method.onGotMessageTag => onGotMessageTag
  | Method.onGotMessageSize => onGotMessageSize
  | Method.onGotMessageBytes => onGotMessageBytes proto
  | Method.getNextMessage => getNextMessage

/-- Runs method `m` on `p` until the chain of calls returns.  `fuel` bounds the
number of method bodies entered; `none` means the bound was reached. -/
def exec (proto : Proto M) : Nat → Method → Parser M → Option (Parser M)
  | 0, _, _ => none
  | fuel + 1, m, p =>
    match methodBody proto m p with
    | Next.ret q => some q
    | Next.call m' q => exec proto fuel m' q

/-- The method `onData`, called by `readLoop` with each chunk read from the
connection. -/
def onData (proto : Proto M) (fuel : Nat) (p : Parser M) (buffer : List Nat) :
    Option (Parser M) :=
  let p := { p with data := p.data ++ buffer }
  if p.isWaitingForData then exec proto fuel Method.waitForData { p with isWaitingForData := false }
  else some p

/-! ### Reference encoder and sample instances -/

/-- The standard varint encoding, seven bits per byte, least significant group
first, the high bit of a byte set when another byte follows.  The first
argument bounds the recursion; `encodeVarint` passes `n` itself. -/
def encodeVarintAux : Nat → Nat → List Nat
  | 0, n => [n]
  | fuel + 1, n => if n < 128 then [n] else (n % 128 + 128) :: encodeVarintAux fuel (n / 128)

def encodeVarint (n : Nat) : List Nat := encodeVarintAux n n

/-- Tags for which `buildProtobufFromTag` allocates a record. -/
def supportedTags : List Nat := [0, 1, 2, 3, 4, 7, 8, 10]

/-- A protobuf instance whose records are their own bytes. -/
def bytesProto : Proto (List Nat) :=
  { zero := fun _ => []
    unmarshal := fun buf _ => Except.ok buf }

/-! ## `fcm/crypto/decrypt.go` (data types) -/

structure AppDataItem where
  Key : String
  Value : String
  deriving DecidableEq, Repr

structure EncryptedMessage where
  AppData : List AppDataItem
  RawData : List Nat
  deriving DecidableEq, Repr

structure Keys where
  PrivateKey : String
  AuthSecret : String
  deriving DecidableEq, Repr

/-! ## `fcm/client/client.go` -/

/-- A non-nil Go `*string`: the address of the cell and the string stored there.
Two pointers are `==` exactly when their addresses agree. -/
structure StrPtr where
  addr : Nat
  val : String
  deriving DecidableEq, Repr

/-- Value of `fcmproto.AppData`; both fields are `*string` and may be nil. -/
structure AppData where
  Key : Option StrPtr
  Value : Option StrPtr
  deriving DecidableEq, Repr

/-- The fields of `fcmproto.DataMessageStanza` that the client reads. -/
structure DataMessageStanza where
  PersistentId : Option String
  AppData : List AppData
  RawData : List Nat
  deriving DecidableEq, Repr

/-- The `Message` map of a `Notification`: `raw` is `{"raw": true}`,
`rawDecryptFailed` is `{"raw": true, "decryptFailed": true}` and `decrypted j`
is the object returned by `crypto.DecryptMessage`. -/
inductive NotificationMessage (J : Type) where
  | raw
  | rawDecryptFailed
  | decrypted (j : J)
  deriving DecidableEq, Repr

structure Notification (J : Type) where
  Message : NotificationMessage J
  PersistentID : String
  Object : DataMessageStanza
  deriving DecidableEq, Repr

/-- The part of `Client` used by message handling.  `onNotification` tells
whether a callback is installed, `delivered` logs its invocations (oldest
first) and `nextAddr` is the first address the allocator has not handed out. -/
structure Client (J : Type) where
  persistentIDs : List String
  credentials : Option Keys
  onNotification : Bool
  delivered : List (Notification J)
  nextAddr : Nat

/-- Go `strings.Contains` on the characters of the two strings. -/
def containsChars : List Char → List Char → Bool
  | [], sub => sub.isEmpty
  | c :: cs, sub => sub.isPrefixOf (c :: cs) || containsChars cs sub

def stringsContains (s substr : String) : Bool :=
  containsChars s.data substr.data

def isIgnorableDecryptError (errMsg : String) : Bool :=
  stringsContains errMsg "Unsupported state or unable to authenticate data" ||
    stringsContains errMsg "crypto-key is missing" ||
    stringsContains errMsg "salt is missing"

/-- Call of `proto.String(v)`: a fresh cell is allocated at `next`. -/
def protoString (next : Nat) (v : String) : StrPtr × Nat :=
  (StrPtr.mk next v, next + 1)

/-- Go `==` on two `*string` values. -/
def ptrEq : Option StrPtr → Option StrPtr → Bool
  | none, none => true
  | some a, some b => a.addr == b.addr
  | _, _ => false

/-- First loop of `processDataMessage`: `some true` when an id equals
`*msg.PersistentId`, `none` when the dereference of a nil pointer panics. -/
def alreadySeen : List String → Option String → Option Bool
  | [], _ => some false
  | _ :: _, none => none
  | id :: rest, some pid => if id = pid then some true else alreadySeen rest (some pid)

/-- Second loop of `processDataMessage`; every iteration evaluates
`proto.String("crypto-key")` anew.  Returns `hasCryptoKey` and the allocator. -/
def hasCryptoKeyLoop : List AppData → Nat → Bool × Nat
  | [], next => (false, next)
  | appData :: rest, next =>
    let fresh := protoString next "crypto-key"
    if ptrEq appData.Key (some fresh.1) then (true, fresh.2)
    else hasCryptoKeyLoop rest fresh.2

/-- Third loop of `processDataMessage`: `*appData.Key` and `*appData.Value`;
`none` when one of them is nil. -/
def toAppDataItems : List AppData → Option (List AppDataItem)
  | [] => some []
  | appData :: rest =>
    match appData.Key, appData.Value, toAppDataItems rest with
    | some k, some v, some items => some (AppDataItem.mk k.val v.val :: items)
    | _, _, _ => none

variable {J : Type}

/-- The guarded call `if c.onNotification != nil { c.onNotification(n) }`. -/
def notify (c : Client J) (n : Notification J) : Client J :=
  if c.onNotification then { c with delivered := c.delivered ++ [n] } else c

/-- Statement `c.persistentIDs = append(c.persistentIDs, *msg.PersistentId)`
followed by the emission of `message`. -/
def recordAndNotify (c : Client J) (msg : DataMessageStanza) (message : NotificationMessage J) :
    Option (Client J) :=
  match msg.PersistentId with
  | none => none
  | some pid =>
    some (notify { c with persistentIDs := c.persistentIDs ++ [pid] }
      (Notification.mk message pid msg))

/-- The method `processDataMessage`.  `decryptMessage` is `crypto.DecryptMessage`
(its error is the text of the Go error); `none` is a nil-pointer panic. -/
def processDataMessage (decryptMessage : EncryptedMessage → Keys → Except String J)
    (c : Client J) (msg : DataMessageStanza) : Option (Client J) :=
  match alreadySeen c.persistentIDs msg.PersistentId with
  | none => none
  | some true => some c
  | some false =>
    let found := hasCryptoKeyLoop msg.AppData c.nextAddr
    let hasCryptoKey := found.1
    let c := { c with nextAddr := found.2 }
    if !hasCryptoKey then recordAndNotify c msg NotificationMessage.raw
    else
      match c.credentials with
      | none => recordAndNotify c msg NotificationMessage.rawDecryptFailed
      | some credentials =>
        match toAppDataItems msg.AppData with
        | none => none
        | some items =>
          match decryptMessage (EncryptedMessage.mk items msg.RawData) credentials with
          | Except.error err =>
            if isIgnorableDecryptError err then
              match msg.PersistentId with
              | none => none
              | some pid => some { c with persistentIDs := c.persistentIDs ++ [pid] }
            else recordAndNotify c msg NotificationMessage.rawDecryptFailed
          | Except.ok decrypted =>
            recordAndNotify c msg (NotificationMessage.decrypted decrypted)

/-- A `proto.Message` as seen by `onMessage`: a `*fcmproto.DataMessageStanza` or
a record of another type. -/
inductive ProtoMessage where
  | dataMessageStanza (msg : DataMessageStanza)
  | other
  deriving DecidableEq, Repr

/-- The method `onMessage`. -/
def onMessage (decryptMessage : EncryptedMessage → Keys → Except String J)
    (c : Client J) (tag : Nat) (message : ProtoMessage) : Option (Client J) :=
  if tag = LoginResponseTag then some { c with persistentIDs := [] }
  else if tag = DataMessageStanzaTag then
    match message with
    | ProtoMessage.dataMessageStanza msg => processDataMessage decryptMessage c msg
    | ProtoMessage.other => some c
  else some c

/-- Successive calls of `processDataMessage`, one per stanza of the list. -/
def processDataMessages (decryptMessage : EncryptedMessage → Keys → Except String J) :
    Client J → List DataMessageStanza → Option (Client J)
  | c, [] => some c
  | c, msg :: rest =>
    match processDataMessage decryptMessage c msg with
    | none => none
    | some c' => processDataMessages decryptMessage c' rest

/-- Every pointer stored in the stanza was allocated before `next`. -/
def DataMessageStanza.allocatedBefore (msg : DataMessageStanza) (next : Nat) : Prop :=
  ∀ appData ∈ msg.AppData, ∀ k, appData.Key = some k → k.addr < next

/-! ## `fcm/crypto/ece.go` -/

def VersionAes128Gcm : String := "aes128gcm"
def VersionAesGcm : String := "aesgcm"
def TagLength : Nat := 16
def KeyLength : Nat := 16
def NonceLength : Nat := 12
def Sha256Length : Nat := 32
def ModeEncrypt : String := "encrypt"
def ModeDecrypt : String := "decrypt"

/-- The map `PadSize`; a key that is absent reads as `0`. -/
def PadSize (version : String) : Nat :=
  if version = VersionAes128Gcm then 1 else if version = VersionAesGcm then 2 else 0

/-- How a call can fail: a Go `error` value (with its text), a run-time panic,
or the iteration bound of a modelled loop being reached. -/
inductive Failure where
  | error (msg : String)
  | panic (msg : String)
  | outOfFuel
  deriving DecidableEq, Repr

/-- The struct `ECEParams`.  Byte slices that the code tests against `nil` are
options (`none` is `nil`); `KeyID` is kept as the bytes of the Go string and
`PrivateKey` records whether the interface value is non-nil. -/
structure ECEParams where
  Version : String
  Key : Option (List Nat)
  Salt : Option (List Nat)
  AuthSecret : Option (List Nat)
  KeyID : List Nat
  DH : Option (List Nat)
  PrivateKey : Bool
  RS : Int
  KeyMap : List Nat → Option (List Nat)

/-- The standard-library primitives used by the record layer: HMAC-SHA-256,
AES-GCM sealing and opening (`none` when authentication fails) and
`rand.Read` (`none` when it returns an error). -/
structure CryptoLib where
  hmacSha256 : List Nat → List Nat → List Nat
  gcmSeal : List Nat → List Nat → List Nat → List Nat
  gcmOpen : List Nat → List Nat → List Nat → Option (List Nat)
  randRead : Nat → Option (List Nat)

/-- Bytes of a slice, `nil` read as empty. -/
def sliceBytes : Option (List Nat) → List Nat
  | none => []
  | some b => b

/-- Conversion `[]byte(s)` of a string. -/
def stringBytes (s : String) : List Nat :=
  s.toUTF8.toList.map UInt8.toNat

/-- Calls `aes.NewCipher(key)` and `cipher.NewGCM(block)`: the only failure is
the key-size error of `aes.NewCipher`. -/
def newGCM (key : List Nat) : Except Failure Unit :=
  if key.length = 16 ∨ key.length = 24 ∨ key.length = 32 then Except.ok ()
  else Except.error (Failure.error ("crypto/aes: invalid key size " ++ toString key.length))

/-- Call `gcm.Seal(nil, nonce, plaintext, nil)`. -/
def gcmSeal (lib : CryptoLib) (key nonce plaintext : List Nat) : Except Failure (List Nat) :=
  if nonce.length ≠ NonceLength then
    Except.error (Failure.panic "crypto/cipher: incorrect nonce length given to GCM")
  else Except.ok (lib.gcmSeal key nonce plaintext)

/-- Call `gcm.Open(nil, nonce, ciphertext, nil)`. -/
def gcmOpen (lib : CryptoLib) (key nonce ciphertext : List Nat) : Except Failure (List Nat) :=
  if nonce.length ≠ NonceLength then
    Except.error (Failure.panic "crypto/cipher: incorrect nonce length given to GCM")
  else
    match lib.gcmOpen key nonce ciphertext with
    | none => Except.error (Failure.error "cipher: message authentication failed")
    | some plaintext => Except.ok plaintext

def hmacHash (lib : CryptoLib) (key input : List Nat) : List Nat :=
  lib.hmacSha256 key input

def hkdfExtract (lib : CryptoLib) (salt ikm : List Nat) : List Nat :=
  hmacHash lib salt ikm

/-- Loop of `hkdfExpand`; `counter` is a `byte`. -/
def hkdfExpandLoop (lib : CryptoLib) (prk info : List Nat) (length : Nat) :
    Nat → List Nat → List Nat → Nat → Except Failure (List Nat)
  | 0, _, _, _ => Except.error Failure.outOfFuel
  | fuel + 1, output, t, counter =>
    if output.length < length then
      let counter := (counter + 1) % 256
      let data := t ++ info ++ [counter]
      let t := hmacHash lib prk data
      hkdfExpandLoop lib prk info length fuel (output ++ t) t counter
    else Except.ok (output.take length)

/-- The function `hkdfExpand`.  Every round appends one MAC to `output`, so
`length + 1` rounds suffice unless the MAC is empty, in which case the source
does not terminate. -/
def hkdfExpand (lib : CryptoLib) (prk info : List Nat) (length : Nat) :
    Except Failure (List Nat) :=
  hkdfExpandLoop lib prk info length (length + 1) [] [] 0

def hkdf (lib : CryptoLib) (salt ikm info : List Nat) (length : Nat) :
    Except Failure (List Nat) :=
  hkdfExpand lib (hkdfExtract lib salt ikm) info length

def createInfo (base : String) (context : List Nat) : List Nat :=
  stringBytes ("Content-Encoding: " ++ base ++ "\x00") ++ context

/-- The map returned by `deriveKeyAndNonce`, with its two entries. -/
structure KeyAndNonce where
  key : List Nat
  nonce : List Nat
  deriving DecidableEq, Repr

structure secretContext where
  Secret : Option (List Nat)
  Context : List Nat
  deriving DecidableEq, Repr

def extractSecretAndContext (lib : CryptoLib) (header : ECEParams) (_mode : String) :
    Except Failure secretContext :=
  let keyed : Except Failure (Option (List Nat)) :=
    match header.Key with
    | some key =>
      if key.length ≠ KeyLength then
        Except.error (Failure.error ("an explicit key must be " ++ toString KeyLength ++ " bytes"))
      else Except.ok (some key)
    | none =>
      match header.DH with
      | some _ => Except.error (Failure.error "DH extraction not implemented")
      | none => if header.KeyID ≠ [] then Except.ok (header.KeyMap header.KeyID) else Except.ok none
  match keyed with
  | Except.error e => Except.error e
  | Except.ok none => Except.error (Failure.error "unable to determine key")
  | Except.ok (some secret) =>
    match header.AuthSecret with
    | some authSecret =>
      match hkdf lib authSecret secret (createInfo "auth" []) Sha256Length with
      | Except.error e => Except.error e
      | Except.ok derived => Except.ok (secretContext.mk (some derived) [])
    | none => Except.ok (secretContext.mk (some secret) [])

/-- The text of a Go string given by its bytes, one character per byte, as
`%s` prints it. -/
def goText (bs : List Nat) : String :=
  String.mk (bs.map Char.ofNat)

def extractSecret (header : ECEParams) (_mode : String)
    (keyLookupCallback : Option (List Nat → Option (List Nat))) : Except Failure (List Nat) :=
  match header.Key with
  | some key =>
    if key.length ≠ KeyLength then
      Except.error (Failure.error ("an explicit key must be " ++ toString KeyLength ++ " bytes"))
    else Except.ok key
  | none =>
    if header.PrivateKey = false then
      let key :=
        match keyLookupCallback with
        | some callback => callback header.KeyID
        | none => header.KeyMap header.KeyID
      match key with
      | none =>
        Except.error (Failure.error ("no saved key (keyid: " ++ goText header.KeyID ++ ")"))
      | some k => Except.ok k
    else Except.error (Failure.error "WebPush secret extraction not implemented")

def deriveKeyAndNonce (lib : CryptoLib) (header : ECEParams) (mode : String)
    (lookupKeyCallback : Option (List Nat → Option (List Nat))) : Except Failure KeyAndNonce :=
  if (sliceBytes header.Salt).length = 0 then
    Except.error (Failure.error "must include a salt parameter")
  else
    let infos : Except Failure (List Nat × List Nat × List Nat) :=
      if header.Version = VersionAesGcm then
        match extractSecretAndContext lib header mode with
        | Except.error e => Except.error e
        | Except.ok s =>
          Except.ok (createInfo "aesgcm" s.Context, createInfo "nonce" s.Context,
            sliceBytes s.Secret)
      else if header.Version = VersionAes128Gcm then
        match extractSecret header mode lookupKeyCallback with
        | Except.error e => Except.error e
        | Except.ok secret =>
          Except.ok (stringBytes "Content-Encoding: aes128gcm\x00",
            stringBytes "Content-Encoding: nonce\x00", secret)
      else Except.error (Failure.error ("unsupported version: " ++ header.Version))
    match infos with
    | Except.error e => Except.error e
    | Except.ok (keyInfo, nonceInfo, secret) =>
      let prk := hkdfExtract lib (sliceBytes header.Salt) secret
      match hkdfExpand lib prk keyInfo KeyLength, hkdfExpand lib prk nonceInfo NonceLength with
      | Except.ok key, Except.ok nonce => Except.ok (KeyAndNonce.mk key nonce)
      | Except.error e, _ => Except.error e
      | _, Except.error e => Except.error e

/-- The counter is a Go `int`; `byte(counter)` keeps its low eight bits. -/
def generateNonce (base : List Nat) (counter : Nat) : List Nat :=
  if base.length > 0 then
    base.set (base.length - 1) (Nat.xor (base.getD (base.length - 1) 0) (counter % 256))
  else base

/-- Big-endian value of the first `n` bytes, as the loops over `pad << 8` and
`binary.BigEndian.Uint32` compute it. -/
def bigEndian (bytes : List Nat) : Nat :=
  bytes.foldl (fun acc b => (acc <<< 8) ||| b) 0

/-- The `n` big-endian bytes of `v`: byte `i` is `(v >> (8 * (n - i - 1))) & 0xff`. -/
def bigEndianBytes (v n : Nat) : List Nat :=
  (List.range n).map (fun i => (v >>> (8 * (n - i - 1))) &&& 0xff)

def readHeader (buffer : List Nat) (header : ECEParams) : Except Failure (Nat × ECEParams) :=
  if buffer.length < 21 then Except.error (Failure.error "buffer too short for header")
  else
    let header := { header with
      Salt := some (buffer.take KeyLength)
      RS := ((bigEndian ((buffer.drop KeyLength).take 4) : Nat) : Int) }
    let idSize := buffer.getD 20 0
    if buffer.length < 21 + idSize then Except.error (Failure.error "buffer too short for key ID")
    else
      let header :=
        if idSize > 0 then { header with KeyID := (buffer.drop 21).take idSize }
        else { header with KeyID := [] }
      Except.ok (21 + idSize, header)

def writeHeader (header : ECEParams) : Except Failure (List Nat) :=
  let keyID := header.KeyID
  if keyID.length > 255 then Except.error (Failure.error "keyid is too large")
  else
    let salt := (sliceBytes header.Salt).take KeyLength
    Except.ok (salt ++ List.replicate (KeyLength - salt.length) 0 ++
      bigEndianBytes (header.RS % 2 ^ 32).toNat 4 ++ [keyID.length % 256] ++ keyID)

def unpadLegacy (data : List Nat) (version : String) : Except Failure (List Nat) :=
  let padSize := PadSize version
  if data.length < padSize then Except.error (Failure.error "data too short for padding")
  else
    let pad := bigEndian (data.take padSize)
    if pad + padSize > data.length then Except.error (Failure.error "padding exceeds block size")
    else if ((data.drop padSize).take pad).all (fun b => b == 0) then
      Except.ok (data.drop (padSize + pad))
    else Except.error (Failure.error "invalid padding")

/-- Loop of `unpad`; the first argument is `i + 1`. -/
def unpadLoop (data : List Nat) (last : Bool) : Nat → Except Failure (List Nat)
  | 0 => Except.error (Failure.error "all zero plaintext")
  | i + 1 =>
    if data.getD i 0 ≠ 0 then
      if last then
        if data.getD i 0 ≠ 2 then
          Except.error (Failure.error "last record needs to start padding with a 2")
        else Except.ok (data.take i)
      else
        if data.getD i 0 ≠ 1 then
          Except.error (Failure.error "non-last record needs to start padding with a 1")
        else Except.ok (data.take i)
    else unpadLoop data last i

def unpad (data : List Nat) (last : Bool) : Except Failure (List Nat) :=
  unpadLoop data last data.length

/-- The function `decryptRecord`; `buffer[:len(buffer)-TagLength]` panics on a
buffer shorter than the tag. -/
def decryptRecord (lib : CryptoLib) (key : KeyAndNonce) (counter : Nat) (buffer : List Nat)
    (header : ECEParams) (last : Bool) : Except Failure (List Nat) :=
  let nonce := generateNonce key.nonce counter
  match newGCM key.key with
  | Except.error e => Except.error e
  | Except.ok _ =>
    if buffer.length < TagLength then
      Except.error (Failure.panic "slice bounds out of range")
    else
      let ciphertext := buffer.take (buffer.length - TagLength)
      let tag := buffer.drop (buffer.length - TagLength)
      let ciphertextWithTag := ciphertext ++ tag
      match gcmOpen lib key.key nonce ciphertextWithTag with
      | Except.error e => Except.error e
      | Except.ok plaintext =>
        if header.Version ≠ VersionAes128Gcm then unpadLegacy plaintext header.Version
        else unpad plaintext last

/-- The function `encryptRecord`.  With a negative `pad` the source panics, in
`make` or at `padding[i]`.  In the `aes128gcm` branch the source appends the
padding to a slice of the caller's buffer; the value built here is the
plaintext that is sealed, and a write into spare capacity of that buffer is
not tracked (the `aesgcm` branch builds its plaintext in a fresh slice). -/
def encryptRecord (lib : CryptoLib) (key : KeyAndNonce) (counter : Nat) (buffer : List Nat)
    (pad : Int) (header : ECEParams) (last : Bool) : Except Failure (List Nat) :=
  let nonce := generateNonce key.nonce counter
  match newGCM key.key with
  | Except.error e => Except.error e
  | Except.ok _ =>
    let padSize := PadSize header.Version
    if pad + padSize < 0 then Except.error (Failure.panic "makeslice: len out of range")
    else if header.Version ≠ VersionAes128Gcm then
      if pad < 0 ∧ 0 < padSize then Except.error (Failure.panic "index out of range")
      else
        let padding := bigEndianBytes pad.toNat padSize ++ List.replicate pad.toNat 0
        gcmSeal lib key.key nonce (padding ++ buffer)
    else
      if pad + padSize = 0 then Except.error (Failure.panic "index out of range")
      else
        let padding := (if last then 2 else 1) :: List.replicate ((pad + padSize).toNat - 1) 0
        gcmSeal lib key.key nonce (buffer ++ padding)

/-- Loop of `Decrypt`.  `start` is never negative: it is `0` or a previous `end`,
which exceeded `start + TagLength`. -/
def decryptLoop (lib : CryptoLib) (key : KeyAndNonce) (header : ECEParams) (buffer : List Nat)
    (chunkSize : Int) : Nat → Nat → Nat → List Nat → Except Failure (List Nat)
  | 0, _, _, _ => Except.error Failure.outOfFuel
  | fuel + 1, i, start, result =>
    if start < buffer.length then
      let end0 : Int := start + chunkSize
      if header.Version ≠ VersionAes128Gcm ∧ end0 = buffer.length then
        Except.error (Failure.error "truncated payload")
      else
        let end1 : Int := min end0 buffer.length
        if end1 - start ≤ TagLength then
          Except.error (Failure.error ("invalid block: too small at " ++ toString i))
        else
          match decryptRecord lib key i ((buffer.take end1.toNat).drop start) header
              (decide (end1 ≥ buffer.length)) with
          | Except.error e => Except.error e
          | Except.ok block =>
            decryptLoop lib key header buffer chunkSize fuel (i + 1) end1.toNat (result ++ block)
    else Except.ok result

/-- The function `Decrypt`.  Every round of its loop moves `start` forward by
more than `TagLength`, so `len(buffer) + 1` rounds suffice. -/
def Decrypt (lib : CryptoLib) (buffer : List Nat) (params : ECEParams) :
    Except Failure (List Nat) :=
  let read : Except Failure (List Nat × ECEParams) :=
    if params.Version = VersionAes128Gcm then
      match readHeader buffer params with
      | Except.error e => Except.error e
      | Except.ok (headerLength, header) => Except.ok (buffer.drop headerLength, header)
    else Except.ok (buffer, params)
  match read with
  | Except.error e => Except.error e
  | Except.ok (buffer, header) =>
    match deriveKeyAndNonce lib header ModeDecrypt none with
    | Except.error e => Except.error e
    | Except.ok key =>
      let chunkSize : Int :=
        if header.Version ≠ VersionAes128Gcm then header.RS + TagLength else header.RS
      decryptLoop lib key header buffer chunkSize (buffer.length + 1) 0 0 []

/-- Go slice expression `buffer[lo:hi]` with `int` bounds. -/
def sliceInt (buffer : List Nat) (lo hi : Int) : Except Failure (List Nat) :=
  if 0 ≤ lo ∧ lo ≤ hi ∧ hi ≤ buffer.length then
    Except.ok ((buffer.take hi.toNat).drop lo.toNat)
  else Except.error (Failure.panic "slice bounds out of range")

/-- Loop of `Encrypt`. -/
def encryptLoop (lib : CryptoLib) (key : KeyAndNonce) (header : ECEParams) (buffer : List Nat)
    (padSize : Nat) (overhead : Int) :
    Nat → Int → Int → Nat → List Nat → Except Failure (List Nat)
  | 0, _, _, _, _ => Except.error Failure.outOfFuel
  | fuel + 1, start, pad, counter, result =>
    let recordPad : Int := min (header.RS - overhead - 1) pad
    let recordPad : Int :=
      if header.Version ≠ VersionAes128Gcm then min ((1 <<< (padSize * 8) : Nat) - 1) recordPad
      else recordPad
    let recordPad : Int := if pad > 0 ∧ recordPad = 0 then recordPad + 1 else recordPad
    let pad := pad - recordPad
    let end0 : Int := start + header.RS - overhead - recordPad
    let last : Bool :=
      if header.Version ≠ VersionAes128Gcm then decide (end0 > buffer.length)
      else decide (end0 ≥ buffer.length)
    let last := last && decide (pad ≤ 0)
    let blockData :=
      if end0 > buffer.length then sliceInt buffer start buffer.length
      else sliceInt buffer start end0
    match blockData with
    | Except.error e => Except.error e
    | Except.ok blockData =>
      match encryptRecord lib key counter blockData recordPad header last with
      | Except.error e => Except.error e
      | Except.ok block =>
        if last then Except.ok (result ++ block)
        else encryptLoop lib key header buffer padSize overhead fuel end0 pad (counter + 1)
          (result ++ block)

/-- The function `Encrypt`; `pad` is the constant `0` of the source.  The loop
is run for at most `len(buffer) + 1` rounds. -/
def Encrypt (lib : CryptoLib) (buffer : List Nat) (params : ECEParams) :
    Except Failure (List Nat) :=
  if buffer.length = 0 then Except.error (Failure.error "buffer argument must not be empty")
  else
    let salted : Except Failure ECEParams :=
      match params.Salt with
      | some _ => Except.ok params
      | none =>
        match lib.randRead KeyLength with
        | none => Except.error (Failure.error "rand.Read failed")
        | some salt => Except.ok { params with Salt := some salt }
    match salted with
    | Except.error e => Except.error e
    | Except.ok header =>
      let headerBytes : Except Failure (List Nat) :=
        if header.Version = VersionAes128Gcm then writeHeader header else Except.ok []
      match headerBytes with
      | Except.error e => Except.error e
      | Except.ok result =>
        match deriveKeyAndNonce lib header ModeEncrypt none with
        | Except.error e => Except.error e
        | Except.ok key =>
          let padSize := PadSize header.Version
          let overhead : Int :=
            if header.Version = VersionAes128Gcm then padSize + TagLength else padSize
          encryptLoop lib key header buffer padSize overhead (buffer.length + 1) 0 0 0 result


/-- A stand-in for the cryptographic library: a constant 32-byte MAC and a
cipher that appends an all-zero tag. -/
def plainLib : CryptoLib :=
  { hmacSha256 := fun _ _ => List.replicate 32 0
    gcmSeal := fun _ _ plaintext => plaintext ++ List.replicate 16 0
    gcmOpen := fun _ _ ciphertext => some (ciphertext.take (ciphertext.length - 16))
    randRead := fun _ => none }

/-- A library whose `gcmOpen` rejects every ciphertext. -/
def rejectingLib : CryptoLib :=
  { hmacSha256 := fun _ _ => List.replicate 32 0
    gcmSeal := fun _ _ plaintext => plaintext ++ List.replicate 16 0
    gcmOpen := fun _ _ _ => none
    randRead := fun _ => none }

/-- Parameters of the `aesgcm` variant with an explicit key. -/
def sampleParams : ECEParams :=
  { Version := VersionAesGcm
    Key := some (List.replicate 16 1)
    Salt := some [1, 2, 3]
    AuthSecret := none
    KeyID := []
    DH := none
    PrivateKey := false
    RS := 4096
    KeyMap := fun _ => none }



/-! ## `fcm/crypto/decrypt.go` -/

/-- The standard-library calls of `DecryptMessage`: `base64.StdEncoding.DecodeString`
(its result is never a nil slice), `x509.ParsePKCS8PrivateKey` followed by the
type assertion to `*ecdh.PrivateKey` (`Except.ok true` when the assertion holds,
`Except.ok false` when the key has another type) and `json.Unmarshal` into a
map. -/
structure DecryptLib (J : Type) where
  base64Decode : String → Except String (List Nat)
  parsePKCS8PrivateKey : List Nat → Except String Bool
  jsonUnmarshal : List Nat → Except String J

/-- Go `strings.TrimPrefix`. -/
def stringsTrimLeading (s lead : String) : String :=
  if lead.data.isPrefixOf s.data then String.mk (s.data.drop lead.data.length) else s

/-- Loop of `DecryptMessage` over the app data; the accumulator is
`(cryptoKeyValue, saltValue)`. -/
def scanAppData : List AppDataItem → String × String → String × String
  | [], found => found
  | item :: rest, found =>
    if item.Key = "crypto-key" then scanAppData rest (item.Value, found.2)
    else if item.Key = "encryption" then scanAppData rest (found.1, item.Value)
    else scanAppData rest found

/-- The function `DecryptMessage`. -/
def DecryptMessage {J : Type} (lib : CryptoLib) (std : DecryptLib J)
    (message : EncryptedMessage) (keys : Keys) : Except Failure J :=
  let found := scanAppData message.AppData ("", "")
  let cryptoKeyValue := found.1
  let saltValue := found.2
  if cryptoKeyValue = "" then Except.error (Failure.error "crypto-key is missing")
  else if saltValue = "" then Except.error (Failure.error "salt is missing")
  else
    let dhValue := stringsTrimLeading cryptoKeyValue "dh="
    let dhValue :=
      if dhValue = cryptoKeyValue then stringsTrimLeading cryptoKeyValue "p256ecdsa=" else dhValue
    let salt := stringsTrimLeading saltValue "salt="
    let salt := if salt = saltValue then stringsTrimLeading saltValue "keyid=" else salt
    match std.base64Decode keys.PrivateKey with
    | Except.error e => Except.error (Failure.error e)
    | Except.ok privateKeyBytes =>
      match std.parsePKCS8PrivateKey privateKeyBytes with
      | Except.error e => Except.error (Failure.error e)
      | Except.ok false => Except.error (Failure.error "invalid private key type")
      | Except.ok true =>
        match std.base64Decode keys.AuthSecret with
        | Except.error e => Except.error (Failure.error e)
        | Except.ok authSecret =>
          match std.base64Decode dhValue with
          | Except.error e => Except.error (Failure.error e)
          | Except.ok dhBytes =>
            match std.base64Decode salt with
            | Except.error e => Except.error (Failure.error e)
            | Except.ok saltBytes =>
              let params : ECEParams :=
                { Version := VersionAesGcm
                  Key := none
                  Salt := some saltBytes
                  AuthSecret := some authSecret
                  KeyID := []
                  DH := some dhBytes
                  PrivateKey := true
                  RS := 4096
                  KeyMap := fun _ => none }
              match Decrypt lib message.RawData params with
              | Except.error e => Except.error e
              | Except.ok decrypted =>
                match std.jsonUnmarshal decrypted with
                | Except.error e => Except.error (Failure.error e)
                | Except.ok result => Except.ok result

/-- A stand-in for the standard library in which every call of `DecryptMessage`
succeeds: strings decode to their character codes, every key parses to an ECDH
key and every plaintext is its own JSON value. -/
def permissiveStd : DecryptLib (List Nat) :=
  { base64Decode := fun s => Except.ok (s.data.map Char.toNat)
    parsePKCS8PrivateKey := fun _ => Except.ok true
    jsonUnmarshal := fun b => Except.ok b }

/-! ## `rustplus/types.go`, `rustplus/client.go`, `rustplus/camera.go`

The methods of `Client` and `Camera` are embedded as functions on one state,
run one at a time: mutexes and goroutines are not part of the model.  What the
network, the server and the scheduler decide is passed in as an argument. -/

namespace Rustplus

/-- A `float32` value, given by its IEEE-754 bit pattern. -/
abbrev F32 := Nat

/-- Modelled from the spec: the record `proto.AppCameraInfo` of the generated
package `rustplus/proto`, which is not among the sources.  The spec names
`width`, `height` and `controlFlags`; the code reads them through pointers. -/
structure AppCameraInfo where
  Width : Option Int
  Height : Option Int
  ControlFlags : Option Int
  deriving DecidableEq, Repr

/-- Modelled from the spec: the record `proto.Vector3`, with the values its
getters return. -/
structure Vector3 where
  X : F32
  Y : F32
  Z : F32
  deriving DecidableEq, Repr

/-- Modelled from the spec: the enumeration of entity kinds (`Player`, `Tree`,
any other value). -/
inductive EntityType where
  | Player
  | Tree
  | other
  deriving DecidableEq, Repr

/-- Modelled from the spec: an entity of a ray frame, with position, size, kind
and optional name. -/
structure Entity where
  Kind : EntityType
  Position : Vector3
  Size : Vector3
  Name : Option String
  deriving DecidableEq, Repr

/-- Modelled from the spec: the record `proto.AppCameraRays`, a ray frame with
`rayData` (bytes), `sampleOffset` and its entities. -/
structure AppCameraRays where
  RayData : List Nat
  SampleOffset : Int
  Entities : List Entity
  deriving DecidableEq, Repr

/-- Modelled from the spec: the fields of `proto.AppResponse` that the code
reads, the sequence number and the camera subscription info. -/
structure AppResponse where
  Seq : Option Nat
  CameraSubscribeInfo : Option AppCameraInfo
  deriving DecidableEq, Repr

/-- Modelled from the spec: the field of `proto.AppBroadcast` that the code
reads. -/
structure AppBroadcast where
  CameraRays : Option AppCameraRays
  deriving DecidableEq, Repr

/-- Modelled from the spec: an inbound frame `proto.AppMessage`, a response, a
broadcast, or neither. -/
structure AppMessage where
  Response : Option AppResponse
  Broadcast : Option AppBroadcast
  deriving DecidableEq, Repr

/-- Modelled from the spec: the request variant carried by a `proto.AppRequest`. -/
inductive RequestBody where
  | CameraSubscribe (CameraId : String)
  | CameraUnsubscribe
  | CameraInput (Buttons : Int) (X Y : F32)
  | other (kind : Nat)
  deriving DecidableEq, Repr

/-- Modelled from the spec: an outbound frame `proto.AppRequest` with the three
fields that `SendRequest` stamps. -/
structure AppRequest where
  Seq : Option Nat
  PlayerId : Option Nat
  PlayerToken : Option Int
  Body : RequestBody
  deriving DecidableEq, Repr

/-- The type `Event` of `types.go`, one constructor per event type with the
data it carries. -/
inductive Event where
  | connecting
  | connected
  | disconnected (err : Option String)
  | message (msg : AppMessage)
  | request (req : AppRequest)
  | error (err : String)
  deriving DecidableEq, Repr

/-- The closure stored in `seqCallbacks` by `SendRequestAsync`; it captures the
response channel of its call. -/
structure Callback where
  responseChan : Nat
  deriving DecidableEq, Repr

/-- A registered message handler: the closure that `Camera.Subscribe` registers,
or any other function, taken to be a predicate on the frame and named by `id`. -/
inductive Handler where
  | cameraRays
  | func (id : Nat) (f : AppMessage → Bool)

/-- Name of a handler in the log of handler calls. -/
inductive HandlerId where
  | cameraRays
  | func (id : Nat)
  deriving DecidableEq, Repr

def Handler.name : Handler → HandlerId
  | Handler.cameraRays => HandlerId.cameraRays
  | Handler.func id _ => HandlerId.func id

/-- The struct `Client`.  `seqCallbacks` is the map, kept as a list of entries;
`eventChan` holds the buffered events (capacity 100).  Three fields belong to
the model: `responseChans` holds the message buffered in each response channel
(capacity 1), `nextChan` is the next channel to be made and `handlerCalls`
logs the handlers called, oldest first. -/
structure Client where
  server : String
  port : Int
  playerID : Nat
  playerToken : Int
  useFacepunchProxy : Bool
  isConnected : Bool
  reconnectAttempts : Int
  seq : Nat
  seqCallbacks : List (Nat × Callback)
  messageHandlers : List Handler
  eventChan : List Event
  responseChans : List (Nat × AppMessage)
  nextChan : Nat
  handlerCalls : List HandlerId

def NewClient (server : String) (port : Int) (playerID : Nat) (playerToken : Int)
    (useFacepunchProxy : Bool) : Client :=
  { server := server
    port := port
    playerID := playerID
    playerToken := playerToken
    useFacepunchProxy := useFacepunchProxy
    isConnected := false
    reconnectAttempts := 0
    seq := 0
    seqCallbacks := []
    messageHandlers := []
    eventChan := []
    responseChans := []
    nextChan := 0
    handlerCalls := [] }

/-- The method `Client.emitEvent`: a send that is dropped when the channel is
full. -/
def Client.emitEvent (c : Client) (e : Event) : Client :=
  if c.eventChan.length < 100 then { c with eventChan := c.eventChan ++ [e] } else c

/-- Outcome of building the URL and dialling in `Connect`. -/
inductive DialResult where
  | invalidURL (err : String)
  | failed (err : String)
  | ok
  deriving DecidableEq, Repr

/-- The method `Connect`; returns the client and the error (`none` is `nil`). -/
def Client.Connect (c : Client) (dial : DialResult) : Client × Option String :=
  if c.isConnected then (c, none)
  else
    let c := c.emitEvent Event.connecting
    match dial with
    | DialResult.invalidURL err => (c, some ("invalid URL: " ++ err))
    | DialResult.failed err => (c, some ("failed to connect: " ++ err))
    | DialResult.ok =>
      let c := { c with isConnected := true, reconnectAttempts := 0 }
      (c.emitEvent Event.connected, none)

/-- The method `Disconnect`; `closeErr` is what `c.conn.Close()` returns. -/
def Client.Disconnect (c : Client) (closeErr : Option String) : Client × Option String :=
  if !c.isConnected then (c, none)
  else
    let c := { c with isConnected := false }
    (c.emitEvent (Event.disconnected none), closeErr)

def Client.AddMessageHandler (c : Client) (handler : Handler) : Client :=
  { c with messageHandlers := c.messageHandlers ++ [handler] }

/-- Conversion `int32(v)` of an `int`. -/
def int32OfInt (v : Int) : Int :=
  (v + 2 ^ 31) % 2 ^ 32 - 2 ^ 31

/-- What `protobuf.Marshal` and `conn.WriteMessage` return (`none` is `nil`). -/
structure SendEnv where
  marshal : Option String
  write : Option String
  deriving DecidableEq, Repr

/-- Statements of `SendRequest` and `SendRequestAsync` that allocate the
sequence number with `atomic.AddUint32` and stamp the request. -/
def Client.stamp (c : Client) (req : AppRequest) : Client × AppRequest :=
  let seq := (c.seq + 1) % 2 ^ 32
  ({ c with seq := seq },
    { req with
      Seq := some seq
      PlayerId := some c.playerID
      PlayerToken := some (int32OfInt c.playerToken) })

/-- Marshalling and writing of a stamped request, as done by `SendRequest` and
by the goroutine of `SendRequestAsync`: the error, or `none` after the
`request` event. -/
def Client.transmit (c : Client) (req : AppRequest) (env : SendEnv) : Client × Option String :=
  match env.marshal with
  | some err => (c, some ("failed to marshal request: " ++ err))
  | none =>
    if !c.isConnected then (c, some "not connected")
    else
      match env.write with
      | some err => (c, some ("failed to send request: " ++ err))
      | none => (c.emitEvent (Event.request req), none)

/-- The method `SendRequest`; returns the client, the request as stamped and
the error. -/
def Client.SendRequest (c : Client) (req : AppRequest) (env : SendEnv) :
    Client × AppRequest × Option String :=
  let stamped := c.stamp req
  let sent := stamped.1.transmit stamped.2 env
  (sent.1, stamped.2, sent.2)

/-- Map operations on `seqCallbacks`: `m[k]`, `m[k] = v` and `delete(m, k)`. -/
def mapLookup (m : List (Nat × Callback)) (k : Nat) : Option Callback :=
  m.lookup k

def mapSet (m : List (Nat × Callback)) (k : Nat) (v : Callback) : List (Nat × Callback) :=
  (k, v) :: m.filter (fun e => e.1 != k)

def mapDelete (m : List (Nat × Callback)) (k : Nat) : List (Nat × Callback) :=
  m.filter (fun e => e.1 != k)

/-! ### `camera.go`: the index generator -/

structure indexGenerator where
  state : Nat
  deriving DecidableEq, Repr

/-- The method `nextState` on `uint32` values; returns the value and the
generator. -/
def indexGenerator.nextState (g : indexGenerator) : Nat × indexGenerator :=
  let e := g.state
  let t := e
  let e := Nat.xor e ((e <<< 13) % 2 ^ 32)
  let e := Nat.xor e (e >>> 17)
  let e := Nat.xor e ((e <<< 5) % 2 ^ 32)
  let g := { g with state := e }
  if t ≥ 0 then (t, g) else ((4294967295 + t - 1) % 2 ^ 32, g)

def newIndexGenerator (seed : Nat) : indexGenerator :=
  (indexGenerator.nextState { state := seed }).2

/-- The method `nextInt`; `max` is an `int`, the product is taken in `uint64`. -/
def indexGenerator.nextInt (g : indexGenerator) (max : Int) : Int × indexGenerator :=
  let next := g.nextState
  let state := next.1
  let result := uint64ToInt (((state % 2 ^ 64) * (max % 2 ^ 64).toNat) % 2 ^ 64 / 4294967295)
  let result := if result < 0 then max + result - 1 else result
  (result, next.2)

end Rustplus

namespace Rustplus

/-! ### `camera.go`: images -/

/-- The type `color.RGBA`. -/
structure RGBA where
  R : Nat
  G : Nat
  B : Nat
  A : Nat
  deriving DecidableEq, Repr

/-- The type `image.Rectangle`, `Min` inclusive and `Max` exclusive. -/
structure Rectangle where
  MinX : Int
  MinY : Int
  MaxX : Int
  MaxY : Int
  deriving DecidableEq, Repr

/-- Go `image.Rect`: the coordinates are swapped where needed so that the
rectangle is well formed. -/
def imageRect (x0 y0 x1 y1 : Int) : Rectangle :=
  { MinX := if x0 > x1 then x1 else x0
    MinY := if y0 > y1 then y1 else y0
    MaxX := if x0 > x1 then x0 else x1
    MaxY := if y0 > y1 then y0 else y1 }

def Rectangle.Dx (r : Rectangle) : Int := r.MaxX - r.MinX

def Rectangle.Dy (r : Rectangle) : Int := r.MaxY - r.MinY

/-- The type `image.RGBA`: its bounds and the pixels that were set, the most
recent first; a pixel that was never set is transparent black. -/
structure Image where
  Rect : Rectangle
  Pix : List ((Int × Int) × RGBA)
  deriving DecidableEq, Repr

/-- Go `image.NewRGBA`, which panics when the byte size of the pixel buffer
does not fit an `int`. -/
def NewRGBA (r : Rectangle) : Except Failure Image :=
  if 4 * r.Dx * r.Dy > 2 ^ 63 - 1 then
    Except.error (Failure.panic "image: NewRGBA Rectangle has huge or negative dimensions")
  else Except.ok { Rect := r, Pix := [] }

/-- Go `(*image.RGBA).Set`: a point outside the bounds is ignored. -/
def Image.Set (img : Image) (x y : Int) (c : RGBA) : Image :=
  if img.Rect.MinX ≤ x ∧ x < img.Rect.MaxX ∧ img.Rect.MinY ≤ y ∧ y < img.Rect.MaxY then
    { img with Pix := ((x, y), c) :: img.Pix }
  else img

/-- Values of a loop variable that runs from `lo` while it is below `hi`. -/
def intRange (lo hi : Int) : List Int :=
  (List.range (hi - lo).toNat).map (fun i => lo + (i : Int))

/-- The function `drawCircle`. -/
def drawCircle (img : Image) (x y radius : Int) (c : RGBA) : Image :=
  (intRange (-radius) (radius + 1)).foldl
    (fun img dy =>
      (intRange (-radius) (radius + 1)).foldl
        (fun img dx =>
          if dx * dx + dy * dy ≤ radius * radius then
            let px := x + dx
            let py := y + dy
            if px ≥ 0 ∧ px < img.Rect.MaxX ∧ py ≥ 0 ∧ py < img.Rect.MaxY then img.Set px py c
            else img
          else img)
        img)
    img

/-- The `float32` operations used by `renderImage`, on bit patterns: sum,
product, quotient, negation, the conversions `float32(n)` and `int(x)`, the
constant `0.5` and the test `x <= 0`. -/
structure FloatLib where
  add : F32 → F32 → F32
  mul : F32 → F32 → F32
  div : F32 → F32 → F32
  neg : F32 → F32
  ofInt : Int → F32
  toInt : F32 → Int
  half : F32
  leZero : F32 → Bool

/-- Body of the loop of `renderImage` over the entities of one ray frame. -/
def drawEntity (fp : FloatLib) (width height : Int) (img : Image) (entity : Entity) : Image :=
  let pos := entity.Position
  let size := entity.Size
  let entitySize := Int.tdiv (fp.toInt (fp.add (fp.add size.X size.Y) size.Z)) 3
  let entitySize := if entitySize < 5 then 5 else if entitySize > 20 then 20 else entitySize
  let depth := fp.neg pos.Z
  if fp.leZero depth then img
  else
    let screenX := fp.toInt (fp.add (fp.mul (fp.mul (fp.div pos.X depth) (fp.ofInt width)) fp.half)
      (fp.mul (fp.ofInt width) fp.half))
    let screenY := fp.toInt (fp.add
      (fp.mul (fp.mul (fp.div (fp.neg pos.Y) depth) (fp.ofInt height)) fp.half)
      (fp.mul (fp.ofInt height) fp.half))
    if screenX < 0 ∨ screenX ≥ width ∨ screenY < 0 ∨ screenY ≥ height then img
    else
      let entityColor :=
        match entity.Kind with
        | EntityType.Player => RGBA.mk 255 0 0 255
        | EntityType.Tree => RGBA.mk 0 255 0 255
        | EntityType.other => RGBA.mk 255 255 0 255
      drawCircle img screenX screenY entitySize entityColor

/-- Loop of `renderImage` over the rays of one frame; the first argument is the
number of rounds left, `i` the loop variable. -/
def drawRays (rayData : List Nat) (width height : Int) :
    Nat → Nat → indexGenerator → Image → Image
  | 0, _, _, img => img
  | n + 1, i, indexGen, img =>
    let x := indexGen.nextInt width
    let y := x.2.nextInt height
    let rayIndex := i * 4
    if rayIndex + 3 ≥ rayData.length then img
    else
      let r := rayData.getD rayIndex 0
      let g := rayData.getD (rayIndex + 1) 0
      let b := rayData.getD (rayIndex + 2) 0
      let a := rayData.getD (rayIndex + 3) 0
      drawRays rayData width height n (i + 1) y.2 (img.Set x.1 y.1 (RGBA.mk r g b a))

/-- Body of the loop of `renderImage` over the ray frames. -/
def drawFrame (fp : FloatLib) (width height : Int) (img : Image) (rays : AppCameraRays) : Image :=
  let rayData := rays.RayData
  let sampleOffset := rays.SampleOffset
  let indexGen := newIndexGenerator (sampleOffset % 2 ^ 32).toNat
  let rayCount := rayData.length / 4
  let img := drawRays rayData width height rayCount 0 indexGen img
  rays.Entities.foldl (drawEntity fp width height) img

/-! ### `camera.go`: the camera -/

/-- The type `CameraEvent`, one constructor per event type with its data. -/
inductive CameraEvent where
  | subscribing
  | subscribed (info : Option AppCameraInfo)
  | unsubscribing
  | unsubscribed
  | render (img : Image)
  | error (err : String)
  deriving DecidableEq, Repr

/-- A `time.Timer` made by `time.AfterFunc`: armed until it fires or is
stopped. -/
structure Timer where
  armed : Bool
  deriving DecidableEq, Repr

/-- The struct `Camera`, without its pointer to the client (see `System`).
`eventChan` holds the buffered events (capacity 100); `crashed` records a
run-time panic. -/
structure Camera where
  identifier : String
  isSubscribed : Bool
  subscribeInfo : Option AppCameraInfo
  cameraRays : List AppCameraRays
  subscribeTimer : Option Timer
  eventChan : List CameraEvent
  crashed : Bool
  deriving DecidableEq, Repr

def NewCamera (identifier : String) : Camera :=
  { identifier := identifier
    isSubscribed := false
    subscribeInfo := none
    cameraRays := []
    subscribeTimer := none
    eventChan := []
    crashed := false }

/-- The method `Camera.emitEvent`: a send that is dropped when the channel is
full. -/
def Camera.emitEvent (c : Camera) (e : CameraEvent) : Camera :=
  if c.eventChan.length < 100 then { c with eventChan := c.eventChan ++ [e] } else c

/-- The method `renderImage`; dereferencing a nil `Width` or `Height` panics. -/
def Camera.renderImage (fp : FloatLib) (c : Camera) : Except Failure Image :=
  match c.subscribeInfo with
  | none => Except.error (Failure.error "no camera data available")
  | some info =>
    if c.cameraRays.length = 0 then Except.error (Failure.error "no camera data available")
    else
      match info.Width, info.Height with
      | some width, some height =>
        match NewRGBA (imageRect 0 0 width height) with
        | Except.error e => Except.error e
        | Except.ok img =>
          let img :=
            (intRange 0 height).foldl
              (fun img y =>
                (intRange 0 width).foldl (fun img x => img.Set x y (RGBA.mk 0 0 0 255)) img)
              img
          Except.ok (c.cameraRays.foldl (drawFrame fp width height) img)
      | _, _ => Except.error (Failure.panic "invalid memory address or nil pointer dereference")

/-- The method `handleCameraRays`. -/
def Camera.handleCameraRays (fp : FloatLib) (c : Camera) (rays : AppCameraRays) : Camera :=
  let c := { c with cameraRays := c.cameraRays ++ [rays] }
  if c.cameraRays.length ≥ 10 then
    match c.renderImage fp with
    | Except.error (Failure.error err) =>
      c.emitEvent (CameraEvent.error ("failed to render image: " ++ err))
    | Except.error _ => { c with crashed := true }
    | Except.ok img => { c.emitEvent (CameraEvent.render img) with cameraRays := [] }
  else c

/-- The method `startSubscriptionTimer`: an existing timer is stopped and a new
one is armed. -/
def Camera.startSubscriptionTimer (c : Camera) : Camera :=
  { c with subscribeTimer := some (Timer.mk true) }

/-! ### Client and camera together -/

/-- A client together with the camera made by `GetCamera`. -/
structure System where
  client : Client
  camera : Camera

/-- Call of one message handler; returns the state and the result. -/
def callHandler (fp : FloatLib) (sys : System) (handler : Handler) (msg : AppMessage) :
    System × Bool :=
  let sys :=
    { sys with client := { sys.client with
        handlerCalls := sys.client.handlerCalls ++ [handler.name] } }
  match handler with
  | Handler.func _ f => (sys, f msg)
  | Handler.cameraRays =>
    match msg.Broadcast with
    | none => (sys, false)
    | some broadcast =>
      match broadcast.CameraRays with
      | none => (sys, false)
      | some rays => ({ sys with camera := sys.camera.handleCameraRays fp rays }, true)

/-- Loop of `handleMessage` over the message handlers. -/
def runHandlers (fp : FloatLib) : List Handler → System → AppMessage → System
  | [], sys, _ => sys
  | handler :: rest, sys, msg =>
    let called := callHandler fp sys handler msg
    if called.2 then called.1 else runHandlers fp rest called.1 msg

/-- Call of a callback of `seqCallbacks`: a send on the response channel that
is dropped when the channel holds a message; the result is always `true`. -/
def Client.callCallback (c : Client) (callback : Callback) (msg : AppMessage) : Client × Bool :=
  match c.responseChans.lookup callback.responseChan with
  | none => ({ c with responseChans := c.responseChans ++ [(callback.responseChan, msg)] }, true)
  | some _ => (c, true)

/-- First part of `handleMessage`: the response is handed to its callback. -/
def Client.dispatchResponse (c : Client) (msg : AppMessage) : Client :=
  match msg.Response with
  | none => c
  | some response =>
    match response.Seq with
    | none => c
    | some seq =>
      match mapLookup c.seqCallbacks seq with
      | none => c
      | some callback =>
        let called := c.callCallback callback msg
        if called.2 then { called.1 with seqCallbacks := mapDelete called.1.seqCallbacks seq }
        else called.1

/-- The method `handleMessage`. -/
def handleMessage (fp : FloatLib) (sys : System) (msg : AppMessage) : System :=
  let sys := { sys with client := sys.client.dispatchResponse msg }
  runHandlers fp sys.client.messageHandlers sys msg

/-- One round of `readMessages` for a frame that unmarshals to `msg`. -/
def readMessage (fp : FloatLib) (sys : System) (msg : AppMessage) : System :=
  handleMessage fp { sys with client := sys.client.emitEvent (Event.message msg) } msg

/-- What happens around a call of `SendRequestAsync`: the results of
marshalling and writing, and the frames read from the connection while the
call waits. -/
structure AsyncEnv where
  send : SendEnv
  inbound : List AppMessage

/-- The wait of `SendRequestAsync` for its response channel `ch`: inbound frames
are handled until the channel holds a message. -/
def awaitResponse (fp : FloatLib) (ch : Nat) : List AppMessage → System → System × Option AppMessage
  | [], sys => (sys, none)
  | msg :: rest, sys =>
    let sys := readMessage fp sys msg
    match sys.client.responseChans.lookup ch with
    | some response =>
      ({ sys with client := { sys.client with
          responseChans := sys.client.responseChans.filter (fun e => e.1 != ch) } },
        some response)
    | none => awaitResponse fp ch rest sys

/-- The method `SendRequestAsync`; returns the state, the request as stamped and
the response or the error.  The timeout is taken to elapse only when neither
the error channel nor the response channel becomes ready. -/
def SendRequestAsync (fp : FloatLib) (sys : System) (req : AppRequest) (env : AsyncEnv) :
    System × AppRequest × Except String AppMessage :=
  let ch := sys.client.nextChan
  let client := { sys.client with nextChan := ch + 1 }
  let stamped := client.stamp req
  let seq := stamped.1.seq
  let client := { stamped.1 with seqCallbacks := mapSet stamped.1.seqCallbacks seq (Callback.mk ch) }
  let sent := client.transmit stamped.2 env.send
  let sys := { sys with client := sent.1 }
  match sent.2 with
  | some err => (sys, stamped.2, Except.error err)
  | none =>
    let waited := awaitResponse fp ch env.inbound sys
    match waited.2 with
    | some msg => (waited.1, stamped.2, Except.ok msg)
    | none =>
      let sys := waited.1
      ({ sys with client := { sys.client with
          seqCallbacks := mapDelete sys.client.seqCallbacks seq } },
        stamped.2, Except.error "request timed out")

/-- The method `Camera.Subscribe`; returns the state and the error. -/
def Subscribe (fp : FloatLib) (sys : System) (env : AsyncEnv) : System × Option String :=
  if sys.camera.isSubscribed then (sys, some "already subscribed to camera")
  else
    let sys := { sys with camera := sys.camera.emitEvent CameraEvent.subscribing }
    let request : AppRequest :=
      { Seq := none, PlayerId := none, PlayerToken := none
        Body := RequestBody.CameraSubscribe sys.camera.identifier }
    let sent := SendRequestAsync fp sys request env
    let sys := sent.1
    match sent.2.2 with
    | Except.error err =>
      let camera :=
        sys.camera.emitEvent (CameraEvent.error ("failed to subscribe to camera: " ++ err))
      ({ sys with camera := camera }, some err)
    | Except.ok response =>
      match response.Response.bind (fun r => r.CameraSubscribeInfo) with
      | none =>
        let camera :=
          sys.camera.emitEvent (CameraEvent.error "invalid camera subscribe response")
        ({ sys with camera := camera }, some "invalid camera subscribe response")
      | some info =>
        let camera := { sys.camera with subscribeInfo := some info }
        let client := sys.client.AddMessageHandler Handler.cameraRays
        let camera := camera.startSubscriptionTimer
        let camera := { camera with isSubscribed := true }
        let camera := camera.emitEvent (CameraEvent.subscribed camera.subscribeInfo)
        ({ client := client, camera := camera }, none)

/-- The method `Camera.Unsubscribe`; returns the state and the error.  The
frames of `env.inbound` are handled one after the other while the call waits;
the camera mutex, which the call holds and `handleCameraRays` takes, has no
counterpart in this sequential model, so a ray broadcast among these frames is
handled at once where the reading goroutine would wait for the call to end. -/
def Unsubscribe (fp : FloatLib) (sys : System) (env : AsyncEnv) : System × Option String :=
  if !sys.camera.isSubscribed then (sys, some "not subscribed to camera")
  else
    let camera := sys.camera.emitEvent CameraEvent.unsubscribing
    let camera := { camera with subscribeTimer := none }
    let sys := { sys with camera := camera }
    let request : AppRequest :=
      { Seq := none, PlayerId := none, PlayerToken := none, Body := RequestBody.CameraUnsubscribe }
    let sent := SendRequestAsync fp sys request env
    let sys := sent.1
    match sent.2.2 with
    | Except.error err =>
      let camera :=
        sys.camera.emitEvent (CameraEvent.error ("failed to unsubscribe from camera: " ++ err))
      ({ sys with camera := camera }, some err)
    | Except.ok _ =>
      let camera := { sys.camera with isSubscribed := false }
      ({ sys with camera := camera.emitEvent CameraEvent.unsubscribed }, none)

/-- The function passed to `time.AfterFunc` by `startSubscriptionTimer`, run
when the armed timer fires; without an armed timer nothing happens. -/
def subscriptionTimerFired (fp : FloatLib) (sys : System) (env : AsyncEnv) : System :=
  match sys.camera.subscribeTimer with
  | some (Timer.mk true) =>
    let sys := { sys with camera := { sys.camera with subscribeTimer := some (Timer.mk false) } }
    let request : AppRequest :=
      { Seq := none, PlayerId := none, PlayerToken := none
        Body := RequestBody.CameraSubscribe sys.camera.identifier }
    let sent := SendRequestAsync fp sys request env
    let sys := sent.1
    match sent.2.2 with
    | Except.error err =>
      let camera :=
        sys.camera.emitEvent (CameraEvent.error ("failed to resubscribe to camera: " ++ err))
      { sys with camera := camera }
    | Except.ok _ => { sys with camera := sys.camera.startSubscriptionTimer }
  | _ => sys

end Rustplus

namespace Rustplus

/-! ### Runs of calls, and the reference generator of the specification -/

/-- Successive calls of `nextInt`, one per element of the list. -/
def nextInts : indexGenerator → List Int → List Int
  | _, [] => []
  | g, max :: rest => (g.nextInt max).1 :: nextInts (g.nextInt max).2 rest

/-- The state transition of the reference generator: `e = t ^ (t << 13)`,
`e = e ^ (e >> 17)`, `e = e ^ (e << 5)` on unsigned 32 bits. -/
def specAdvance (t : Nat) : Nat :=
  let e := Nat.xor t ((t <<< 13) % 2 ^ 32)
  let e := Nat.xor e (e >>> 17)
  Nat.xor e ((e <<< 5) % 2 ^ 32)

/-- The reference generator after construction: `state = seed`, advanced once. -/
def specSeed (seed : Nat) : Nat := specAdvance seed

/-- The reference `nextInt(max)`: the state before the advance times `max`,
divided by 4294967295, in unsigned 64-bit integer arithmetic. -/
def specNextInt (state max : Nat) : Nat :=
  (state * max) % 2 ^ 64 / 4294967295

/-- The values of successive reference calls. -/
def specNextInts : Nat → List Nat → List Nat
  | _, [] => []
  | state, max :: rest => specNextInt state max :: specNextInts (specAdvance state) rest

/-- A call of `SendRequest` or of `SendRequestAsync`. -/
inductive Call where
  | sync (req : AppRequest) (env : SendEnv)
  | async (req : AppRequest) (env : AsyncEnv)

/-- Performs one call; returns the state and the request as stamped. -/
def perform (fp : FloatLib) (sys : System) : Call → System × AppRequest
  | Call.sync req env =>
    let sent := sys.client.SendRequest req env
    ({ sys with client := sent.1 }, sent.2.1)
  | Call.async req env =>
    let sent := SendRequestAsync fp sys req env
    (sent.1, sent.2.1)

/-- Performs the calls in turn; returns the final state and the sequence
numbers stamped, in call order. -/
def performAll (fp : FloatLib) : System → List Call → System × List (Option Nat)
  | sys, [] => (sys, [])
  | sys, call :: rest =>
    let done := perform fp sys call
    let others := performAll fp done.1 rest
    (others.1, done.2.Seq :: others.2)

/-- An operation on the client or on the camera, with what the environment
decides for it. -/
inductive Action where
  | connect (dial : DialResult)
  | disconnect (closeErr : Option String)
  | addMessageHandler (id : Nat) (f : AppMessage → Bool)
  | sendRequest (req : AppRequest) (env : SendEnv)
  | sendRequestAsync (req : AppRequest) (env : AsyncEnv)
  | inbound (msg : AppMessage)
  | subscribe (env : AsyncEnv)
  | unsubscribe (env : AsyncEnv)
  | timerFired (env : AsyncEnv)

def step (fp : FloatLib) (sys : System) : Action → System
  | Action.connect dial => { sys with client := (sys.client.Connect dial).1 }
  | Action.disconnect closeErr => { sys with client := (sys.client.Disconnect closeErr).1 }
  | Action.addMessageHandler id f =>
    { sys with client := sys.client.AddMessageHandler (Handler.func id f) }
  | Action.sendRequest req env => { sys with client := (sys.client.SendRequest req env).1 }
  | Action.sendRequestAsync req env => (SendRequestAsync fp sys req env).1
  | Action.inbound msg => readMessage fp sys msg
  | Action.subscribe env => (Subscribe fp sys env).1
  | Action.unsubscribe env => (Unsubscribe fp sys env).1
  | Action.timerFired env => subscriptionTimerFired fp sys env

def run (fp : FloatLib) (sys : System) (actions : List Action) : System :=
  actions.foldl (step fp) sys

/-- A new client with the camera obtained from `GetCamera`. -/
def newSystem (server : String) (port : Int) (playerID : Nat) (playerToken : Int)
    (useFacepunchProxy : Bool) (identifier : String) : System :=
  { client := NewClient server port playerID playerToken useFacepunchProxy
    camera := NewCamera identifier }

/-- What a handler returns for a frame. -/
def Handler.accepts : Handler → AppMessage → Bool
  | Handler.func _ f, msg => f msg
  | Handler.cameraRays, msg =>
    match msg.Broadcast with
    | none => false
    | some broadcast => broadcast.CameraRays.isSome

/-- The handlers that the loop of `handleMessage` calls for a frame: the list up
to and including the first handler that returns `true`. -/
def offered : List Handler → AppMessage → List Handler
  | [], _ => []
  | handler :: rest, msg =>
    if handler.accepts msg then [handler] else handler :: offered rest msg

/-- The client `c'` differs from `c` at most in its channels, its log of
handler calls and its pending table, from which entries were only removed. -/
structure Client.Delivers (c c' : Client) : Prop where
  seq : c'.seq = c.seq
  isConnected : c'.isConnected = c.isConnected
  messageHandlers : c'.messageHandlers = c.messageHandlers
  nextChan : c'.nextChan = c.nextChan
  playerID : c'.playerID = c.playerID
  playerToken : c'.playerToken = c.playerToken
  reconnectAttempts : c'.reconnectAttempts = c.reconnectAttempts
  seqCallbacks : List.Sublist c'.seqCallbacks c.seqCallbacks

/-- The keys of the pending table are pairwise different. -/
def Client.keysDistinct (c : Client) : Prop :=
  (c.seqCallbacks.map Prod.fst).Nodup

/-- Invariant of the pending table and the response channels: the sequence
numbers and the channels of the pending entries are pairwise different, the
channel of a pending entry holds no message, and every channel in use was made
before `nextChan`. -/
structure Client.wellFormed (c : Client) : Prop where
  keys : c.keysDistinct
  chans : (c.seqCallbacks.map (fun e => e.2.responseChan)).Nodup
  pendingEmpty : ∀ e ∈ c.seqCallbacks, ∀ r ∈ c.responseChans, r.1 ≠ e.2.responseChan
  pendingMade : ∀ e ∈ c.seqCallbacks, e.2.responseChan < c.nextChan
  bufferedMade : ∀ r ∈ c.responseChans, r.1 < c.nextChan

/-- A stand-in for the `float32` operations, on natural numbers. -/
def sampleFloat : FloatLib :=
  { add := fun a b => a + b
    mul := fun a b => a * b
    div := fun a b => a / b
    neg := fun a => a
    ofInt := fun i => i.toNat
    toInt := fun a => (a : Int)
    half := 0
    leZero := fun a => a == 0 }

/-- Environment of a request that is written and answered by a response with
the sequence number `seq`. -/
def answered (seq : Nat) (info : Option AppCameraInfo) : AsyncEnv :=
  { send := { marshal := none, write := none }
    inbound := [{ Response := some { Seq := some seq, CameraSubscribeInfo := info }
                  Broadcast := none }] }

/-- Environment of a request whose write fails. -/
def writeFails : AsyncEnv :=
  { send := { marshal := none, write := some "broken pipe" }, inbound := [] }

/-- A broadcast frame carrying camera rays. -/
def raysBroadcast (rays : AppCameraRays) : AppMessage :=
  { Response := none, Broadcast := some { CameraRays := some rays } }

/-- A response frame with the sequence number `seq` and no camera info. -/
def responseTo (seq : Nat) : AppMessage :=
  { Response := some { Seq := some seq, CameraSubscribeInfo := none }, Broadcast := none }

/-- A request with an empty header, as a caller passes it. -/
def sampleRequest : AppRequest :=
  { Seq := none, PlayerId := none, PlayerToken := none, Body := RequestBody.other 0 }

/-- A ray frame of two rays. -/
def sampleRays : AppCameraRays :=
  { RayData := [1, 2, 3, 4, 5, 6, 7, 8], SampleOffset := 1, Entities := [] }

/-- Camera info of a camera of 3 by 2 pixels. -/
def sampleInfo : AppCameraInfo :=
  { Width := some 3, Height := some 2, ControlFlags := some 0 }

/-- A new client after a successful `Connect`. -/
def connectedSystem : System :=
  run sampleFloat (newSystem "rust.example" 28082 7 9 false "cam") [Action.connect DialResult.ok]

/-- The connected client after a `Subscribe` that the server answers. -/
def subscribedSystem : System :=
  (Subscribe sampleFloat connectedSystem (answered 1 (some sampleInfo))).1

/-- The connected client after a `SendRequestAsync` whose write failed. -/
def pendingSystem : System :=
  run sampleFloat connectedSystem [Action.sendRequestAsync sampleRequest writeFails]

/-- The subscribed client after one ray frame and a successful `Unsubscribe`. -/
def unsubscribedSystem : System :=
  (Unsubscribe sampleFloat (readMessage sampleFloat subscribedSystem (raysBroadcast sampleRays))
    (answered 2 none)).1

end Rustplus

/-! ## Reference nonce of the specification -/

/-- The nonce of record `i` as the specification words it: the nonce base XOR
the big-endian 12-byte representation of `i`, byte by byte. -/
def specNonce (base : List Nat) (i : Nat) : List Nat :=
  List.zipWith Nat.xor base (bigEndianBytes i 12)

/-! ## `rustplus/client.go`: loss of the connection -/

namespace Rustplus

/-- The method `handleDisconnect`, which `readMessages` calls with the read
error.  `dial` is the outcome of the `Connect` that the method attempts.  The
result holds the client and the number of seconds slept before the attempt
(`none` when no attempt is made). -/
def Client.handleDisconnect (c : Client) (err : String) (dial : DialResult) :
    Client × Option Int :=
  let wasConnected := c.isConnected
  let c := { c with isConnected := false }
  if wasConnected then
    let c := c.emitEvent (Event.disconnected (some err))
    let c := { c with reconnectAttempts := c.reconnectAttempts + 1 }
    if c.reconnectAttempts < 5 then
      let slept := c.reconnectAttempts
      let connected := c.Connect dial
      match connected.2 with
      | some e => (connected.1.emitEvent (Event.error ("failed to reconnect: " ++ e)), some slept)
      | none => (connected.1, some slept)
    else (c, none)
  else (c, none)

/-- A call of `Connect` or `Disconnect` by the user, or a failed read of
`readMessages`, with what the environment decides for it. -/
inductive ConnAction where
  | connect (dial : DialResult)
  | disconnect (closeErr : Option String)
  | connectionLost (err : String) (dial : DialResult)

def connStep (c : Client) : ConnAction → Client
  | ConnAction.connect dial => (c.Connect dial).1
  | ConnAction.disconnect closeErr => (c.Disconnect closeErr).1
  | ConnAction.connectionLost err dial => (c.handleDisconnect err dial).1

def connRun (c : Client) (actions : List ConnAction) : Client :=
  actions.foldl connStep c

/-- A ray frame of one ray whose sample offset makes the first state of the
index generator `4294967295`. -/
def edgeRays : AppCameraRays :=
  { RayData := [9, 9, 9, 255], SampleOffset := 1584200935, Entities := [] }

end Rustplus

/-! ## `rustplus/utils.go` -/

namespace Rustplus

/-- A value of type `interface{}` as `encoding/json` produces it: `nil`, a
`bool`, a `float64`, a `string`, a `[]interface{}` or a
`map[string]interface{}` (kept as the list of its entries).  `F` is the type of
`float64` values. -/
inductive JSONValue (F : Type) where
  | null
  | bool (b : Bool)
  | number (v : F)
  | string (s : String)
  | array (items : List (JSONValue F))
  | object (fields : List (String × JSONValue F))

/-- The library calls of `ParsePairingNotification`: `json.Unmarshal` of a text
into a `map[string]interface{}`, the conversion `int(v)` of a `float64`, and
`fmt.Sscanf(s, "%d", &x)` for `x` an `int` and for `x` a `uint64`. -/
structure ScanLib (F : Type) where
  jsonUnmarshal : String → Except String (List (String × JSONValue F))
  floatToInt : F → Int
  sscanInt : String → Except String Int
  sscanUint64 : String → Except String Nat

/-- Go `strings.Split` on the characters of a string, for a separator of one
character. -/
def splitChars (sep : Char) : List Char → List (List Char)
  | [] => [[]]
  | c :: cs =>
    if c = sep then [] :: splitChars sep cs
    else
      match splitChars sep cs with
      | [] => [[c]]
      | first :: rest => (c :: first) :: rest

def stringsSplit (s : String) (sep : Char) : List String :=
  (splitChars sep s.data).map String.mk

/-- The switch of `ParsePairingNotification` on the type of `playerToken`. -/
def parsePlayerToken {F : Type} (lib : ScanLib F) : JSONValue F → Except String Int
  | JSONValue.number v => Except.ok (lib.floatToInt v)
  | JSONValue.string v =>
    match lib.sscanInt v with
    | Except.error e =>
      Except.error ("invalid notification format: playerToken is not a valid number: " ++ e)
    | Except.ok playerToken => Except.ok playerToken
  | _ => Except.error "invalid notification format: playerToken has unexpected type"

/-- The function `ParsePairingNotification`; the result is
`(server, port, playerID, playerToken)` or the text of the error. -/
def ParsePairingNotification {F : Type} (lib : ScanLib F)
    (notification : List (String × JSONValue F)) : Except String (String × Int × Nat × Int) :=
  match notification.lookup "data" with
  | some (JSONValue.object data) =>
    match data.lookup "body" with
    | some (JSONValue.string bodyStr) =>
      match lib.jsonUnmarshal bodyStr with
      | Except.error e =>
        Except.error ("invalid notification format: body is not valid JSON: " ++ e)
      | Except.ok body =>
        match body.lookup "server" with
        | some (JSONValue.string serverStr) =>
          match body.lookup "playerToken" with
          | none => Except.error "invalid notification format: missing playerToken"
          | some playerTokenVal =>
            match parsePlayerToken lib playerTokenVal with
            | Except.error e => Except.error e
            | Except.ok playerToken =>
              match body.lookup "playerId" with
              | some (JSONValue.string playerIDStr) =>
                match lib.sscanUint64 playerIDStr with
                | Except.error e =>
                  Except.error
                    ("invalid notification format: playerId is not a valid number: " ++ e)
                | Except.ok playerID =>
                  match stringsSplit serverStr ':' with
                  | [server, portStr] =>
                    match lib.sscanInt portStr with
                    | Except.error e =>
                      Except.error ("invalid server format: port is not a valid number: " ++ e)
                    | Except.ok port => Except.ok (server, port, playerID, playerToken)
                  | _ => Except.error ("invalid server format: " ++ serverStr)
              | _ => Except.error "invalid notification format: missing playerId"
        | _ => Except.error "invalid notification format: missing server"
    | _ => Except.error "invalid notification format: missing body"
  | _ => Except.error "invalid notification format: missing data"

/-- Value of a string of decimal digits; `none` when the string is empty or
holds another character. -/
def decimalValue : List Char → Option Nat
  | [] => none
  | cs => cs.foldl
      (fun acc c =>
        match acc with
        | none => none
        | some v => if c.isDigit then some (10 * v + (c.toNat - 48)) else none)
      (some 0)

/-- The body of the pairing notification of the specification. -/
def pairingBody : String :=
  "\x7b\"server\":\"1.2.3.4:28083\",\"playerToken\":123456789,\"playerId\":\"76561198000000000\"\x7d"

/-- A stand-in for the library: numbers are integers, `Sscanf` reads a string of
decimal digits, and the only text that `json.Unmarshal` knows is `pairingBody`. -/
def sampleScan : ScanLib Int :=
  { jsonUnmarshal := fun s =>
      if s = pairingBody then
        Except.ok [("server", JSONValue.string "1.2.3.4:28083"),
          ("playerToken", JSONValue.number 123456789),
          ("playerId", JSONValue.string "76561198000000000")]
      else Except.error "invalid character"
    floatToInt := fun v => v
    sscanInt := fun s =>
      match decimalValue s.data with
      | some v => if v < 2 ^ 63 then Except.ok (Int.ofNat v) else Except.error "integer overflow"
      | none => Except.error "expected integer"
    sscanUint64 := fun s =>
      match decimalValue s.data with
      | some v => if v < 2 ^ 64 then Except.ok v else Except.error "integer overflow"
      | none => Except.error "expected integer" }

end Rustplus

/-! ## `fcm/register.go` (credential types), `cmd/rustplus/config.go` -/

namespace Cmd

/-- The bytes of an ASCII text. -/
def ascii (s : String) : List Nat :=
  s.data.map Char.toNat

/-- The struct `GCMCredentials`.  Here and below a Go string is kept as its
bytes, which need not be valid UTF-8. -/
structure GCMCredentials where
  Token : List Nat
  AndroidId : List Nat
  SecurityToken : List Nat
  AppId : List Nat
  deriving DecidableEq, Repr

/-- The anonymous struct of the field `Keys` of `FCMCredentials`. -/
structure FCMKeys where
  Private : List Nat
  Public : List Nat
  Secret : List Nat
  Auth : List Nat
  deriving DecidableEq, Repr

structure FCMCredentials where
  Token : List Nat
  PushSet : List Nat
  Keys : FCMKeys
  deriving DecidableEq, Repr

structure Credentials where
  GCM : GCMCredentials
  FCM : FCMCredentials
  deriving DecidableEq, Repr

structure Config where
  FCMCredentials : Credentials
  ExpoPushToken : List Nat
  RustPlusAuthToken : List Nat
  deriving DecidableEq, Repr

/-- The zero value of `Config`, as `var config Config` declares it. -/
def zeroConfig : Config :=
  { FCMCredentials :=
      { GCM := { Token := [], AndroidId := [], SecurityToken := [], AppId := [] }
        FCM := { Token := [], PushSet := [],
                 Keys := { Private := [], Public := [], Secret := [], Auth := [] } } }
    ExpoPushToken := []
    RustPlusAuthToken := [] }

/-! ### Go `unicode/utf8` -/

/-- Go `utf8.RuneError`, U+FFFD. -/
def RuneError : Nat := 0xFFFD

/-- Lowest second byte that `utf8.DecodeRune` accepts after the first byte. -/
def acceptLo (b0 : Nat) : Nat :=
  if b0 = 0xE0 then 0xA0 else if b0 = 0xF0 then 0x90 else 0x80

/-- Highest second byte that `utf8.DecodeRune` accepts after the first byte. -/
def acceptHi (b0 : Nat) : Nat :=
  if b0 = 0xED then 0x9F else if b0 = 0xF4 then 0x8F else 0xBF

/-- Go `utf8.DecodeRune`: the first rune of `p` and its width in bytes;
`(RuneError, 0)` for the empty slice and `(RuneError, 1)` for an encoding that
is not valid (not the shortest form, a surrogate, above U+10FFFF, cut short). -/
def DecodeRune (p : List Nat) : Nat × Nat :=
  match p with
  | [] => (RuneError, 0)
  | b0 :: rest =>
    if b0 < 0x80 then (b0, 1)
    else if 0xC2 ≤ b0 ∧ b0 ≤ 0xDF then
      match rest with
      | b1 :: _ =>
        if 0x80 ≤ b1 ∧ b1 ≤ 0xBF then (b0 % 32 * 64 + b1 % 64, 2) else (RuneError, 1)
      | _ => (RuneError, 1)
    else if 0xE0 ≤ b0 ∧ b0 ≤ 0xEF then
      match rest with
      | b1 :: b2 :: _ =>
        if acceptLo b0 ≤ b1 ∧ b1 ≤ acceptHi b0 ∧ 0x80 ≤ b2 ∧ b2 ≤ 0xBF then
          (b0 % 16 * 4096 + b1 % 64 * 64 + b2 % 64, 3)
        else (RuneError, 1)
      | _ => (RuneError, 1)
    else if 0xF0 ≤ b0 ∧ b0 ≤ 0xF4 then
      match rest with
      | b1 :: b2 :: b3 :: _ =>
        if acceptLo b0 ≤ b1 ∧ b1 ≤ acceptHi b0 ∧ 0x80 ≤ b2 ∧ b2 ≤ 0xBF ∧ 0x80 ≤ b3 ∧ b3 ≤ 0xBF then
          (b0 % 8 * 262144 + b1 % 64 * 4096 + b2 % 64 * 64 + b3 % 64, 4)
        else (RuneError, 1)
      | _ => (RuneError, 1)
    else (RuneError, 1)

/-- Go `utf8.AppendRune` to an empty slice: the UTF-8 encoding of the rune, that
of U+FFFD for a surrogate and for a value above U+10FFFF. -/
def AppendRune (r : Nat) : List Nat :=
  if r < 0x80 then [r]
  else if r < 0x800 then [0xC0 + r / 64, 0x80 + r % 64]
  else if r > 0x10FFFF ∨ (0xD800 ≤ r ∧ r ≤ 0xDFFF) then [0xEF, 0xBF, 0xBD]
  else if r < 0x10000 then [0xE0 + r / 4096, 0x80 + r / 64 % 64, 0x80 + r % 64]
  else [0xF0 + r / 262144, 0x80 + r / 4096 % 64, 0x80 + r / 64 % 64, 0x80 + r % 64]

/-- Loop of `utf8.Valid`; the first argument bounds the number of runes. -/
def ValidLoop : Nat → List Nat → Bool
  | _, [] => true
  | 0, _ :: _ => false
  | fuel + 1, b :: rest =>
    let decoded := DecodeRune (b :: rest)
    if decoded.1 = RuneError ∧ decoded.2 = 1 then false
    else ValidLoop fuel (rest.drop (decoded.2 - 1))

/-- Go `utf8.Valid`: the bytes are a sequence of valid UTF-8 encodings. -/
def Valid (p : List Nat) : Bool :=
  ValidLoop p.length p

/-! ### Go `encoding/json`: writing -/

/-- The entry `hex[n]` of `"0123456789abcdef"`. -/
def hex (n : Nat) : Nat :=
  if n < 10 then 48 + n else 87 + n

/-- The table `htmlSafeSet`: the ASCII bytes from the space on, without the
double quote, `&`, `<`, `>` and the backslash. -/
def htmlSafeSet (b : Nat) : Bool :=
  decide (0x20 ≤ b ∧ b < 0x80 ∧ b ≠ 34 ∧ b ≠ 38 ∧ b ≠ 60 ∧ b ≠ 62 ∧ b ≠ 92)

/-- The `switch` of `appendString` for an ASCII byte outside `htmlSafeSet`: a
backslash before the backslash and the double quote, the short escapes of
backspace, form feed, newline, carriage return and tab, and `\u00xx` for the
other bytes.  (Before Go 1.22 backspace and form feed are written as `\u0008`
and `\u000c`, which `unquoteBytes` reads alike.) -/
def escapeByte (b : Nat) : List Nat :=
  if b = 92 ∨ b = 34 then [92, b]
  else if b = 8 then [92, 98]
  else if b = 12 then [92, 102]
  else if b = 10 then [92, 110]
  else if b = 13 then [92, 114]
  else if b = 9 then [92, 116]
  else [92, 117, 48, 48, hex (b / 16), hex (b % 16)]

/-- Loop of `appendString` with `escapeHTML` set; the first argument bounds the
number of runes.  A byte that starts no valid encoding is written as the
escape of U+FFFD, and U+2028 and U+2029 are written as their escapes. -/
def appendStringLoop : Nat → List Nat → List Nat
  | _, [] => []
  | 0, _ :: _ => []
  | fuel + 1, b :: rest =>
    if b < 0x80 then
      (if htmlSafeSet b then [b] else escapeByte b) ++ appendStringLoop fuel rest
    else
      let decoded := DecodeRune (b :: rest)
      if decoded.1 = RuneError ∧ decoded.2 = 1 then
        [92, 117, 102, 102, 102, 100] ++ appendStringLoop fuel rest
      else if decoded.1 = 0x2028 ∨ decoded.1 = 0x2029 then
        [92, 117, 50, 48, 50, hex (decoded.1 % 16)] ++
          appendStringLoop fuel (rest.drop (decoded.2 - 1))
      else (b :: rest).take decoded.2 ++ appendStringLoop fuel (rest.drop (decoded.2 - 1))

/-- Go `appendString(dst, src, true)` of `encoding/json` on an empty `dst`: the
JSON string literal for the Go string `src`. -/
def appendString (src : List Nat) : List Nat :=
  [34] ++ appendStringLoop src.length src ++ [34]

/-- The line break of `json.Indent` with the indent of two spaces: a newline
and the indentation of `depth` levels. -/
def appendNewline (depth : Nat) : List Nat :=
  10 :: List.replicate (2 * depth) 32

/-- A member of an object at `depth` levels of indentation: the line break, the
name as a string literal, a colon, a space and the text of the value. -/
def member (depth : Nat) (name : String) (value : List Nat) : List Nat :=
  appendNewline depth ++ appendString (ascii name) ++ [58, 32] ++ value

/-- Go `json.MarshalIndent(config, "", "  ")` for a value of type `Config`: the
fields in the order of their declaration under the names of their `json` tags,
every string written by `appendString`, objects in braces (`123`, `125`) with
their members on lines of their own, separated by commas (`44`).  The call
returns no error for this type. -/
def MarshalIndent (config : Config) : Except String (List Nat) :=
  Except.ok
    ([123] ++
      member 1 "fcm_credentials"
        ([123] ++
          member 2 "gcm"
            ([123] ++ member 3 "token" (appendString config.FCMCredentials.GCM.Token) ++ [44] ++
              member 3 "androidId" (appendString config.FCMCredentials.GCM.AndroidId) ++ [44] ++
              member 3 "securityToken" (appendString config.FCMCredentials.GCM.SecurityToken) ++
              [44] ++ member 3 "appId" (appendString config.FCMCredentials.GCM.AppId) ++
              appendNewline 2 ++ [125]) ++
          [44] ++
          member 2 "fcm"
            ([123] ++ member 3 "token" (appendString config.FCMCredentials.FCM.Token) ++ [44] ++
              member 3 "pushSet" (appendString config.FCMCredentials.FCM.PushSet) ++ [44] ++
              member 3 "keys"
                ([123] ++
                  member 4 "private" (appendString config.FCMCredentials.FCM.Keys.Private) ++
                  [44] ++
                  member 4 "public" (appendString config.FCMCredentials.FCM.Keys.Public) ++
                  [44] ++
                  member 4 "secret" (appendString config.FCMCredentials.FCM.Keys.Secret) ++
                  [44] ++ member 4 "auth" (appendString config.FCMCredentials.FCM.Keys.Auth) ++
                  appendNewline 3 ++ [125]) ++
              appendNewline 2 ++ [125]) ++
          appendNewline 1 ++ [125]) ++
      [44] ++ member 1 "expo_push_token" (appendString config.ExpoPushToken) ++ [44] ++
      member 1 "rustplus_auth_token" (appendString config.RustPlusAuthToken) ++
      appendNewline 0 ++ [125])

/-! ### Go `encoding/json`: reading -/

/-- A JSON value as the decoder sees it; strings are unquoted, object members
are in the order of the text. -/
inductive Value where
  | null
  | bool (b : Bool)
  | number (text : List Nat)
  | string (s : List Nat)
  | array (elems : List Value)
  | object (members : List (List Nat × Value))

/-- Go `getu4`: the value of the escape `\uXXXX` at the start of `s`, `none`
(the result `-1`) when `s` does not start with one. -/
def getu4 (s : List Nat) : Option Nat :=
  match s with
  | 92 :: 117 :: h1 :: h2 :: h3 :: h4 :: _ =>
    let digit := fun (c : Nat) =>
      if 48 ≤ c ∧ c ≤ 57 then some (c - 48)
      else if 97 ≤ c ∧ c ≤ 102 then some (c - 97 + 10)
      else if 65 ≤ c ∧ c ≤ 70 then some (c - 65 + 10)
      else none
    match digit h1, digit h2, digit h3, digit h4 with
    | some d1, some d2, some d3, some d4 => some (((d1 * 16 + d2) * 16 + d3) * 16 + d4)
    | _, _, _, _ => none
  | _ => none

/-- Go `utf16.DecodeRune`: the code point of a surrogate pair, U+FFFD when the
two values are not a high and a low surrogate. -/
def utf16DecodeRune (r1 r2 : Nat) : Nat :=
  if 0xD800 ≤ r1 ∧ r1 < 0xDC00 ∧ 0xDC00 ≤ r2 ∧ r2 < 0xE000 then
    (r1 - 0xD800) * 1024 + (r2 - 0xDC00) + 0x10000
  else RuneError

/-- Second loop of `unquoteBytes` on the text between the quotes (the first
loop only looks for a text that needs no change, on which the second returns
the same bytes); `none` is the result `ok = false`.  The first argument bounds
the number of runes. -/
def unquoteLoop : Nat → List Nat → Option (List Nat)
  | _, [] => some []
  | 0, _ :: _ => none
  | fuel + 1, c :: rest =>
    if c = 92 then
      match rest with
      | [] => none
      | e :: rest1 =>
        if e = 34 ∨ e = 92 ∨ e = 47 ∨ e = 39 then (unquoteLoop fuel rest1).map (fun t => e :: t)
        else if e = 98 then (unquoteLoop fuel rest1).map (fun t => 8 :: t)
        else if e = 102 then (unquoteLoop fuel rest1).map (fun t => 12 :: t)
        else if e = 110 then (unquoteLoop fuel rest1).map (fun t => 10 :: t)
        else if e = 114 then (unquoteLoop fuel rest1).map (fun t => 13 :: t)
        else if e = 116 then (unquoteLoop fuel rest1).map (fun t => 9 :: t)
        else if e = 117 then
          match getu4 (c :: rest) with
          | none => none
          | some rr =>
            let rest2 := rest1.drop 4
            if 0xD800 ≤ rr ∧ rr < 0xE000 then
              let dec := utf16DecodeRune rr ((getu4 rest2).getD 0)
              if dec ≠ RuneError then
                (unquoteLoop fuel (rest2.drop 6)).map (fun t => AppendRune dec ++ t)
              else (unquoteLoop fuel rest2).map (fun t => AppendRune RuneError ++ t)
            else (unquoteLoop fuel rest2).map (fun t => AppendRune rr ++ t)
        else none
    else if c = 34 ∨ c < 32 then none
    else if c < 0x80 then (unquoteLoop fuel rest).map (fun t => c :: t)
    else
      let decoded := DecodeRune (c :: rest)
      (unquoteLoop fuel (rest.drop (decoded.2 - 1))).map (fun t => AppendRune decoded.1 ++ t)

/-- Go `unquoteBytes` on the text between the quotes of a string literal. -/
def unquoteBytes (s : List Nat) : Option (List Nat) :=
  unquoteLoop s.length s

/-- The state functions of the scanner (`stateBeginValue`, ...). -/
inductive Step where
  | beginValueOrEmpty | beginValue | beginStringOrEmpty | beginString | endValue | endTop
  | inString | inStringEsc | inStringEscU | inStringEscU1 | inStringEscU12 | inStringEscU123
  | neg | one | zero | dot | dot0 | e | eSign | e0
  | t | tr | tru | f | fa | fal | fals | n | nu | nul
  | error
  deriving DecidableEq, Repr

/-- An entry of the stack `parseState` of the scanner, together with what has
been read of the object or array so far. -/
inductive Frame where
  | parseObjectKey (members : List (List Nat × Value)) (key : Option (List Nat))
  | parseObjectValue (members : List (List Nat × Value)) (key : List Nat)
  | parseArrayValue (elems : List Value)

/-- Go `json.SyntaxError`: the message `invalid character <c> <context>` or
`unexpected end of JSON input`, with the offset; `outOfSync` is the panic of the
decoder on a string literal that `unquoteBytes` rejects. -/
inductive SyntaxError where
  | invalidCharacter (c : Nat) (context : String) (Offset : Nat)
  | unexpectedEnd (Offset : Nat)
  | outOfSync
  deriving DecidableEq, Repr

/-- The struct `scanner`.  `parseState` has its innermost entry first; `literal`
(the bytes of the string or number being read) and `value` (the top-level value
once it is complete) stand for the second pass that the decoder makes over the
text with the same scanner. -/
structure scanner where
  step : Step
  endTop : Bool
  parseState : List Frame
  err : Option SyntaxError
  bytes : Nat
  literal : List Nat
  value : Option Value

/-- The scanner after `reset`. -/
def newScanner : scanner :=
  { step := Step.beginValue, endTop := false, parseState := [], err := none, bytes := 0
    literal := [], value := none }

def maxNestingDepth : Nat := 10000

def isSpace (c : Nat) : Bool :=
  decide (c = 32 ∨ c = 9 ∨ c = 13 ∨ c = 10)

/-- The method `error` of the scanner. -/
def scanner.fail (s : scanner) (c : Nat) (context : String) : scanner :=
  { s with step := Step.error, err := some (SyntaxError.invalidCharacter c context s.bytes) }

/-- The value just read becomes the top-level value, the key or the value of a
member, or an element. -/
def scanner.store (s : scanner) (v : Value) : scanner :=
  match s.parseState with
  | [] => { s with value := some v }
  | Frame.parseObjectKey members key :: rest =>
    match v with
    | Value.string k => { s with parseState := Frame.parseObjectKey members (some k) :: rest }
    | _ => { s with parseState := Frame.parseObjectKey members key :: rest }
  | Frame.parseObjectValue members key :: rest =>
    { s with parseState := Frame.parseObjectValue (members ++ [(key, v)]) key :: rest }
  | Frame.parseArrayValue elems :: rest =>
    { s with parseState := Frame.parseArrayValue (elems ++ [v]) :: rest }

def scanner.pushParseState (s : scanner) (c : Nat) (newParseState : Frame)
    (successState : Step) : scanner :=
  let s := { s with parseState := newParseState :: s.parseState }
  if s.parseState.length ≤ maxNestingDepth then { s with step := successState }
  else s.fail c "exceeded max depth"

/-- The method `popParseState`; `v` is the object or array that ends here. -/
def scanner.popParseState (s : scanner) (v : Value) : scanner :=
  let s := { s with parseState := s.parseState.tail }
  let s := s.store v
  if s.parseState.isEmpty then { s with step := Step.endTop, endTop := true }
  else { s with step := Step.endValue }

def stateEndTop (s : scanner) (c : Nat) : scanner :=
  if !isSpace c then s.fail c "after top-level value" else s

def stateEndValue (s : scanner) (c : Nat) : scanner :=
  match s.parseState with
  | [] => stateEndTop { s with step := Step.endTop, endTop := true } c
  | frame :: rest =>
    if isSpace c then { s with step := Step.endValue }
    else
      match frame with
      | Frame.parseObjectKey members key =>
        if c = 58 then
          { s with parseState := Frame.parseObjectValue members (key.getD []) :: rest
                   step := Step.beginValue }
        else s.fail c "after object key"
      | Frame.parseObjectValue members _ =>
        if c = 44 then
          { s with parseState := Frame.parseObjectKey members none :: rest
                   step := Step.beginString }
        else if c = 125 then s.popParseState (Value.object members)
        else s.fail c "after object key:value pair"
      | Frame.parseArrayValue elems =>
        if c = 44 then { s with step := Step.beginValue }
        else if c = 93 then s.popParseState (Value.array elems)
        else s.fail c "after array element"

def stateBeginValue (s : scanner) (c : Nat) : scanner :=
  if isSpace c then s
  else if c = 123 then s.pushParseState c (Frame.parseObjectKey [] none) Step.beginStringOrEmpty
  else if c = 91 then s.pushParseState c (Frame.parseArrayValue []) Step.beginValueOrEmpty
  else if c = 34 then { s with step := Step.inString, literal := [] }
  else if c = 45 then { s with step := Step.neg, literal := [c] }
  else if c = 48 then { s with step := Step.zero, literal := [c] }
  else if c = 116 then { s with step := Step.t }
  else if c = 102 then { s with step := Step.f }
  else if c = 110 then { s with step := Step.n }
  else if 49 ≤ c ∧ c ≤ 57 then { s with step := Step.one, literal := [c] }
  else s.fail c "looking for beginning of value"

def stateBeginValueOrEmpty (s : scanner) (c : Nat) : scanner :=
  if isSpace c then s
  else if c = 93 then stateEndValue s c
  else stateBeginValue s c

def stateBeginString (s : scanner) (c : Nat) : scanner :=
  if isSpace c then s
  else if c = 34 then { s with step := Step.inString, literal := [] }
  else s.fail c "looking for beginning of object key string"

def stateBeginStringOrEmpty (s : scanner) (c : Nat) : scanner :=
  if isSpace c then s
  else if c = 125 then
    match s.parseState with
    | Frame.parseObjectKey members _ :: rest =>
      stateEndValue { s with parseState := Frame.parseObjectValue members [] :: rest } c
    | _ => stateEndValue s c
  else stateBeginString s c

def stateInString (s : scanner) (c : Nat) : scanner :=
  if c = 34 then
    match unquoteBytes s.literal with
    | some t => { s.store (Value.string t) with step := Step.endValue, literal := [] }
    | none => { s with step := Step.error, err := some SyntaxError.outOfSync }
  else if c = 92 then { s with step := Step.inStringEsc, literal := s.literal ++ [c] }
  else if c < 0x20 then s.fail c "in string literal"
  else { s with literal := s.literal ++ [c] }

def stateInStringEsc (s : scanner) (c : Nat) : scanner :=
  if c = 98 ∨ c = 102 ∨ c = 110 ∨ c = 114 ∨ c = 116 ∨ c = 92 ∨ c = 47 ∨ c = 34 then
    { s with step := Step.inString, literal := s.literal ++ [c] }
  else if c = 117 then { s with step := Step.inStringEscU, literal := s.literal ++ [c] }
  else s.fail c "in string escape code"

/-- The states `stateInStringEscU`, ..., `stateInStringEscU123`; `next` is the
state after a hexadecimal digit. -/
def stateInStringEscU (next : Step) (s : scanner) (c : Nat) : scanner :=
  if (48 ≤ c ∧ c ≤ 57) ∨ (97 ≤ c ∧ c ≤ 102) ∨ (65 ≤ c ∧ c ≤ 70) then
    { s with step := next, literal := s.literal ++ [c] }
  else s.fail c "in \\u hexadecimal character escape"

/-- End of a number at the byte `c`, which belongs to what follows. -/
def endNumber (s : scanner) (c : Nat) : scanner :=
  stateEndValue { s.store (Value.number s.literal) with literal := [] } c

def stateNeg (s : scanner) (c : Nat) : scanner :=
  if c = 48 then { s with step := Step.zero, literal := s.literal ++ [c] }
  else if 49 ≤ c ∧ c ≤ 57 then { s with step := Step.one, literal := s.literal ++ [c] }
  else s.fail c "in numeric literal"

def state0 (s : scanner) (c : Nat) : scanner :=
  if c = 46 then { s with step := Step.dot, literal := s.literal ++ [c] }
  else if c = 101 ∨ c = 69 then { s with step := Step.e, literal := s.literal ++ [c] }
  else endNumber s c

def state1 (s : scanner) (c : Nat) : scanner :=
  if 48 ≤ c ∧ c ≤ 57 then { s with step := Step.one, literal := s.literal ++ [c] }
  else state0 s c

def stateDot (s : scanner) (c : Nat) : scanner :=
  if 48 ≤ c ∧ c ≤ 57 then { s with step := Step.dot0, literal := s.literal ++ [c] }
  else s.fail c "after decimal point in numeric literal"

def stateDot0 (s : scanner) (c : Nat) : scanner :=
  if 48 ≤ c ∧ c ≤ 57 then { s with literal := s.literal ++ [c] }
  else if c = 101 ∨ c = 69 then { s with step := Step.e, literal := s.literal ++ [c] }
  else endNumber s c

def stateESign (s : scanner) (c : Nat) : scanner :=
  if 48 ≤ c ∧ c ≤ 57 then { s with step := Step.e0, literal := s.literal ++ [c] }
  else s.fail c "in exponent of numeric literal"

def stateE (s : scanner) (c : Nat) : scanner :=
  if c = 43 ∨ c = 45 then { s with step := Step.eSign, literal := s.literal ++ [c] }
  else stateESign s c

def stateE0 (s : scanner) (c : Nat) : scanner :=
  if 48 ≤ c ∧ c ≤ 57 then { s with literal := s.literal ++ [c] }
  else endNumber s c

/-- A state inside `true`, `false` or `null` that expects the byte `want` and
goes on to `next`. -/
def stateLiteral (want : Nat) (next : Step) (context : String) (s : scanner) (c : Nat) :
    scanner :=
  if c = want then { s with step := next } else s.fail c context

/-- The last state of `true`, `false` or `null`, which completes the value. -/
def stateLiteralEnd (want : Nat) (v : Value) (context : String) (s : scanner) (c : Nat) :
    scanner :=
  if c = want then { s.store v with step := Step.endValue } else s.fail c context

/-- The call `s.step(s, c)`. -/
def scanner.call (s : scanner) (c : Nat) : scanner :=
  match s.step with
  | Step.beginValueOrEmpty => stateBeginValueOrEmpty s c
  | Step.beginValue => stateBeginValue s c
  | Step.beginStringOrEmpty => stateBeginStringOrEmpty s c
  | Step.beginString => stateBeginString s c
  | Step.endValue => stateEndValue s c
  | Step.endTop => stateEndTop s c
  | Step.inString => stateInString s c
  | Step.inStringEsc => stateInStringEsc s c
  | Step.inStringEscU => stateInStringEscU Step.inStringEscU1 s c
  | Step.inStringEscU1 => stateInStringEscU Step.inStringEscU12 s c
  | Step.inStringEscU12 => stateInStringEscU Step.inStringEscU123 s c
  | Step.inStringEscU123 => stateInStringEscU Step.inString s c
  | Step.neg => stateNeg s c
  | Step.one => state1 s c
  | Step.zero => state0 s c
  | Step.dot => stateDot s c
  | Step.dot0 => stateDot0 s c
  | Step.e => stateE s c
  | Step.eSign => stateESign s c
  | Step.e0 => stateE0 s c
  | Step.t => stateLiteral 114 Step.tr "in literal true (expecting 'r')" s c
  | Step.tr => stateLiteral 117 Step.tru "in literal true (expecting 'u')" s c
  | Step.tru => stateLiteralEnd 101 (Value.bool true) "in literal true (expecting 'e')" s c
  | Step.f => stateLiteral 97 Step.fa "in literal false (expecting 'a')" s c
  | Step.fa => stateLiteral 108 Step.fal "in literal false (expecting 'l')" s c
  | Step.fal => stateLiteral 115 Step.fals "in literal false (expecting 's')" s c
  | Step.fals => stateLiteralEnd 101 (Value.bool false) "in literal false (expecting 'e')" s c
  | Step.n => stateLiteral 117 Step.nu "in literal null (expecting 'u')" s c
  | Step.nu => stateLiteral 108 Step.nul "in literal null (expecting 'l')" s c
  | Step.nul => stateLiteralEnd 108 Value.null "in literal null (expecting 'l')" s c
  | Step.error => s

/-- One round of the loop of `checkValid`, which ends at the first error. -/
def scanner.next (s : scanner) (c : Nat) : scanner :=
  if s.step = Step.error then s else scanner.call { s with bytes := s.bytes + 1 } c

/-- The method `eof` of the scanner. -/
def scanner.eof (s : scanner) : scanner :=
  if s.err.isSome then s
  else if s.endTop then s
  else
    let s := s.call 32
    if s.endTop then s
    else if s.err.isSome then s
    else { s with err := some (SyntaxError.unexpectedEnd s.bytes) }

/-- Go `checkValid` together with the reading of the value: the syntax error of
the text, or the value that the text denotes. -/
def checkValid (data : List Nat) : Except SyntaxError Value :=
  let s := (data.foldl scanner.next newScanner).eof
  match s.err, s.value with
  | some e, _ => Except.error e
  | none, some v => Except.ok v
  | none, none => Except.error (SyntaxError.unexpectedEnd s.bytes)

/-- The Go types that a value is decoded into. -/
inductive GoType where
  | string
  | Config
  | Credentials
  | GCMCredentials
  | FCMCredentials
  | FCMKeys
  deriving DecidableEq, Repr

/-- The error of `json.Unmarshal`: a syntax error, or the `UnmarshalTypeError`
whose field `Value` is `kind` and whose field `Type` is `target`, for a JSON
value of that kind met where that Go type is decoded (the offset and the field
path of the Go error are left out). -/
inductive JsonError where
  | invalidText (e : SyntaxError)
  | UnmarshalTypeError (kind : String) (target : GoType)
  deriving DecidableEq, Repr

/-- The name of the kind of a JSON value in an `UnmarshalTypeError`. -/
def Value.kind : Value → String
  | Value.null => "null"
  | Value.bool _ => "bool"
  | Value.number _ => "number"
  | Value.string _ => "string"
  | Value.array _ => "array"
  | Value.object _ => "object"

/-- The method `saveError`: the first error is kept. -/
def saveError (saved : Option JsonError) (err : Option JsonError) : Option JsonError :=
  match saved with
  | some e => some e
  | none => err

/-- Go `foldRune` as far as field names can tell: the two runes outside ASCII
that fold to an ASCII letter, U+017F to `S` and U+212A to `K`; every other rune
outside ASCII folds to a rune outside ASCII and is kept as it is. -/
def foldRune (r : Nat) : Nat :=
  if r = 0x17F then 83 else if r = 0x212A then 75 else r

/-- Loop of `appendFoldedName`; the first argument bounds the number of runes. -/
def foldNameLoop : Nat → List Nat → List Nat
  | _, [] => []
  | 0, _ :: _ => []
  | fuel + 1, c :: rest =>
    if c < 0x80 then (if 97 ≤ c ∧ c ≤ 122 then c - 32 else c) :: foldNameLoop fuel rest
    else
      let decoded := DecodeRune (c :: rest)
      AppendRune (foldRune decoded.1) ++ foldNameLoop fuel (rest.drop (decoded.2 - 1))

/-- Go `foldName`. -/
def foldName (name : List Nat) : List Nat :=
  foldNameLoop name.length name

/-- The field of a struct that an object key selects: the index of the field
whose name is the key, else of the first field whose folded name is the folded
key. -/
def findField (names : List (List Nat)) (key : List Nat) : Option Nat :=
  match names.indexOf? key with
  | some i => some i
  | none => (names.map foldName).indexOf? (foldName key)

/-- Decoding of a JSON value into a field of type `string`. -/
def decodeString (v : Value) (old : List Nat) : List Nat × Option JsonError :=
  match v with
  | Value.string s => (s, none)
  | Value.null => (old, none)
  | _ => (old, some (JsonError.UnmarshalTypeError v.kind GoType.string))

/-- Decoding of a JSON value into a value of type `GCMCredentials`: the members
of an object are taken in their order, a member whose key selects no field is
skipped, `null` changes nothing and any other value is a type error. -/
def decodeGCM (v : Value) (old : GCMCredentials) : GCMCredentials × Option JsonError :=
  match v with
  | Value.object members =>
    members.foldl
      (fun acc m =>
        match findField [ascii "token", ascii "androidId", ascii "securityToken", ascii "appId"]
            m.1 with
        | some 0 =>
          let r := decodeString m.2 acc.1.Token
          ({ acc.1 with Token := r.1 }, saveError acc.2 r.2)
        | some 1 =>
          let r := decodeString m.2 acc.1.AndroidId
          ({ acc.1 with AndroidId := r.1 }, saveError acc.2 r.2)
        | some 2 =>
          let r := decodeString m.2 acc.1.SecurityToken
          ({ acc.1 with SecurityToken := r.1 }, saveError acc.2 r.2)
        | some 3 =>
          let r := decodeString m.2 acc.1.AppId
          ({ acc.1 with AppId := r.1 }, saveError acc.2 r.2)
        | _ => acc)
      (old, none)
  | Value.null => (old, none)
  | _ => (old, some (JsonError.UnmarshalTypeError v.kind GoType.GCMCredentials))

def decodeKeys (v : Value) (old : FCMKeys) : FCMKeys × Option JsonError :=
  match v with
  | Value.object members =>
    members.foldl
      (fun acc m =>
        match findField [ascii "private", ascii "public", ascii "secret", ascii "auth"] m.1 with
        | some 0 =>
          let r := decodeString m.2 acc.1.Private
          ({ acc.1 with Private := r.1 }, saveError acc.2 r.2)
        | some 1 =>
          let r := decodeString m.2 acc.1.Public
          ({ acc.1 with Public := r.1 }, saveError acc.2 r.2)
        | some 2 =>
          let r := decodeString m.2 acc.1.Secret
          ({ acc.1 with Secret := r.1 }, saveError acc.2 r.2)
        | some 3 =>
          let r := decodeString m.2 acc.1.Auth
          ({ acc.1 with Auth := r.1 }, saveError acc.2 r.2)
        | _ => acc)
      (old, none)
  | Value.null => (old, none)
  | _ => (old, some (JsonError.UnmarshalTypeError v.kind GoType.FCMKeys))

def decodeFCM (v : Value) (old : FCMCredentials) : FCMCredentials × Option JsonError :=
  match v with
  | Value.object members =>
    members.foldl
      (fun acc m =>
        match findField [ascii "token", ascii "pushSet", ascii "keys"] m.1 with
        | some 0 =>
          let r := decodeString m.2 acc.1.Token
          ({ acc.1 with Token := r.1 }, saveError acc.2 r.2)
        | some 1 =>
          let r := decodeString m.2 acc.1.PushSet
          ({ acc.1 with PushSet := r.1 }, saveError acc.2 r.2)
        | some 2 =>
          let r := decodeKeys m.2 acc.1.Keys
          ({ acc.1 with Keys := r.1 }, saveError acc.2 r.2)
        | _ => acc)
      (old, none)
  | Value.null => (old, none)
  | _ => (old, some (JsonError.UnmarshalTypeError v.kind GoType.FCMCredentials))

def decodeCredentials (v : Value) (old : Credentials) : Credentials × Option JsonError :=
  match v with
  | Value.object members =>
    members.foldl
      (fun acc m =>
        match findField [ascii "gcm", ascii "fcm"] m.1 with
        | some 0 =>
          let r := decodeGCM m.2 acc.1.GCM
          ({ acc.1 with GCM := r.1 }, saveError acc.2 r.2)
        | some 1 =>
          let r := decodeFCM m.2 acc.1.FCM
          ({ acc.1 with FCM := r.1 }, saveError acc.2 r.2)
        | _ => acc)
      (old, none)
  | Value.null => (old, none)
  | _ => (old, some (JsonError.UnmarshalTypeError v.kind GoType.Credentials))

def decodeConfig (v : Value) (old : Config) : Config × Option JsonError :=
  match v with
  | Value.object members =>
    members.foldl
      (fun acc m =>
        match findField
            [ascii "fcm_credentials", ascii "expo_push_token", ascii "rustplus_auth_token"]
            m.1 with
        | some 0 =>
          let r := decodeCredentials m.2 acc.1.FCMCredentials
          ({ acc.1 with FCMCredentials := r.1 }, saveError acc.2 r.2)
        | some 1 =>
          let r := decodeString m.2 acc.1.ExpoPushToken
          ({ acc.1 with ExpoPushToken := r.1 }, saveError acc.2 r.2)
        | some 2 =>
          let r := decodeString m.2 acc.1.RustPlusAuthToken
          ({ acc.1 with RustPlusAuthToken := r.1 }, saveError acc.2 r.2)
        | _ => acc)
      (old, none)
  | Value.null => (old, none)
  | _ => (old, some (JsonError.UnmarshalTypeError v.kind GoType.Config))

/-- Go `json.Unmarshal(data, &config)`: the value left in `config` and the
error.  A text that is not valid JSON leaves `config` as it is. -/
def Unmarshal (data : List Nat) (config : Config) : Config × Option JsonError :=
  match checkValid data with
  | Except.error e => (config, some (JsonError.invalidText e))
  | Except.ok v => decodeConfig v config

/-! ### `cmd/rustplus/config.go` -/

/-- An error of `os.ReadFile`: the file does not exist, or another error. -/
inductive FsError where
  | notExist
  | other (msg : String)
  deriving DecidableEq, Repr

/-- The files of the file system, by path. -/
abbrev FileSystem := List (String × List Nat)

/-- Go `os.ReadFile`; `fault` is an error other than a missing file that the
operating system reports for the call. -/
def ReadFile (fs : FileSystem) (name : String) (fault : Option String) :
    Except FsError (List Nat) :=
  match fault with
  | some msg => Except.error (FsError.other msg)
  | none =>
    match fs.lookup name with
    | none => Except.error FsError.notExist
    | some data => Except.ok data

/-- Go `os.WriteFile`: the file is created or replaced, unless the operating
system reports `fault`. -/
def WriteFile (fs : FileSystem) (name : String) (data : List Nat) (fault : Option String) :
    FileSystem × Option String :=
  match fault with
  | some msg => (fs, some msg)
  | none => ((name, data) :: fs.filter (fun e => e.1 != name), none)

/-- The `error` that `readConfig` or `saveConfig` returns: one of the operating
system or of `encoding/json`. -/
inductive ConfigError where
  | os (msg : String)
  | json (e : JsonError)
  | marshal (msg : String)
  deriving DecidableEq, Repr

/-- The function `readConfig`; returns the configuration and the error. -/
def readConfig (fs : FileSystem) (configFile : String) (fault : Option String) :
    Config × Option ConfigError :=
  let config := zeroConfig
  match ReadFile fs configFile fault with
  | Except.error FsError.notExist => (config, none)
  | Except.error (FsError.other msg) => (config, some (ConfigError.os msg))
  | Except.ok data =>
    let decoded := Unmarshal data config
    (decoded.1, decoded.2.map ConfigError.json)

/-- The function `saveConfig`; returns the file system and the error. -/
def saveConfig (fs : FileSystem) (configFile : String) (config : Config)
    (fault : Option String) : FileSystem × Option ConfigError :=
  match MarshalIndent config with
  | Except.error err => (fs, some (ConfigError.marshal err))
  | Except.ok data =>
    let written := WriteFile fs configFile data fault
    (written.1, written.2.map ConfigError.os)

/-- The JSON value of a configuration: the objects and strings that
`MarshalIndent` writes. -/
def Config.toValue (c : Config) : Value :=
  Value.object
    [(ascii "fcm_credentials",
        Value.object
          [(ascii "gcm",
              Value.object
                [(ascii "token", Value.string c.FCMCredentials.GCM.Token),
                  (ascii "androidId", Value.string c.FCMCredentials.GCM.AndroidId),
                  (ascii "securityToken", Value.string c.FCMCredentials.GCM.SecurityToken),
                  (ascii "appId", Value.string c.FCMCredentials.GCM.AppId)]),
            (ascii "fcm",
              Value.object
                [(ascii "token", Value.string c.FCMCredentials.FCM.Token),
                  (ascii "pushSet", Value.string c.FCMCredentials.FCM.PushSet),
                  (ascii "keys",
                    Value.object
                      [(ascii "private", Value.string c.FCMCredentials.FCM.Keys.Private),
                        (ascii "public", Value.string c.FCMCredentials.FCM.Keys.Public),
                        (ascii "secret", Value.string c.FCMCredentials.FCM.Keys.Secret),
                        (ascii "auth", Value.string c.FCMCredentials.FCM.Keys.Auth)])])]),
      (ascii "expo_push_token", Value.string c.ExpoPushToken),
      (ascii "rustplus_auth_token", Value.string c.RustPlusAuthToken)]

/-- What is read back for one string: the string `s` is written by
`appendString`, and `unquoteBytes` returns `t` for what stands between the
quotes. -/
def readsBack (s t : List Nat) : Bool :=
  decide (unquoteBytes (appendStringLoop s.length s) = some t)

/-- What is read back for a configuration: every string of `c` is read back as
the string of `c'` in its place. -/
def Config.readsBackAs (c c' : Config) : Bool :=
  readsBack c.FCMCredentials.GCM.Token c'.FCMCredentials.GCM.Token &&
    readsBack c.FCMCredentials.GCM.AndroidId c'.FCMCredentials.GCM.AndroidId &&
    readsBack c.FCMCredentials.GCM.SecurityToken c'.FCMCredentials.GCM.SecurityToken &&
    readsBack c.FCMCredentials.GCM.AppId c'.FCMCredentials.GCM.AppId &&
    readsBack c.FCMCredentials.FCM.Token c'.FCMCredentials.FCM.Token &&
    readsBack c.FCMCredentials.FCM.PushSet c'.FCMCredentials.FCM.PushSet &&
    readsBack c.FCMCredentials.FCM.Keys.Private c'.FCMCredentials.FCM.Keys.Private &&
    readsBack c.FCMCredentials.FCM.Keys.Public c'.FCMCredentials.FCM.Keys.Public &&
    readsBack c.FCMCredentials.FCM.Keys.Secret c'.FCMCredentials.FCM.Keys.Secret &&
    readsBack c.FCMCredentials.FCM.Keys.Auth c'.FCMCredentials.FCM.Keys.Auth &&
    readsBack c.ExpoPushToken c'.ExpoPushToken &&
    readsBack c.RustPlusAuthToken c'.RustPlusAuthToken

/-- Every string of the configuration is valid UTF-8. -/
def Config.validUTF8 (c : Config) : Bool :=
  Valid c.FCMCredentials.GCM.Token && Valid c.FCMCredentials.GCM.AndroidId &&
    Valid c.FCMCredentials.GCM.SecurityToken && Valid c.FCMCredentials.GCM.AppId &&
    Valid c.FCMCredentials.FCM.Token && Valid c.FCMCredentials.FCM.PushSet &&
    Valid c.FCMCredentials.FCM.Keys.Private && Valid c.FCMCredentials.FCM.Keys.Public &&
    Valid c.FCMCredentials.FCM.Keys.Secret && Valid c.FCMCredentials.FCM.Keys.Auth &&
    Valid c.ExpoPushToken && Valid c.RustPlusAuthToken

/-- The configuration of `TestConfigReadWrite`. -/
def testConfig : Config :=
  { FCMCredentials :=
      { GCM := { Token := [], AndroidId := ascii "test-android-id",
                 SecurityToken := ascii "test-security-token", AppId := [] }
        FCM := { Token := ascii "test-fcm-token", PushSet := [],
                 Keys := { Private := [], Public := [], Secret := [], Auth := [] } } }
    ExpoPushToken := ascii "test-expo-token"
    RustPlusAuthToken := ascii "test-auth-token" }

/-- The file that `saveConfig` writes for `testConfig`. -/
def testConfigText : String :=
  "\x7b\n  \"fcm_credentials\": \x7b\n    \"gcm\": \x7b\n      \"token\": \"\",\n" ++
  "      \"androidId\": \"test-android-id\",\n" ++
  "      \"securityToken\": \"test-security-token\",\n      \"appId\": \"\"\n    \x7d,\n" ++
  "    \"fcm\": \x7b\n      \"token\": \"test-fcm-token\",\n      \"pushSet\": \"\",\n" ++
  "      \"keys\": \x7b\n        \"private\": \"\",\n        \"public\": \"\",\n" ++
  "        \"secret\": \"\",\n        \"auth\": \"\"\n      \x7d\n    \x7d\n  \x7d,\n" ++
  "  \"expo_push_token\": \"test-expo-token\",\n" ++
  "  \"rustplus_auth_token\": \"test-auth-token\"\n\x7d"

/-- A configuration whose Expo push token is the single byte `0xff`, which is
not valid UTF-8. -/
def rawTokenConfig : Config :=
  { zeroConfig with ExpoPushToken := [0xff] }

end Cmd

/-! ## `fcm/client/client.go`: connection handling -/

def maxRetryTimeout : Int := 15

/-- A `net.Conn` returned by `tls.DialWithDialer`. -/
structure Conn where
  closed : Bool
  deriving DecidableEq, Repr

/-- A `time.Timer` made by `time.AfterFunc`; `delay` is its timeout in seconds.
The timer is armed until it fires or is stopped. -/
structure RetryTimer where
  delay : Int
  armed : Bool
  deriving DecidableEq, Repr

/-- The part of `Client` used by connection handling: `conn` and `retryTimer`
are `none` when the pointer is nil, `parser` tells whether `c.parser` is not
nil.  `scheduled` belongs to the model: it logs the timeouts passed to
`time.AfterFunc`, oldest first. -/
structure Session where
  retryCount : Int
  conn : Option Conn
  parser : Bool
  retryTimer : Option RetryTimer
  scheduled : List Int
  deriving DecidableEq, Repr

/-- The connection fields of the value that `NewClient` returns. -/
def newSession : Session :=
  { retryCount := 0, conn := none, parser := false, retryTimer := none, scheduled := [] }

/-- The method `destroy`. -/
def Session.destroy (s : Session) : Session :=
  { s with retryTimer := none, conn := none, parser := false }

/-- The method `retry`. -/
def Session.retry (s : Session) : Session :=
  let s := s.destroy
  let s := { s with retryCount := s.retryCount + 1 }
  let s := if s.retryCount > maxRetryTimeout then { s with retryCount := maxRetryTimeout } else s
  let timeout := s.retryCount
  { s with retryTimer := some (RetryTimer.mk timeout true), scheduled := s.scheduled ++ [timeout] }

/-- What the environment decides for a call of `Connect`: the check-in fails,
the TLS dial fails, `createLoginBuffer` fails, the write of the login request
fails, or all of them succeed. -/
inductive ConnectOutcome where
  | checkInFailed (err : String)
  | dialFailed (err : String)
  | loginBufferFailed (err : String)
  | writeFailed (err : String)
  | ok
  deriving DecidableEq, Repr

/-- The method `connect`; returns the session and the error (`none` is `nil`). -/
def Session.connect (s : Session) (outcome : ConnectOutcome) : Session × Option String :=
  match outcome with
  | ConnectOutcome.dialFailed err => (s, some ("failed to establish TLS connection: " ++ err))
  | ConnectOutcome.loginBufferFailed err =>
    ({ s with conn := some (Conn.mk true) }, some ("failed to create login buffer: " ++ err))
  | ConnectOutcome.writeFailed err =>
    ({ s with conn := some (Conn.mk true) }, some ("failed to send login request: " ++ err))
  | _ => ({ s with conn := some (Conn.mk false), parser := true, retryCount := 0 }, none)

/-- The method `Connect`. -/
def Session.Connect (s : Session) (outcome : ConnectOutcome) : Session × Option String :=
  match outcome with
  | ConnectOutcome.checkInFailed err => (s, some ("check-in failed: " ++ err))
  | _ =>
    match s.connect outcome with
    | (s, some err) => (s, some ("connection failed: " ++ err))
    | (s, none) => (s, none)

/-- The function that `retry` passes to `time.AfterFunc`, run when the armed
timer fires. -/
def Session.retryTimerFired (s : Session) (outcome : ConnectOutcome) : Session :=
  match s.retryTimer with
  | some (RetryTimer.mk delay true) =>
    let s := { s with retryTimer := some (RetryTimer.mk delay false) }
    match s.Connect outcome with
    | (s, some _) => s.retry
    | (s, none) => s
  | _ => s

/-- The method `onParserError`: the error is logged and `retry` is called. -/
def Session.onParserError (s : Session) (_err : ParserError) : Session :=
  s.retry

/-- The two parts of `Client` together. -/
structure MCSClient (J : Type) where
  client : Client J
  session : Session

/-- The method `onMessage` on the whole client. -/
def MCSClient.onMessage {J : Type}
    (decryptMessage : EncryptedMessage → Keys → Except String J)
    (m : MCSClient J) (tag : Nat) (message : ProtoMessage) : Option (MCSClient J) :=
  match GoRustplus.onMessage decryptMessage m.client tag message with
  | none => none
  | some c => some { m with client := c }

/-- The method `onParserError` on the whole client. -/
def MCSClient.onParserError {J : Type} (m : MCSClient J) (err : ParserError) : MCSClient J :=
  { m with session := m.session.onParserError err }

/-- Something that makes the client call `retry` or `Connect`. -/
inductive SessionEvent where
  | parserError (err : ParserError)
  | timerFired (outcome : ConnectOutcome)
  | connectCalled (outcome : ConnectOutcome)
  deriving DecidableEq, Repr

def Session.handle (s : Session) : SessionEvent → Session
  | SessionEvent.parserError err => s.onParserError err
  | SessionEvent.timerFired outcome => s.retryTimerFired outcome
  | SessionEvent.connectCalled outcome => (s.Connect outcome).1

def Session.run (s : Session) (events : List SessionEvent) : Session :=
  events.foldl Session.handle s

/-- The event is not a `Connect` that succeeds. -/
def SessionEvent.fails : SessionEvent → Bool
  | SessionEvent.parserError _ => true
  | SessionEvent.timerFired outcome => outcome != ConnectOutcome.ok
  | SessionEvent.connectCalled outcome => outcome != ConnectOutcome.ok

/-- The delays of `n` consecutive retries as the specification gives them:
`min(k, 15)` seconds for the `k`-th. -/
def backoffDelays (n : Nat) : List Int :=
  (List.range n).map (fun i => min (Int.ofNat i + 1) 15)

/-- A client without callback and credentials after a successful `Connect`. -/
def connectedMCS : MCSClient Unit :=
  { client := Client.mk ["p0"] none false [] 0
    session := (newSession.Connect ConnectOutcome.ok).1 }

/-! ## `fcm/parser/parser.go`: a stream read in chunks -/

/-- Successive calls of `onData` by `readLoop`, one per chunk read. -/
def feed {M : Type} (proto : Proto M) (fuel : Nat) : Parser M → List (List Nat) → Option (Parser M)
  | p, [] => some p
  | p, chunk :: rest =>
    match onData proto fuel p chunk with
    | none => none
    | some q => feed proto fuel q rest

/-- The parser `p` with the bytes `e` appended to its buffer. -/
def Parser.more {M : Type} (p : Parser M) (e : List Nat) : Parser M :=
  { p with data := p.data ++ e }

/-- What the callers of a method guarantee about the buffer: `waitForData` calls
`onGotVersion` with three bytes or more and `onGotMessageTag` with two or more,
`onGotVersion` leaves one byte or more to `onGotMessageTag`. -/
def Method.ready {M : Type} : Method → Parser M → Prop
  | Method.onGotVersion, p => 2 ≤ p.data.length
  | Method.onGotMessageTag, p => 1 ≤ p.data.length
  | _, _ => True

/-- Two parser states with the same buffer, record header, flags and sink
calls; `state` and `sizePacketSoFar` agree as well when the parser waits for
data (otherwise it has stopped for good and they are never read again). -/
structure Parser.alike {M : Type} (p q : Parser M) : Prop where
  data : p.data = q.data
  messageTag : p.messageTag = q.messageTag
  messageSize : p.messageSize = q.messageSize
  handshakeComplete : p.handshakeComplete = q.handshakeComplete
  isWaitingForData : p.isWaitingForData = q.isWaitingForData
  events : p.events = q.events
  crashed : p.crashed = q.crashed
  waiting : p.isWaitingForData = true →
    p.state = q.state ∧ p.sizePacketSoFar = q.sizePacketSoFar

/-- A run of `fuel` method bodies on a buffer can be resumed: when the run of
method `m` on `p` returns `q`, a call of `onData` on `q` with the bytes `e`
ends in a state like that of the run of `m` on `p` with `e` appended. -/
def Resumes {M : Type} (proto : Proto M) (e : List Nat) (fuel : Nat) : Prop :=
  ∀ (m : Method) (p q : Parser M), Method.ready m p → p.isWaitingForData = false →
    exec proto fuel m p = some q →
    ∀ (fuel2 : Nat) (q' : Parser M), exec proto fuel2 m (p.more e) = some q' →
      ∃ q'', onData proto (fuel2 + 1) q e = some q'' ∧ q''.alike q'

/-- Bound on the method bodies that a run of `m` on `p` enters. -/
def Method.rank {M : Type} : Method → Parser M → Nat
  | Method.waitForData, p => 6 * p.data.length + (if p.state = MCSProtoBytes then 5 else 2)
  | Method.onGotVersion, p => 6 * p.data.length + 1
  | Method.onGotMessageTag, p => 6 * p.data.length
  | Method.onGotMessageSize, p => 6 * p.data.length + 1
  | Method.onGotMessageBytes, p => 6 * p.data.length + 4
  | Method.getNextMessage, p => 6 * p.data.length + 3

/-- The body of `m` does the same on `p` and on `p` with `e` appended to the
buffer: it returns without waiting for data, or it calls the same method. -/
def Lockstep {M : Type} (proto : Proto M) (e : List Nat) (m : Method) (p : Parser M) : Prop :=
  (∃ q, methodBody proto m p = Next.ret q ∧ q.isWaitingForData = false ∧
      methodBody proto m (p.more e) = Next.ret (q.more e)) ∨
    ∃ m' p', methodBody proto m p = Next.call m' p' ∧
      methodBody proto m (p.more e) = Next.call m' (p'.more e) ∧
      Method.ready m' p' ∧ p'.isWaitingForData = false

/-! ## Theorems: framed-stream parser -/

theorem encodeVarintAux_small (fuel n : Nat) (h : n < 128) : encodeVarintAux fuel n = [n] := by
  cases fuel with
  | zero => rfl
  | succ k => simp [encodeVarintAux, h]

theorem encodeVarintAux_fuel (fuel : Nat) : ∀ fuel' n, n ≤ fuel → n ≤ fuel' →
    encodeVarintAux fuel n = encodeVarintAux fuel' n := by
  induction fuel with
  | zero =>
    intro fuel' n h _
    have h0 : n = 0 := by omega
    subst h0
    rw [encodeVarintAux_small _ _ (by decide), encodeVarintAux_small _ _ (by decide)]
  | succ k ih =>
    intro fuel' n h h'
    by_cases hn : n < 128
    · rw [encodeVarintAux_small _ _ hn, encodeVarintAux_small _ _ hn]
    · cases fuel' with
      | zero => omega
      | succ k' =>
        simp only [encodeVarintAux, hn, if_false]
        rw [ih k' (n / 128) (by omega) (by omega)]

theorem encodeVarint_small (n : Nat) (h : n < 128) : encodeVarint n = [n] :=
  encodeVarintAux_small n n h

theorem encodeVarint_large (n : Nat) (h : ¬ n < 128) :
    encodeVarint n = (n % 128 + 128) :: encodeVarint (n / 128) := by
  unfold encodeVarint
  cases n with
  | zero => omega
  | succ k =>
    simp only [encodeVarintAux, h, if_false]
    rw [encodeVarintAux_fuel k (( k + 1) / 128) ((k + 1) / 128) (by omega) (le_refl _)]

theorem or_shift_eq_add (x y s : Nat) (hx : x < 2 ^ s) : x ||| (y <<< s) = x + y * 2 ^ s := by
  rw [Nat.shiftLeft_eq, Nat.or_comm, Nat.mul_comm y, ← Nat.mul_add_lt_is_or hx, Nat.add_comm]

theorem readVarIntLoop_last (k b x s i : Nat) (rest : List Nat) (hb : b < 128)
    (h9 : ¬ (i = 9 ∧ b > 1)) :
    readVarIntLoop (k + 1) (b :: rest) x s i = (x ||| ((b <<< s) % 2 ^ 64), i + 1, none) := by
  simp only [readVarIntLoop]
  rw [if_pos (by simpa using hb), if_neg h9]

theorem readVarIntLoop_more (k b x s i : Nat) (rest : List Nat) (hb : ¬ b < 128) :
    readVarIntLoop (k + 1) (b :: rest) x s i
      = readVarIntLoop k rest (x ||| (((b &&& 0x7f) <<< s) % 2 ^ 64)) (s + 7) (i + 1) := by
  simp only [readVarIntLoop]
  rw [if_neg (by simpa using hb)]

theorem or_shift_mod_eq_add (x y s : Nat) (hx : x < 2 ^ s) (hy : y * 2 ^ s < 2 ^ 64) :
    x ||| ((y <<< s) % 2 ^ 64) = x + y * 2 ^ s := by
  have hmod : (y <<< s) % 2 ^ 64 = y <<< s := by
    rw [Nat.shiftLeft_eq]; exact Nat.mod_eq_of_lt hy
  rw [hmod, or_shift_eq_add x y s hx]

theorem two_pow_seven_succ (i : Nat) : (2 : Nat) ^ (7 * (i + 1)) = 128 * 2 ^ (7 * i) := by
  rw [Nat.mul_add, Nat.pow_add, Nat.mul_comm]

theorem readVarIntLoop_encode (k : Nat) : ∀ (m x i : Nat) (rest : List Nat),
    i + k = 10 → x < 2 ^ (7 * i) → x + m * 2 ^ (7 * i) < 2 ^ 64 → 0 < k →
    readVarIntLoop k (encodeVarint m ++ rest) x (7 * i) i
      = (x + m * 2 ^ (7 * i), i + (encodeVarint m).length, none) := by
  induction k with
  | zero => intro m x i rest _ _ _ hk; omega
  | succ k ih =>
    intro m x i rest hik hx hm _
    have hpos : 0 < 2 ^ (7 * i) := Nat.two_pow_pos _
    by_cases hsmall : m < 128
    · rw [encodeVarint_small m hsmall]
      have hms : m * 2 ^ (7 * i) < 2 ^ 64 := by omega
      have h9 : ¬ (i = 9 ∧ m > 1) := by
        rintro ⟨h9, h1⟩
        subst h9
        have : 2 * 2 ^ (7 * 9) ≤ m * 2 ^ (7 * 9) := Nat.mul_le_mul_right _ h1
        norm_num at this hms
        omega
      rw [List.singleton_append, readVarIntLoop_last k m x _ i rest hsmall h9,
        or_shift_mod_eq_add x m _ hx hms, List.length_singleton]
    · rw [encodeVarint_large m hsmall]
      have hb : ¬ (m % 128 + 128 < 128) := by omega
      have hand : (m % 128 + 128) &&& 0x7f = m % 128 := by
        have := Nat.and_pow_two_sub_one_eq_mod (m % 128 + 128) 7
        norm_num at this
        exact this.trans (by omega)
      have hsplit : m * 2 ^ (7 * i) = (m % 128) * 2 ^ (7 * i) + (m / 128) * 2 ^ (7 * (i + 1)) := by
        rw [two_pow_seven_succ, ← Nat.mul_assoc, ← Nat.add_mul, Nat.mod_add_div']
      have hlow : (m % 128) * 2 ^ (7 * i) < 2 ^ 64 := by
        have : (m % 128) * 2 ^ (7 * i) ≤ m * 2 ^ (7 * i) := Nat.mul_le_mul_right _ (Nat.mod_le _ _)
        omega
      have hk : 0 < k := by
        rcases Nat.eq_zero_or_pos k with h0 | h0
        · subst h0
          have hi : i = 9 := by omega
          subst hi
          have : 128 * 2 ^ (7 * 9) ≤ m * 2 ^ (7 * 9) := Nat.mul_le_mul_right _ (by omega)
          norm_num at this hm
          omega
        · exact h0
      have hx' : x + (m % 128) * 2 ^ (7 * i) < 2 ^ (7 * (i + 1)) := by
        rw [two_pow_seven_succ]
        have : (m % 128) * 2 ^ (7 * i) ≤ 127 * 2 ^ (7 * i) := Nat.mul_le_mul_right _ (by omega)
        omega
      have step := ih (m / 128) (x + (m % 128) * 2 ^ (7 * i)) (i + 1) rest (by omega) hx'
        (by rw [hsplit] at hm; omega) hk
      rw [List.cons_append, readVarIntLoop_more k _ x _ i _ hb, hand,
        or_shift_mod_eq_add x _ _ hx hlow, show 7 * i + 7 = 7 * (i + 1) by ring, step, hsplit,
        List.length_cons]
      simp only [Prod.mk.injEq, and_true]
      constructor <;> omega

theorem readVarInt_encode (n : Nat) (r : List Nat) (hn : n < 2 ^ 64) :
    readVarInt (encodeVarint n ++ r) = (n, (encodeVarint n).length, none) := by
  have := readVarIntLoop_encode 10 n 0 0 r (by decide) (by decide) (by simpa using hn) (by decide)
  simpa [readVarInt] using this


theorem encodeVarint_length_pos (n : Nat) : 0 < (encodeVarint n).length := by
  by_cases h : n < 128
  · rw [encodeVarint_small n h]; simp
  · rw [encodeVarint_large n h]; simp

theorem uint64ToInt_of_lt (n : Nat) (h : n < 2 ^ 63) : uint64ToInt n = (n : Int) := by
  have h1 : n % 2 ^ 64 = n := Nat.mod_eq_of_lt (by omega)
  unfold uint64ToInt
  rw [h1, if_pos h]

theorem buildProtobufFromTag_supported (proto : Proto M) (t : Nat) (ht : t ∈ supportedTags) :
    buildProtobufFromTag proto t = Except.ok (proto.zero t) := by
  simp only [supportedTags, List.mem_cons, List.mem_singleton, List.not_mem_nil, or_false] at ht
  rcases ht with h | h | h | h | h | h | h | h <;> subst h <;> rfl

theorem exec_succ (proto : Proto M) (fuel : Nat) (m : Method) (p : Parser M) :
    exec proto (fuel + 1) m p =
      match methodBody proto m p with
      | Next.ret q => some q
      | Next.call m' q => exec proto fuel m' q := rfl

/-- A run that returns within `fuel` method bodies returns the same state
under every larger bound. -/
theorem exec_mono (proto : Proto M) (fuel : Nat) : ∀ (fuel' : Nat) (m : Method) (p q : Parser M),
    fuel ≤ fuel' → exec proto fuel m p = some q → exec proto fuel' m p = some q := by
  induction fuel with
  | zero => intro fuel' m p q _ h; simp [exec] at h
  | succ f ih =>
    intro fuel' m p q hle h
    obtain ⟨f', rfl⟩ : ∃ f', fuel' = f' + 1 := ⟨fuel' - 1, by omega⟩
    rw [exec_succ] at h ⊢
    cases hb : methodBody proto m p with
    | ret r => rw [hb] at h; exact h
    | call m' r =>
      rw [hb] at h
      exact ih f' m' r q (by omega) h

theorem onData_mono (proto : Proto M) (fuel fuel' : Nat) (p q : Parser M) (buffer : List Nat)
    (hle : fuel ≤ fuel') (h : onData proto fuel p buffer = some q) :
    onData proto fuel' p buffer = some q := by
  unfold onData at h ⊢
  by_cases hw : p.isWaitingForData = true
  · simp only [hw, if_true] at h ⊢
    exact exec_mono proto fuel fuel' _ _ _ hle h
  · simp only [hw] at h ⊢
    exact h

theorem exec_call (proto : Proto M) (fuel : Nat) (m m' : Method) (p q : Parser M)
    (h : methodBody proto m p = Next.call m' q) :
    exec proto (fuel + 1) m p = exec proto fuel m' q := by
  rw [exec_succ, h]

theorem exec_ret (proto : Proto M) (fuel : Nat) (m : Method) (p q : Parser M)
    (h : methodBody proto m p = Next.ret q) :
    exec proto (fuel + 1) m p = some q := by
  rw [exec_succ, h]

/-- C1. Feeding a fresh parser the bytes `[41, t] ++ varint(len p) ++ p`, for a
supported tag `t` and a payload `p` that unmarshals to the record `r`, calls the
message sink exactly once, with tag `t` and the record decoded from `p` (the
empty record of the tag when `p` is empty), and never calls the error sink; the
call chain returns within eight method bodies, the buffer is left empty and the
parser waits for the next record. -/
theorem parse_single_frame (proto : Proto M) (t : Nat) (p : List Nat) (r : M) (fuel : Nat)
    (ht : t ∈ supportedTags) (hlen : p.length < 2 ^ 63)
    (hdec : proto.unmarshal p (proto.zero t) = Except.ok r) (hfuel : 8 ≤ fuel) :
    ∃ q, onData proto fuel (NewParser M) ([41, t] ++ encodeVarint p.length ++ p) = some q ∧
      q.events = [Event.message t (if p = [] then proto.zero t else r)] ∧
      q.crashed = false ∧ q.data = [] ∧ q.isWaitingForData = true := by
  obtain ⟨f, rfl⟩ : ∃ f, fuel = f + 8 := ⟨fuel - 8, by omega⟩
  have hvar := readVarInt_encode p.length p (by omega)
  have hpos := encodeVarint_length_pos p.length
  have hbuild := buildProtobufFromTag_supported proto t ht
  have hconv := uint64ToInt_of_lt p.length hlen
  have e1 : methodBody proto Method.waitForData
      ⟨0, 41 :: t :: (encodeVarint p.length ++ p), 0, 0, 0, false, false, [], false⟩
      = Next.call Method.onGotVersion
        ⟨0, 41 :: t :: (encodeVarint p.length ++ p), 0, 0, 0, false, false, [], false⟩ := by
    simp [methodBody, waitForData, minBytesNeeded, MCSVersionTagAndSize, VersionPacketLen,
      TagPacketLen, SizePacketLenMin]
    omega
  have e2 : methodBody proto Method.onGotVersion
      ⟨0, 41 :: t :: (encodeVarint p.length ++ p), 0, 0, 0, false, false, [], false⟩
      = Next.call Method.onGotMessageTag
        ⟨0, t :: (encodeVarint p.length ++ p), 0, 0, 0, false, false, [], false⟩ := by
    simp [methodBody, onGotVersion, MCSVersion]
  have e3 : methodBody proto Method.onGotMessageTag
      ⟨0, t :: (encodeVarint p.length ++ p), 0, 0, 0, false, false, [], false⟩
      = Next.call Method.onGotMessageSize
        ⟨0, encodeVarint p.length ++ p, 0, t, 0, false, false, [], false⟩ := by
    simp [methodBody, onGotMessageTag]
  have e8 : ∀ (ev : List (Event M)) (st : Nat) (sz : Int) (hs : Bool),
      methodBody proto Method.getNextMessage ⟨st, [], 0, t, sz, hs, false, ev, false⟩
      = Next.call Method.waitForData ⟨1, [], 0, 0, 0, hs, false, ev, false⟩ := by
    intro ev st sz hs
    simp [methodBody, getNextMessage, MCSTagAndSize]
  have e9 : ∀ (ev : List (Event M)) (hs : Bool), methodBody proto Method.waitForData
      ⟨1, [], 0, 0, 0, hs, false, ev, false⟩
      = Next.ret ⟨1, [], 0, 0, 0, hs, true, ev, false⟩ := by
    intro ev hs
    simp [methodBody, waitForData, minBytesNeeded, MCSVersionTagAndSize, MCSTagAndSize,
      TagPacketLen, SizePacketLenMin]
  have h1 : onData proto (f + 8) (NewParser M) ([41, t] ++ encodeVarint p.length ++ p)
      = exec proto (f + 5) Method.onGotMessageSize
          ⟨0, encodeVarint p.length ++ p, 0, t, 0, false, false, [], false⟩ := by
    simp only [onData, NewParser, List.nil_append, if_true, MCSVersionTagAndSize, List.cons_append]
    rw [exec_call proto (f + 7) _ _ _ _ e1, exec_call proto (f + 6) _ _ _ _ e2,
      exec_call proto (f + 5) _ _ _ _ e3]
  rw [h1]
  by_cases hp : p = []
  · subst hp
    have e4 : methodBody proto Method.onGotMessageSize
        ⟨0, encodeVarint ([] : List Nat).length ++ [], 0, t, 0, false, false, [], false⟩
        = Next.call Method.onGotMessageBytes ⟨0, [], 0, t, 0, false, false, [], false⟩ := by
      have h0 : uint64ToInt 0 = 0 := by decide
      simp only [methodBody, onGotMessageSize, hvar]
      simp [h0]
    have e5 : methodBody proto Method.onGotMessageBytes ⟨0, [], 0, t, 0, false, false, [], false⟩
        = Next.call Method.getNextMessage
          ⟨0, [], 0, t, 0, false, false, [Event.message t (proto.zero t)], false⟩ := by
      simp [methodBody, onGotMessageBytes, hbuild, emitMessage]
    rw [exec_call proto (f + 4) _ _ _ _ e4, exec_call proto (f + 3) _ _ _ _ e5,
      exec_call proto (f + 2) _ _ _ _ (e8 _ _ _ _), exec_ret proto (f + 1) _ _ _ (e9 _ _)]
    exact ⟨_, rfl, by simp, rfl, rfl, rfl⟩
  · have hL : 0 < p.length := List.length_pos.mpr hp
    have e4 : methodBody proto Method.onGotMessageSize
        ⟨0, encodeVarint p.length ++ p, 0, t, 0, false, false, [], false⟩
        = Next.call Method.waitForData ⟨3, p, 0, t, p.length, false, false, [], false⟩ := by
      simp only [methodBody, onGotMessageSize, hvar]
      simp [hconv, hL, MCSProtoBytes]
    have e5 : methodBody proto Method.waitForData ⟨3, p, 0, t, p.length, false, false, [], false⟩
        = Next.call Method.onGotMessageBytes
          ⟨3, p, 0, t, p.length, false, false, [], false⟩ := by
      simp [methodBody, waitForData, minBytesNeeded, MCSVersionTagAndSize, MCSTagAndSize, MCSSize,
        MCSProtoBytes]
    have e6 : methodBody proto Method.onGotMessageBytes
        ⟨3, p, 0, t, p.length, false, false, [], false⟩
        = Next.call Method.getNextMessage
          ⟨3, [], 0, t, p.length, decide (t = 3), false, [Event.message t r], false⟩ := by
      have hneg : ¬ ((p.length : Int) < 0) := by omega
      have hne : ¬ ((p.length : Int) = 0) := by omega
      simp only [methodBody, onGotMessageBytes, hbuild]
      by_cases h3 : t = 3
      · subst h3
        simp [hneg, hne, hdec, emitMessage, LoginResponseTag]
      · simp [hneg, hne, hdec, emitMessage, LoginResponseTag, h3]
    rw [exec_call proto (f + 4) _ _ _ _ e4, exec_call proto (f + 3) _ _ _ _ e5,
      exec_call proto (f + 2) _ _ _ _ e6, exec_call proto (f + 1) _ _ _ _ (e8 _ _ _ _),
      exec_ret proto f _ _ _ (e9 _ _)]
    exact ⟨_, rfl, by simp [hp], rfl, rfl, rfl⟩

/-- C1 at the data-message tag with the three-byte payload `[10, 20, 30]`. -/
theorem parse_single_frame_witness :
    ∃ q, onData bytesProto 8 (NewParser (List Nat))
        ([41, 8] ++ encodeVarint [10, 20, 30].length ++ [10, 20, 30]) = some q ∧
      q.events = [Event.message 8 (if [10, 20, 30] = [] then bytesProto.zero 8 else [10, 20, 30])] ∧
      q.crashed = false ∧ q.data = [] ∧ q.isWaitingForData = true :=
  parse_single_frame bytesProto 8 [10, 20, 30] [10, 20, 30] 8
    (by decide) (by decide) rfl (by decide)

/-- C4. For every 64-bit unsigned value `n` and every byte string `r`,
`readVarInt` applied to the standard encoding of `n` followed by `r` returns the
value `n`, a byte count equal to the length of the encoding, and no error. -/
theorem readVarInt_encodeVarint (n : Nat) (r : List Nat) (hn : n < 2 ^ 64) :
    readVarInt (encodeVarint n ++ r) = (n, (encodeVarint n).length, none) :=
  readVarInt_encode n r hn

/-- C4 at the boundary values 0, 1, 127, 128, 16383 and 16384. -/
theorem readVarInt_encodeVarint_witness :
    readVarInt (encodeVarint 0 ++ [7]) = (0, (encodeVarint 0).length, none) ∧
    readVarInt (encodeVarint 1 ++ [7]) = (1, (encodeVarint 1).length, none) ∧
    readVarInt (encodeVarint 127 ++ [7]) = (127, (encodeVarint 127).length, none) ∧
    readVarInt (encodeVarint 128 ++ [7]) = (128, (encodeVarint 128).length, none) ∧
    readVarInt (encodeVarint 16383 ++ [7]) = (16383, (encodeVarint 16383).length, none) ∧
    readVarInt (encodeVarint 16384 ++ [7]) = (16384, (encodeVarint 16384).length, none) :=
  ⟨readVarInt_encodeVarint 0 [7] (by decide), readVarInt_encodeVarint 1 [7] (by decide),
    readVarInt_encodeVarint 127 [7] (by decide), readVarInt_encodeVarint 128 [7] (by decide),
    readVarInt_encodeVarint 16383 [7] (by decide), readVarInt_encodeVarint 16384 [7] (by decide)⟩

/-- C2, the code at the stream of the test (`0x99`, login-response tag, size 1,
one zero byte): `onGotVersion` rejects a version only when it is below 41 and
differs from 38, so the byte `0x99` is accepted, the frame is handed to the
protobuf decoder and no version error reaches the error sink. -/
theorem version_0x99_not_rejected (proto : Proto M) :
    ∃ q, onData proto 8 (NewParser M) [0x99, LoginResponseTag, 1, 0] = some q ∧
      q.events = (match proto.unmarshal [0] (proto.zero LoginResponseTag) with
        | Except.ok msg => [Event.message LoginResponseTag msg]
        | Except.error cause => [Event.error (ParserError.unmarshalFailed cause)]) ∧
      ∀ e, Event.error e ∈ q.events → e.isVersionError = false := by
  have h1 : onData proto 8 (NewParser M) [0x99, LoginResponseTag, 1, 0]
      = exec proto 3 Method.onGotMessageBytes ⟨3, [0], 0, 3, 1, false, false, [], false⟩ := rfl
  rw [h1]
  cases h : proto.unmarshal [0] (proto.zero LoginResponseTag) with
  | error cause =>
    have e : methodBody proto Method.onGotMessageBytes ⟨3, [0], 0, 3, 1, false, false, [], false⟩
        = Next.call Method.getNextMessage
          ⟨3, [], 0, 3, 1, false, false, [Event.error (ParserError.unmarshalFailed cause)], false⟩ := by
      have h' : proto.unmarshal [0] (proto.zero 3) = Except.error cause := h
      simp [methodBody, onGotMessageBytes, buildProtobufFromTag, HeartbeatPingTag, HeartbeatAckTag,
        LoginRequestTag, LoginResponseTag, h', emitError]
    rw [exec_call proto 2 _ _ _ _ e]
    refine ⟨_, rfl, rfl, ?_⟩
    intro e he
    have : e = ParserError.unmarshalFailed cause := by simpa using he
    subst this
    rfl
  | ok msg =>
    have e : methodBody proto Method.onGotMessageBytes ⟨3, [0], 0, 3, 1, false, false, [], false⟩
        = Next.call Method.getNextMessage
          ⟨3, [], 0, 3, 1, true, false, [Event.message 3 msg], false⟩ := by
      have h' : proto.unmarshal [0] (proto.zero 3) = Except.ok msg := h
      simp [methodBody, onGotMessageBytes, buildProtobufFromTag, HeartbeatPingTag, HeartbeatAckTag,
        LoginRequestTag, LoginResponseTag, h', emitMessage]
    rw [exec_call proto 2 _ _ _ _ e]
    refine ⟨_, rfl, rfl, ?_⟩
    intro e he
    simp at he

/-- C3, the code at `[41, 99, 1, 7, 0, 0]`: unknown tag 99 with one payload byte
`7`, followed by the valid frame `[0, 0]` (heartbeat ping, empty).  After the
unknown-tag error the payload byte is read as the tag of the next record: the
parser dispatches an `IqStanza` (tag 7) and keeps the last byte as a pending
tag, instead of skipping the payload and dispatching the heartbeat ping. -/
theorem unknown_tag_payload_not_skipped (proto : Proto M) :
    ∃ q, onData proto 14 (NewParser M) [41, 99, 1, 7, HeartbeatPingTag, 0] = some q ∧
      q.events = [Event.error (ParserError.unknownTag 99), Event.message IqStanzaTag (proto.zero IqStanzaTag)] ∧
      q.data = [0] ∧ q.isWaitingForData = true :=
  ⟨_, rfl, rfl, rfl, rfl⟩

theorem readVarInt_ten_continuation (rest : List Nat) :
    readVarInt ([0x80, 0x80, 0x80, 0x80, 0x80, 0x80, 0x80, 0x80, 0x80, 0x80] ++ rest)
      = (0, 10, some VarIntError.tooLong) := by
  simp [readVarInt, readVarIntLoop]

/-- C5, the code at two frames with a length field of more than five bytes.  On
`[41, 0, 80 80 80 80 80 00]` the six-byte varint is decoded (length 0) and the
heartbeat ping is dispatched; on `[41, 8, 80 (ten times), 01]` `readVarInt`
returns its error for a varint that is too long, `onGotMessageSize` takes it
for an incomplete varint and the parser waits for more data.  In neither case
is anything handed to the error sink. -/
theorem long_varint_not_reported :
    (∃ q, onData bytesProto 8 (NewParser (List Nat))
        [41, HeartbeatPingTag, 0x80, 0x80, 0x80, 0x80, 0x80, 0x00] = some q ∧
      q.events = [Event.message HeartbeatPingTag []]) ∧
    (∃ q, onData bytesProto 8 (NewParser (List Nat))
        [41, DataMessageStanzaTag, 0x80, 0x80, 0x80, 0x80, 0x80, 0x80, 0x80, 0x80, 0x80, 0x80, 0x01]
          = some q ∧
      q.events = [] ∧ q.isWaitingForData = true ∧ q.state = MCSSize) :=
  ⟨⟨_, rfl, rfl⟩, ⟨_, rfl, rfl, rfl, rfl⟩⟩

/-- What the code does with a length varint that occupies more than five bytes
and encodes a length `L` below `2 ^ 63`: the varint is decoded, and with fewer
than `L` payload bytes in the buffer the parser stores `L` as the message size,
keeps the payload bytes, waits for more data and calls neither sink. -/
theorem long_varint_decoded (proto : Proto M) (t L : Nat) (rest : List Nat) (fuel : Nat)
    (hlong : 5 < (encodeVarint L).length) (hL : L < 2 ^ 63) (hrest : rest.length < L)
    (hfuel : 5 ≤ fuel) :
    ∃ q, onData proto fuel (NewParser M) ([41, t] ++ encodeVarint L ++ rest) = some q ∧
      q.events = [] ∧ q.messageSize = (L : Int) ∧ q.data = rest ∧ q.state = MCSProtoBytes ∧
      q.isWaitingForData = true ∧ q.crashed = false := by
  obtain ⟨f, rfl⟩ : ∃ f, fuel = f + 5 := ⟨fuel - 5, by omega⟩
  have hvar := readVarInt_encode L rest (by omega)
  have hconv := uint64ToInt_of_lt L hL
  have hpos : 0 < L := by omega
  have e1 : methodBody proto Method.waitForData
      ⟨0, 41 :: t :: (encodeVarint L ++ rest), 0, 0, 0, false, false, [], false⟩
      = Next.call Method.onGotVersion
        ⟨0, 41 :: t :: (encodeVarint L ++ rest), 0, 0, 0, false, false, [], false⟩ := by
    simp [methodBody, waitForData, minBytesNeeded, MCSVersionTagAndSize, VersionPacketLen,
      TagPacketLen, SizePacketLenMin]
    omega
  have e2 : methodBody proto Method.onGotVersion
      ⟨0, 41 :: t :: (encodeVarint L ++ rest), 0, 0, 0, false, false, [], false⟩
      = Next.call Method.onGotMessageTag
        ⟨0, t :: (encodeVarint L ++ rest), 0, 0, 0, false, false, [], false⟩ := by
    simp [methodBody, onGotVersion, MCSVersion]
  have e3 : methodBody proto Method.onGotMessageTag
      ⟨0, t :: (encodeVarint L ++ rest), 0, 0, 0, false, false, [], false⟩
      = Next.call Method.onGotMessageSize
        ⟨0, encodeVarint L ++ rest, 0, t, 0, false, false, [], false⟩ := by
    simp [methodBody, onGotMessageTag]
  have e4 : methodBody proto Method.onGotMessageSize
      ⟨0, encodeVarint L ++ rest, 0, t, 0, false, false, [], false⟩
      = Next.call Method.waitForData ⟨3, rest, 0, t, L, false, false, [], false⟩ := by
    simp only [methodBody, onGotMessageSize, hvar]
    simp [hconv, hpos, MCSProtoBytes]
  have e5 : methodBody proto Method.waitForData ⟨3, rest, 0, t, L, false, false, [], false⟩
      = Next.ret ⟨3, rest, 0, t, L, false, true, [], false⟩ := by
    simp [methodBody, waitForData, minBytesNeeded, MCSVersionTagAndSize, MCSTagAndSize, MCSSize,
      MCSProtoBytes, hrest]
  have h1 : onData proto (f + 5) (NewParser M) ([41, t] ++ encodeVarint L ++ rest)
      = some ⟨3, rest, 0, t, L, false, true, [], false⟩ := by
    simp only [onData, NewParser, List.nil_append, if_true, MCSVersionTagAndSize, List.cons_append]
    rw [exec_call proto (f + 4) _ _ _ _ e1, exec_call proto (f + 3) _ _ _ _ e2,
      exec_call proto (f + 2) _ _ _ _ e3, exec_call proto (f + 1) _ _ _ _ e4,
      exec_ret proto f _ _ _ e5]
  exact ⟨_, h1, rfl, rfl, rfl, rfl, rfl, rfl⟩

/-- The length `2 ^ 35`, whose varint has six bytes, as an instance. -/
theorem long_varint_decoded_witness :
    ∃ q, onData bytesProto 5 (NewParser (List Nat))
        ([41, 8] ++ encodeVarint 34359738368 ++ [1, 2, 3]) = some q ∧
      q.events = [] ∧ q.messageSize = ((34359738368 : Nat) : Int) ∧ q.data = [1, 2, 3] ∧
      q.state = MCSProtoBytes ∧ q.isWaitingForData = true ∧ q.crashed = false :=
  long_varint_decoded bytesProto 8 34359738368 [1, 2, 3] 5 (by decide) (by decide) (by decide)
    (by decide)

/-! ## Theorems: persistent-id dedup -/

theorem alreadySeen_of_mem (ids : List String) (pid : String) (h : pid ∈ ids) :
    alreadySeen ids (some pid) = some true := by
  induction ids with
  | nil => cases h
  | cons id rest ih =>
    by_cases hid : id = pid
    · simp [alreadySeen, hid]
    · have hrest : pid ∈ rest := by
        rcases List.mem_cons.mp h with h | h
        · exact absurd h.symm hid
        · exact h
      simp [alreadySeen, hid, ih hrest]

theorem mem_of_alreadySeen (ids : List String) (pidOpt : Option String)
    (h : alreadySeen ids pidOpt = some true) : ∃ pid, pidOpt = some pid ∧ pid ∈ ids := by
  induction ids with
  | nil => simp [alreadySeen] at h
  | cons id rest ih =>
    cases pidOpt with
    | none => simp [alreadySeen] at h
    | some pid =>
      by_cases hid : id = pid
      · exact ⟨pid, rfl, by simp [hid]⟩
      · simp only [alreadySeen, hid, if_false] at h
        obtain ⟨q, hq, hmem⟩ := ih h
        exact ⟨q, hq, List.mem_cons_of_mem _ hmem⟩

theorem notify_persistentIDs (c : Client J) (n : Notification J) :
    (notify c n).persistentIDs = c.persistentIDs := by
  unfold notify
  split <;> rfl

theorem recordAndNotify_ids (c c' : Client J) (msg : DataMessageStanza)
    (message : NotificationMessage J) (h : recordAndNotify c msg message = some c') :
    ∃ pid, msg.PersistentId = some pid ∧ c'.persistentIDs = c.persistentIDs ++ [pid] := by
  unfold recordAndNotify at h
  cases hp : msg.PersistentId with
  | none => simp [hp] at h
  | some pid =>
    simp only [hp, Option.some.injEq] at h
    subst h
    exact ⟨pid, rfl, by rw [notify_persistentIDs]⟩

/-- After a call that returns, the persistent id of the stanza is in the set and
every id that was in the set still is. -/
theorem processDataMessage_ids (decryptMessage : EncryptedMessage → Keys → Except String J)
    (c c' : Client J) (msg : DataMessageStanza)
    (h : processDataMessage decryptMessage c msg = some c') :
    (∃ pid, msg.PersistentId = some pid ∧ pid ∈ c'.persistentIDs) ∧
      ∀ x ∈ c.persistentIDs, x ∈ c'.persistentIDs := by
  have key : ∀ (d : Client J),
      (∃ pid, msg.PersistentId = some pid ∧ c'.persistentIDs = d.persistentIDs ++ [pid]) →
      d.persistentIDs = c.persistentIDs →
      (∃ pid, msg.PersistentId = some pid ∧ pid ∈ c'.persistentIDs) ∧
        ∀ x ∈ c.persistentIDs, x ∈ c'.persistentIDs := by
    intro d ⟨pid, hp, hc'⟩ hd
    refine ⟨⟨pid, hp, by rw [hc']; simp⟩, ?_⟩
    intro x hx
    rw [hc', hd]
    exact List.mem_append_left _ hx
  unfold processDataMessage at h
  cases hseen : alreadySeen c.persistentIDs msg.PersistentId with
  | none => simp [hseen] at h
  | some b =>
    cases b with
    | true =>
      simp only [hseen, Option.some.injEq] at h
      subst h
      exact ⟨mem_of_alreadySeen _ _ hseen, fun x hx => hx⟩
    | false =>
      simp only [hseen] at h
      split at h
      · exact key _ (recordAndNotify_ids _ _ _ _ h) rfl
      · split at h
        · exact key _ (recordAndNotify_ids _ _ _ _ h) rfl
        · split at h
          · simp at h
          · split at h
            · split at h
              · split at h
                · simp at h
                · rename_i pid hp
                  simp only [Option.some.injEq] at h
                  subst h
                  exact key { c with nextAddr := (hasCryptoKeyLoop msg.AppData c.nextAddr).2 }
                    ⟨pid, hp, rfl⟩ rfl
              · exact key _ (recordAndNotify_ids _ _ _ _ h) rfl
            · exact key _ (recordAndNotify_ids _ _ _ _ h) rfl

theorem processDataMessages_ids (decryptMessage : EncryptedMessage → Keys → Except String J)
    (between : List DataMessageStanza) : ∀ (c c' : Client J),
    processDataMessages decryptMessage c between = some c' →
      ∀ x ∈ c.persistentIDs, x ∈ c'.persistentIDs := by
  induction between with
  | nil =>
    intro c c' h x hx
    simp only [processDataMessages, Option.some.injEq] at h
    subst h
    exact hx
  | cons msg rest ih =>
    intro c c' h x hx
    simp only [processDataMessages] at h
    cases h1 : processDataMessage decryptMessage c msg with
    | none => simp [h1] at h
    | some c1 =>
      simp only [h1] at h
      exact ih c1 c' h x ((processDataMessage_ids decryptMessage c c1 msg h1).2 x hx)

/-- C6. Once `processDataMessage` has processed a stanza with persistent id `p`
(in whichever branch), and after any further stanzas processed in the same
session, processing a stanza with the same persistent id invokes the
notification callback zero times and leaves the persistent-id set unchanged. -/
theorem dedup_idempotence (decryptMessage : EncryptedMessage → Keys → Except String J)
    (c c1 c2 : Client J) (msg dup : DataMessageStanza) (between : List DataMessageStanza)
    (hfirst : processDataMessage decryptMessage c msg = some c1)
    (hbetween : processDataMessages decryptMessage c1 between = some c2)
    (hsame : dup.PersistentId = msg.PersistentId) :
    ∃ c3, processDataMessage decryptMessage c2 dup = some c3 ∧
      c3.delivered = c2.delivered ∧ c3.persistentIDs = c2.persistentIDs := by
  obtain ⟨⟨pid, hp, hmem⟩, -⟩ := processDataMessage_ids decryptMessage c c1 msg hfirst
  have hmem2 := processDataMessages_ids decryptMessage between c1 c2 hbetween pid hmem
  refine ⟨c2, ?_, rfl, rfl⟩
  unfold processDataMessage
  rw [hsame, hp, alreadySeen_of_mem _ _ hmem2]

/-- C6 for a stanza delivered raw and then delivered again. -/
theorem dedup_idempotence_witness :
    ∃ c3, processDataMessage (fun _ _ => (Except.error "salt is missing" : Except String Unit))
        (Client.mk ["p1"] none true
          [Notification.mk NotificationMessage.raw "p1" (DataMessageStanza.mk (some "p1") [] [])] 0)
        (DataMessageStanza.mk (some "p1") [] [9]) = some c3 ∧
      c3.delivered = (Client.mk ["p1"] none true
        [Notification.mk NotificationMessage.raw "p1" (DataMessageStanza.mk (some "p1") [] [])]
        0 : Client Unit).delivered ∧
      c3.persistentIDs = (Client.mk ["p1"] none true
        [Notification.mk NotificationMessage.raw "p1" (DataMessageStanza.mk (some "p1") [] [])]
        0 : Client Unit).persistentIDs :=
  dedup_idempotence (fun _ _ => Except.error "salt is missing")
    (Client.mk [] none true [] 0)
    (Client.mk ["p1"] none true
      [Notification.mk NotificationMessage.raw "p1" (DataMessageStanza.mk (some "p1") [] [])] 0)
    (Client.mk ["p1"] none true
      [Notification.mk NotificationMessage.raw "p1" (DataMessageStanza.mk (some "p1") [] [])] 0)
    (DataMessageStanza.mk (some "p1") [] []) (DataMessageStanza.mk (some "p1") [] [9]) []
    rfl rfl rfl

theorem hasCryptoKeyLoop_fresh (items : List AppData) : ∀ (next : Nat),
    (∀ appData ∈ items, ∀ k, appData.Key = some k → k.addr < next) →
    (hasCryptoKeyLoop items next).1 = false := by
  induction items with
  | nil => intro next _; rfl
  | cons appData rest ih =>
    intro next h
    have hne : ptrEq appData.Key (some (protoString next "crypto-key").1) = false := by
      cases hk : appData.Key with
      | none => rfl
      | some k =>
        have := h appData (List.mem_cons_self _ _) k hk
        simp only [ptrEq, protoString, beq_eq_false_iff_ne, ne_eq]
        omega
    simp only [hasCryptoKeyLoop, hne]
    apply ih
    intro a ha k hk
    have := h a (List.mem_cons_of_mem _ ha) k hk
    simp only [protoString]
    omega

/-- C7. After `onMessage` handles a `LoginResponse` the persistent-id set is
empty, whatever it held before, and a `DataMessageStanza` processed next (its
pointers allocated before the call, a callback installed) is delivered to the
notification callback with its persistent id `p`, also when `p` was in the set
before the login response. -/
theorem login_response_clears_ids (decryptMessage : EncryptedMessage → Keys → Except String J)
    (c : Client J) (login : ProtoMessage) (msg : DataMessageStanza) (p : String)
    (hcallback : c.onNotification = true) (hp : msg.PersistentId = some p)
    (hfresh : msg.allocatedBefore c.nextAddr) :
    ∃ c1 c2, onMessage decryptMessage c LoginResponseTag login = some c1 ∧
      c1.persistentIDs = [] ∧
      onMessage decryptMessage c1 DataMessageStanzaTag (ProtoMessage.dataMessageStanza msg)
        = some c2 ∧
      c2.delivered = c.delivered ++ [Notification.mk NotificationMessage.raw p msg] ∧
      c2.persistentIDs = [p] := by
  have hloop := hasCryptoKeyLoop_fresh msg.AppData c.nextAddr hfresh
  have h1 : onMessage decryptMessage c LoginResponseTag login
      = some { c with persistentIDs := [] } := by
    simp [onMessage]
  have h2 : onMessage decryptMessage { c with persistentIDs := [] } DataMessageStanzaTag
      (ProtoMessage.dataMessageStanza msg)
      = some { c with
          persistentIDs := [p]
          delivered := c.delivered ++ [Notification.mk NotificationMessage.raw p msg]
          nextAddr := (hasCryptoKeyLoop msg.AppData c.nextAddr).2 } := by
    simp only [onMessage, LoginResponseTag, DataMessageStanzaTag]
    rw [if_neg (by decide), if_pos trivial]
    simp [processDataMessage, alreadySeen, hloop, recordAndNotify, hp, notify, hcallback]
  exact ⟨_, _, h1, rfl, h2, rfl, rfl⟩

/-- C7 with the initial set `p1`, `p2` and a stanza carrying `p1`. -/
theorem login_response_clears_ids_witness :
    ∃ c1 c2, onMessage (fun _ _ => (Except.error "salt is missing" : Except String Unit))
        (Client.mk ["p1", "p2"] none true [] 0) LoginResponseTag ProtoMessage.other = some c1 ∧
      c1.persistentIDs = [] ∧
      onMessage (fun _ _ => (Except.error "salt is missing" : Except String Unit)) c1
        DataMessageStanzaTag (ProtoMessage.dataMessageStanza (DataMessageStanza.mk (some "p1") [] []))
        = some c2 ∧
      c2.delivered = (Client.mk ["p1", "p2"] none true [] 0 : Client Unit).delivered ++
        [Notification.mk NotificationMessage.raw "p1" (DataMessageStanza.mk (some "p1") [] [])] ∧
      c2.persistentIDs = ["p1"] :=
  login_response_clears_ids (fun _ _ => Except.error "salt is missing")
    (Client.mk ["p1", "p2"] none true [] 0) ProtoMessage.other
    (DataMessageStanza.mk (some "p1") [] []) "p1" rfl rfl
    (by intro a ha; cases ha)


/-- C8, the code at a stanza whose only app-data key is the string
`crypto-key` (no `encryption` entry), with credentials set: the key is compared
by address with a freshly allocated string, so `hasCryptoKey` stays false, the
decryptor is never called and the stanza is emitted as a raw notification,
although the error the decryptor returns for it is an ignorable one. -/
theorem crypto_key_stanza_emitted_raw (decryptMessage : EncryptedMessage → Keys → Except String J) :
    processDataMessage decryptMessage
        (Client.mk [] (some (Keys.mk "private" "auth")) true [] 2)
        (DataMessageStanza.mk (some "p1")
          [AppData.mk (some (StrPtr.mk 0 "crypto-key")) (some (StrPtr.mk 1 "dh=BPk"))] [1, 2, 3])
      = some (Client.mk ["p1"] (some (Keys.mk "private" "auth")) true
          [Notification.mk NotificationMessage.raw "p1"
            (DataMessageStanza.mk (some "p1")
              [AppData.mk (some (StrPtr.mk 0 "crypto-key")) (some (StrPtr.mk 1 "dh=BPk"))] [1, 2, 3])]
          3) ∧
      isIgnorableDecryptError "salt is missing" = true := by
  constructor
  · rfl
  · decide

/-- C9, the code at the error of a failed AES-GCM authentication:
`decryptRecord` passes on the error of `gcm.Open`, whose Go text is
`cipher: message authentication failed`, and `isIgnorableDecryptError` returns
false for it; the two missing-header errors are ignorable and malformed
base64, a wrong key length and bad padding are not. -/
theorem gcm_failure_not_ignorable :
    decryptRecord rejectingLib (KeyAndNonce.mk (List.replicate 16 0) (List.replicate 12 0)) 0
        (List.replicate 20 0) sampleParams true
      = Except.error (Failure.error "cipher: message authentication failed") ∧
    isIgnorableDecryptError "cipher: message authentication failed" = false ∧
      isIgnorableDecryptError "crypto-key is missing" = true ∧
      isIgnorableDecryptError "salt is missing" = true ∧
      isIgnorableDecryptError "illegal base64 data at input byte 0" = false ∧
      isIgnorableDecryptError "an explicit key must be 16 bytes" = false ∧
      isIgnorableDecryptError "padding exceeds block size" = false ∧
      isIgnorableDecryptError "invalid padding" = false :=
  ⟨rfl, by decide⟩

/-! ## Theorems: Encrypted-Content-Encoding record layer -/

theorem generateNonce_length (base : List Nat) (counter : Nat) :
    (generateNonce base counter).length = base.length := by
  unfold generateNonce
  split <;> simp

theorem hkdfExpand_one_block (lib : CryptoLib) (prk info : List Nat) (length : Nat)
    (hhmac : ∀ k d, (lib.hmacSha256 k d).length = 32) (h0 : 0 < length) (h32 : length ≤ 32) :
    hkdfExpand lib prk info length = Except.ok ((lib.hmacSha256 prk (info ++ [1])).take length) := by
  obtain ⟨n, rfl⟩ : ∃ n, length = n + 1 := ⟨length - 1, by omega⟩
  have hlen := hhmac prk (info ++ [1])
  simp only [hkdfExpand, hkdfExpandLoop, hmacHash, List.length_nil, List.nil_append]
  rw [if_pos (by omega), if_neg (by simp only [Nat.zero_add, Nat.one_mod]; omega)]

theorem hkdfExpand_length (lib : CryptoLib) (prk info out : List Nat) (length : Nat)
    (hhmac : ∀ k d, (lib.hmacSha256 k d).length = 32) (h0 : 0 < length) (h32 : length ≤ 32)
    (h : hkdfExpand lib prk info length = Except.ok out) : out.length = length := by
  rw [hkdfExpand_one_block lib prk info length hhmac h0 h32] at h
  injection h with h
  subst h
  simp [hhmac, h32]

theorem deriveKeyAndNonce_aesgcm (lib : CryptoLib) (params : ECEParams) (key salt : List Nat)
    (mode : String) (hhmac : ∀ k d, (lib.hmacSha256 k d).length = 32)
    (hv : params.Version = VersionAesGcm) (hk : params.Key = some key) (hkl : key.length = 16)
    (hs : params.Salt = some salt) (hsl : salt ≠ []) :
    ∃ kn, deriveKeyAndNonce lib params mode none = Except.ok kn ∧
      kn.key.length = 16 ∧ kn.nonce.length = 12 := by
  have hsalt : ¬ (sliceBytes params.Salt).length = 0 := by
    rw [hs]; simpa [sliceBytes] using hsl
  have hsec : ∃ secret, extractSecretAndContext lib params mode
      = Except.ok (secretContext.mk (some secret) []) := by
    unfold extractSecretAndContext
    simp only [hk, hkl, KeyLength, ne_eq, not_true_eq_false, if_false]
    cases ha : params.AuthSecret with
    | none => exact ⟨key, rfl⟩
    | some a =>
      simp only [hkdf, Sha256Length]
      rw [hkdfExpand_one_block lib _ _ 32 hhmac (by decide) (by decide)]
      exact ⟨_, rfl⟩
  obtain ⟨secret, hsec⟩ := hsec
  unfold deriveKeyAndNonce
  rw [if_neg hsalt]
  simp only [hv, if_true, hsec, sliceBytes, KeyLength, NonceLength]
  rw [hkdfExpand_one_block lib _ _ 16 hhmac (by decide) (by decide),
    hkdfExpand_one_block lib _ _ 12 hhmac (by decide) (by decide)]
  refine ⟨_, rfl, ?_, ?_⟩ <;> simp [hhmac]


theorem bigEndianBytes_zero_two : bigEndianBytes 0 2 = [0, 0] := by decide

theorem encryptRecord_aesgcm (lib : CryptoLib) (kn : KeyAndNonce) (header : ECEParams)
    (counter : Nat) (block : List Nat) (last : Bool)
    (hv : header.Version = VersionAesGcm) (hkey : kn.key.length = 16)
    (hnonce : kn.nonce.length = 12) :
    encryptRecord lib kn counter block 0 header last
      = Except.ok (lib.gcmSeal kn.key (generateNonce kn.nonce counter) (0 :: 0 :: block)) := by
  have hne : header.Version ≠ VersionAes128Gcm := by rw [hv]; decide
  have hpad : PadSize header.Version = 2 := by rw [hv]; decide
  simp [encryptRecord, newGCM, hkey, hpad, hne, gcmSeal, generateNonce_length, hnonce,
    NonceLength, bigEndianBytes_zero_two]

theorem unpadLegacy_aesgcm (block : List Nat) :
    unpadLegacy (0 :: 0 :: block) VersionAesGcm = Except.ok block := by
  have hpad : PadSize VersionAesGcm = 2 := by decide
  simp only [unpadLegacy, hpad, bigEndian]
  rw [if_neg (by simp), if_neg (by simp)]
  simp

theorem decryptRecord_aesgcm (lib : CryptoLib) (kn : KeyAndNonce) (header : ECEParams)
    (counter : Nat) (block : List Nat) (last : Bool)
    (hopen : ∀ k n p, lib.gcmOpen k n (lib.gcmSeal k n p) = some p)
    (hseal : ∀ k n p, (lib.gcmSeal k n p).length = p.length + 16)
    (hv : header.Version = VersionAesGcm) (hkey : kn.key.length = 16)
    (hnonce : kn.nonce.length = 12) :
    decryptRecord lib kn counter
        (lib.gcmSeal kn.key (generateNonce kn.nonce counter) (0 :: 0 :: block)) header last
      = Except.ok block := by
  have hne : VersionAesGcm ≠ VersionAes128Gcm := by decide
  simp [decryptRecord, newGCM, hkey, hseal, TagLength, gcmOpen, generateNonce_length, hnonce,
    NonceLength, hopen, hne, hv, unpadLegacy_aesgcm]

theorem encryptLoop_last_record (lib : CryptoLib) (kn : KeyAndNonce) (header : ECEParams)
    (P acc : List Nat) (fuel start c : Nat)
    (hv : header.Version = VersionAesGcm) (hrs : header.RS = 4096)
    (hkey : kn.key.length = 16) (hnonce : kn.nonce.length = 12)
    (hstart : start ≤ P.length) (hlast : P.length < start + 4094) :
    encryptLoop lib kn header P 2 2 (fuel + 1) (start : Int) 0 c acc
      = Except.ok (acc ++ lib.gcmSeal kn.key (generateNonce kn.nonce c) (0 :: 0 :: P.drop start)) := by
  have hne : header.Version ≠ VersionAes128Gcm := by rw [hv]; decide
  have hend : ((start : Int) + 4096 - 2 - 0 > (P.length : Int)) := by omega
  have hslice : sliceInt P (start : Int) (P.length : Int) = Except.ok (P.drop start) := by
    unfold sliceInt
    rw [if_pos (by omega)]
    simp
  simp only [encryptLoop, hrs, hne, ne_eq, not_false_eq_true, if_true]
  norm_num
  rw [if_pos (by omega)]
  simp [hslice, encryptRecord_aesgcm lib kn header c _ _ hv hkey hnonce]
  omega

theorem encryptLoop_full_record (lib : CryptoLib) (kn : KeyAndNonce) (header : ECEParams)
    (P acc : List Nat) (fuel start c : Nat)
    (hv : header.Version = VersionAesGcm) (hrs : header.RS = 4096)
    (hkey : kn.key.length = 16) (hnonce : kn.nonce.length = 12)
    (hfull : start + 4094 ≤ P.length) :
    encryptLoop lib kn header P 2 2 (fuel + 1) (start : Int) 0 c acc
      = encryptLoop lib kn header P 2 2 fuel ((start + 4094 : Nat) : Int) 0 (c + 1)
          (acc ++ lib.gcmSeal kn.key (generateNonce kn.nonce c)
            (0 :: 0 :: (P.take (start + 4094)).drop start)) := by
  have hne : header.Version ≠ VersionAes128Gcm := by rw [hv]; decide
  have hslice : sliceInt P (start : Int) ((start : Int) + 4094)
      = Except.ok ((P.take (start + 4094)).drop start) := by
    unfold sliceInt
    rw [if_pos (by omega)]
    have : ((start : Int) + 4094).toNat = start + 4094 := by omega
    simp [this]
  simp only [encryptLoop, hrs, hne, ne_eq, not_false_eq_true, if_true]
  norm_num
  rw [if_neg (by omega)]
  have h4 : (start : Int) + 4096 - 2 = start + 4094 := by omega
  have hnl : ¬ ((P.length : Int) < start + 4094) := by omega
  simp [h4, hslice, hnl, encryptRecord_aesgcm lib kn header c _ _ hv hkey hnonce]

theorem decryptLoop_done (lib : CryptoLib) (kn : KeyAndNonce) (header : ECEParams)
    (buffer result : List Nat) (chunkSize : Int) (fuel i : Nat) :
    decryptLoop lib kn header buffer chunkSize (fuel + 1) i buffer.length result
      = Except.ok result := by
  simp [decryptLoop]

theorem decryptLoop_record (lib : CryptoLib) (kn : KeyAndNonce) (header : ECEParams)
    (pre rest blk result : List Nat) (fuel i : Nat)
    (hopen : ∀ k n p, lib.gcmOpen k n (lib.gcmSeal k n p) = some p)
    (hseal : ∀ k n p, (lib.gcmSeal k n p).length = p.length + 16)
    (hv : header.Version = VersionAesGcm) (hkey : kn.key.length = 16)
    (hnonce : kn.nonce.length = 12)
    (hshape : (blk.length = 4094 ∧ rest ≠ []) ∨ (blk.length < 4094 ∧ rest = [])) :
    decryptLoop lib kn header
        (pre ++ lib.gcmSeal kn.key (generateNonce kn.nonce i) (0 :: 0 :: blk) ++ rest) 4112
        (fuel + 1) i pre.length result
      = decryptLoop lib kn header
        (pre ++ lib.gcmSeal kn.key (generateNonce kn.nonce i) (0 :: 0 :: blk) ++ rest) 4112
        fuel (i + 1) (pre.length + (blk.length + 18)) (result ++ blk) := by
  have hne : header.Version ≠ VersionAes128Gcm := by rw [hv]; decide
  have hB : (lib.gcmSeal kn.key (generateNonce kn.nonce i) (0 :: 0 :: blk)).length
      = blk.length + 18 := by rw [hseal]; simp
  generalize hBdef : lib.gcmSeal kn.key (generateNonce kn.nonce i) (0 :: 0 :: blk) = B at hB
  have hrec := decryptRecord_aesgcm lib kn header i blk
  have hlen : (pre ++ B ++ rest).length = pre.length + (blk.length + 18) + rest.length := by
    simp only [List.length_append, hB]
  have hrest : rest ≠ [] → 0 < rest.length := fun h => List.length_pos.mpr h
  have hend : min ((pre.length : Int) + 4112) ((pre ++ B ++ rest).length : Int)
      = ((pre.length + (blk.length + 18) : Nat) : Int) := by
    rcases hshape with ⟨h1, h2⟩ | ⟨h1, h2⟩
    · have := hrest h2
      rw [hlen, min_eq_left (by omega)]; omega
    · subst h2
      rw [hlen, min_eq_right (by simp; omega)]; simp
  have hslice : ((pre ++ B ++ rest).take (pre.length + (blk.length + 18))).drop pre.length = B := by
    rw [List.append_assoc, List.take_append_eq_append_take, List.take_of_length_le (by omega),
      List.drop_append_eq_append_drop, List.drop_of_length_le (le_refl _)]
    simp [hB]
  have hnt : ¬ ((pre.length : Int) + 4112 = ((pre ++ B ++ rest).length : Int)) := by
    rw [hlen]
    rcases hshape with ⟨h1, h2⟩ | ⟨h1, h2⟩
    · have := hrest h2; omega
    · subst h2; simp; omega
  rw [decryptLoop]
  rw [if_pos (by rw [hlen]; omega)]
  simp only [hne, ne_eq, not_false_eq_true, true_and]
  rw [if_neg hnt, hend, if_neg (by simp [TagLength]; omega)]
  simp only [Int.toNat_ofNat, hslice]
  rw [← hBdef, hrec _ hopen hseal hv hkey hnonce]

theorem take_drop_append_drop (P : List Nat) (s k : Nat) :
    (P.take (s + k)).drop s ++ P.drop (s + k) = P.drop s := by
  rw [List.drop_take, Nat.add_sub_cancel_left, ← List.drop_drop, List.take_append_drop]

theorem length_take_drop (P : List Nat) (s k : Nat) (h : s + k ≤ P.length) :
    ((P.take (s + k)).drop s).length = k := by
  simp [List.length_drop, List.length_take]; omega

theorem roundtrip_loops (lib : CryptoLib) (kn : KeyAndNonce) (header : ECEParams) (P : List Nat)
    (hopen : ∀ k n p, lib.gcmOpen k n (lib.gcmSeal k n p) = some p)
    (hseal : ∀ k n p, (lib.gcmSeal k n p).length = p.length + 16)
    (hv : header.Version = VersionAesGcm) (hrs : header.RS = 4096)
    (hkey : kn.key.length = 16) (hnonce : kn.nonce.length = 12) (n : Nat) :
    ∀ (start c : Nat) (acc : List Nat), start ≤ P.length → P.length - start + 1 ≤ n →
      ∃ E, encryptLoop lib kn header P 2 2 n (start : Int) 0 c acc = Except.ok (acc ++ E) ∧
        P.length - start + 18 ≤ E.length ∧
        ∀ (m : Nat) (pre dacc : List Nat), P.length - start + 2 ≤ m →
          decryptLoop lib kn header (pre ++ E) 4112 m c pre.length dacc
            = Except.ok (dacc ++ P.drop start) := by
  induction n with
  | zero => intro start c acc _ h; omega
  | succ n ih =>
    intro start c acc hstart hfuel
    by_cases hlast : P.length < start + 4094
    · refine ⟨lib.gcmSeal kn.key (generateNonce kn.nonce c) (0 :: 0 :: P.drop start),
        encryptLoop_last_record lib kn header P acc n start c hv hrs hkey hnonce hstart hlast,
        ?_, ?_⟩
      · rw [hseal]; simp
      · intro m pre dacc hm
        obtain ⟨m', rfl⟩ : ∃ m', m = m' + 1 + 1 := ⟨m - 2, by omega⟩
        have hblk : (P.drop start).length < 4094 := by simp; omega
        have hstep := decryptLoop_record lib kn header pre [] (P.drop start) dacc (m' + 1) c
          hopen hseal hv hkey hnonce (Or.inr ⟨hblk, rfl⟩)
        rw [List.append_nil] at hstep
        rw [hstep]
        have hl : pre.length + ((P.drop start).length + 18)
            = (pre ++ lib.gcmSeal kn.key (generateNonce kn.nonce c) (0 :: 0 :: P.drop start)).length := by
          rw [List.length_append, hseal]; simp
        rw [hl, decryptLoop_done]
    · have hfull : start + 4094 ≤ P.length := by omega
      obtain ⟨E', henc, hlen, hdec⟩ := ih (start + 4094) (c + 1)
        (acc ++ lib.gcmSeal kn.key (generateNonce kn.nonce c)
          (0 :: 0 :: (P.take (start + 4094)).drop start)) hfull (by omega)
      have hblk := length_take_drop P start 4094 hfull
      refine ⟨lib.gcmSeal kn.key (generateNonce kn.nonce c)
          (0 :: 0 :: (P.take (start + 4094)).drop start) ++ E', ?_, ?_, ?_⟩
      · rw [encryptLoop_full_record lib kn header P acc n start c hv hrs hkey hnonce hfull, henc,
          List.append_assoc]
      · rw [List.length_append, hseal]; simp [hblk]; omega
      · intro m pre dacc hm
        obtain ⟨m', rfl⟩ : ∃ m', m = m' + 1 := ⟨m - 1, by omega⟩
        have hE' : E' ≠ [] := by
          intro h; subst h; simp at hlen
        have hstep := decryptLoop_record lib kn header pre E' ((P.take (start + 4094)).drop start)
          dacc m' c hopen hseal hv hkey hnonce (Or.inl ⟨hblk, hE'⟩)
        rw [← List.append_assoc, hstep]
        have hl : pre.length + (((P.take (start + 4094)).drop start).length + 18)
            = (pre ++ lib.gcmSeal kn.key (generateNonce kn.nonce c)
                (0 :: 0 :: (P.take (start + 4094)).drop start)).length := by
          rw [List.length_append, hseal]; simp
        rw [hl, hdec m' _ _ (by omega), List.append_assoc, take_drop_append_drop]

/-- C10. For the `aesgcm` variant with a 16-byte explicit key, a non-empty salt
and record size 4096, and for a cryptographic library whose MAC has 32 bytes
and whose `gcmOpen` inverts `gcmSeal` (which appends a 16-byte tag), `Encrypt`
of every non-empty plaintext `P` succeeds and `Decrypt` of its result returns
`P` without error. -/
theorem ece_roundtrip_aesgcm (lib : CryptoLib) (params : ECEParams) (key salt P : List Nat)
    (hhmac : ∀ k d, (lib.hmacSha256 k d).length = 32)
    (hopen : ∀ k n p, lib.gcmOpen k n (lib.gcmSeal k n p) = some p)
    (hseal : ∀ k n p, (lib.gcmSeal k n p).length = p.length + 16)
    (hv : params.Version = VersionAesGcm) (hk : params.Key = some key) (hkl : key.length = 16)
    (hs : params.Salt = some salt) (hsl : salt ≠ []) (hrs : params.RS = 4096) (hP : P ≠ []) :
    ∃ C, Encrypt lib P params = Except.ok C ∧ Decrypt lib C params = Except.ok P := by
  obtain ⟨kn, hkn, hkey, hnonce⟩ :=
    deriveKeyAndNonce_aesgcm lib params key salt ModeEncrypt hhmac hv hk hkl hs hsl
  obtain ⟨kn', hkn', -, -⟩ :=
    deriveKeyAndNonce_aesgcm lib params key salt ModeDecrypt hhmac hv hk hkl hs hsl
  have hsame : kn' = kn := by
    have : deriveKeyAndNonce lib params ModeDecrypt none
        = deriveKeyAndNonce lib params ModeEncrypt none := rfl
    rw [this, hkn] at hkn'
    injection hkn' with h
    exact h.symm
  subst hsame
  obtain ⟨E, henc, hlen, hdec⟩ := roundtrip_loops lib kn' params P hopen hseal hv hrs hkey hnonce
    (P.length + 1) 0 0 [] (Nat.zero_le _) (by omega)
  have hne : params.Version ≠ VersionAes128Gcm := by rw [hv]; decide
  have hpad : PadSize params.Version = 2 := by rw [hv]; decide
  have hP0 : ¬ P.length = 0 := by simpa using hP
  refine ⟨E, ?_, ?_⟩
  · unfold Encrypt
    rw [if_neg hP0]
    simp only [hs, hne, if_false, hkn, hpad]
    simpa using henc
  · unfold Decrypt
    simp only [hne, if_false, hkn', hrs, TagLength, ne_eq, not_false_eq_true, if_true]
    have := hdec (E.length + 1) [] [] (by simp at hlen ⊢; omega)
    simpa using this

/-- C10 for a one-byte plaintext. -/
theorem ece_roundtrip_aesgcm_witness :
    ∃ C, Encrypt plainLib [42] sampleParams = Except.ok C ∧
      Decrypt plainLib C sampleParams = Except.ok [42] :=
  ece_roundtrip_aesgcm plainLib sampleParams (List.replicate 16 1) [1, 2, 3] [42]
    (fun _ _ => by simp [plainLib]) (fun _ _ p => by simp [plainLib])
    (fun _ _ p => by simp [plainLib]) rfl rfl (by decide) rfl (by decide) rfl (by decide)

/-! ## Theorems: decryption of a data message -/

theorem extractSecretAndContext_dh (lib : CryptoLib) (header : ECEParams) (mode : String)
    (dh : List Nat) (hk : header.Key = none) (hd : header.DH = some dh) :
    extractSecretAndContext lib header mode
      = Except.error (Failure.error "DH extraction not implemented") := by
  simp [extractSecretAndContext, hk, hd]

theorem Decrypt_dh_fails (lib : CryptoLib) (buffer : List Nat) (params : ECEParams)
    (dh : List Nat) (hv : params.Version = VersionAesGcm) (hk : params.Key = none)
    (hd : params.DH = some dh) :
    Decrypt lib buffer params
      = Except.error (Failure.error
          (if (sliceBytes params.Salt).length = 0 then "must include a salt parameter"
            else "DH extraction not implemented")) := by
  have hne : params.Version ≠ VersionAes128Gcm := by rw [hv]; decide
  unfold Decrypt
  simp only [hne, if_false]
  unfold deriveKeyAndNonce
  by_cases hs : (sliceBytes params.Salt).length = 0
  · simp [hs]
  · simp [hs, hv, extractSecretAndContext_dh lib params ModeDecrypt dh hk hd]

theorem DecryptMessage_fails {J : Type} (lib : CryptoLib) (std : DecryptLib J)
    (message : EncryptedMessage) (keys : Keys) :
    ∃ e, DecryptMessage lib std message keys = Except.error e := by
  unfold DecryptMessage
  simp only
  split
  · exact ⟨_, rfl⟩
  · split
    · exact ⟨_, rfl⟩
    · split
      · exact ⟨_, rfl⟩
      · split
        · exact ⟨_, rfl⟩
        · exact ⟨_, rfl⟩
        · split
          · exact ⟨_, rfl⟩
          · split
            · exact ⟨_, rfl⟩
            · split
              · exact ⟨_, rfl⟩
              · rw [Decrypt_dh_fails lib _ _ _ rfl rfl rfl]
                exact ⟨_, rfl⟩

/-- C11. The function `DecryptMessage` returns an error on every input, whatever
the cryptographic primitives, the decoders and the JSON parser do: it passes
`DH` and no explicit key to `Decrypt`, and `extractSecretAndContext` answers
that case with `DH extraction not implemented`.  At a message with the headers
`crypto-key: dh=...` and `encryption: salt=...` that error is returned, not the
decoded JSON object. -/
theorem DecryptMessage_always_fails :
    (∀ (J : Type) (lib : CryptoLib) (std : DecryptLib J) (message : EncryptedMessage)
        (keys : Keys), ∃ e, DecryptMessage lib std message keys = Except.error e) ∧
      DecryptMessage plainLib permissiveStd
        (EncryptedMessage.mk
          [AppDataItem.mk "crypto-key" "dh=BPk", AppDataItem.mk "encryption" "salt=AAAA"]
          [0, 0, 123, 125, 0, 0, 0, 0, 0, 0, 0, 0, 0, 0, 0, 0, 0, 0, 0, 0])
        (Keys.mk "private" "BTBZMqHH6r4Tts7J_aSIgg")
      = Except.error (Failure.error "DH extraction not implemented") :=
  ⟨fun _ lib std message keys => DecryptMessage_fails lib std message keys, rfl⟩

/-! ## Theorems: Rust+ client and camera -/

namespace Rustplus

theorem callHandler_result (fp : FloatLib) (sys : System) (h : Handler) (msg : AppMessage) :
    (callHandler fp sys h msg).2 = h.accepts msg := by
  unfold callHandler Handler.accepts
  cases h with
  | func id f => rfl
  | cameraRays =>
    cases hb : msg.Broadcast with
    | none => simp [hb]
    | some b =>
      cases hr : b.CameraRays with
      | none => simp [hb, hr]
      | some r => simp [hb, hr]

theorem callHandler_client (fp : FloatLib) (sys : System) (h : Handler) (msg : AppMessage) :
    (callHandler fp sys h msg).1.client
      = { sys.client with handlerCalls := sys.client.handlerCalls ++ [h.name] } := by
  unfold callHandler
  cases h with
  | func id f => rfl
  | cameraRays =>
    cases hb : msg.Broadcast with
    | none => simp [hb]
    | some b =>
      cases hr : b.CameraRays with
      | none => simp [hb, hr]
      | some r => simp [hb, hr]

theorem runHandlers_client (fp : FloatLib) (msg : AppMessage) (hs : List Handler) :
    ∀ (sys : System), (runHandlers fp hs sys msg).client
      = { sys.client with
          handlerCalls := sys.client.handlerCalls ++ (offered hs msg).map Handler.name } := by
  induction hs with
  | nil => intro sys; simp [runHandlers, offered]
  | cons h rest ih =>
    intro sys
    simp only [runHandlers, offered, callHandler_result]
    by_cases ha : h.accepts msg = true
    · simp [ha, callHandler_client]
    · simp [ha, ih, callHandler_client]

theorem offered_of_first (msg : AppMessage) (hs : List Handler) : ∀ (j : Nat) (hj : j < hs.length),
    (hs.get ⟨j, hj⟩).accepts msg = true →
    (∀ (i : Nat) (hi : i < hs.length), i < j → (hs.get ⟨i, hi⟩).accepts msg = false) →
    offered hs msg = hs.take (j + 1) := by
  induction hs with
  | nil => intro j hj; simp at hj
  | cons h rest ih =>
    intro j hj hacc hbefore
    cases j with
    | zero =>
      have : h.accepts msg = true := hacc
      simp [offered, this]
    | succ j =>
      have h0 : h.accepts msg = false := hbefore 0 (by simp) (by omega)
      have hj' : j < rest.length := by simpa using hj
      simp only [offered, h0, List.take_succ_cons]
      rw [ih j hj' hacc (fun i hi hij => hbefore (i + 1) (by simpa using hi) (by omega))]
      simp

theorem offered_of_none (msg : AppMessage) (hs : List Handler)
    (h : ∀ x ∈ hs, x.accepts msg = false) : offered hs msg = hs := by
  induction hs with
  | nil => rfl
  | cons x rest ih =>
    have hx := h x (List.mem_cons_self _ _)
    simp only [offered, hx]
    rw [ih (fun y hy => h y (List.mem_cons_of_mem _ hy))]
    simp

theorem foldl_AddMessageHandler (hs : List Handler) : ∀ (c : Client),
    hs.foldl Client.AddMessageHandler c = { c with messageHandlers := c.messageHandlers ++ hs } := by
  induction hs with
  | nil => intro c; simp
  | cons h rest ih => intro c; simp [ih, Client.AddMessageHandler]

theorem dispatchResponse_handlers (c : Client) (msg : AppMessage) :
    (c.dispatchResponse msg).messageHandlers = c.messageHandlers ∧
      (c.dispatchResponse msg).handlerCalls = c.handlerCalls := by
  unfold Client.dispatchResponse Client.callCallback
  repeat' split
  all_goals exact ⟨rfl, rfl⟩

/-- C16. When the handlers `hs` are registered with `AddMessageHandler` in that
order on a client without handlers, `handleMessage` calls them in registration
order, each once, and stops after the first that returns `true`: with `j` the
least index whose handler returns `true` exactly the handlers at the indices
`0..j` are called, and when none returns `true` all of them are called. -/
theorem handlers_called_in_order (fp : FloatLib) (sys : System) (hs : List Handler)
    (msg : AppMessage) (hnone : sys.client.messageHandlers = []) :
    (∀ (j : Nat) (hj : j < hs.length), (hs.get ⟨j, hj⟩).accepts msg = true →
      (∀ (i : Nat) (hi : i < hs.length), i < j → (hs.get ⟨i, hi⟩).accepts msg = false) →
      (handleMessage fp { sys with client := hs.foldl Client.AddMessageHandler sys.client }
          msg).client.handlerCalls
        = sys.client.handlerCalls ++ (hs.take (j + 1)).map Handler.name) ∧
    ((∀ x ∈ hs, x.accepts msg = false) →
      (handleMessage fp { sys with client := hs.foldl Client.AddMessageHandler sys.client }
          msg).client.handlerCalls
        = sys.client.handlerCalls ++ hs.map Handler.name) := by
  have hreg := foldl_AddMessageHandler hs sys.client
  have key : (handleMessage fp { sys with client := hs.foldl Client.AddMessageHandler sys.client }
      msg).client.handlerCalls = sys.client.handlerCalls ++ (offered hs msg).map Handler.name := by
    unfold handleMessage
    simp only [runHandlers_client]
    have hd := dispatchResponse_handlers (hs.foldl Client.AddMessageHandler sys.client) msg
    rw [hd.1, hd.2, hreg, hnone]
    simp
  refine ⟨?_, ?_⟩
  · intro j hj hacc hbefore
    rw [key, offered_of_first msg hs j hj hacc hbefore]
  · intro hall
    rw [key, offered_of_none msg hs hall]

theorem Delivers_refl (c : Client) : Client.Delivers c c :=
  ⟨rfl, rfl, rfl, rfl, rfl, rfl, rfl, List.Sublist.refl _⟩

theorem Delivers_trans {a b c : Client} (h1 : Client.Delivers a b) (h2 : Client.Delivers b c) :
    Client.Delivers a c :=
  ⟨h2.seq.trans h1.seq, h2.isConnected.trans h1.isConnected,
    h2.messageHandlers.trans h1.messageHandlers, h2.nextChan.trans h1.nextChan,
    h2.playerID.trans h1.playerID, h2.playerToken.trans h1.playerToken,
    h2.reconnectAttempts.trans h1.reconnectAttempts, h2.seqCallbacks.trans h1.seqCallbacks⟩

theorem mapDelete_sublist (m : List (Nat × Callback)) (k : Nat) :
    List.Sublist (mapDelete m k) m :=
  List.filter_sublist m

theorem emitEvent_delivers (c : Client) (e : Event) : Client.Delivers c (c.emitEvent e) := by
  unfold Client.emitEvent
  split
  · exact ⟨rfl, rfl, rfl, rfl, rfl, rfl, rfl, List.Sublist.refl _⟩
  · exact Delivers_refl c

theorem dispatchResponse_delivers (c : Client) (msg : AppMessage) :
    Client.Delivers c (c.dispatchResponse msg) := by
  unfold Client.dispatchResponse Client.callCallback
  repeat' split
  all_goals first
    | exact Delivers_refl c
    | exact ⟨rfl, rfl, rfl, rfl, rfl, rfl, rfl, mapDelete_sublist _ _⟩

theorem handleMessage_delivers (fp : FloatLib) (sys : System) (msg : AppMessage) :
    Client.Delivers sys.client (handleMessage fp sys msg).client := by
  unfold handleMessage
  rw [runHandlers_client]
  have h := dispatchResponse_delivers sys.client msg
  exact ⟨h.seq, h.isConnected, h.messageHandlers, h.nextChan, h.playerID, h.playerToken,
    h.reconnectAttempts, h.seqCallbacks⟩

theorem readMessage_delivers (fp : FloatLib) (sys : System) (msg : AppMessage) :
    Client.Delivers sys.client (readMessage fp sys msg).client := by
  unfold readMessage
  exact Delivers_trans (emitEvent_delivers sys.client (Event.message msg))
    (handleMessage_delivers fp
      { sys with client := sys.client.emitEvent (Event.message msg) } msg)

theorem awaitResponse_delivers (fp : FloatLib) (ch : Nat) (inbound : List AppMessage) :
    ∀ (sys : System),
      Client.Delivers sys.client (awaitResponse fp ch inbound sys).1.client := by
  induction inbound with
  | nil => intro sys; exact Delivers_refl _
  | cons msg rest ih =>
    intro sys
    have h1 := readMessage_delivers fp sys msg
    simp only [awaitResponse]
    split
    · exact ⟨h1.seq, h1.isConnected, h1.messageHandlers, h1.nextChan, h1.playerID,
        h1.playerToken, h1.reconnectAttempts, h1.seqCallbacks⟩
    · exact Delivers_trans h1 (ih _)

theorem transmit_seq (c : Client) (req : AppRequest) (env : SendEnv) :
    (c.transmit req env).1.seq = c.seq ∧
      (c.transmit req env).1.seqCallbacks = c.seqCallbacks ∧
      (c.transmit req env).1.isConnected = c.isConnected ∧
      (c.transmit req env).1.messageHandlers = c.messageHandlers ∧
      (c.transmit req env).1.nextChan = c.nextChan := by
  unfold Client.transmit Client.emitEvent
  repeat' split
  all_goals exact ⟨rfl, rfl, rfl, rfl, rfl⟩

theorem SendRequest_seq (c : Client) (req : AppRequest) (env : SendEnv) :
    (c.SendRequest req env).1.seq = (c.seq + 1) % 2 ^ 32 ∧
      (c.SendRequest req env).2.1.Seq = some ((c.seq + 1) % 2 ^ 32) := by
  unfold Client.SendRequest
  exact ⟨(transmit_seq _ _ _).1, rfl⟩

theorem SendRequestAsync_seq (fp : FloatLib) (sys : System) (req : AppRequest) (env : AsyncEnv) :
    (SendRequestAsync fp sys req env).1.client.seq = (sys.client.seq + 1) % 2 ^ 32 ∧
      (SendRequestAsync fp sys req env).2.1.Seq = some ((sys.client.seq + 1) % 2 ^ 32) := by
  unfold SendRequestAsync
  simp only
  split
  · exact ⟨(transmit_seq _ _ _).1, rfl⟩
  · split
    · refine ⟨?_, rfl⟩
      rw [(awaitResponse_delivers fp _ _ _).seq]
      exact (transmit_seq _ _ _).1
    · refine ⟨?_, rfl⟩
      show (awaitResponse fp _ _ _).1.client.seq = _
      rw [(awaitResponse_delivers fp _ _ _).seq]
      exact (transmit_seq _ _ _).1

theorem perform_seq (fp : FloatLib) (sys : System) (call : Call) :
    (perform fp sys call).1.client.seq = (sys.client.seq + 1) % 2 ^ 32 ∧
      (perform fp sys call).2.Seq = some ((sys.client.seq + 1) % 2 ^ 32) := by
  cases call with
  | sync req env => exact SendRequest_seq sys.client req env
  | async req env => exact SendRequestAsync_seq fp sys req env

theorem performAll_seq (fp : FloatLib) (calls : List Call) : ∀ (sys : System),
    (performAll fp sys calls).1.client.seq % 2 ^ 32 = (sys.client.seq + calls.length) % 2 ^ 32 ∧
    (performAll fp sys calls).2.length = calls.length ∧
    ∀ (k : Nat), k < calls.length →
      (performAll fp sys calls).2[k]? = some (some ((sys.client.seq + k + 1) % 2 ^ 32)) := by
  induction calls with
  | nil =>
    intro sys
    refine ⟨?_, rfl, ?_⟩
    · simp [performAll]
    · intro k hk; simp at hk
  | cons call rest ih =>
    intro sys
    have h1 := perform_seq fp sys call
    obtain ⟨ha, hb, hc⟩ := ih (perform fp sys call).1
    refine ⟨?_, ?_, ?_⟩
    · simp only [performAll, ha, h1.1, List.length_cons]
      omega
    · simp [performAll, hb]
    · intro k hk
      cases k with
      | zero => simp [performAll, h1.2]
      | succ k =>
        have hk' : k < rest.length := by simpa using hk
        simp only [performAll, List.getElem?_cons_succ, hc k hk', h1.1]
        congr 2
        omega

theorem emitEvent_seq (c : Client) (e : Event) : (c.emitEvent e).seq = c.seq :=
  (emitEvent_delivers c e).seq

theorem Connect_seq (c : Client) (dial : DialResult) : (c.Connect dial).1.seq = c.seq := by
  unfold Client.Connect
  split
  · rfl
  · cases dial <;> simp only [emitEvent_seq]

theorem Disconnect_seq (c : Client) (closeErr : Option String) :
    (c.Disconnect closeErr).1.seq = c.seq := by
  unfold Client.Disconnect
  split
  · rfl
  · simp only [emitEvent_seq]

/-- C12 (counterexample). On a connected client whose counter is 0 the
4294967296-th call of `SendRequest` stamps the sequence number 0, not
4294967296, and the call after it stamps 1, the number that the first call
stamped: the counter is a `uint32`. -/
theorem seq_wraps_at_uint32 :
    connectedSystem.client.seq = 0 ∧
      (performAll sampleFloat connectedSystem
        (List.replicate 4294967297
          (Call.sync sampleRequest { marshal := none, write := none }))).2[4294967295]?
        = some (some 0) ∧
      (performAll sampleFloat connectedSystem
        (List.replicate 4294967297
          (Call.sync sampleRequest { marshal := none, write := none }))).2[4294967296]?
        = some (some 1) ∧
      (performAll sampleFloat connectedSystem
        (List.replicate 4294967297
          (Call.sync sampleRequest { marshal := none, write := none }))).2[0]?
        = some (some 1) := by
  have hseq : connectedSystem.client.seq = 0 := by decide
  refine ⟨hseq, ?_, ?_, ?_⟩
  · exact ((performAll_seq sampleFloat _ _).2.2 4294967295
      (by rw [List.length_replicate]; decide)).trans (by rw [hseq]; rfl)
  · exact ((performAll_seq sampleFloat _ _).2.2 4294967296
      (by rw [List.length_replicate]; decide)).trans (by rw [hseq]; rfl)
  · exact ((performAll_seq sampleFloat _ _).2.2 0
      (by rw [List.length_replicate]; decide)).trans (by rw [hseq]; rfl)

/-- C12 (amended). For every sequence of `SendRequest` and `SendRequestAsync`
calls on a client whose counter is 0, the call at position `k` (counted from 0)
stamps the sequence number `k + 1` as long as `k + 1 < 2 ^ 32`; before the
counter wraps, a later call stamps a larger number than an earlier one. -/
theorem seq_stamps_count (fp : FloatLib) (sys : System) (calls : List Call)
    (hseq : sys.client.seq = 0) :
    (∀ (k : Nat), k < calls.length → k + 1 < 2 ^ 32 →
      (performAll fp sys calls).2[k]? = some (some (k + 1))) ∧
    (∀ (i j a b : Nat), i < j → j < calls.length → j + 1 < 2 ^ 32 →
      (performAll fp sys calls).2[i]? = some (some a) →
      (performAll fp sys calls).2[j]? = some (some b) → a < b) := by
  have key : ∀ (k : Nat), k < calls.length → k + 1 < 2 ^ 32 →
      (performAll fp sys calls).2[k]? = some (some (k + 1)) := by
    intro k hk hsmall
    rw [(performAll_seq fp calls sys).2.2 k hk, hseq]
    congr 2
    omega
  refine ⟨key, ?_⟩
  intro i j a b hij hj hsmall ha hb
  rw [key i (by omega) (by omega)] at ha
  rw [key j hj hsmall] at hb
  simp only [Option.some.injEq] at ha hb
  omega

/-- C12 (witness). Three calls on a connected client whose counter is 0, the
second of them asynchronous and answered by the server, stamp 1, 2 and 3. -/
theorem seq_stamps_count_witness :
    connectedSystem.client.seq = 0 ∧
      (performAll sampleFloat connectedSystem
        [Call.sync sampleRequest { marshal := none, write := none },
          Call.async sampleRequest (answered 2 none),
          Call.sync sampleRequest { marshal := none, write := none }]).2
        = [some 1, some 2, some 3] ∧
      (performAll sampleFloat connectedSystem
        [Call.sync sampleRequest { marshal := none, write := none },
          Call.async sampleRequest (answered 2 none),
          Call.sync sampleRequest { marshal := none, write := none }]).2[2]? = some (some 3) :=
  ⟨by decide, by decide,
    (seq_stamps_count sampleFloat connectedSystem _ (by decide)).1 2 (by decide) (by decide)⟩

/-- C13 (counterexample). A new client connects, sends one request (stamped 1),
disconnects and connects again: the first request on the new connection is
stamped 2, not 1. -/
theorem seq_not_reset_by_connect :
    ((((((NewClient "rust.example" 28082 7 9 false).Connect DialResult.ok).1.SendRequest
        { Seq := none, PlayerId := none, PlayerToken := none, Body := RequestBody.other 0 }
        { marshal := none, write := none }).1.Disconnect none).1.Connect DialResult.ok).1.SendRequest
        { Seq := none, PlayerId := none, PlayerToken := none, Body := RequestBody.other 0 }
        { marshal := none, write := none }).2.1.Seq = some 2 ∧
      ((((NewClient "rust.example" 28082 7 9 false).Connect DialResult.ok).1.SendRequest
        { Seq := none, PlayerId := none, PlayerToken := none, Body := RequestBody.other 0 }
        { marshal := none, write := none }).1.Disconnect none).1.isConnected = false ∧
      (((((NewClient "rust.example" 28082 7 9 false).Connect DialResult.ok).1.SendRequest
        { Seq := none, PlayerId := none, PlayerToken := none, Body := RequestBody.other 0 }
        { marshal := none, write := none }).1.Disconnect none).1.Connect DialResult.ok).1.isConnected
        = true := by
  refine ⟨?_, ?_, ?_⟩ <;> decide

/-- C13 (amended). The counter is not reset by `Connect`: after the calls
`calls` on a client whose counter was 0, a disconnect and a new successful
`Connect`, the next request is stamped `calls.length + 1` (modulo `2 ^ 32`). -/
theorem seq_continues_across_connections (fp : FloatLib) (sys : System) (calls : List Call)
    (closeErr : Option String) (call : Call) (hseq : sys.client.seq = 0) :
    (perform fp
        { (performAll fp sys calls).1 with
          client :=
            (((performAll fp sys calls).1.client.Disconnect closeErr).1.Connect
              DialResult.ok).1 }
        call).2.Seq = some ((calls.length + 1) % 2 ^ 32) := by
  rw [(perform_seq fp _ call).2]
  simp only [Connect_seq, Disconnect_seq]
  have h := (performAll_seq fp calls sys).1
  rw [hseq] at h
  congr 1
  omega

/-- C13 (witness). Two requests, a disconnect, a new connection: the next
request is stamped 3. -/
theorem seq_continues_across_connections_witness :
    (newSystem "rust.example" 28082 7 9 false "cam").client.seq = 0 ∧
      (perform sampleFloat
        { (performAll sampleFloat (newSystem "rust.example" 28082 7 9 false "cam")
            [Call.sync
                { Seq := none, PlayerId := none, PlayerToken := none, Body := RequestBody.other 0 }
                { marshal := none, write := none },
              Call.sync
                { Seq := none, PlayerId := none, PlayerToken := none, Body := RequestBody.other 1 }
                { marshal := none, write := none }]).1 with
          client :=
            (((performAll sampleFloat (newSystem "rust.example" 28082 7 9 false "cam")
              [Call.sync
                  { Seq := none, PlayerId := none, PlayerToken := none
                    Body := RequestBody.other 0 }
                  { marshal := none, write := none },
                Call.sync
                  { Seq := none, PlayerId := none, PlayerToken := none
                    Body := RequestBody.other 1 }
                  { marshal := none, write := none }]).1.client.Disconnect none).1.Connect
              DialResult.ok).1 }
        (Call.sync
          { Seq := none, PlayerId := none, PlayerToken := none, Body := RequestBody.other 2 }
          { marshal := none, write := none })).2.Seq = some ((2 + 1) % 2 ^ 32) :=
  ⟨rfl, seq_continues_across_connections sampleFloat _ _ none _ rfl⟩

/-- C14 (counterexample). On a new client, which is not connected,
`SendRequestAsync` returns the error `not connected`, but the counter has gone
from 0 to 1 and the pending table from empty to one entry. -/
theorem async_not_connected_mutates :
    (newSystem "rust.example" 28082 7 9 false "cam").client.isConnected = false ∧
      (newSystem "rust.example" 28082 7 9 false "cam").client.seq = 0 ∧
      (newSystem "rust.example" 28082 7 9 false "cam").client.seqCallbacks = [] ∧
      (SendRequestAsync sampleFloat (newSystem "rust.example" 28082 7 9 false "cam")
        { Seq := none, PlayerId := none, PlayerToken := none, Body := RequestBody.other 0 }
        { send := { marshal := none, write := none }, inbound := [] }).2.2
        = Except.error "not connected" ∧
      (SendRequestAsync sampleFloat (newSystem "rust.example" 28082 7 9 false "cam")
        { Seq := none, PlayerId := none, PlayerToken := none, Body := RequestBody.other 0 }
        { send := { marshal := none, write := none }, inbound := [] }).1.client.seq = 1 ∧
      (SendRequestAsync sampleFloat (newSystem "rust.example" 28082 7 9 false "cam")
        { Seq := none, PlayerId := none, PlayerToken := none, Body := RequestBody.other 0 }
        { send := { marshal := none, write := none }, inbound := [] }).1.client.seqCallbacks
        = [(1, Callback.mk 0)] :=
  ⟨rfl, rfl, rfl, rfl, rfl, rfl⟩

/-- C14 (amended). For every client that is not connected and every request
that can be marshalled, `SendRequestAsync` returns the error `not connected`;
the connection flag, the handlers, the event channel, the response channels
and the camera are as before, and the counter has advanced by one. -/
theorem async_not_connected (fp : FloatLib) (sys : System) (req : AppRequest) (env : AsyncEnv)
    (hconn : sys.client.isConnected = false) (hmarshal : env.send.marshal = none) :
    (SendRequestAsync fp sys req env).2.2 = Except.error "not connected" ∧
      (SendRequestAsync fp sys req env).1.client.seq = (sys.client.seq + 1) % 2 ^ 32 ∧
      (SendRequestAsync fp sys req env).1.client.isConnected = false ∧
      (SendRequestAsync fp sys req env).1.client.messageHandlers = sys.client.messageHandlers ∧
      (SendRequestAsync fp sys req env).1.client.eventChan = sys.client.eventChan ∧
      (SendRequestAsync fp sys req env).1.client.responseChans = sys.client.responseChans ∧
      (SendRequestAsync fp sys req env).1.camera = sys.camera := by
  simp [SendRequestAsync, Client.transmit, Client.stamp, hconn, hmarshal]

/-- C14 (witness). The call on a new client. -/
theorem async_not_connected_witness :
    (newSystem "rust.example" 28082 7 9 false "cam").client.isConnected = false ∧
      (SendRequestAsync sampleFloat (newSystem "rust.example" 28082 7 9 false "cam")
        { Seq := none, PlayerId := none, PlayerToken := none, Body := RequestBody.other 0 }
        { send := { marshal := none, write := none }, inbound := [] }).2.2
        = Except.error "not connected" :=
  ⟨rfl, (async_not_connected sampleFloat _ _ _ rfl rfl).1⟩

theorem lookup_none_iff {β : Type} (l : List (Nat × β)) (k : Nat) :
    l.lookup k = none ↔ ∀ p ∈ l, p.1 ≠ k := by
  induction l with
  | nil => simp
  | cons p rest ih =>
    obtain ⟨a, b⟩ := p
    by_cases h : k = a
    · subst h
      simp [List.lookup]
    · have h2 : (k == a) = false := by simpa using h
      simp only [List.lookup, h2, ih, List.mem_cons, forall_eq_or_imp]
      constructor
      · intro hr
        exact ⟨fun hh => h hh.symm, hr⟩
      · intro hr
        exact hr.2

theorem mem_of_lookup {β : Type} (l : List (Nat × β)) (k : Nat) (v : β)
    (h : l.lookup k = some v) : (k, v) ∈ l := by
  induction l with
  | nil => simp at h
  | cons p rest ih =>
    obtain ⟨a, b⟩ := p
    by_cases hk : k = a
    · subst hk
      simp [List.lookup] at h
      simp [h]
    · have h2 : (k == a) = false := by simpa using hk
      simp only [List.lookup, h2] at h
      exact List.mem_cons_of_mem _ (ih h)

theorem mapLookup_mapDelete (m : List (Nat × Callback)) (k : Nat) :
    mapLookup (mapDelete m k) k = none := by
  unfold mapLookup mapDelete
  rw [lookup_none_iff]
  intro p hp
  simpa using (List.mem_filter.mp hp).2

theorem mapLookup_none_of_sublist (m m' : List (Nat × Callback)) (k : Nat)
    (hs : List.Sublist m' m) (h : mapLookup m k = none) : mapLookup m' k = none := by
  unfold mapLookup at *
  rw [lookup_none_iff] at *
  intro p hp
  exact h p (hs.subset hp)

theorem wellFormed_of (c c' : Client) (h : c.wellFormed)
    (hs : List.Sublist c'.seqCallbacks c.seqCallbacks)
    (hr : ∀ r ∈ c'.responseChans, r ∈ c.responseChans)
    (hn : c'.nextChan = c.nextChan) : c'.wellFormed := by
  refine ⟨?_, ?_, ?_, ?_, ?_⟩
  · exact List.Nodup.sublist (hs.map Prod.fst) h.keys
  · exact List.Nodup.sublist (hs.map _) h.chans
  · intro e he r hr2
    exact h.pendingEmpty e (hs.subset he) r (hr r hr2)
  · intro e he
    rw [hn]
    exact h.pendingMade e (hs.subset he)
  · intro r hr2
    rw [hn]
    exact h.bufferedMade r (hr r hr2)

theorem emitEvent_table (c : Client) (e : Event) :
    (c.emitEvent e).seqCallbacks = c.seqCallbacks ∧
      (c.emitEvent e).responseChans = c.responseChans ∧
      (c.emitEvent e).nextChan = c.nextChan ∧
      (c.emitEvent e).handlerCalls = c.handlerCalls ∧
      (c.emitEvent e).messageHandlers = c.messageHandlers := by
  unfold Client.emitEvent
  split <;> exact ⟨rfl, rfl, rfl, rfl, rfl⟩

theorem wellFormed_congr (c c' : Client) (h : c.wellFormed)
    (hs : c'.seqCallbacks = c.seqCallbacks) (hr : c'.responseChans = c.responseChans)
    (hn : c'.nextChan = c.nextChan) : c'.wellFormed :=
  wellFormed_of c c' h (hs ▸ List.Sublist.refl _) (fun _ h2 => hr ▸ h2) hn

theorem emitEvent_wellFormed (c : Client) (e : Event) (h : c.wellFormed) :
    (c.emitEvent e).wellFormed :=
  wellFormed_congr c _ h (emitEvent_table c e).1 (emitEvent_table c e).2.1
    (emitEvent_table c e).2.2.1

theorem Connect_wellFormed (c : Client) (dial : DialResult) (h : c.wellFormed) :
    (c.Connect dial).1.wellFormed := by
  unfold Client.Connect
  split
  · exact h
  · cases dial
    · exact emitEvent_wellFormed c _ h
    · exact emitEvent_wellFormed c _ h
    · exact emitEvent_wellFormed _ _
        (wellFormed_congr (c.emitEvent Event.connecting) _ (emitEvent_wellFormed c _ h)
          rfl rfl rfl)

theorem Disconnect_wellFormed (c : Client) (closeErr : Option String) (h : c.wellFormed) :
    (c.Disconnect closeErr).1.wellFormed := by
  unfold Client.Disconnect
  split
  · exact h
  · exact emitEvent_wellFormed _ _ (wellFormed_congr c _ h rfl rfl rfl)

theorem transmit_wellFormed (c : Client) (req : AppRequest) (env : SendEnv) (h : c.wellFormed) :
    (c.transmit req env).1.wellFormed := by
  unfold Client.transmit
  repeat' split
  all_goals first
    | exact h
    | exact emitEvent_wellFormed c _ h

theorem SendRequest_wellFormed (c : Client) (req : AppRequest) (env : SendEnv)
    (h : c.wellFormed) : (c.SendRequest req env).1.wellFormed := by
  unfold Client.SendRequest
  exact transmit_wellFormed _ _ _ (wellFormed_congr c _ h rfl rfl rfl)

/-- What `dispatchResponse` does when the sequence number of the response is
pending and the channel of its entry is empty. -/
theorem dispatchResponse_pending (c : Client) (msg : AppMessage) (r : AppResponse) (s : Nat)
    (cb : Callback) (hr : msg.Response = some r) (hs : r.Seq = some s)
    (hpend : mapLookup c.seqCallbacks s = some cb)
    (hempty : c.responseChans.lookup cb.responseChan = none) :
    c.dispatchResponse msg =
      { c with
        responseChans := c.responseChans ++ [(cb.responseChan, msg)]
        seqCallbacks := mapDelete c.seqCallbacks s } := by
  unfold Client.dispatchResponse Client.callCallback
  simp only [hr, hs, hpend, hempty]
  rfl

/-- What `dispatchResponse` does when no entry is pending for the sequence
number of the response. -/
theorem dispatchResponse_not_pending (c : Client) (msg : AppMessage) (r : AppResponse) (s : Nat)
    (hr : msg.Response = some r) (hs : r.Seq = some s)
    (hpend : mapLookup c.seqCallbacks s = none) :
    c.dispatchResponse msg = c := by
  unfold Client.dispatchResponse
  simp only [hr, hs, hpend]

theorem dispatchResponse_wellFormed (c : Client) (msg : AppMessage) (h : c.wellFormed) :
    (c.dispatchResponse msg).wellFormed := by
  unfold Client.dispatchResponse
  split
  · exact h
  · split
    · exact h
    · rename_i seq _
      split
      · exact h
      · rename_i callback hlook
        have hmem : (seq, callback) ∈ c.seqCallbacks := mem_of_lookup _ _ _ hlook
        unfold Client.callCallback
        split
        · simp only [if_true]
          refine ⟨?_, ?_, ?_, ?_, ?_⟩
          · exact List.Nodup.sublist ((mapDelete_sublist _ _).map Prod.fst) h.keys
          · exact List.Nodup.sublist ((mapDelete_sublist _ _).map _) h.chans
          · intro e he r hr2
            have he1 : e ∈ c.seqCallbacks := (mapDelete_sublist _ _).subset he
            have he2 : e.1 ≠ seq := by
              have := (List.mem_filter.mp he).2
              simpa using this
            simp only [List.mem_append, List.mem_singleton] at hr2
            rcases hr2 with hr2 | hr2
            · exact h.pendingEmpty e he1 r hr2
            · subst hr2
              intro heq
              have := List.inj_on_of_nodup_map h.chans hmem he1 heq
              exact he2 (congrArg Prod.fst this).symm
          · intro e he
            exact h.pendingMade e ((mapDelete_sublist _ _).subset he)
          · intro r hr2
            simp only [List.mem_append, List.mem_singleton] at hr2
            rcases hr2 with hr2 | hr2
            · exact h.bufferedMade r hr2
            · subst hr2
              exact h.pendingMade _ hmem
        · simp only [if_true]
          exact wellFormed_of c _ h (mapDelete_sublist _ _) (fun r hr2 => hr2) rfl

theorem handleMessage_wellFormed (fp : FloatLib) (sys : System) (msg : AppMessage)
    (h : sys.client.wellFormed) : (handleMessage fp sys msg).client.wellFormed := by
  unfold handleMessage
  rw [runHandlers_client]
  exact wellFormed_congr _ _ (dispatchResponse_wellFormed sys.client msg h) rfl rfl rfl

theorem readMessage_wellFormed (fp : FloatLib) (sys : System) (msg : AppMessage)
    (h : sys.client.wellFormed) : (readMessage fp sys msg).client.wellFormed := by
  unfold readMessage
  exact handleMessage_wellFormed fp
    { sys with client := sys.client.emitEvent (Event.message msg) } msg
    (emitEvent_wellFormed _ _ h)

theorem awaitResponse_wellFormed (fp : FloatLib) (ch : Nat) (inbound : List AppMessage) :
    ∀ (sys : System), sys.client.wellFormed →
      (awaitResponse fp ch inbound sys).1.client.wellFormed := by
  induction inbound with
  | nil => intro sys h; exact h
  | cons msg rest ih =>
    intro sys h
    have h1 := readMessage_wellFormed fp sys msg h
    simp only [awaitResponse]
    split
    · exact wellFormed_of _ _ h1 (List.Sublist.refl _)
        (fun r hr => (List.mem_filter.mp hr).1) rfl
    · exact ih _ h1

theorem register_wellFormed (c : Client) (seq : Nat) (h : c.wellFormed) :
    Client.wellFormed
      { c with
        nextChan := c.nextChan + 1
        seqCallbacks := mapSet c.seqCallbacks seq (Callback.mk c.nextChan) } := by
  have hsub : List.Sublist (c.seqCallbacks.filter (fun e => e.1 != seq)) c.seqCallbacks :=
    List.filter_sublist _
  refine ⟨?_, ?_, ?_, ?_, ?_⟩
  · show ((mapSet c.seqCallbacks seq (Callback.mk c.nextChan)).map Prod.fst).Nodup
    simp only [mapSet, List.map_cons, List.nodup_cons]
    refine ⟨?_, List.Nodup.sublist (hsub.map Prod.fst) h.keys⟩
    intro hmem
    obtain ⟨e, he, heq⟩ := List.mem_map.mp hmem
    have := (List.mem_filter.mp he).2
    simp [heq] at this
  · show ((mapSet c.seqCallbacks seq (Callback.mk c.nextChan)).map
      (fun e => e.2.responseChan)).Nodup
    simp only [mapSet, List.map_cons, List.nodup_cons]
    refine ⟨?_, List.Nodup.sublist (hsub.map _) h.chans⟩
    intro hmem
    obtain ⟨e, he, heq⟩ := List.mem_map.mp hmem
    have := h.pendingMade e (hsub.subset he)
    omega
  · intro e he r hr
    simp only [mapSet, List.mem_cons] at he
    rcases he with he | he
    · subst he
      have := h.bufferedMade r hr
      simp only
      omega
    · exact h.pendingEmpty e (hsub.subset he) r hr
  · intro e he
    simp only [mapSet, List.mem_cons] at he
    rcases he with he | he
    · subst he
      simp
    · have := h.pendingMade e (hsub.subset he)
      simp only
      omega
  · intro r hr
    have := h.bufferedMade r hr
    simp only
    omega

theorem SendRequestAsync_wellFormed (fp : FloatLib) (sys : System) (req : AppRequest)
    (env : AsyncEnv) (h : sys.client.wellFormed) :
    (SendRequestAsync fp sys req env).1.client.wellFormed := by
  have hreg := register_wellFormed sys.client ((sys.client.seq + 1) % 2 ^ 32) h
  have hsent := transmit_wellFormed
    { sys.client with
      nextChan := sys.client.nextChan + 1
      seq := (sys.client.seq + 1) % 2 ^ 32
      seqCallbacks := mapSet sys.client.seqCallbacks ((sys.client.seq + 1) % 2 ^ 32)
        (Callback.mk sys.client.nextChan) }
    (({ sys.client with nextChan := sys.client.nextChan + 1 } : Client).stamp req).2 env.send
    (wellFormed_congr _ _ hreg rfl rfl rfl)
  unfold SendRequestAsync
  simp only
  split
  · exact hsent
  · split
    · exact awaitResponse_wellFormed fp _ _ _ hsent
    · exact wellFormed_of _ _ (awaitResponse_wellFormed fp _ _ _ hsent)
        (mapDelete_sublist _ _) (fun r hr => hr) rfl

theorem Subscribe_wellFormed (fp : FloatLib) (sys : System) (env : AsyncEnv)
    (h : sys.client.wellFormed) : (Subscribe fp sys env).1.client.wellFormed := by
  unfold Subscribe
  split
  · exact h
  · have h1 := SendRequestAsync_wellFormed fp
      { sys with camera := sys.camera.emitEvent CameraEvent.subscribing }
      { Seq := none, PlayerId := none, PlayerToken := none
        Body := RequestBody.CameraSubscribe
          (sys.camera.emitEvent CameraEvent.subscribing).identifier } env h
    simp only
    split
    · exact h1
    · split
      · exact h1
      · exact wellFormed_congr _ _ h1 rfl rfl rfl

theorem Unsubscribe_wellFormed (fp : FloatLib) (sys : System) (env : AsyncEnv)
    (h : sys.client.wellFormed) : (Unsubscribe fp sys env).1.client.wellFormed := by
  unfold Unsubscribe
  split
  · exact h
  · have h1 := SendRequestAsync_wellFormed fp
      { sys with
        camera := { sys.camera.emitEvent CameraEvent.unsubscribing with subscribeTimer := none } }
      { Seq := none, PlayerId := none, PlayerToken := none, Body := RequestBody.CameraUnsubscribe }
      env h
    simp only
    split
    · exact h1
    · exact h1

theorem subscriptionTimerFired_wellFormed (fp : FloatLib) (sys : System) (env : AsyncEnv)
    (h : sys.client.wellFormed) : (subscriptionTimerFired fp sys env).client.wellFormed := by
  unfold subscriptionTimerFired
  split
  · have h1 := SendRequestAsync_wellFormed fp
      { sys with camera := { sys.camera with subscribeTimer := some (Timer.mk false) } }
      { Seq := none, PlayerId := none, PlayerToken := none
        Body := RequestBody.CameraSubscribe sys.camera.identifier } env h
    simp only
    split
    · exact h1
    · exact h1
  · exact h

theorem step_wellFormed (fp : FloatLib) (sys : System) (action : Action)
    (h : sys.client.wellFormed) : (step fp sys action).client.wellFormed := by
  cases action with
  | connect dial => exact Connect_wellFormed _ _ h
  | disconnect closeErr => exact Disconnect_wellFormed _ _ h
  | addMessageHandler id f => exact wellFormed_congr sys.client _ h rfl rfl rfl
  | sendRequest req env => exact SendRequest_wellFormed _ _ _ h
  | sendRequestAsync req env => exact SendRequestAsync_wellFormed fp sys req env h
  | inbound msg => exact readMessage_wellFormed fp sys msg h
  | subscribe env => exact Subscribe_wellFormed fp sys env h
  | unsubscribe env => exact Unsubscribe_wellFormed fp sys env h
  | timerFired env => exact subscriptionTimerFired_wellFormed fp sys env h

theorem run_wellFormed (fp : FloatLib) (actions : List Action) :
    ∀ (sys : System), sys.client.wellFormed → (run fp sys actions).client.wellFormed := by
  induction actions with
  | nil => intro sys h; exact h
  | cons action rest ih =>
    intro sys h
    exact ih _ (step_wellFormed fp sys action h)

theorem NewClient_wellFormed (server : String) (port : Int) (playerID : Nat) (playerToken : Int)
    (useFacepunchProxy : Bool) :
    (NewClient server port playerID playerToken useFacepunchProxy).wellFormed := by
  refine ⟨?_, ?_, ?_, ?_, ?_⟩
  · exact List.nodup_nil
  · exact List.nodup_nil
  · intro e he; simp [NewClient] at he
  · intro e he; simp [NewClient] at he
  · intro r hr; simp [NewClient] at hr

theorem foldl_readMessage_delivers (fp : FloatLib) (frames : List AppMessage) :
    ∀ (sys : System),
      Client.Delivers sys.client (frames.foldl (readMessage fp) sys).client := by
  induction frames with
  | nil => intro sys; exact Delivers_refl _
  | cons msg rest ih =>
    intro sys
    exact Delivers_trans (readMessage_delivers fp sys msg) (ih _)

theorem readMessage_client (fp : FloatLib) (sys : System) (msg : AppMessage) :
    (readMessage fp sys msg).client =
      { (sys.client.emitEvent (Event.message msg)).dispatchResponse msg with
        handlerCalls :=
          ((sys.client.emitEvent (Event.message msg)).dispatchResponse msg).handlerCalls ++
            (offered ((sys.client.emitEvent (Event.message msg)).dispatchResponse
              msg).messageHandlers msg).map Handler.name } := by
  unfold readMessage handleMessage
  rw [runHandlers_client]

/-- C15. In every state reached from a new client the pending table holds at
most one entry per sequence number, and the invariant `wellFormed` holds.  In
every state with that invariant and a pending sequence number `s`: the first
response frame with `seq = s` is put into the response channel of the pending
entry and the entry is removed; after any further frames, a later response
frame with `seq = s` changes neither the response channels nor the pending
table and is offered to the registered message handlers only. -/
theorem one_response_per_pending_seq (fp : FloatLib) :
    (∀ (server : String) (port : Int) (playerID : Nat) (playerToken : Int)
        (useFacepunchProxy : Bool) (identifier : String) (actions : List Action),
      (run fp (newSystem server port playerID playerToken useFacepunchProxy identifier)
          actions).client.wellFormed ∧
        (run fp (newSystem server port playerID playerToken useFacepunchProxy identifier)
          actions).client.keysDistinct) ∧
    (∀ (sys : System) (s : Nat) (cb : Callback) (first later : AppMessage)
        (r1 r2 : AppResponse) (between : List AppMessage),
      sys.client.wellFormed →
      mapLookup sys.client.seqCallbacks s = some cb →
      first.Response = some r1 → r1.Seq = some s →
      later.Response = some r2 → r2.Seq = some s →
      (readMessage fp sys first).client.responseChans
          = sys.client.responseChans ++ [(cb.responseChan, first)] ∧
        (readMessage fp sys first).client.seqCallbacks = mapDelete sys.client.seqCallbacks s ∧
        mapLookup (readMessage fp sys first).client.seqCallbacks s = none ∧
        (readMessage fp (between.foldl (readMessage fp) (readMessage fp sys first))
            later).client.responseChans
          = (between.foldl (readMessage fp) (readMessage fp sys first)).client.responseChans ∧
        (readMessage fp (between.foldl (readMessage fp) (readMessage fp sys first))
            later).client.seqCallbacks
          = (between.foldl (readMessage fp) (readMessage fp sys first)).client.seqCallbacks ∧
        (readMessage fp (between.foldl (readMessage fp) (readMessage fp sys first))
            later).client.handlerCalls
          = (between.foldl (readMessage fp) (readMessage fp sys first)).client.handlerCalls ++
            (offered sys.client.messageHandlers later).map Handler.name) := by
  refine ⟨?_, ?_⟩
  · intro server port playerID playerToken useFacepunchProxy identifier actions
    have h := run_wellFormed fp actions
      (newSystem server port playerID playerToken useFacepunchProxy identifier)
      (NewClient_wellFormed server port playerID playerToken useFacepunchProxy)
    exact ⟨h, h.keys⟩
  · intro sys s cb first later r1 r2 between hwf hpend hr1 hs1 hr2 hs2
    have hmem : (s, cb) ∈ sys.client.seqCallbacks := mem_of_lookup _ _ _ hpend
    have hempty : sys.client.responseChans.lookup cb.responseChan = none := by
      rw [lookup_none_iff]
      intro p hp
      exact hwf.pendingEmpty (s, cb) hmem p hp
    have ht := emitEvent_table sys.client (Event.message first)
    have hd := dispatchResponse_pending (sys.client.emitEvent (Event.message first)) first r1 s cb
      hr1 hs1 (by rw [ht.1]; exact hpend) (by rw [ht.2.1]; exact hempty)
    have h1 : (readMessage fp sys first).client.seqCallbacks
        = mapDelete sys.client.seqCallbacks s := by
      rw [readMessage_client, hd]
      simp only [ht.1]
    have hnone1 : mapLookup (readMessage fp sys first).client.seqCallbacks s = none := by
      rw [h1]
      exact mapLookup_mapDelete _ _
    have hdel := foldl_readMessage_delivers fp between (readMessage fp sys first)
    have hnone2 := mapLookup_none_of_sublist _ _ s hdel.seqCallbacks hnone1
    have ht2 := emitEvent_table
      (between.foldl (readMessage fp) (readMessage fp sys first)).client (Event.message later)
    have hd2 := dispatchResponse_not_pending
      ((between.foldl (readMessage fp) (readMessage fp sys first)).client.emitEvent
        (Event.message later)) later r2 s hr2 hs2 (by rw [ht2.1]; exact hnone2)
    have hh : (between.foldl (readMessage fp) (readMessage fp sys first)).client.messageHandlers
        = sys.client.messageHandlers :=
      hdel.messageHandlers.trans (readMessage_delivers fp sys first).messageHandlers
    refine ⟨?_, h1, hnone1, ?_, ?_, ?_⟩
    · rw [readMessage_client, hd]
      simp only [ht.2.1]
    · rw [readMessage_client, hd2]
      exact ht2.2.1
    · rw [readMessage_client, hd2]
      exact ht2.1
    · rw [readMessage_client, hd2]
      simp only [ht2.2.2.1, ht2.2.2.2, hh]

/-- C15 (witness). A request whose write failed is pending with the sequence
number 1; the first response with `seq = 1` is put into its channel. -/
theorem one_response_per_pending_seq_witness :
    mapLookup pendingSystem.client.seqCallbacks 1 = some (Callback.mk 0) ∧
      (readMessage sampleFloat pendingSystem (responseTo 1)).client.responseChans
        = pendingSystem.client.responseChans ++ [(0, responseTo 1)] ∧
      mapLookup (readMessage sampleFloat pendingSystem (responseTo 1)).client.seqCallbacks 1
        = none :=
  ⟨rfl,
    ((one_response_per_pending_seq sampleFloat).2 pendingSystem 1 (Callback.mk 0) (responseTo 1)
      (responseTo 1) { Seq := some 1, CameraSubscribeInfo := none }
      { Seq := some 1, CameraSubscribeInfo := none } []
      (run_wellFormed sampleFloat _ connectedSystem
        (run_wellFormed sampleFloat _ _ (NewClient_wellFormed _ _ _ _ _))) rfl rfl rfl rfl rfl).1,
    ((one_response_per_pending_seq sampleFloat).2 pendingSystem 1 (Callback.mk 0) (responseTo 1)
      (responseTo 1) { Seq := some 1, CameraSubscribeInfo := none }
      { Seq := some 1, CameraSubscribeInfo := none } []
      (run_wellFormed sampleFloat _ connectedSystem
        (run_wellFormed sampleFloat _ _ (NewClient_wellFormed _ _ _ _ _))) rfl rfl rfl rfl rfl).2.2.1⟩

/-- C16 (witness). Three handlers, of which the second and the third accept:
the first two are called, in registration order. -/
theorem handlers_called_in_order_witness :
    (newSystem "rust.example" 28082 7 9 false "cam").client.messageHandlers = [] ∧
      (handleMessage sampleFloat
        { (newSystem "rust.example" 28082 7 9 false "cam") with
          client :=
            [Handler.func 1 (fun _ => false), Handler.func 2 (fun _ => true),
              Handler.func 3 (fun _ => true)].foldl Client.AddMessageHandler
              (newSystem "rust.example" 28082 7 9 false "cam").client }
        (responseTo 5)).client.handlerCalls = [HandlerId.func 1, HandlerId.func 2] :=
  ⟨rfl,
    (handlers_called_in_order sampleFloat (newSystem "rust.example" 28082 7 9 false "cam")
      [Handler.func 1 (fun _ => false), Handler.func 2 (fun _ => true),
        Handler.func 3 (fun _ => true)]
      (responseTo 5) rfl).1 1 (by decide) rfl
      (fun i _ hij => by
        have h0 : i = 0 := by omega
        subst h0
        rfl)⟩

theorem Set_Rect (img : Image) (x y : Int) (c : RGBA) : (img.Set x y c).Rect = img.Rect := by
  unfold Image.Set
  split <;> rfl

theorem foldl_Rect {α : Type} (f : Image → α → Image)
    (hf : ∀ (img : Image) (a : α), (f img a).Rect = img.Rect) (l : List α) :
    ∀ (img : Image), (l.foldl f img).Rect = img.Rect := by
  induction l with
  | nil => intro img; rfl
  | cons a rest ih =>
    intro img
    rw [List.foldl_cons, ih, hf]

theorem drawCircle_Rect (img : Image) (x y radius : Int) (c : RGBA) :
    (drawCircle img x y radius c).Rect = img.Rect := by
  unfold drawCircle
  apply foldl_Rect
  intro img dy
  apply foldl_Rect
  intro img dx
  simp only
  split
  · split
    · exact Set_Rect _ _ _ _
    · rfl
  · rfl

theorem drawEntity_Rect (fp : FloatLib) (width height : Int) (img : Image) (entity : Entity) :
    (drawEntity fp width height img entity).Rect = img.Rect := by
  unfold drawEntity
  simp only
  split
  · rfl
  · split
    · rfl
    · exact drawCircle_Rect _ _ _ _ _

theorem drawRays_Rect (rayData : List Nat) (width height : Int) (n : Nat) :
    ∀ (i : Nat) (g : indexGenerator) (img : Image),
      (drawRays rayData width height n i g img).Rect = img.Rect := by
  induction n with
  | zero => intro i g img; rfl
  | succ n ih =>
    intro i g img
    simp only [drawRays]
    split
    · rfl
    · rw [ih, Set_Rect]

theorem drawFrame_Rect (fp : FloatLib) (width height : Int) (img : Image)
    (rays : AppCameraRays) : (drawFrame fp width height img rays).Rect = img.Rect := by
  unfold drawFrame
  simp only
  rw [foldl_Rect _ (drawEntity_Rect fp width height), drawRays_Rect]

/-- The method `renderImage` returns an image with the stored bounds when the
buffer is not empty and the pixel buffer fits an `int`. -/
theorem renderImage_ok (fp : FloatLib) (c : Camera) (info : AppCameraInfo) (w h : Int)
    (hinfo : c.subscribeInfo = some info) (hw : info.Width = some w) (hh : info.Height = some h)
    (hw0 : 0 ≤ w) (hh0 : 0 ≤ h) (hsize : 4 * w * h ≤ 2 ^ 63 - 1)
    (hrays : c.cameraRays.length ≠ 0) :
    ∃ img, c.renderImage fp = Except.ok img ∧ img.Rect = Rectangle.mk 0 0 w h := by
  have hrect : imageRect 0 0 w h = Rectangle.mk 0 0 w h := by
    unfold imageRect
    have h1 : ¬ (0 : Int) > w := by omega
    have h2 : ¬ (0 : Int) > h := by omega
    simp [h1, h2]
  have hnew : NewRGBA (imageRect 0 0 w h) = Except.ok { Rect := Rectangle.mk 0 0 w h, Pix := [] } := by
    rw [hrect]
    unfold NewRGBA Rectangle.Dx Rectangle.Dy
    have h3 : ¬ (4 * (w - 0) * (h - 0) > 2 ^ 63 - 1) := by
      simp only [sub_zero]
      omega
    rw [if_neg h3]
  unfold Camera.renderImage
  simp only [hinfo, hw, hh, hrays, if_false, hnew]
  refine ⟨_, rfl, ?_⟩
  rw [foldl_Rect _ (drawFrame_Rect fp w h)]
  rw [foldl_Rect]
  intro img y
  apply foldl_Rect
  intro img x
  exact Set_Rect _ _ _ _

theorem handleCameraRays_buffer (fp : FloatLib) (c : Camera) (rays : AppCameraRays)
    (hlen : c.cameraRays.length + 1 < 10) :
    c.handleCameraRays fp rays = { c with cameraRays := c.cameraRays ++ [rays] } := by
  unfold Camera.handleCameraRays
  have h : ¬ ((c.cameraRays ++ [rays]).length ≥ 10) := by
    simp only [List.length_append, List.length_singleton]
    omega
  simp only [h, if_false]

theorem handleCameraRays_render (fp : FloatLib) (c : Camera) (rays : AppCameraRays)
    (info : AppCameraInfo) (w h : Int)
    (hinfo : c.subscribeInfo = some info) (hw : info.Width = some w) (hh : info.Height = some h)
    (hw0 : 0 ≤ w) (hh0 : 0 ≤ h) (hsize : 4 * w * h ≤ 2 ^ 63 - 1)
    (hlen : c.cameraRays.length + 1 ≥ 10) (hroom : c.eventChan.length < 100) :
    ∃ img, img.Rect = Rectangle.mk 0 0 w h ∧
      c.handleCameraRays fp rays =
        { c with cameraRays := [], eventChan := c.eventChan ++ [CameraEvent.render img] } := by
  obtain ⟨img, hrender, hrect⟩ := renderImage_ok fp
    { c with cameraRays := c.cameraRays ++ [rays] } info w h hinfo hw hh hw0 hh0 hsize
    (by simp)
  refine ⟨img, hrect, ?_⟩
  unfold Camera.handleCameraRays
  have h1 : (c.cameraRays ++ [rays]).length ≥ 10 := by
    simp only [List.length_append, List.length_singleton]
    omega
  simp only [h1, if_true, hrender, Camera.emitEvent, hroom]

theorem foldl_handleCameraRays (fp : FloatLib) (info : AppCameraInfo) (w h : Int)
    (hw : info.Width = some w) (hh : info.Height = some h)
    (hw0 : 0 ≤ w) (hh0 : 0 ≤ h) (hsize : 4 * w * h ≤ 2 ^ 63 - 1) (frames : List AppCameraRays) :
    ∀ (c : Camera), c.subscribeInfo = some info → c.cameraRays.length < 10 →
      c.eventChan.length + (c.cameraRays.length + frames.length) / 10 ≤ 100 →
      ∃ imgs : List Image,
        (frames.foldl (Camera.handleCameraRays fp) c).eventChan
            = c.eventChan ++ imgs.map CameraEvent.render ∧
          imgs.length = (c.cameraRays.length + frames.length) / 10 ∧
          (∀ img ∈ imgs, img.Rect = Rectangle.mk 0 0 w h) ∧
          (frames.foldl (Camera.handleCameraRays fp) c).cameraRays.length
            = (c.cameraRays.length + frames.length) % 10 ∧
          (frames.foldl (Camera.handleCameraRays fp) c).crashed = c.crashed := by
  induction frames with
  | nil =>
    intro c _ hlen _
    refine ⟨[], by simp, ?_, by simp, ?_, rfl⟩
    · simp only [List.length_nil, Nat.add_zero]
      omega
    · simp only [List.foldl_nil, List.length_nil, Nat.add_zero]
      omega
  | cons rays rest ih =>
    intro c hinfo hlen hroom
    simp only [List.length_cons] at hroom
    by_cases hk : c.cameraRays.length + 1 < 10
    · have hstep := handleCameraRays_buffer fp c rays hk
      obtain ⟨imgs, h1, h2, h3, h4, h5⟩ := ih (c.handleCameraRays fp rays)
        (by rw [hstep]; exact hinfo)
        (by rw [hstep]; simp only [List.length_append, List.length_singleton]; exact hk)
        (by
          rw [hstep]
          simp only [List.length_append, List.length_singleton]
          have : c.cameraRays.length + 1 + rest.length = c.cameraRays.length + (rest.length + 1) := by
            omega
          rw [this]
          exact hroom)
      rw [hstep] at h1 h2 h4 h5
      simp only [List.length_append, List.length_singleton] at h2 h4
      refine ⟨imgs, ?_, ?_, h3, ?_, ?_⟩
      · rw [List.foldl_cons, hstep]; exact h1
      · rw [h2, List.length_cons]; congr 1; omega
      · rw [List.foldl_cons, hstep, h4, List.length_cons]; congr 1; omega
      · rw [List.foldl_cons, hstep]; exact h5
    · have hroom1 : c.eventChan.length < 100 := by omega
      obtain ⟨img, hrect, hstep⟩ := handleCameraRays_render fp c rays info w h hinfo hw hh hw0 hh0
        hsize (by omega) hroom1
      obtain ⟨imgs, h1, h2, h3, h4, h5⟩ := ih (c.handleCameraRays fp rays)
        (by rw [hstep]; exact hinfo)
        (by rw [hstep]; simp)
        (by
          rw [hstep]
          simp only [List.length_append, List.length_singleton, List.length_nil]
          omega)
      rw [hstep] at h1 h2 h4 h5
      simp only [List.length_nil] at h2 h4
      refine ⟨img :: imgs, ?_, ?_, ?_, ?_, ?_⟩
      · rw [List.foldl_cons, hstep, h1]; simp
      · rw [List.length_cons, h2, List.length_cons]; omega
      · intro x hx
        rcases List.mem_cons.mp hx with hx | hx
        · rw [hx]; exact hrect
        · exact h3 x hx
      · rw [List.foldl_cons, hstep, h4, List.length_cons]; omega
      · rw [List.foldl_cons, hstep]; exact h5

/-- C17. For a camera with stored width `w` and height `h` (not negative, the
pixel buffer fitting an `int`) and an empty ray buffer, after `frames` have
been fed to `handleCameraRays` the event channel has gained render events only,
one for every ten frames, each carrying an image with bounds `(0,0)-(w,h)`, and
the ray buffer holds `frames.length % 10` frames, as long as the channel has
room for the events.  Applied to a list and to its initial segments this gives:
no render event for nine frames, one at the tenth, and an empty buffer after
each render. -/
theorem render_every_tenth_frame (fp : FloatLib) (c : Camera) (info : AppCameraInfo)
    (w h : Int) (frames : List AppCameraRays)
    (hinfo : c.subscribeInfo = some info) (hw : info.Width = some w) (hh : info.Height = some h)
    (hw0 : 0 ≤ w) (hh0 : 0 ≤ h) (hsize : 4 * w * h ≤ 2 ^ 63 - 1)
    (hempty : c.cameraRays = [])
    (hroom : c.eventChan.length + frames.length / 10 ≤ 100) :
    ∃ imgs : List Image,
      (frames.foldl (Camera.handleCameraRays fp) c).eventChan
          = c.eventChan ++ imgs.map CameraEvent.render ∧
        imgs.length = frames.length / 10 ∧
        (∀ img ∈ imgs, img.Rect = Rectangle.mk 0 0 w h ∧ img.Rect.Dx = w ∧ img.Rect.Dy = h) ∧
        (frames.foldl (Camera.handleCameraRays fp) c).cameraRays.length = frames.length % 10 ∧
        (frames.foldl (Camera.handleCameraRays fp) c).crashed = c.crashed := by
  obtain ⟨imgs, h1, h2, h3, h4, h5⟩ := foldl_handleCameraRays fp info w h hw hh hw0 hh0 hsize
    frames c hinfo (by rw [hempty]; decide) (by rw [hempty]; simpa using hroom)
  rw [hempty] at h2 h4
  simp only [List.length_nil, Nat.zero_add] at h2 h4
  refine ⟨imgs, h1, h2, ?_, h4, h5⟩
  intro img himg
  have hr := h3 img himg
  refine ⟨hr, ?_, ?_⟩
  · rw [hr]; simp [Rectangle.Dx]
  · rw [hr]; simp [Rectangle.Dy]

/-- C17 (witness). Ten frames fed to a subscribed camera of 3 by 2 pixels. -/
theorem render_every_tenth_frame_witness :
    subscribedSystem.camera.cameraRays = [] ∧
      ∃ imgs : List Image,
        ((List.replicate 10 sampleRays).foldl (Camera.handleCameraRays sampleFloat)
            subscribedSystem.camera).eventChan
          = subscribedSystem.camera.eventChan ++ imgs.map CameraEvent.render ∧
        imgs.length = (List.replicate 10 sampleRays).length / 10 ∧
        (∀ img ∈ imgs, img.Rect = Rectangle.mk 0 0 3 2 ∧ img.Rect.Dx = 3 ∧ img.Rect.Dy = 2) ∧
        ((List.replicate 10 sampleRays).foldl (Camera.handleCameraRays sampleFloat)
            subscribedSystem.camera).cameraRays.length = (List.replicate 10 sampleRays).length % 10 ∧
        ((List.replicate 10 sampleRays).foldl (Camera.handleCameraRays sampleFloat)
            subscribedSystem.camera).crashed = subscribedSystem.camera.crashed :=
  ⟨rfl, render_every_tenth_frame sampleFloat subscribedSystem.camera sampleInfo 3 2
    (List.replicate 10 sampleRays) rfl rfl rfl (by decide) (by decide) (by decide) rfl
    (by decide)⟩

theorem callHandler_camera (fp : FloatLib) (sys : System) (h : Handler) (msg : AppMessage)
    (hmsg : Handler.cameraRays.accepts msg = false) :
    (callHandler fp sys h msg).1.camera = sys.camera := by
  unfold callHandler
  cases h with
  | func id f => rfl
  | cameraRays =>
    unfold Handler.accepts at hmsg
    cases hb : msg.Broadcast with
    | none => simp
    | some b =>
      cases hr : b.CameraRays with
      | none => simp [hr]
      | some r => simp [hb, hr] at hmsg

theorem runHandlers_camera (fp : FloatLib) (msg : AppMessage)
    (hmsg : Handler.cameraRays.accepts msg = false) (hs : List Handler) :
    ∀ (sys : System), (runHandlers fp hs sys msg).camera = sys.camera := by
  induction hs with
  | nil => intro sys; rfl
  | cons h rest ih =>
    intro sys
    simp only [runHandlers]
    split
    · exact callHandler_camera fp sys h msg hmsg
    · rw [ih, callHandler_camera fp sys h msg hmsg]

theorem readMessage_camera (fp : FloatLib) (sys : System) (msg : AppMessage)
    (hmsg : Handler.cameraRays.accepts msg = false) :
    (readMessage fp sys msg).camera = sys.camera := by
  unfold readMessage handleMessage
  rw [runHandlers_camera fp msg hmsg]

theorem awaitResponse_camera (fp : FloatLib) (ch : Nat) (inbound : List AppMessage)
    (hin : ∀ m ∈ inbound, Handler.cameraRays.accepts m = false) :
    ∀ (sys : System), (awaitResponse fp ch inbound sys).1.camera = sys.camera := by
  induction inbound with
  | nil => intro sys; rfl
  | cons msg rest ih =>
    intro sys
    have h1 := readMessage_camera fp sys msg (hin msg (List.mem_cons_self _ _))
    simp only [awaitResponse]
    split
    · exact h1
    · rw [ih (fun m hm => hin m (List.mem_cons_of_mem _ hm)), h1]

theorem SendRequestAsync_camera (fp : FloatLib) (sys : System) (req : AppRequest)
    (env : AsyncEnv) (hin : ∀ m ∈ env.inbound, Handler.cameraRays.accepts m = false) :
    (SendRequestAsync fp sys req env).1.camera = sys.camera := by
  unfold SendRequestAsync
  simp only
  split
  · rfl
  · split
    · rw [awaitResponse_camera fp _ _ hin]
    · show (awaitResponse fp _ _ _).1.camera = _
      rw [awaitResponse_camera fp _ _ hin]

theorem SendRequestAsync_handlers (fp : FloatLib) (sys : System) (req : AppRequest)
    (env : AsyncEnv) :
    (SendRequestAsync fp sys req env).1.client.messageHandlers = sys.client.messageHandlers := by
  unfold SendRequestAsync
  simp only
  split
  · exact (transmit_seq _ _ _).2.2.2.1
  · split
    · rw [(awaitResponse_delivers fp _ _ _).messageHandlers]
      exact (transmit_seq _ _ _).2.2.2.1
    · show (awaitResponse fp _ _ _).1.client.messageHandlers = _
      rw [(awaitResponse_delivers fp _ _ _).messageHandlers]
      exact (transmit_seq _ _ _).2.2.2.1

theorem Camera_emitEvent_fields (c : Camera) (e : CameraEvent) :
    (c.emitEvent e).isSubscribed = c.isSubscribed ∧
      (c.emitEvent e).subscribeTimer = c.subscribeTimer ∧
      (c.emitEvent e).cameraRays = c.cameraRays ∧
      (c.emitEvent e).subscribeInfo = c.subscribeInfo := by
  unfold Camera.emitEvent
  split <;> exact ⟨rfl, rfl, rfl, rfl⟩

/-- The camera handler gets a ray broadcast when every handler registered
before it declines the frame. -/
theorem runHandlers_rays (fp : FloatLib) (rays : AppCameraRays) (before : List Handler)
    (hbefore : ∀ x ∈ before, x.accepts (raysBroadcast rays) = false) (rest : List Handler) :
    ∀ (sys : System),
      (runHandlers fp (before ++ Handler.cameraRays :: rest) sys (raysBroadcast rays)).camera
        = sys.camera.handleCameraRays fp rays := by
  induction before with
  | nil =>
    intro sys
    simp [runHandlers, callHandler, raysBroadcast]
  | cons h more ih =>
    intro sys
    have hh := hbefore h (List.mem_cons_self _ _)
    cases h with
    | cameraRays => simp [Handler.accepts, raysBroadcast] at hh
    | func id f =>
      have hf : f (raysBroadcast rays) = false := hh
      simp only [List.cons_append, runHandlers, callHandler, hf, Bool.false_eq_true, if_false]
      exact ih (fun x hx => hbefore x (List.mem_cons_of_mem _ hx)) _

/-- C18 (counterexample). A subscribed camera that has buffered one ray frame
unsubscribes successfully: the timer is cancelled, but the handler registered
by `Subscribe` is still in the handler list, the buffer still holds the frame,
and the next ray broadcast is captured. -/
theorem unsubscribe_keeps_handler_and_buffer :
    (Unsubscribe sampleFloat (readMessage sampleFloat subscribedSystem (raysBroadcast sampleRays))
        (answered 2 none)).2 = none ∧
      unsubscribedSystem.camera.isSubscribed = false ∧
      unsubscribedSystem.camera.subscribeTimer = none ∧
      unsubscribedSystem.client.messageHandlers.map Handler.name = [HandlerId.cameraRays] ∧
      unsubscribedSystem.camera.cameraRays = [sampleRays] ∧
      (readMessage sampleFloat unsubscribedSystem (raysBroadcast sampleRays)).camera.cameraRays
        = [sampleRays, sampleRays] := by
  refine ⟨?_, ?_, ?_, ?_, ?_, ?_⟩ <;> decide

/-- C18 (amended). After an `Unsubscribe` that returns no error (no ray
broadcast arriving during the call), the refresh timer is cancelled and the
camera is not subscribed; the handler list of the client and the ray buffer are
as before, and a ray broadcast arriving afterwards is handed to
`handleCameraRays` when every handler registered before the camera handler
declines it. -/
theorem unsubscribe_cancels_timer_only (fp : FloatLib) (sys : System) (env : AsyncEnv)
    (hsub : sys.camera.isSubscribed = true)
    (hin : ∀ m ∈ env.inbound, Handler.cameraRays.accepts m = false)
    (hok : (Unsubscribe fp sys env).2 = none) :
    (Unsubscribe fp sys env).1.camera.subscribeTimer = none ∧
      (Unsubscribe fp sys env).1.camera.isSubscribed = false ∧
      (Unsubscribe fp sys env).1.client.messageHandlers = sys.client.messageHandlers ∧
      (Unsubscribe fp sys env).1.camera.cameraRays = sys.camera.cameraRays ∧
      (∀ (rays : AppCameraRays) (before rest : List Handler),
        sys.client.messageHandlers = before ++ Handler.cameraRays :: rest →
        (∀ x ∈ before, x.accepts (raysBroadcast rays) = false) →
        (readMessage fp (Unsubscribe fp sys env).1 (raysBroadcast rays)).camera
          = (Unsubscribe fp sys env).1.camera.handleCameraRays fp rays) := by
  have hcam := SendRequestAsync_camera fp
    { sys with
      camera := { sys.camera.emitEvent CameraEvent.unsubscribing with subscribeTimer := none } }
    { Seq := none, PlayerId := none, PlayerToken := none, Body := RequestBody.CameraUnsubscribe }
    env hin
  have hhs := SendRequestAsync_handlers fp
    { sys with
      camera := { sys.camera.emitEvent CameraEvent.unsubscribing with subscribeTimer := none } }
    { Seq := none, PlayerId := none, PlayerToken := none, Body := RequestBody.CameraUnsubscribe }
    env
  have hev := Camera_emitEvent_fields sys.camera CameraEvent.unsubscribing
  have hhandlers : (Unsubscribe fp sys env).1.client.messageHandlers
      = sys.client.messageHandlers := by
    unfold Unsubscribe
    simp only [hsub, Bool.not_true, Bool.false_eq_true, if_false]
    split
    · exact hhs
    · exact hhs
  unfold Unsubscribe at hok
  simp only [hsub, Bool.not_true, Bool.false_eq_true, if_false] at hok
  refine ⟨?_, ?_, hhandlers, ?_, ?_⟩
  · unfold Unsubscribe
    simp only [hsub, Bool.not_true, Bool.false_eq_true, if_false]
    split
    · rename_i err herr
      simp [herr] at hok
    · rw [(Camera_emitEvent_fields _ _).2.1]
      simp only [hcam]
  · unfold Unsubscribe
    simp only [hsub, Bool.not_true, Bool.false_eq_true, if_false]
    split
    · rename_i err herr
      simp [herr] at hok
    · rw [(Camera_emitEvent_fields _ _).1]
  · unfold Unsubscribe
    simp only [hsub, Bool.not_true, Bool.false_eq_true, if_false]
    split
    · rename_i err herr
      simp [herr] at hok
    · rw [(Camera_emitEvent_fields _ _).2.2.1]
      simp only [hcam]
      exact hev.2.2.1
  · intro rays before rest hlist hbefore
    have hd : ((Unsubscribe fp sys env).1.client.emitEvent
        (Event.message (raysBroadcast rays))).dispatchResponse (raysBroadcast rays)
        = (Unsubscribe fp sys env).1.client.emitEvent (Event.message (raysBroadcast rays)) := by
      simp [Client.dispatchResponse, raysBroadcast]
    unfold readMessage handleMessage
    simp only [hd, (emitEvent_table _ _).2.2.2.2, hhandlers, hlist]
    rw [runHandlers_rays fp rays before hbefore rest]

/-- C18 (witness). The subscribed sample camera unsubscribes. -/
theorem unsubscribe_cancels_timer_only_witness :
    subscribedSystem.camera.isSubscribed = true ∧
      (Unsubscribe sampleFloat subscribedSystem (answered 2 none)).2 = none ∧
      (Unsubscribe sampleFloat subscribedSystem (answered 2 none)).1.camera.subscribeTimer
        = none ∧
      (Unsubscribe sampleFloat subscribedSystem (answered 2 none)).1.client.messageHandlers
        = subscribedSystem.client.messageHandlers :=
  ⟨rfl, rfl,
    (unsubscribe_cancels_timer_only sampleFloat subscribedSystem (answered 2 none) rfl
      (by decide) rfl).1,
    (unsubscribe_cancels_timer_only sampleFloat subscribedSystem (answered 2 none) rfl
      (by decide) rfl).2.2.1⟩

/-- C19. After a successful `Subscribe` the refresh timer fires while the write
of the request fails: the camera is still subscribed, its timer is not armed
any more, and a later firing does nothing.  After a failed `Unsubscribe` the
camera is subscribed and has no timer. -/
theorem subscribed_without_armed_timer :
    (Subscribe sampleFloat connectedSystem (answered 1 (some sampleInfo))).2 = none ∧
      subscribedSystem.camera.isSubscribed = true ∧
      subscribedSystem.camera.subscribeTimer = some (Timer.mk true) ∧
      (subscriptionTimerFired sampleFloat subscribedSystem writeFails).camera.isSubscribed
        = true ∧
      (subscriptionTimerFired sampleFloat subscribedSystem writeFails).camera.subscribeTimer
        = some (Timer.mk false) ∧
      (subscriptionTimerFired sampleFloat
          (subscriptionTimerFired sampleFloat subscribedSystem writeFails)
          (answered 3 (some sampleInfo))).camera
        = (subscriptionTimerFired sampleFloat subscribedSystem writeFails).camera ∧
      (Unsubscribe sampleFloat subscribedSystem writeFails).2
        = some "failed to send request: broken pipe" ∧
      (Unsubscribe sampleFloat subscribedSystem writeFails).1.camera.isSubscribed = true ∧
      (Unsubscribe sampleFloat subscribedSystem writeFails).1.camera.subscribeTimer = none := by
  refine ⟨?_, ?_, ?_, ?_, ?_, ?_, ?_, ?_, ?_⟩ <;> decide

theorem nextState_eq (g : indexGenerator) :
    g.nextState = (g.state, indexGenerator.mk (specAdvance g.state)) := by
  simp [indexGenerator.nextState, specAdvance]

theorem nextInt_eq (g : indexGenerator) (max : Nat) (hmax : max < 2 ^ 63) :
    g.nextInt (Int.ofNat max)
      = (Int.ofNat (specNextInt g.state max), indexGenerator.mk (specAdvance g.state)) := by
  have hmod : ((Int.ofNat max) % 2 ^ 64).toNat = max := by
    have : Int.ofNat max = (max : Int) := rfl
    omega
  have hlt : g.state * max % 2 ^ 64 / 4294967295 < 2 ^ 63 := by
    have := Nat.mod_lt (g.state * max) (show 0 < 2 ^ 64 by decide)
    omega
  have hconv := uint64ToInt_of_lt _ hlt
  have hnn : ¬ (((g.state * max % 2 ^ 64 / 4294967295 : Nat) : Int) < 0) := by omega
  simp only [indexGenerator.nextInt, nextState_eq, hmod, specNextInt, Nat.mod_mul_mod, hconv]
  rw [if_neg hnn]
  rfl

theorem nextInts_eq (maxes : List Nat) : ∀ (g : indexGenerator),
    (∀ m ∈ maxes, m < 2 ^ 63) →
    nextInts g (maxes.map Int.ofNat) = (specNextInts g.state maxes).map Int.ofNat := by
  induction maxes with
  | nil => intro g _; rfl
  | cons m rest ih =>
    intro g h
    have hm := h m (List.mem_cons_self _ _)
    simp only [List.map_cons, nextInts, specNextInts, nextInt_eq g m hm]
    rw [ih _ (fun x hx => h x (List.mem_cons_of_mem _ hx))]

/-- C20. For every seed and every sequence of `max` arguments in the range of a
non-negative `int`, the values that successive calls of `nextInt` return on
`newIndexGenerator(seed)` are those of the reference generator: state `seed`
advanced once at construction, xorshift with the shifts 13 left, 17 right and
5 left on unsigned 32 bits, `nextInt(max)` the state before the advance times
`max` divided by 4294967295 in unsigned 64-bit arithmetic. -/
theorem prng_matches_reference (seed : Nat) (maxes : List Nat)
    (hmax : ∀ m ∈ maxes, m < 2 ^ 63) :
    nextInts (newIndexGenerator seed) (maxes.map Int.ofNat)
      = (specNextInts (specSeed seed) maxes).map Int.ofNat := by
  rw [nextInts_eq maxes _ hmax]
  simp [newIndexGenerator, nextState_eq, specSeed]

/-- C20 (witness). Seed 1 and five calls `nextInt(100)`, which return 0, 1, 61,
7 and 55. -/
theorem prng_matches_reference_witness :
    nextInts (newIndexGenerator 1) ([100, 100, 100, 100, 100].map Int.ofNat)
        = (specNextInts (specSeed 1) [100, 100, 100, 100, 100]).map Int.ofNat ∧
      nextInts (newIndexGenerator 1) [100, 100, 100, 100, 100] = [0, 1, 61, 7, 55] :=
  ⟨prng_matches_reference 1 [100, 100, 100, 100, 100] (by decide), by decide⟩

end Rustplus

/-! ## Theorems: nonce of a record, parser safety -/

/-- C27. For the nonce base of twelve zero bytes the record counters 0 and 256
get the same nonce from `generateNonce`, which XORs only `byte(counter)` into
the last byte; the nonce of the specification for the counter 256 has the byte
1 at index 10 and differs from it.  For the counter 255 the two agree. -/
theorem generateNonce_repeats_at_256 :
    generateNonce [0, 0, 0, 0, 0, 0, 0, 0, 0, 0, 0, 0] 256
        = generateNonce [0, 0, 0, 0, 0, 0, 0, 0, 0, 0, 0, 0] 0 ∧
      generateNonce [0, 0, 0, 0, 0, 0, 0, 0, 0, 0, 0, 0] 256
        = [0, 0, 0, 0, 0, 0, 0, 0, 0, 0, 0, 0] ∧
      specNonce [0, 0, 0, 0, 0, 0, 0, 0, 0, 0, 0, 0] 256
        = [0, 0, 0, 0, 0, 0, 0, 0, 0, 0, 1, 0] ∧
      generateNonce [0, 0, 0, 0, 0, 0, 0, 0, 0, 0, 0, 0] 256
        ≠ specNonce [0, 0, 0, 0, 0, 0, 0, 0, 0, 0, 0, 0] 256 ∧
      generateNonce [0, 0, 0, 0, 0, 0, 0, 0, 0, 0, 0, 0] 255
        = specNonce [0, 0, 0, 0, 0, 0, 0, 0, 0, 0, 0, 0] 255 := by
  refine ⟨?_, ?_, ?_, ?_, ?_⟩ <;> decide

/-- C29. On the bytes 41, 0, nine times 0xff, 0x01 (version, heartbeat-ping
tag, a length varint that decodes to `2 ^ 64 - 1`) `onData` returns, but with a
run-time panic: the message size is converted to `-1`, `onGotMessageSize` takes
the branch for a size that is not positive, and `onGotMessageBytes` uses it as
the slice bound `p.data[:-1]`.  Neither sink has been called. -/
theorem negative_size_slice_panics :
    ∃ q, onData bytesProto 10 (NewParser (List Nat))
        [41, 0, 255, 255, 255, 255, 255, 255, 255, 255, 255, 1] = some q ∧
      q.crashed = true ∧ q.messageSize = -1 ∧ q.events.length = 0 :=
  ⟨_, rfl, rfl, rfl, rfl⟩

/-! ## Theorems: chunking independence of the parser -/

theorem readVarIntLoop_append (k : Nat) : ∀ (d e : List Nat) (x s i v n : Nat),
    readVarIntLoop k d x s i = (v, n, none) →
    readVarIntLoop k (d ++ e) x s i = (v, n, none) ∧ i < n ∧ n ≤ i + d.length := by
  induction k with
  | zero => intro d e x s i v n h; simp [readVarIntLoop] at h
  | succ k ih =>
    intro d e x s i v n h
    cases d with
    | nil => simp [readVarIntLoop] at h
    | cons b rest =>
      simp only [List.cons_append, readVarIntLoop] at h ⊢
      by_cases hb : b < 128
      · simp only [hb, if_true] at h ⊢
        by_cases h9 : i = 9 ∧ b > 1
        · simp [h9] at h
        · simp only [h9, if_false] at h ⊢
          have hn : i + 1 = n := by
            simp only [Prod.mk.injEq] at h
            exact h.2.1
          refine ⟨h, ?_, ?_⟩
          · omega
          · simp only [List.length_cons]; omega
      · simp only [hb, if_false] at h ⊢
        obtain ⟨h1, h2, h3⟩ := ih rest e _ _ _ v n h
        refine ⟨h1, by omega, ?_⟩
        simp only [List.length_cons]; omega

theorem readVarInt_append (d e : List Nat) (v n : Nat) (h : readVarInt d = (v, n, none)) :
    readVarInt (d ++ e) = (v, n, none) ∧ 1 ≤ n ∧ n ≤ d.length := by
  have := readVarIntLoop_append 10 d e 0 0 0 v n h
  exact ⟨this.1, by omega, by omega⟩

theorem alike_refl (p : Parser M) : p.alike p :=
  ⟨rfl, rfl, rfl, rfl, rfl, rfl, rfl, fun _ => ⟨rfl, rfl⟩⟩

theorem alike_trans {a b c : Parser M} (h1 : a.alike b) (h2 : b.alike c) : a.alike c :=
  ⟨h1.data.trans h2.data, h1.messageTag.trans h2.messageTag,
    h1.messageSize.trans h2.messageSize, h1.handshakeComplete.trans h2.handshakeComplete,
    h1.isWaitingForData.trans h2.isWaitingForData, h1.events.trans h2.events,
    h1.crashed.trans h2.crashed,
    fun hw =>
      have hb : b.isWaitingForData = true := h1.isWaitingForData ▸ hw
      ⟨(h1.waiting hw).1.trans (h2.waiting hb).1, (h1.waiting hw).2.trans (h2.waiting hb).2⟩⟩

theorem onData_stuck (proto : Proto M) (fuel : Nat) (q : Parser M) (e : List Nat)
    (h : q.isWaitingForData = false) : onData proto fuel q e = some (q.more e) := by
  simp [onData, h, Parser.more]

theorem onData_waiting (proto : Proto M) (fuel : Nat) (q : Parser M) (e : List Nat)
    (h : q.isWaitingForData = true) :
    onData proto fuel q e
      = exec proto fuel Method.waitForData { q.more e with isWaitingForData := false } := by
  simp [onData, h, Parser.more]

/-- Calls of `onData` with the same bytes take states that are alike to states
that are alike. -/
theorem onData_alike (proto : Proto M) (fuel : Nat) (a b b' : Parser M) (e : List Nat)
    (hab : a.alike b) (h : onData proto fuel b e = some b') :
    ∃ a', onData proto fuel a e = some a' ∧ a'.alike b' := by
  cases hw : a.isWaitingForData with
  | true =>
    have heq : a = b := by
      obtain ⟨h1, h2, h3, h4, h5, h6, h7, h8⟩ := hab
      obtain ⟨h9, h10⟩ := h8 hw
      cases a
      cases b
      simp_all
    rw [heq]
    exact ⟨b', h, alike_refl b'⟩
  | false =>
    have hwb : b.isWaitingForData = false := hab.isWaitingForData ▸ hw
    rw [onData_stuck proto fuel b e hwb] at h
    rw [onData_stuck proto fuel a e hw]
    cases h
    refine ⟨_, rfl, ?_⟩
    exact ⟨by simp [Parser.more, hab.data], hab.messageTag, hab.messageSize,
      hab.handshakeComplete, hab.isWaitingForData, hab.events, hab.crashed,
      fun hh => by simp [Parser.more, hw] at hh⟩

theorem feed_append (proto : Proto M) (fuel : Nat) (chunks : List (List Nat)) (e : List Nat) :
    ∀ (p : Parser M), feed proto fuel p (chunks ++ [e]) =
      match feed proto fuel p chunks with
      | none => none
      | some q => onData proto fuel q e := by
  induction chunks with
  | nil =>
    intro p
    simp only [List.nil_append, feed]
    cases onData proto fuel p e <;> rfl
  | cons c rest ih =>
    intro p
    simp only [List.cons_append, feed]
    cases onData proto fuel p c with
    | none => rfl
    | some q => exact ih q

theorem feed_mono (proto : Proto M) (fuel fuel' : Nat) (hle : fuel ≤ fuel')
    (chunks : List (List Nat)) : ∀ (p q : Parser M),
    feed proto fuel p chunks = some q → feed proto fuel' p chunks = some q := by
  induction chunks with
  | nil => intro p q h; exact h
  | cons c rest ih =>
    intro p q h
    simp only [feed] at h ⊢
    cases hc : onData proto fuel p c with
    | none => rw [hc] at h; cases h
    | some r =>
      rw [hc] at h
      rw [onData_mono proto fuel fuel' p r c hle hc]
      exact ih r q h

/-- The run of `getNextMessage` reads neither `state` nor the record header. -/
theorem getNext_eq (proto : Proto M) (f : Nat) (b a : Parser M) (hd : b.data = a.data)
    (hs : b.sizePacketSoFar = a.sizePacketSoFar)
    (hh : b.handshakeComplete = a.handshakeComplete)
    (hw : b.isWaitingForData = a.isWaitingForData) (he : b.events = a.events)
    (hc : b.crashed = a.crashed) :
    exec proto f Method.getNextMessage b = exec proto f Method.getNextMessage a := by
  cases f with
  | zero => rfl
  | succ f =>
    rw [exec_succ, exec_succ]
    simp only [methodBody, getNextMessage]
    congr 1
    cases a
    cases b
    simp_all

/-- The run of `onGotMessageBytes` does not read `state`. -/
theorem bytes_state (proto : Proto M) (f : Nat) (a x : Parser M) (s : Nat)
    (hw : a.isWaitingForData = false)
    (h : exec proto f Method.onGotMessageBytes a = some x) :
    ∃ y, exec proto f Method.onGotMessageBytes { a with state := s } = some y ∧ y.alike x := by
  cases f with
  | zero => simp [exec] at h
  | succ f =>
    rw [exec_succ] at h ⊢
    simp only [methodBody, onGotMessageBytes] at h ⊢
    cases hb : buildProtobufFromTag proto a.messageTag with
    | error err =>
      simp only [hb] at h ⊢
      refine ⟨x, ?_, alike_refl x⟩
      rw [← h]
      exact getNext_eq proto f _ _ rfl rfl rfl rfl rfl rfl
    | ok pm =>
      simp only [hb] at h ⊢
      by_cases h0 : a.messageSize = 0
      · simp only [h0, if_true] at h ⊢
        refine ⟨x, ?_, alike_refl x⟩
        rw [← h]
        exact getNext_eq proto f _ _ rfl rfl rfl rfl rfl rfl
      · simp only [h0, if_false] at h ⊢
        by_cases hlt : (a.data.length : Int) < a.messageSize
        · simp only [hlt, if_true] at h ⊢
          exact ⟨x, h, alike_refl x⟩
        · simp only [hlt, if_false] at h ⊢
          by_cases hneg : a.messageSize < 0
          · simp only [hneg, if_true] at h ⊢
            cases h
            exact ⟨_, rfl, ⟨rfl, rfl, rfl, rfl, rfl, rfl, rfl,
              fun hh => by simp [hw] at hh⟩⟩
          · simp only [hneg, if_false] at h ⊢
            cases hu : proto.unmarshal (a.data.take a.messageSize.toNat) pm with
            | error cause =>
              simp only [hu] at h ⊢
              refine ⟨x, ?_, alike_refl x⟩
              rw [← h]
              exact getNext_eq proto f _ _ rfl rfl rfl rfl rfl rfl
            | ok msg =>
              simp only [hu] at h ⊢
              refine ⟨x, ?_, alike_refl x⟩
              rw [← h]
              by_cases ht : a.messageTag = LoginResponseTag
              · by_cases hh : a.handshakeComplete = true
                · simp only [emitMessage, ht, hh, if_true]
                  exact getNext_eq proto f _ _ rfl rfl rfl rfl rfl rfl
                · simp only [emitMessage, ht, hh, if_true, Bool.false_eq_true, if_false]
                  exact getNext_eq proto f _ _ rfl rfl rfl rfl rfl rfl
              · simp only [emitMessage, ht, if_false]
                exact getNext_eq proto f _ _ rfl rfl rfl rfl rfl rfl

/-- The run of `onGotMessageSize` reads neither `state` nor `sizePacketSoFar`. -/
theorem size_state (proto : Proto M) (f : Nat) (a x : Parser M) (s k : Nat)
    (hw : a.isWaitingForData = false)
    (h : exec proto f Method.onGotMessageSize a = some x) :
    ∃ y, exec proto f Method.onGotMessageSize { a with state := s, sizePacketSoFar := k }
        = some y ∧ y.alike x := by
  cases f with
  | zero => simp [exec] at h
  | succ f =>
    rw [exec_succ] at h ⊢
    simp only [methodBody, onGotMessageSize] at h ⊢
    rcases hr : readVarInt a.data with ⟨v, n, err⟩
    cases err with
    | some err =>
      simp only [hr] at h ⊢
      exact ⟨x, h, alike_refl x⟩
    | none =>
      simp only [hr] at h ⊢
      by_cases hpos : uint64ToInt v > 0
      · simp only [hpos, if_true] at h ⊢
        exact ⟨x, h, alike_refl x⟩
      · simp only [hpos, if_false] at h ⊢
        exact bytes_state proto f
          { a with messageSize := uint64ToInt v, data := a.data.drop n, sizePacketSoFar := 0 }
          x s hw h

theorem readVarInt_bytesRead (d : List Nat) (v n : Nat) (h : readVarInt d = (v, n, none)) :
    1 ≤ n ∧ n ≤ d.length :=
  (readVarInt_append d [] v n h).2

/-- After the error branch of `onGotMessageSize` the call of `waitForData`
returns at once. -/
theorem waitForData_after_size_error (p : Parser M) :
    waitForData { p with sizePacketSoFar := p.data.length, state := MCSSize }
      = Next.ret { p with sizePacketSoFar := p.data.length, state := MCSSize,
                          isWaitingForData := true } := by
  simp [waitForData, minBytesNeeded, MCSSize, MCSVersionTagAndSize, MCSTagAndSize]

/-- With fewer bytes than the message size the call of `waitForData` by
`onGotMessageBytes` returns at once. -/
theorem waitForData_short (p : Parser M) (h : (p.data.length : Int) < p.messageSize) :
    waitForData { p with state := MCSProtoBytes }
      = Next.ret { p with state := MCSProtoBytes, isWaitingForData := true } := by
  simp [waitForData, minBytesNeeded, MCSProtoBytes, MCSSize, MCSVersionTagAndSize,
    MCSTagAndSize, h]

/-- Every method body returns, or calls a method of smaller rank, or calls
`waitForData` in a state in which it returns at once. -/
theorem step_rank (proto : Proto M) (m : Method) (p : Parser M) :
    (∃ q, methodBody proto m p = Next.ret q) ∨
      ∃ m' p', methodBody proto m p = Next.call m' p' ∧
        (Method.rank m' p' < Method.rank m p ∨ ∃ q, methodBody proto m' p' = Next.ret q) := by
  cases m with
  | waitForData =>
    simp only [methodBody, waitForData]
    cases hn : minBytesNeeded p with
    | none => exact Or.inl ⟨_, rfl⟩
    | some need =>
      simp only []
      by_cases hlt : (p.data.length : Int) < need
      · simp only [hlt, if_true]
        exact Or.inl ⟨_, rfl⟩
      · simp only [hlt, if_false]
        by_cases hV : p.state = MCSVersionTagAndSize
        · simp only [hV, if_true]
          refine Or.inr ⟨_, _, rfl, Or.inl ?_⟩
          simp [Method.rank, hV, MCSVersionTagAndSize, MCSProtoBytes]
        · simp only [hV, if_false]
          by_cases hT : p.state = MCSTagAndSize
          · simp only [hT, if_true]
            refine Or.inr ⟨_, _, rfl, Or.inl ?_⟩
            simp [Method.rank, hT, MCSTagAndSize, MCSProtoBytes]
          · simp only [hT, if_false]
            by_cases hS : p.state = MCSSize
            · simp only [hS, if_true]
              refine Or.inr ⟨_, _, rfl, Or.inl ?_⟩
              simp [Method.rank, hS, MCSSize, MCSProtoBytes]
            · simp only [hS, if_false]
              by_cases hP : p.state = MCSProtoBytes
              · simp only [hP, if_true]
                refine Or.inr ⟨_, _, rfl, Or.inl ?_⟩
                simp [Method.rank, hP]
              · simp only [hP, if_false]
                exact Or.inl ⟨_, rfl⟩
  | onGotVersion =>
    simp only [methodBody, onGotVersion]
    cases hd : p.data with
    | nil => exact Or.inl ⟨_, rfl⟩
    | cons v rest =>
      simp only []
      by_cases hbad : v < MCSVersion ∧ v ≠ 38
      · rw [if_pos hbad]
        exact Or.inl ⟨_, rfl⟩
      · rw [if_neg hbad]
        refine Or.inr ⟨_, _, rfl, Or.inl ?_⟩
        simp only [Method.rank, hd, List.length_cons]
        omega
  | onGotMessageTag =>
    simp only [methodBody, onGotMessageTag]
    cases hd : p.data with
    | nil => exact Or.inl ⟨_, rfl⟩
    | cons t rest =>
      refine Or.inr ⟨_, _, rfl, Or.inl ?_⟩
      simp only [Method.rank, hd, List.length_cons]
      omega
  | onGotMessageSize =>
    simp only [methodBody, onGotMessageSize]
    rcases hr : readVarInt p.data with ⟨v, n, err⟩
    cases err with
    | some err =>
      simp only []
      exact Or.inr ⟨_, _, rfl, Or.inr ⟨_, waitForData_after_size_error p⟩⟩
    | none =>
      simp only []
      obtain ⟨hn1, hn2⟩ := readVarInt_bytesRead p.data v n hr
      by_cases hpos : uint64ToInt v > 0
      · simp only [hpos, if_true]
        refine Or.inr ⟨_, _, rfl, Or.inl ?_⟩
        simp [Method.rank, List.length_drop]
        omega
      · simp only [hpos, if_false]
        refine Or.inr ⟨_, _, rfl, Or.inl ?_⟩
        simp [Method.rank, List.length_drop]
        omega
  | onGotMessageBytes =>
    simp only [methodBody, onGotMessageBytes]
    cases hb : buildProtobufFromTag proto p.messageTag with
    | error err =>
      refine Or.inr ⟨_, _, rfl, Or.inl ?_⟩
      simp [Method.rank, emitError]
    | ok pm =>
      simp only []
      by_cases h0 : p.messageSize = 0
      · simp only [h0, if_true]
        refine Or.inr ⟨_, _, rfl, Or.inl ?_⟩
        simp [Method.rank, emitMessage]
      · simp only [h0, if_false]
        by_cases hlt : (p.data.length : Int) < p.messageSize
        · simp only [hlt, if_true]
          exact Or.inr ⟨_, _, rfl, Or.inr ⟨_, waitForData_short p hlt⟩⟩
        · simp only [hlt, if_false]
          by_cases hneg : p.messageSize < 0
          · simp only [hneg, if_true]
            exact Or.inl ⟨_, rfl⟩
          · simp only [hneg, if_false]
            cases hu : proto.unmarshal (p.data.take p.messageSize.toNat) pm with
            | error cause =>
              refine Or.inr ⟨_, _, rfl, Or.inl ?_⟩
              simp [Method.rank, emitError, List.length_drop]
              omega
            | ok msg =>
              simp only []
              by_cases ht : p.messageTag = LoginResponseTag
              · by_cases hh : p.handshakeComplete = true
                · refine Or.inr ⟨_, _, rfl, Or.inl ?_⟩
                  simp only [Method.rank, emitMessage, ht, hh, if_true, List.length_drop]
                  omega
                · refine Or.inr ⟨_, _, rfl, Or.inl ?_⟩
                  simp only [Method.rank, emitMessage, ht, hh, if_true, Bool.false_eq_true,
                    if_false, List.length_drop]
                  omega
              · refine Or.inr ⟨_, _, rfl, Or.inl ?_⟩
                simp only [Method.rank, emitMessage, ht, if_false, List.length_drop]
                omega
  | getNextMessage =>
    simp only [methodBody, getNextMessage]
    refine Or.inr ⟨_, _, rfl, Or.inl ?_⟩
    simp [Method.rank, MCSTagAndSize, MCSProtoBytes]

/-- Every run returns: `rank + 2` method bodies are enough. -/
theorem exec_total (proto : Proto M) (k : Nat) : ∀ (m : Method) (p : Parser M),
    Method.rank m p ≤ k → ∃ q, exec proto (k + 2) m p = some q := by
  induction k with
  | zero =>
    intro m p hk
    rcases step_rank proto m p with ⟨q, hq⟩ | ⟨m', p', hc, hlt | ⟨q, hq⟩⟩
    · exact ⟨q, exec_ret proto _ m p q hq⟩
    · omega
    · exact ⟨q, by rw [exec_call proto _ m m' p p' hc]; exact exec_ret proto _ m' p' q hq⟩
  | succ k ih =>
    intro m p hk
    rcases step_rank proto m p with ⟨q, hq⟩ | ⟨m', p', hc, hlt | ⟨q, hq⟩⟩
    · exact ⟨q, exec_ret proto _ m p q hq⟩
    · obtain ⟨q, hq⟩ := ih m' p' (by omega)
      exact ⟨q, by rw [exec_call proto _ m m' p p' hc]; exact hq⟩
    · exact ⟨q, by rw [exec_call proto _ m m' p p' hc]; exact exec_ret proto _ m' p' q hq⟩

theorem rank_le (m : Method) (p : Parser M) : Method.rank m p ≤ 6 * p.data.length + 5 := by
  cases m <;> simp only [Method.rank] <;> (try split) <;> omega

theorem lockstep_resume (proto : Proto M) (e : List Nat) (f : Nat) (ih : Resumes proto e f)
    (m : Method) (p q : Parser M) (hl : Lockstep proto e m p)
    (h1 : exec proto (f + 1) m p = some q) (fuel2 : Nat) (q' : Parser M)
    (h2 : exec proto fuel2 m (p.more e) = some q') :
    ∃ q'', onData proto (fuel2 + 1) q e = some q'' ∧ q''.alike q' := by
  cases fuel2 with
  | zero => simp [exec] at h2
  | succ g =>
    rcases hl with ⟨q0, hq0, hw0, hq0'⟩ | ⟨m', p', hc, hc', hr, hw'⟩
    · rw [exec_ret proto f m p q0 hq0] at h1
      rw [exec_ret proto g m _ _ hq0'] at h2
      cases h1
      cases h2
      exact ⟨_, onData_stuck proto _ _ e hw0, alike_refl _⟩
    · rw [exec_call proto f m m' p p' hc] at h1
      rw [exec_call proto g m m' _ _ hc'] at h2
      obtain ⟨q'', hq'', hal⟩ := ih m' p' q hr hw' h1 g q' h2
      exact ⟨q'', onData_mono proto (g + 1) (g + 1 + 1) q q'' e (by omega) hq'', hal⟩

theorem getNext_step (proto : Proto M) (e : List Nat) (p : Parser M)
    (hw : p.isWaitingForData = false) : Lockstep proto e Method.getNextMessage p :=
  Or.inr ⟨_, _, rfl, rfl, trivial, hw⟩

theorem tag_step (proto : Proto M) (e : List Nat) (p : Parser M)
    (hr : Method.ready Method.onGotMessageTag p) (hw : p.isWaitingForData = false) :
    Lockstep proto e Method.onGotMessageTag p := by
  cases hd : p.data with
  | nil =>
    have : 1 ≤ p.data.length := hr
    rw [hd] at this
    simp at this
  | cons t rest =>
    refine Or.inr ⟨Method.onGotMessageSize, { p with messageTag := t, data := rest }, ?_, ?_,
      trivial, hw⟩
    · simp [methodBody, onGotMessageTag, hd]
    · simp [methodBody, onGotMessageTag, Parser.more, hd]

theorem version_step (proto : Proto M) (e : List Nat) (p : Parser M)
    (hr : Method.ready Method.onGotVersion p) (hw : p.isWaitingForData = false) :
    Lockstep proto e Method.onGotVersion p := by
  have hlen : 2 ≤ p.data.length := hr
  cases hd : p.data with
  | nil =>
    rw [hd] at hlen
    simp at hlen
  | cons v rest =>
    rw [hd] at hlen
    by_cases hbad : v < MCSVersion ∧ v ≠ 38
    · refine Or.inl ⟨emitError { p with data := rest } (ParserError.wrongVersion v), ?_, hw, ?_⟩
      · simp only [methodBody, onGotVersion, hd]
        rw [if_pos hbad]
      · simp only [methodBody, onGotVersion, Parser.more, hd, List.cons_append]
        rw [if_pos hbad]
        rfl
    · refine Or.inr ⟨Method.onGotMessageTag, { p with data := rest }, ?_, ?_, ?_, hw⟩
      · simp only [methodBody, onGotVersion, hd]
        rw [if_neg hbad]
      · simp only [methodBody, onGotVersion, Parser.more, hd, List.cons_append]
        rw [if_neg hbad]
      · show 1 ≤ rest.length
        simp only [List.length_cons] at hlen
        omega

theorem wait_step (proto : Proto M) (e : List Nat) (p : Parser M)
    (hw : p.isWaitingForData = false) :
    Lockstep proto e Method.waitForData p ∨
      methodBody proto Method.waitForData p = Next.ret { p with isWaitingForData := true } := by
  have hmin : minBytesNeeded (p.more e) = minBytesNeeded p := rfl
  have hstate : (p.more e).state = p.state := rfl
  have hlen : (p.more e).data.length = p.data.length + e.length := by
    simp [Parser.more]
  cases hn : minBytesNeeded p with
  | none =>
    left
    refine Or.inl ⟨emitError p (ParserError.unexpectedState p.state), ?_, hw, ?_⟩
    · simp only [methodBody, waitForData, hn]
    · simp only [methodBody, waitForData, hmin, hn]
      rfl
  | some need =>
    by_cases hlt : (p.data.length : Int) < need
    · right
      simp only [methodBody, waitForData, hn, hlt, if_true]
    · left
      have hlt2 : ¬ (((p.more e).data.length : Int) < need) := by
        rw [hlen]
        push_cast
        omega
      have h1 : methodBody proto Method.waitForData p =
          if p.state = MCSVersionTagAndSize then Next.call Method.onGotVersion p
          else if p.state = MCSTagAndSize then Next.call Method.onGotMessageTag p
          else if p.state = MCSSize then Next.call Method.onGotMessageSize p
          else if p.state = MCSProtoBytes then Next.call Method.onGotMessageBytes p
          else Next.ret (emitError p (ParserError.unexpectedState p.state)) := by
        simp only [methodBody, waitForData, hn, hlt, if_false]
      have h2 : methodBody proto Method.waitForData (p.more e) =
          if p.state = MCSVersionTagAndSize then Next.call Method.onGotVersion (p.more e)
          else if p.state = MCSTagAndSize then Next.call Method.onGotMessageTag (p.more e)
          else if p.state = MCSSize then Next.call Method.onGotMessageSize (p.more e)
          else if p.state = MCSProtoBytes then Next.call Method.onGotMessageBytes (p.more e)
          else Next.ret (emitError (p.more e) (ParserError.unexpectedState p.state)) := by
        simp only [methodBody, waitForData, hmin, hn, hlt2, if_false, hstate]
      by_cases hV : p.state = MCSVersionTagAndSize
      · have hneed : need = 3 := by
          simp [minBytesNeeded, hV, VersionPacketLen, TagPacketLen, SizePacketLenMin] at hn
          omega
        refine Or.inr ⟨Method.onGotVersion, p, ?_, ?_, ?_, hw⟩
        · rw [h1, if_pos hV]
        · rw [h2, if_pos hV]
        · show 2 ≤ p.data.length
          omega
      · by_cases hT : p.state = MCSTagAndSize
        · have hneed : need = 2 := by
            simp [minBytesNeeded, hT, MCSTagAndSize, MCSVersionTagAndSize, TagPacketLen,
              SizePacketLenMin] at hn
            omega
          refine Or.inr ⟨Method.onGotMessageTag, p, ?_, ?_, ?_, hw⟩
          · rw [h1, if_neg hV, if_pos hT]
          · rw [h2, if_neg hV, if_pos hT]
          · show 1 ≤ p.data.length
            omega
        · by_cases hS : p.state = MCSSize
          · refine Or.inr ⟨Method.onGotMessageSize, p, ?_, ?_, trivial, hw⟩
            · rw [h1, if_neg hV, if_neg hT, if_pos hS]
            · rw [h2, if_neg hV, if_neg hT, if_pos hS]
          · by_cases hP : p.state = MCSProtoBytes
            · refine Or.inr ⟨Method.onGotMessageBytes, p, ?_, ?_, trivial, hw⟩
              · rw [h1, if_neg hV, if_neg hT, if_neg hS, if_pos hP]
              · rw [h2, if_neg hV, if_neg hT, if_neg hS, if_pos hP]
            · refine Or.inl ⟨emitError p (ParserError.unexpectedState p.state), ?_, hw, ?_⟩
              · rw [h1, if_neg hV, if_neg hT, if_neg hS, if_neg hP]
              · rw [h2, if_neg hV, if_neg hT, if_neg hS, if_neg hP]
                rfl

theorem size_step (proto : Proto M) (e : List Nat) (he : e ≠ []) (p : Parser M)
    (hw : p.isWaitingForData = false) :
    Lockstep proto e Method.onGotMessageSize p ∨
      (methodBody proto Method.onGotMessageSize p
          = Next.call Method.waitForData
              { p with sizePacketSoFar := p.data.length, state := MCSSize } ∧
        methodBody proto Method.waitForData
            (({ p with sizePacketSoFar := p.data.length, state := MCSSize } : Parser M).more e)
          = Next.call Method.onGotMessageSize
              (({ p with sizePacketSoFar := p.data.length, state := MCSSize } : Parser M).more
                e)) := by
  rcases hr : readVarInt p.data with ⟨v, n, err⟩
  cases err with
  | some err =>
    right
    refine ⟨?_, ?_⟩
    · simp only [methodBody, onGotMessageSize, hr]
    · have hpos : 0 < e.length := List.length_pos.mpr he
      have hlt : ¬ ((p.data.length : Int) + (e.length : Int) < (p.data.length : Int) + 1) := by
        omega
      simp [methodBody, waitForData, minBytesNeeded, Parser.more, MCSSize, MCSVersionTagAndSize,
        MCSTagAndSize, hlt]
  | none =>
    left
    obtain ⟨hr2, hn1, hn2⟩ := readVarInt_append p.data e v n hr
    have hdrop : (p.data ++ e).drop n = p.data.drop n ++ e :=
      List.drop_append_of_le_length hn2
    by_cases hpos : uint64ToInt v > 0
    · refine Or.inr ⟨Method.waitForData,
        { p with messageSize := uint64ToInt v, data := p.data.drop n, sizePacketSoFar := 0,
                 state := MCSProtoBytes }, ?_, ?_, trivial, hw⟩
      · simp only [methodBody, onGotMessageSize, hr, hpos, if_true]
      · simp only [methodBody, onGotMessageSize, Parser.more, hr2, hpos, if_true, hdrop]
    · refine Or.inr ⟨Method.onGotMessageBytes,
        { p with messageSize := uint64ToInt v, data := p.data.drop n, sizePacketSoFar := 0 },
        ?_, ?_, trivial, hw⟩
      · simp only [methodBody, onGotMessageSize, hr, hpos, if_false]
      · simp only [methodBody, onGotMessageSize, Parser.more, hr2, hpos, if_false, hdrop]

theorem bytes_step (proto : Proto M) (e : List Nat) (p : Parser M)
    (hw : p.isWaitingForData = false) :
    Lockstep proto e Method.onGotMessageBytes p ∨
      ((p.data.length : Int) < p.messageSize ∧
        methodBody proto Method.onGotMessageBytes p
          = Next.call Method.waitForData { p with state := MCSProtoBytes } ∧
        (methodBody proto Method.onGotMessageBytes (p.more e)
            = Next.call Method.waitForData (({ p with state := MCSProtoBytes } : Parser M).more e) ∨
          methodBody proto Method.waitForData (({ p with state := MCSProtoBytes } : Parser M).more e)
            = Next.call Method.onGotMessageBytes
                (({ p with state := MCSProtoBytes } : Parser M).more e))) := by
  have htag : (p.more e).messageTag = p.messageTag := rfl
  have hsize : (p.more e).messageSize = p.messageSize := rfl
  have hlen : (p.more e).data.length = p.data.length + e.length := by
    simp [Parser.more]
  cases hb : buildProtobufFromTag proto p.messageTag with
  | error err =>
    left
    refine Or.inr ⟨Method.getNextMessage, emitError p err, ?_, ?_, trivial, hw⟩
    · simp only [methodBody, onGotMessageBytes, hb]
    · simp only [methodBody, onGotMessageBytes, htag, hb]
      rfl
  | ok pm =>
    by_cases h0 : p.messageSize = 0
    · left
      refine Or.inr ⟨Method.getNextMessage, emitMessage p p.messageTag pm, ?_, ?_, trivial, hw⟩
      · simp only [methodBody, onGotMessageBytes, hb, h0, if_true]
      · simp only [methodBody, onGotMessageBytes, htag, hsize, hb, h0, if_true]
        rfl
    · by_cases hlt : (p.data.length : Int) < p.messageSize
      · right
        refine ⟨hlt, ?_, ?_⟩
        · simp only [methodBody, onGotMessageBytes, hb, h0, if_false, hlt, if_true]
        · by_cases hlt2 : ((p.more e).data.length : Int) < p.messageSize
          · left
            simp only [methodBody, onGotMessageBytes, htag, hsize, hb, h0, if_false, hlt2,
              if_true]
            rfl
          · right
            have hlt3 : ¬ ((p.data.length : Int) + (e.length : Int) < p.messageSize) := by
              rw [hlen] at hlt2
              push_cast at hlt2
              exact hlt2
            simp [methodBody, waitForData, minBytesNeeded, Parser.more, MCSProtoBytes, MCSSize,
              MCSVersionTagAndSize, MCSTagAndSize, hlt3]
      · left
        have hlt2 : ¬ (((p.more e).data.length : Int) < p.messageSize) := by
          rw [hlen]
          push_cast
          omega
        by_cases hneg : p.messageSize < 0
        · refine Or.inl ⟨{ p with crashed := true }, ?_, hw, ?_⟩
          · simp only [methodBody, onGotMessageBytes, hb, h0, if_false, hlt, hneg, if_true]
          · simp only [methodBody, onGotMessageBytes, htag, hsize, hb, h0, if_false, hlt2, hneg,
              if_true]
            rfl
        · have hn : p.messageSize.toNat ≤ p.data.length := by omega
          have htake : (p.more e).data.take p.messageSize.toNat
              = p.data.take p.messageSize.toNat := by
            simp only [Parser.more]
            exact List.take_append_of_le_length hn
          have hdrop : (p.more e).data.drop p.messageSize.toNat
              = p.data.drop p.messageSize.toNat ++ e := by
            simp only [Parser.more]
            exact List.drop_append_of_le_length hn
          cases hu : proto.unmarshal (p.data.take p.messageSize.toNat) pm with
          | error cause =>
            refine Or.inr ⟨Method.getNextMessage,
              emitError { p with data := p.data.drop p.messageSize.toNat }
                (ParserError.unmarshalFailed cause), ?_, ?_, trivial, hw⟩
            · simp only [methodBody, onGotMessageBytes, hb, h0, if_false, hlt, hneg, hu]
            · simp only [methodBody, onGotMessageBytes, htag, hsize, hb, h0, if_false, hlt2,
                hneg, htake, hdrop, hu]
              rfl
          | ok msg =>
            have hA : methodBody proto Method.onGotMessageBytes p =
                Next.call Method.getNextMessage
                  (if p.messageTag = LoginResponseTag then
                    (if p.handshakeComplete = true then
                      emitMessage { p with data := p.data.drop p.messageSize.toNat }
                        p.messageTag msg
                    else
                      { emitMessage { p with data := p.data.drop p.messageSize.toNat }
                          p.messageTag msg with handshakeComplete := true })
                  else
                    emitMessage { p with data := p.data.drop p.messageSize.toNat }
                      p.messageTag msg) := by
              simp only [methodBody, onGotMessageBytes, hb, h0, if_false, hlt, hneg, hu]
              rfl
            have hB : methodBody proto Method.onGotMessageBytes (p.more e) =
                Next.call Method.getNextMessage
                  (if p.messageTag = LoginResponseTag then
                    (if p.handshakeComplete = true then
                      (emitMessage { p with data := p.data.drop p.messageSize.toNat }
                        p.messageTag msg).more e
                    else
                      ({ emitMessage { p with data := p.data.drop p.messageSize.toNat }
                          p.messageTag msg with handshakeComplete := true } : Parser M).more e)
                  else
                    (emitMessage { p with data := p.data.drop p.messageSize.toNat }
                      p.messageTag msg).more e) := by
              simp only [methodBody, onGotMessageBytes, htag, hsize, hb, h0, if_false, hlt2,
                hneg, htake, hdrop, hu]
              rfl
            by_cases ht : p.messageTag = LoginResponseTag
            · by_cases hh : p.handshakeComplete = true
              · refine Or.inr ⟨Method.getNextMessage,
                  emitMessage { p with data := p.data.drop p.messageSize.toNat } p.messageTag msg,
                  ?_, ?_, trivial, hw⟩
                · rw [hA, if_pos ht, if_pos hh]
                · rw [hB, if_pos ht, if_pos hh]
              · refine Or.inr ⟨Method.getNextMessage,
                  { emitMessage { p with data := p.data.drop p.messageSize.toNat } p.messageTag
                      msg with handshakeComplete := true },
                  ?_, ?_, trivial, hw⟩
                · rw [hA, if_pos ht, if_neg hh]
                · rw [hB, if_pos ht, if_neg hh]
            · refine Or.inr ⟨Method.getNextMessage,
                emitMessage { p with data := p.data.drop p.messageSize.toNat } p.messageTag msg,
                ?_, ?_, trivial, hw⟩
              · rw [hA, if_neg ht]
              · rw [hB, if_neg ht]

theorem more_waiting (p : Parser M) (e : List Nat) (hw : p.isWaitingForData = false) :
    ({ (({ p with isWaitingForData := true } : Parser M).more e) with
        isWaitingForData := false } : Parser M) = p.more e := by
  cases p
  simp only [Parser.more] at hw ⊢
  subst hw
  rfl

/-- Every run of the parser can be resumed with more bytes. -/
theorem resumes (proto : Proto M) (e : List Nat) (he : e ≠ []) :
    ∀ (f : Nat), Resumes proto e f := by
  intro f
  induction f with
  | zero =>
    intro m p q _ _ h
    simp [exec] at h
  | succ f ih =>
    intro m p q hr hw h1 fuel2 q' h2
    cases m with
    | onGotVersion =>
      exact lockstep_resume proto e f ih _ p q (version_step proto e p hr hw) h1 fuel2 q' h2
    | onGotMessageTag =>
      exact lockstep_resume proto e f ih _ p q (tag_step proto e p hr hw) h1 fuel2 q' h2
    | getNextMessage =>
      exact lockstep_resume proto e f ih _ p q (getNext_step proto e p hw) h1 fuel2 q' h2
    | waitForData =>
      rcases wait_step proto e p hw with hl | hret
      · exact lockstep_resume proto e f ih _ p q hl h1 fuel2 q' h2
      · rw [exec_ret proto f _ p _ hret] at h1
        cases h1
        refine ⟨q', ?_, alike_refl q'⟩
        rw [onData_waiting proto _ _ e rfl, more_waiting p e hw]
        exact exec_mono proto fuel2 (fuel2 + 1) _ _ _ (by omega) h2
    | onGotMessageSize =>
      rcases size_step proto e he p hw with hl | ⟨hc, hc2⟩
      · exact lockstep_resume proto e f ih _ p q hl h1 fuel2 q' h2
      · rw [exec_call proto f _ _ p _ hc] at h1
        cases f with
        | zero => simp [exec] at h1
        | succ f0 =>
          have hret : methodBody proto Method.waitForData
              ({ p with sizePacketSoFar := p.data.length, state := MCSSize } : Parser M)
              = Next.ret { p with sizePacketSoFar := p.data.length, state := MCSSize,
                                  isWaitingForData := true } :=
            waitForData_after_size_error p
          rw [exec_ret proto f0 Method.waitForData _ _ hret] at h1
          cases h1
          obtain ⟨y, hy, hal⟩ := size_state proto fuel2 (p.more e) q' MCSSize p.data.length
            hw h2
          refine ⟨y, ?_, hal⟩
          rw [onData_waiting proto _ _ e rfl]
          have heta := more_waiting
            ({ p with sizePacketSoFar := p.data.length, state := MCSSize } : Parser M) e hw
          rw [heta, exec_call proto fuel2 _ _ _ _ hc2]
          exact hy
    | onGotMessageBytes =>
      rcases bytes_step proto e p hw with hl | ⟨hlt, hc, hc2⟩
      · exact lockstep_resume proto e f ih _ p q hl h1 fuel2 q' h2
      · rw [exec_call proto f _ _ p _ hc] at h1
        cases f with
        | zero => simp [exec] at h1
        | succ f0 =>
          have hret : methodBody proto Method.waitForData
              ({ p with state := MCSProtoBytes } : Parser M)
              = Next.ret { p with state := MCSProtoBytes, isWaitingForData := true } :=
            waitForData_short p hlt
          rw [exec_ret proto f0 Method.waitForData _ _ hret] at h1
          cases h1
          have heta := more_waiting ({ p with state := MCSProtoBytes } : Parser M) e hw
          rcases hc2 with hA | hB
          · cases fuel2 with
            | zero => simp [exec] at h2
            | succ g =>
              rw [exec_call proto g _ _ _ _ hA] at h2
              refine ⟨q', ?_, alike_refl q'⟩
              rw [onData_waiting proto _ _ e rfl, heta]
              exact exec_mono proto g (g + 1 + 1) _ _ _ (by omega) h2
          · obtain ⟨y, hy, hal⟩ := bytes_state proto fuel2 (p.more e) q' MCSProtoBytes hw h2
            refine ⟨y, ?_, hal⟩
            rw [onData_waiting proto _ _ e rfl, heta, exec_call proto fuel2 _ _ _ _ hB]
            exact hy

theorem onData_fresh (proto : Proto M) (fuel : Nat) (d : List Nat) :
    onData proto fuel (NewParser M) d
      = exec proto fuel Method.waitForData
          (({ (NewParser M) with isWaitingForData := false } : Parser M).more d) :=
  onData_waiting proto fuel (NewParser M) d rfl

theorem more_more (p : Parser M) (d e : List Nat) : (p.more d).more e = p.more (d ++ e) := by
  simp [Parser.more]

/-- A fresh parser fed the chunks one by one ends in a state like the one it
reaches when fed their concatenation in one call. -/
theorem chunking_alike (proto : Proto M) (chunks : List (List Nat)) :
    (∀ c ∈ chunks, c ≠ []) → ∀ (fuel : Nat), 6 * chunks.flatten.length + 8 ≤ fuel →
      ∃ q1 q2, feed proto fuel (NewParser M) chunks = some q1 ∧
        onData proto fuel (NewParser M) chunks.flatten = some q2 ∧ q1.alike q2 := by
  induction chunks using List.reverseRecOn with
  | nil =>
    intro _ fuel hfuel
    obtain ⟨g, rfl⟩ : ∃ g, fuel = g + 1 := ⟨fuel - 1, by omega⟩
    exact ⟨NewParser M, NewParser M, rfl, rfl, alike_refl _⟩
  | append_singleton l e ih =>
    intro hne fuel hfuel
    have he : e ≠ [] := hne e (by simp)
    have hl : ∀ c ∈ l, c ≠ [] := fun c hc => hne c (by simp [hc])
    have hflat : (l ++ [e]).flatten = l.flatten ++ e := List.flatten_concat l e
    have hlen : (l ++ [e]).flatten.length = l.flatten.length + e.length := by
      rw [hflat, List.length_append]
    obtain ⟨q1, q2, hq1, hq2, hal⟩ := ih hl fuel (by omega)
    let p0 : Parser M := { (NewParser M) with isWaitingForData := false }
    have hrank : Method.rank Method.waitForData (p0.more (l.flatten ++ e))
        ≤ 6 * (l.flatten.length + e.length) + 5 := by
      have := rank_le Method.waitForData (p0.more (l.flatten ++ e))
      have hd : (p0.more (l.flatten ++ e)).data.length = l.flatten.length + e.length := by
        simp [Parser.more, p0, NewParser]
      rw [hd] at this
      exact this
    obtain ⟨q', hq'⟩ := exec_total proto _ Method.waitForData _ hrank
    rw [onData_fresh] at hq2
    have hq'2 : exec proto (6 * (l.flatten.length + e.length) + 5 + 2) Method.waitForData
        ((p0.more l.flatten).more e) = some q' := by
      rw [more_more]
      exact hq'
    obtain ⟨q'', hq'', hal2⟩ := resumes proto e he fuel Method.waitForData (p0.more l.flatten) q2
      trivial rfl hq2 _ q' hq'2
    have hq''f : onData proto fuel q2 e = some q'' :=
      onData_mono proto _ fuel q2 q'' e (by omega) hq''
    obtain ⟨a', ha', hal3⟩ := onData_alike proto fuel q1 q2 q'' e hal hq''f
    refine ⟨a', q', ?_, ?_, alike_trans hal3 hal2⟩
    · rw [feed_append, hq1]
      exact ha'
    · rw [hflat, onData_fresh]
      exact exec_mono proto _ fuel _ _ _ (by omega) hq'

/-- C28. Chunking independence: for every protobuf library, every list of
non-empty chunks and every bound on the method bodies of at least six times
the number of bytes plus eight, feeding the chunks to a fresh parser by
successive calls of `onData` and feeding their concatenation in one call both
return, with the same sequence of message-sink and error-sink calls (and the
same panic flag). -/
theorem chunking_independence (proto : Proto M) (chunks : List (List Nat))
    (hne : ∀ c ∈ chunks, c ≠ []) (fuel : Nat) (hfuel : 6 * chunks.flatten.length + 8 ≤ fuel) :
    ∃ q1 q2, feed proto fuel (NewParser M) chunks = some q1 ∧
      onData proto fuel (NewParser M) chunks.flatten = some q2 ∧
      q1.events = q2.events ∧ q1.crashed = q2.crashed := by
  obtain ⟨q1, q2, h1, h2, hal⟩ := chunking_alike proto chunks hne fuel hfuel
  exact ⟨q1, q2, h1, h2, hal.events, hal.crashed⟩

theorem chunking_independence_witness :
    (∀ c ∈ [[41], [8, 3, 10], [20, 30, 0], [0]], c ≠ ([] : List Nat)) ∧
      6 * ([[41], [8, 3, 10], [20, 30, 0], [0]] : List (List Nat)).flatten.length + 8 ≤ 56 ∧
      ∃ q1 q2, feed bytesProto 56 (NewParser (List Nat)) [[41], [8, 3, 10], [20, 30, 0], [0]]
          = some q1 ∧
        onData bytesProto 56 (NewParser (List Nat))
          ([[41], [8, 3, 10], [20, 30, 0], [0]] : List (List Nat)).flatten = some q2 ∧
        q1.events = q2.events ∧ q1.crashed = q2.crashed :=
  ⟨by decide, by decide,
    chunking_independence bytesProto [[41], [8, 3, 10], [20, 30, 0], [0]] (by decide) 56
      (by decide)⟩

/-! ## Theorems: reconnect procedure of the MCS client -/

theorem retry_fields (s : Session) :
    s.retry.retryCount = min (s.retryCount + 1) 15 ∧
      s.retry.retryTimer = some (RetryTimer.mk (min (s.retryCount + 1) 15) true) ∧
      s.retry.scheduled = s.scheduled ++ [min (s.retryCount + 1) 15] ∧
      s.retry.conn = none ∧ s.retry.parser = false := by
  unfold Session.retry Session.destroy maxRetryTimeout
  by_cases h : s.retryCount + 1 > 15
  · have hm : min (s.retryCount + 1) 15 = 15 := by omega
    simp [h, hm]
  · have hm : min (s.retryCount + 1) 15 = s.retryCount + 1 := by omega
    simp [h, hm]

theorem Connect_failed (s : Session) (outcome : ConnectOutcome)
    (h : outcome ≠ ConnectOutcome.ok) :
    (s.Connect outcome).1.retryCount = s.retryCount ∧
      (s.Connect outcome).1.scheduled = s.scheduled ∧ (s.Connect outcome).2 ≠ none := by
  cases outcome <;> simp_all [Session.Connect, Session.connect]

theorem Connect_ok (s : Session) :
    (s.Connect ConnectOutcome.ok).1.retryCount = 0 ∧ (s.Connect ConnectOutcome.ok).2 = none ∧
      (s.Connect ConnectOutcome.ok).1.conn = some (Conn.mk false) ∧
      (s.Connect ConnectOutcome.ok).1.parser = true := by
  simp [Session.Connect, Session.connect]

/-- One failing event either leaves the counter and the log as they are or is
one call of `retry`. -/
theorem handle_fails (s : Session) (e : SessionEvent) (h : e.fails = true) :
    ((s.handle e).retryCount = s.retryCount ∧ (s.handle e).scheduled = s.scheduled) ∨
      ((s.handle e).retryCount = min (s.retryCount + 1) 15 ∧
        (s.handle e).scheduled = s.scheduled ++ [min (s.retryCount + 1) 15]) := by
  cases e with
  | parserError err =>
    right
    exact ⟨(retry_fields s).1, (retry_fields s).2.2.1⟩
  | connectCalled outcome =>
    left
    have hne : outcome ≠ ConnectOutcome.ok := by
      simpa [SessionEvent.fails] using h
    exact ⟨(Connect_failed s outcome hne).1, (Connect_failed s outcome hne).2.1⟩
  | timerFired outcome =>
    have hne : outcome ≠ ConnectOutcome.ok := by
      simpa [SessionEvent.fails] using h
    simp only [Session.handle, Session.retryTimerFired]
    split
    · rename_i delay ht
      right
      have hc := Connect_failed { s with retryTimer := some (RetryTimer.mk delay false) }
        outcome hne
      split
      · rename_i s2 err hs2
        have h1 : s2.retryCount = s.retryCount := by
          have := hc.1; rw [hs2] at this; exact this
        have h2 : s2.scheduled = s.scheduled := by
          have := hc.2.1; rw [hs2] at this; exact this
        have hr := retry_fields s2
        rw [h1, h2] at hr
        exact ⟨hr.1, hr.2.2.1⟩
      · rename_i s2 hs2
        have := hc.2.2
        rw [hs2] at this
        exact absurd rfl this
    · left
      exact ⟨rfl, rfl⟩

theorem backoffDelays_succ (n : Nat) :
    backoffDelays (n + 1) = backoffDelays n ++ [min ((n : Int) + 1) 15] := by
  simp [backoffDelays, List.range_succ]

theorem run_fails (events : List SessionEvent) : ∀ (s : Session) (n : Nat) (base : List Int),
    s.retryCount = min (n : Int) 15 → s.scheduled = base ++ backoffDelays n →
    (∀ e ∈ events, e.fails = true) →
    ∃ k : Nat, k ≤ events.length ∧ (s.run events).retryCount = min ((n + k : Nat) : Int) 15 ∧
      (s.run events).scheduled = base ++ backoffDelays (n + k) := by
  induction events with
  | nil =>
    intro s n base h1 h2 _
    exact ⟨0, le_refl _, h1, h2⟩
  | cons e rest ih =>
    intro s n base h1 h2 hall
    have he := hall e (List.mem_cons_self _ _)
    have hrest : ∀ x ∈ rest, x.fails = true := fun x hx => hall x (List.mem_cons_of_mem _ hx)
    rcases handle_fails s e he with ⟨ha, hb⟩ | ⟨ha, hb⟩
    · obtain ⟨k, hk, hc, hd⟩ := ih (s.handle e) n base (by rw [ha, h1]) (by rw [hb, h2]) hrest
      exact ⟨k, by simp only [List.length_cons]; omega, hc, hd⟩
    · obtain ⟨k, hk, hc, hd⟩ := ih (s.handle e) (n + 1) base
        (by
          have hmin : min (min (n : Int) 15 + 1) 15 = min (((n + 1 : Nat) : Int)) 15 := by
            push_cast
            omega
          rw [ha, h1, hmin])
        (by
          rw [hb, h2, backoffDelays_succ, h1, List.append_assoc]
          have hmin : min (min (n : Int) 15 + 1) 15 = min ((n : Int) + 1) 15 := by omega
          rw [hmin])
        hrest
      refine ⟨k + 1, by simp only [List.length_cons]; omega, ?_, ?_⟩
      · rw [show n + (k + 1) = n + 1 + k by omega]; exact hc
      · rw [show n + (k + 1) = n + 1 + k by omega]; exact hd

theorem iterate_retry (s : Session) (h : s.retryCount = 0) : ∀ (k : Nat),
    (Session.retry^[k] s).retryCount = min (k : Int) 15 := by
  intro k
  induction k with
  | zero => simpa using h
  | succ k ih =>
    rw [Function.iterate_succ_apply', (retry_fields _).1, ih]
    push_cast
    omega

theorem mem_backoffDelays (n : Nat) (d : Int) (h : d ∈ backoffDelays n) : 1 ≤ d ∧ d ≤ 15 := by
  unfold backoffDelays at h
  obtain ⟨i, _, hi⟩ := List.mem_map.mp h
  simp only [Int.ofNat_eq_coe] at hi
  omega

/-- C23. After a successful connect (retry counter 0): the `k`-th consecutive
call of `retry` arms the timer with `min(k, 15)` seconds; in every run of
events of which none is a successful `Connect` (parser errors, timer firings
and calls of `Connect` that fail) the delays scheduled are `min(1, 15)`,
`min(2, 15)`, ... in this order, each between 1 and 15 seconds; and a
successful `Connect` sets the retry counter to 0. -/
theorem retry_backoff_bounded (s : Session) (events : List SessionEvent)
    (hreset : s.retryCount = 0) (hfail : ∀ e ∈ events, e.fails = true) :
    (∀ (k : Nat), 1 ≤ k →
      (Session.retry^[k] s).retryTimer = some (RetryTimer.mk (min (k : Int) 15) true)) ∧
    (∃ k : Nat, k ≤ events.length ∧
      (s.run events).scheduled = s.scheduled ++ backoffDelays k ∧
      (s.run events).retryCount = min (k : Int) 15) ∧
    (∀ d ∈ (s.run events).scheduled.drop s.scheduled.length, 1 ≤ d ∧ d ≤ 15) ∧
    (∀ (t : Session), (t.Connect ConnectOutcome.ok).1.retryCount = 0 ∧
      (t.connect ConnectOutcome.ok).1.retryCount = 0) := by
  obtain ⟨k, hk, hc, hd⟩ := run_fails events s 0 s.scheduled (by simpa using hreset)
    (by simp [backoffDelays]) hfail
  simp only [Nat.zero_add] at hc hd
  refine ⟨?_, ⟨k, hk, hd, hc⟩, ?_, ?_⟩
  · intro j hj
    obtain ⟨i, rfl⟩ : ∃ i, j = i + 1 := ⟨j - 1, by omega⟩
    rw [Function.iterate_succ_apply', (retry_fields _).2.1, iterate_retry s hreset i]
    have hmin : min (min (i : Int) 15 + 1) 15 = min (((i + 1 : Nat) : Int)) 15 := by
      push_cast
      omega
    rw [hmin]
  · intro d hdm
    rw [hd, List.drop_left] at hdm
    exact mem_backoffDelays k d hdm
  · intro t
    exact ⟨(Connect_ok t).1, by simp [Session.connect]⟩

/-- C23 (witness). Seventeen parser errors and a timer firing whose `Connect`
fails, after a successful connect: the sixteenth consecutive `retry` arms the
timer with 15 seconds. -/
theorem retry_backoff_bounded_witness :
    connectedMCS.session.retryCount = 0 ∧
      (Session.retry^[16] connectedMCS.session).retryTimer
        = some (RetryTimer.mk (min ((16 : Nat) : Int) 15) true) ∧
      (connectedMCS.session.run
        (List.replicate 17 (SessionEvent.parserError (ParserError.unknownTag 99)) ++
          [SessionEvent.timerFired (ConnectOutcome.dialFailed "timeout")])).scheduled
        = [1, 2, 3, 4, 5, 6, 7, 8, 9, 10, 11, 12, 13, 14, 15, 15, 15, 15] :=
  ⟨rfl,
    (retry_backoff_bounded connectedMCS.session
      (List.replicate 17 (SessionEvent.parserError (ParserError.unknownTag 99)) ++
        [SessionEvent.timerFired (ConnectOutcome.dialFailed "timeout")])
      rfl (by decide)).1 16 (by decide),
    by decide⟩

/-- C24. The stream `41, 99, 0` (version, unknown tag 99, length 0) makes the
parser report exactly one error, the unknown-tag error.  On that error the
connected client calls `retry`: the connection and the parser are gone, the
retry counter has gone from 0 to 1 and a reconnect is scheduled after one
second. -/
theorem unknown_tag_error_triggers_retry :
    (∃ q, onData bytesProto 10 (NewParser (List Nat)) [41, 99, 0] = some q ∧
      q.events.map (fun e =>
          match e with
          | Event.error err => some err
          | Event.message _ _ => none)
        = [some (ParserError.unknownTag 99)]) ∧
      connectedMCS.session
        = { retryCount := 0, conn := some (Conn.mk false), parser := true, retryTimer := none
            scheduled := [] } ∧
      (connectedMCS.onParserError (ParserError.unknownTag 99)).session
        = { retryCount := 1, conn := none, parser := false
            retryTimer := some (RetryTimer.mk 1 true), scheduled := [1] } :=
  ⟨⟨_, rfl, rfl⟩, by decide, by decide⟩

theorem onMessage_other_tag {J : Type}
    (decryptMessage : EncryptedMessage → Keys → Except String J) (m : MCSClient J) (tag : Nat)
    (message : ProtoMessage) (h1 : tag ≠ LoginResponseTag) (h2 : tag ≠ DataMessageStanzaTag) :
    m.onMessage decryptMessage tag message = some m := by
  simp [MCSClient.onMessage, onMessage, h1, h2]

/-- C25 (counterexample). A connected client gets a message with the Close tag
(4) and one with the StreamError tag (10): `onMessage` returns with the session
as it was, the connection and the parser in place, the retry counter 0 and no
reconnect scheduled. -/
theorem close_tag_leaves_session :
    (∃ m, connectedMCS.onMessage (fun _ _ => Except.error "unused") CloseTag ProtoMessage.other
        = some m ∧
      m.session = { retryCount := 0, conn := some (Conn.mk false), parser := true
                    retryTimer := none, scheduled := [] }) ∧
    (∃ m, connectedMCS.onMessage (fun _ _ => Except.error "unused") StreamErrorStanzaTag
        ProtoMessage.other = some m ∧
      m.session = { retryCount := 0, conn := some (Conn.mk false), parser := true
                    retryTimer := none, scheduled := [] }) :=
  ⟨⟨_, rfl, by decide⟩, ⟨_, rfl, by decide⟩⟩

/-- C25 (amended). For every message that the parser dispatches with the Close
tag (4) or the StreamError tag (10), `onMessage` leaves the client as it is:
the session is not destroyed, the retry counter keeps its value, no reconnect
is scheduled and the persistent ids are unchanged. -/
theorem close_and_stream_error_ignored {J : Type}
    (decryptMessage : EncryptedMessage → Keys → Except String J) (m : MCSClient J) (tag : Nat)
    (message : ProtoMessage) (htag : tag = CloseTag ∨ tag = StreamErrorStanzaTag) :
    m.onMessage decryptMessage tag message = some m := by
  rcases htag with h | h <;> subst h <;>
    exact onMessage_other_tag decryptMessage m _ message (by decide) (by decide)

/-- C25 (witness). The connected sample client and a Close message. -/
theorem close_and_stream_error_ignored_witness :
    (CloseTag = CloseTag ∨ CloseTag = StreamErrorStanzaTag) ∧
      (connectedMCS.onMessage (fun _ _ => (Except.error "unused" : Except String Unit)) CloseTag
        ProtoMessage.other).map (fun m => m.session) = some connectedMCS.session :=
  ⟨Or.inl rfl,
    congrArg (Option.map (fun m => m.session))
      (close_and_stream_error_ignored (fun _ _ => (Except.error "unused" : Except String Unit))
        connectedMCS CloseTag ProtoMessage.other (Or.inl rfl))⟩

namespace Rustplus

/-! ### Theorems: range of `nextInt`, reconnect counter -/

/-- C21. With the seed 1584200935 the state of the generator after
construction is 4294967295, and the first call `nextInt(max)` returns `max`
itself, for `max = 100` and for the width 3: the result is not below `max`.  A
ray frame with that sample offset puts its first sample at `x = 3` of an image
3 pixels wide, outside the image, and `Set` drops it. -/
theorem nextInt_returns_max :
    (newIndexGenerator 1584200935).state = 4294967295 ∧
      ((newIndexGenerator 1584200935).nextInt 100).1 = 100 ∧
      ((newIndexGenerator 1584200935).nextInt 3).1 = 3 ∧
      (drawRays edgeRays.RayData 3 2 1 0
        (newIndexGenerator (edgeRays.SampleOffset % 2 ^ 32).toNat)
        { Rect := Rectangle.mk 0 0 3 2, Pix := [] }).Pix = [] := by
  refine ⟨?_, ?_, ?_, ?_⟩ <;> decide

theorem handleDisconnect_not_connected (c : Client) (err : String) (dial : DialResult)
    (h : c.isConnected = false) : c.handleDisconnect err dial = (c, none) := by
  unfold Client.handleDisconnect
  simp only [h, Bool.false_eq_true, if_false]
  cases c
  simp_all

theorem Connect_fields (c : Client) (dial : DialResult) :
    (c.isConnected = true → (c.Connect dial).1 = c) ∧
      (c.isConnected = false → dial = DialResult.ok →
        (c.Connect dial).1.isConnected = true ∧ (c.Connect dial).1.reconnectAttempts = 0 ∧
          (c.Connect dial).2 = none) ∧
      (c.isConnected = false → dial ≠ DialResult.ok →
        (c.Connect dial).1.isConnected = false ∧
          (c.Connect dial).1.reconnectAttempts = c.reconnectAttempts ∧
          (c.Connect dial).2 ≠ none) := by
  refine ⟨?_, ?_, ?_⟩
  · intro h
    simp [Client.Connect, h]
  · intro h hd
    subst hd
    simp only [Client.Connect, h, Bool.false_eq_true, if_false]
    refine ⟨?_, ?_, trivial⟩
    · rw [(emitEvent_delivers _ _).isConnected]
    · rw [(emitEvent_delivers _ _).reconnectAttempts]
  · intro h hd
    cases dial with
    | ok => exact absurd rfl hd
    | invalidURL e =>
      simp only [Client.Connect, h, Bool.false_eq_true, if_false]
      exact ⟨by rw [(emitEvent_delivers _ _).isConnected]; exact h,
        by rw [(emitEvent_delivers _ _).reconnectAttempts], by simp⟩
    | failed e =>
      simp only [Client.Connect, h, Bool.false_eq_true, if_false]
      exact ⟨by rw [(emitEvent_delivers _ _).isConnected]; exact h,
        by rw [(emitEvent_delivers _ _).reconnectAttempts], by simp⟩

theorem Disconnect_fields (c : Client) (closeErr : Option String) :
    (c.Disconnect closeErr).1.isConnected = false ∧
      (c.Disconnect closeErr).1.reconnectAttempts = c.reconnectAttempts := by
  unfold Client.Disconnect
  cases h : c.isConnected with
  | false => simp [h]
  | true =>
    simp only [Bool.not_true, Bool.false_eq_true, if_false]
    exact ⟨by rw [(emitEvent_delivers _ _).isConnected],
      by rw [(emitEvent_delivers _ _).reconnectAttempts]⟩

/-- What `handleDisconnect` does on a connected client whose counter is 0: the
counter becomes 1, the test `< 5` succeeds, the sleep is one second, and the
client ends connected with the counter 0 or not connected with the counter 1. -/
theorem handleDisconnect_connected (c : Client) (err : String) (dial : DialResult)
    (h : c.isConnected = true) (h0 : c.reconnectAttempts = 0) :
    (c.handleDisconnect err dial).2 = some 1 ∧
      (dial = DialResult.ok →
        (c.handleDisconnect err dial).1.isConnected = true ∧
          (c.handleDisconnect err dial).1.reconnectAttempts = 0) ∧
      (dial ≠ DialResult.ok →
        (c.handleDisconnect err dial).1.isConnected = false ∧
          (c.handleDisconnect err dial).1.reconnectAttempts = 1) := by
  have hattempts : (({ c with isConnected := false } : Client).emitEvent
      (Event.disconnected (some err))).reconnectAttempts = 0 := by
    rw [(emitEvent_delivers _ _).reconnectAttempts]
    exact h0
  have hconn : (({ c with isConnected := false } : Client).emitEvent
      (Event.disconnected (some err))).isConnected = false := by
    rw [(emitEvent_delivers _ _).isConnected]
  have hf := Connect_fields
    { ({ c with isConnected := false } : Client).emitEvent (Event.disconnected (some err)) with
      reconnectAttempts := (({ c with isConnected := false } : Client).emitEvent
        (Event.disconnected (some err))).reconnectAttempts + 1 } dial
  unfold Client.handleDisconnect
  simp only [h, if_true, hattempts]
  have h5 : ((0 : Int) + 1 < 5) := by decide
  simp only [h5, if_true]
  refine ⟨?_, ?_, ?_⟩
  · split <;> rfl
  · intro hd
    obtain ⟨h1, h2, h3⟩ := hf.2.1 hconn hd
    rw [hattempts] at h1 h2 h3
    simp only [h3]
    exact ⟨h1, h2⟩
  · intro hd
    obtain ⟨h1, h2, h3⟩ := hf.2.2 hconn hd
    rw [hattempts] at h1 h2 h3
    split
    · exact ⟨by rw [(emitEvent_delivers _ _).isConnected]; exact h1,
        by rw [(emitEvent_delivers _ _).reconnectAttempts, h2]; rfl⟩
    · rename_i hnone
      exact absurd hnone h3

/-- The invariant of the reconnect counter. -/
theorem connStep_invariant (c : Client) (action : ConnAction)
    (h : (c.isConnected = true → c.reconnectAttempts = 0) ∧
      (c.reconnectAttempts = 0 ∨ c.reconnectAttempts = 1)) :
    ((connStep c action).isConnected = true → (connStep c action).reconnectAttempts = 0) ∧
      ((connStep c action).reconnectAttempts = 0 ∨ (connStep c action).reconnectAttempts = 1) := by
  cases action with
  | connect dial =>
    simp only [connStep]
    cases hc : c.isConnected with
    | true =>
      rw [(Connect_fields c dial).1 hc]
      exact h
    | false =>
      by_cases hd : dial = DialResult.ok
      · obtain ⟨h1, h2, _⟩ := (Connect_fields c dial).2.1 hc hd
        exact ⟨fun _ => h2, Or.inl h2⟩
      · obtain ⟨h1, h2, _⟩ := (Connect_fields c dial).2.2 hc hd
        rw [h2]
        exact ⟨fun hh => (by rw [h1] at hh; cases hh), h.2⟩
  | disconnect closeErr =>
    simp only [connStep]
    obtain ⟨h1, h2⟩ := Disconnect_fields c closeErr
    rw [h2]
    exact ⟨fun hh => (by rw [h1] at hh; cases hh), h.2⟩
  | connectionLost err dial =>
    simp only [connStep]
    cases hc : c.isConnected with
    | false =>
      rw [handleDisconnect_not_connected c err dial hc]
      exact ⟨fun hh => (by rw [hc] at hh; cases hh), h.2⟩
    | true =>
      obtain ⟨_, hok, hfail⟩ := handleDisconnect_connected c err dial hc (h.1 hc)
      by_cases hd : dial = DialResult.ok
      · obtain ⟨h1, h2⟩ := hok hd
        exact ⟨fun _ => h2, Or.inl h2⟩
      · obtain ⟨h1, h2⟩ := hfail hd
        exact ⟨fun hh => (by rw [h1] at hh; cases hh), Or.inr h2⟩

theorem connRun_invariant (actions : List ConnAction) : ∀ (c : Client),
    ((c.isConnected = true → c.reconnectAttempts = 0) ∧
      (c.reconnectAttempts = 0 ∨ c.reconnectAttempts = 1)) →
    (((connRun c actions).isConnected = true → (connRun c actions).reconnectAttempts = 0) ∧
      ((connRun c actions).reconnectAttempts = 0 ∨ (connRun c actions).reconnectAttempts = 1)) := by
  induction actions with
  | nil => intro c h; exact h
  | cons action rest ih =>
    intro c h
    exact ih _ (connStep_invariant c action h)

/-- C30. In every state that a new client reaches through `Connect`,
`Disconnect` and `handleDisconnect` the counter `reconnectAttempts` is 0 or 1,
and it is 0 while the client is connected.  In such a state `handleDisconnect`
sleeps exactly one second before its reconnect attempt when the client was
connected (the test `reconnectAttempts < 5` succeeds) and makes no attempt
otherwise; after an attempt that fails the client is not connected, so a
further `handleDisconnect` makes no attempt and changes nothing. -/
theorem reconnectAttempts_at_most_one (server : String) (port : Int) (playerID : Nat)
    (playerToken : Int) (useFacepunchProxy : Bool) (actions : List ConnAction) :
    ((connRun (NewClient server port playerID playerToken useFacepunchProxy)
          actions).reconnectAttempts = 0 ∨
        (connRun (NewClient server port playerID playerToken useFacepunchProxy)
          actions).reconnectAttempts = 1) ∧
      ((connRun (NewClient server port playerID playerToken useFacepunchProxy)
          actions).isConnected = true →
        (connRun (NewClient server port playerID playerToken useFacepunchProxy)
          actions).reconnectAttempts = 0) ∧
      (∀ (err : String) (dial : DialResult),
        ((connRun (NewClient server port playerID playerToken useFacepunchProxy)
            actions).handleDisconnect err dial).2 =
          if (connRun (NewClient server port playerID playerToken useFacepunchProxy)
            actions).isConnected then some 1 else none) ∧
      (∀ (err err2 : String) (dial dial2 : DialResult), dial ≠ DialResult.ok →
        (((connRun (NewClient server port playerID playerToken useFacepunchProxy)
            actions).handleDisconnect err dial).1.handleDisconnect err2 dial2) =
          (((connRun (NewClient server port playerID playerToken useFacepunchProxy)
            actions).handleDisconnect err dial).1, none)) := by
  have hinv := connRun_invariant actions
    (NewClient server port playerID playerToken useFacepunchProxy)
    ⟨fun _ => rfl, Or.inl rfl⟩
  refine ⟨hinv.2, hinv.1, ?_, ?_⟩
  · intro err dial
    cases hc : (connRun (NewClient server port playerID playerToken useFacepunchProxy)
        actions).isConnected with
    | false =>
      rw [handleDisconnect_not_connected _ err dial hc]
      simp
    | true =>
      rw [(handleDisconnect_connected _ err dial hc (hinv.1 hc)).1]
      simp
  · intro err err2 dial dial2 hd
    apply handleDisconnect_not_connected
    cases hc : (connRun (NewClient server port playerID playerToken useFacepunchProxy)
        actions).isConnected with
    | false =>
      rw [handleDisconnect_not_connected _ err dial hc]
      exact hc
    | true =>
      exact ((handleDisconnect_connected _ err dial hc (hinv.1 hc)).2.2 hd).1

/-- C30 (witness). A client connects, loses the connection and fails to
reconnect: the counter is 1, and a second failed read makes no attempt. -/
theorem reconnectAttempts_at_most_one_witness :
    (connRun (NewClient "rust.example" 28082 7 9 false)
        [ConnAction.connect DialResult.ok,
          ConnAction.connectionLost "EOF" (DialResult.failed "refused")]).reconnectAttempts = 1 ∧
      ((connRun (NewClient "rust.example" 28082 7 9 false)
          [ConnAction.connect DialResult.ok]).handleDisconnect "EOF"
            (DialResult.failed "refused")).2 = some 1 ∧
      ((connRun (NewClient "rust.example" 28082 7 9 false)
          [ConnAction.connect DialResult.ok]).handleDisconnect "EOF"
            (DialResult.failed "refused")).1.handleDisconnect "EOF" DialResult.ok
        = (((connRun (NewClient "rust.example" 28082 7 9 false)
          [ConnAction.connect DialResult.ok]).handleDisconnect "EOF"
            (DialResult.failed "refused")).1, none) :=
  ⟨by decide,
    ((reconnectAttempts_at_most_one "rust.example" 28082 7 9 false
      [ConnAction.connect DialResult.ok]).2.2.1 "EOF" (DialResult.failed "refused")).trans
      (by decide),
    (reconnectAttempts_at_most_one "rust.example" 28082 7 9 false
      [ConnAction.connect DialResult.ok]).2.2.2 "EOF" "EOF" (DialResult.failed "refused")
      DialResult.ok (by decide)⟩

/-! ### Theorems: pairing notification -/

theorem splitChars_no_sep (sep : Char) (p : List Char) (h : sep ∉ p) :
    splitChars sep p = [p] := by
  induction p with
  | nil => rfl
  | cons c cs ih =>
    have hc : c ≠ sep := fun hh => h (by rw [hh]; exact List.mem_cons_self _ _)
    have hcs : sep ∉ cs := fun hh => h (List.mem_cons_of_mem _ hh)
    simp [splitChars, hc, ih hcs]

theorem splitChars_one_sep (sep : Char) (h p : List Char) (hh : sep ∉ h) (hp : sep ∉ p) :
    splitChars sep (h ++ sep :: p) = [h, p] := by
  induction h with
  | nil => simp [splitChars, splitChars_no_sep sep p hp]
  | cons c cs ih =>
    have hc : c ≠ sep := fun e => hh (by rw [e]; exact List.mem_cons_self _ _)
    have hcs : sep ∉ cs := fun e => hh (List.mem_cons_of_mem _ e)
    simp [splitChars, hc, ih hcs]

theorem stringsSplit_host_port (H P : String) (hH : ':' ∉ H.data) (hP : ':' ∉ P.data) :
    stringsSplit (H ++ ":" ++ P) ':' = [H, P] := by
  unfold stringsSplit
  have hdata : (H ++ ":" ++ P).data = H.data ++ ':' :: P.data := by
    simp [String.data_append]
  rw [hdata, splitChars_one_sep ':' H.data P.data hH hP]
  rfl

/-- C22. For every notification whose `data.body` is a text that
`json.Unmarshal` decodes to an object with `server` the string `H:P` (no colon
in `H` nor in `P`, `Sscanf` reading `P` as the integer `port`), `playerId` a
string that `Sscanf` reads as the unsigned integer `id`, and `playerToken`
either a number whose conversion to `int` is `t` or a string that `Sscanf`
reads as `t`, `ParsePairingNotification` returns `(H, port, id, t)` without
error. -/
theorem pairing_notification_parsed {F : Type} (lib : ScanLib F)
    (notification data body : List (String × JSONValue F)) (bodyStr H P idStr : String)
    (port : Int) (id : Nat) (token : JSONValue F) (t : Int)
    (hdata : notification.lookup "data" = some (JSONValue.object data))
    (hbody : data.lookup "body" = some (JSONValue.string bodyStr))
    (hjson : lib.jsonUnmarshal bodyStr = Except.ok body)
    (hserver : body.lookup "server" = some (JSONValue.string (H ++ ":" ++ P)))
    (hH : ':' ∉ H.data) (hP : ':' ∉ P.data)
    (hport : lib.sscanInt P = Except.ok port)
    (hid : body.lookup "playerId" = some (JSONValue.string idStr))
    (hidv : lib.sscanUint64 idStr = Except.ok id)
    (htoken : body.lookup "playerToken" = some token)
    (ht : (∃ v, token = JSONValue.number v ∧ lib.floatToInt v = t) ∨
      (∃ T, token = JSONValue.string T ∧ lib.sscanInt T = Except.ok t)) :
    ParsePairingNotification lib notification = Except.ok (H, port, id, t) := by
  have hsplit := stringsSplit_host_port H P hH hP
  have hparse : parsePlayerToken lib token = Except.ok t := by
    rcases ht with ⟨v, hv, hvt⟩ | ⟨T, hT, hTt⟩
    · rw [hv]
      simp [parsePlayerToken, hvt]
    · rw [hT]
      simp [parsePlayerToken, hTt]
  unfold ParsePairingNotification
  simp only [hdata, hbody, hjson, hserver, htoken, hparse, hid, hidv, hsplit, hport]

/-- C22 (witness). The notification body of the specification yields
`("1.2.3.4", 28083, 76561198000000000, 123456789)`. -/
theorem pairing_notification_parsed_witness :
    ParsePairingNotification sampleScan
        [("data", JSONValue.object [("body", JSONValue.string pairingBody)])]
      = Except.ok ("1.2.3.4", 28083, 76561198000000000, 123456789) :=
  pairing_notification_parsed sampleScan
    [("data", JSONValue.object [("body", JSONValue.string pairingBody)])]
    [("body", JSONValue.string pairingBody)]
    [("server", JSONValue.string "1.2.3.4:28083"), ("playerToken", JSONValue.number 123456789),
      ("playerId", JSONValue.string "76561198000000000")]
    pairingBody "1.2.3.4" "28083" "76561198000000000" 28083 76561198000000000
    (JSONValue.number 123456789) 123456789
    rfl rfl rfl rfl (by decide) (by decide) rfl rfl rfl rfl (Or.inl ⟨123456789, rfl, rfl⟩)

end Rustplus

namespace Cmd

/-! ### Theorems: UTF-8 -/

/-- The shapes of a valid encoding of more than one byte. -/
theorem DecodeRune_multibyte (b : Nat) (rest : List Nat) (hb : ¬ b < 0x80)
    (hv : ¬ ((DecodeRune (b :: rest)).1 = RuneError ∧ (DecodeRune (b :: rest)).2 = 1)) :
    (∃ b1 t, rest = b1 :: t ∧ 0xC2 ≤ b ∧ b ≤ 0xDF ∧ 0x80 ≤ b1 ∧ b1 ≤ 0xBF ∧
        DecodeRune (b :: rest) = (b % 32 * 64 + b1 % 64, 2)) ∨
      (∃ b1 b2 t, rest = b1 :: b2 :: t ∧ 0xE0 ≤ b ∧ b ≤ 0xEF ∧ acceptLo b ≤ b1 ∧
        b1 ≤ acceptHi b ∧ 0x80 ≤ b2 ∧ b2 ≤ 0xBF ∧
        DecodeRune (b :: rest) = (b % 16 * 4096 + b1 % 64 * 64 + b2 % 64, 3)) ∨
      (∃ b1 b2 b3 t, rest = b1 :: b2 :: b3 :: t ∧ 0xF0 ≤ b ∧ b ≤ 0xF4 ∧ acceptLo b ≤ b1 ∧
        b1 ≤ acceptHi b ∧ 0x80 ≤ b2 ∧ b2 ≤ 0xBF ∧ 0x80 ≤ b3 ∧ b3 ≤ 0xBF ∧
        DecodeRune (b :: rest)
          = (b % 8 * 262144 + b1 % 64 * 4096 + b2 % 64 * 64 + b3 % 64, 4)) := by
  by_cases h2 : 0xC2 ≤ b ∧ b ≤ 0xDF
  · left
    match rest with
    | [] => simp [DecodeRune, hb, h2] at hv
    | b1 :: t =>
      by_cases hc : 0x80 ≤ b1 ∧ b1 ≤ 0xBF
      · exact ⟨b1, t, rfl, h2.1, h2.2, hc.1, hc.2, by simp [DecodeRune, hb, h2, hc]⟩
      · simp [DecodeRune, hb, h2, hc] at hv
  · right
    by_cases h3 : 0xE0 ≤ b ∧ b ≤ 0xEF
    · left
      match rest with
      | [] => simp [DecodeRune, hb, h2, h3] at hv
      | [_] => simp [DecodeRune, hb, h2, h3] at hv
      | b1 :: b2 :: t =>
        by_cases hc : acceptLo b ≤ b1 ∧ b1 ≤ acceptHi b ∧ 0x80 ≤ b2 ∧ b2 ≤ 0xBF
        · exact ⟨b1, b2, t, rfl, h3.1, h3.2, hc.1, hc.2.1, hc.2.2.1, hc.2.2.2,
            by simp [DecodeRune, hb, h2, h3, hc]⟩
        · simp [DecodeRune, hb, h2, h3, hc] at hv
    · right
      by_cases h4 : 0xF0 ≤ b ∧ b ≤ 0xF4
      · match rest with
        | [] => simp [DecodeRune, hb, h2, h3, h4] at hv
        | [_] => simp [DecodeRune, hb, h2, h3, h4] at hv
        | [_, _] => simp [DecodeRune, hb, h2, h3, h4] at hv
        | b1 :: b2 :: b3 :: t =>
          by_cases hc : acceptLo b ≤ b1 ∧ b1 ≤ acceptHi b ∧ 0x80 ≤ b2 ∧ b2 ≤ 0xBF ∧
              0x80 ≤ b3 ∧ b3 ≤ 0xBF
          · exact ⟨b1, b2, b3, t, rfl, h4.1, h4.2, hc.1, hc.2.1, hc.2.2.1, hc.2.2.2.1,
              hc.2.2.2.2.1, hc.2.2.2.2.2, by simp [DecodeRune, hb, h2, h3, h4, hc]⟩
          · simp [DecodeRune, hb, h2, h3, h4, hc] at hv
      · simp [DecodeRune, hb, h2, h3, h4] at hv

theorem AppendRune_two (b b1 : Nat) (h1 : 0xC2 ≤ b) (h2 : b ≤ 0xDF) (h3 : 0x80 ≤ b1)
    (h4 : b1 ≤ 0xBF) : AppendRune (b % 32 * 64 + b1 % 64) = [b, b1] := by
  unfold AppendRune
  rw [if_neg (by omega), if_pos (by omega)]
  congr 1
  · omega
  · congr 1
    omega

theorem AppendRune_three (b b1 b2 : Nat) (h1 : 0xE0 ≤ b) (h2 : b ≤ 0xEF)
    (h3 : acceptLo b ≤ b1) (h4 : b1 ≤ acceptHi b) (h5 : 0x80 ≤ b2) (h6 : b2 ≤ 0xBF) :
    AppendRune (b % 16 * 4096 + b1 % 64 * 64 + b2 % 64) = [b, b1, b2] := by
  have hlo : 0x80 ≤ b1 ∧ (b = 0xE0 → 0xA0 ≤ b1) := by
    unfold acceptLo at h3
    split_ifs at h3 <;> omega
  have hhi : b1 ≤ 0xBF ∧ (b = 0xED → b1 ≤ 0x9F) := by
    unfold acceptHi at h4
    split_ifs at h4 <;> omega
  unfold AppendRune
  rw [if_neg (by omega), if_neg (by omega), if_neg (by omega), if_pos (by omega)]
  congr 1
  · omega
  · congr 1
    · omega
    · congr 1
      omega

theorem AppendRune_four (b b1 b2 b3 : Nat) (h1 : 0xF0 ≤ b) (h2 : b ≤ 0xF4)
    (h3 : acceptLo b ≤ b1) (h4 : b1 ≤ acceptHi b) (h5 : 0x80 ≤ b2) (h6 : b2 ≤ 0xBF)
    (h7 : 0x80 ≤ b3) (h8 : b3 ≤ 0xBF) :
    AppendRune (b % 8 * 262144 + b1 % 64 * 4096 + b2 % 64 * 64 + b3 % 64) = [b, b1, b2, b3] := by
  have hlo : 0x80 ≤ b1 ∧ (b = 0xF0 → 0x90 ≤ b1) := by
    unfold acceptLo at h3
    split_ifs at h3 <;> omega
  have hhi : b1 ≤ 0xBF ∧ (b = 0xF4 → b1 ≤ 0x8F) := by
    unfold acceptHi at h4
    split_ifs at h4 <;> omega
  unfold AppendRune
  rw [if_neg (by omega), if_neg (by omega), if_neg (by omega), if_neg (by omega)]
  congr 1
  · omega
  · congr 1
    · omega
    · congr 1
      · omega
      · congr 1
        omega

/-- A valid encoding of more than one byte: `DecodeRune` reads the bytes
`chunk`, all of them at least `0x80`, whatever follows them, and `AppendRune`
writes the same bytes. -/
theorem DecodeRune_chunk (b : Nat) (rest : List Nat) (hb : ¬ b < 0x80)
    (hv : ¬ ((DecodeRune (b :: rest)).1 = RuneError ∧ (DecodeRune (b :: rest)).2 = 1)) :
    ∃ chunk t, b :: rest = chunk ++ t ∧ 2 ≤ chunk.length ∧
      (DecodeRune (b :: rest)).2 = chunk.length ∧
      AppendRune (DecodeRune (b :: rest)).1 = chunk ∧ (∀ x ∈ chunk, 0x80 ≤ x) ∧
      (∀ tail, DecodeRune (chunk ++ tail) = DecodeRune (b :: rest)) ∧
      (b :: rest).take (DecodeRune (b :: rest)).2 = chunk ∧
      rest.drop ((DecodeRune (b :: rest)).2 - 1) = t ∧
      ((DecodeRune (b :: rest)).1 = 0x2028 ∨ (DecodeRune (b :: rest)).1 = 0x2029 →
        chunk = [0xE2, 0x80, 0xA8 + (DecodeRune (b :: rest)).1 % 16 - 8]) := by
  rcases DecodeRune_multibyte b rest hb hv with
    ⟨b1, t, rfl, h1, h2, h3, h4, hd⟩ | ⟨b1, b2, t, rfl, h1, h2, h3, h4, h5, h6, hd⟩ |
    ⟨b1, b2, b3, t, rfl, h1, h2, h3, h4, h5, h6, h7, h8, hd⟩
  · refine ⟨[b, b1], t, rfl, by simp, by rw [hd]; rfl, by rw [hd]; exact AppendRune_two b b1 h1 h2 h3 h4,
      ?_, ?_, by rw [hd]; rfl, by rw [hd]; rfl, ?_⟩
    · intro x hx
      simp only [List.mem_cons, List.mem_singleton, List.not_mem_nil, or_false] at hx
      rcases hx with rfl | rfl <;> omega
    · intro tail
      rw [hd]
      simp [DecodeRune, hb, h1, h2, h3, h4]
    · rw [hd]
      intro h
      simp only at h
      omega
  · have hlo : 0x80 ≤ b1 := by
      unfold acceptLo at h3
      split_ifs at h3 <;> omega
    refine ⟨[b, b1, b2], t, rfl, by simp, by rw [hd]; rfl,
      by rw [hd]; exact AppendRune_three b b1 b2 h1 h2 h3 h4 h5 h6,
      ?_, ?_, by rw [hd]; rfl, by rw [hd]; rfl, ?_⟩
    · intro x hx
      simp only [List.mem_cons, List.mem_singleton, List.not_mem_nil, or_false] at hx
      rcases hx with rfl | rfl | rfl <;> omega
    · intro tail
      rw [hd]
      have h2' : ¬ (0xC2 ≤ b ∧ b ≤ 0xDF) := by omega
      simp [DecodeRune, hb, h2', h1, h2, h3, h4, h5, h6]
    · rw [hd]
      intro h
      simp only at h
      have hhi : b1 ≤ 0xBF := by
        unfold acceptHi at h4
        split_ifs at h4 <;> omega
      have e0 : b = 0xE2 := by omega
      have e1 : b1 = 0x80 := by omega
      subst e0 e1
      congr 1
      congr 1
      congr 1
      omega
  · have hlo : 0x80 ≤ b1 := by
      unfold acceptLo at h3
      split_ifs at h3 <;> omega
    have hhi : b1 ≤ 0xBF := by
      unfold acceptHi at h4
      split_ifs at h4 <;> omega
    refine ⟨[b, b1, b2, b3], t, rfl, by simp, by rw [hd]; rfl,
      by rw [hd]; exact AppendRune_four b b1 b2 b3 h1 h2 h3 h4 h5 h6 h7 h8,
      ?_, ?_, by rw [hd]; rfl, by rw [hd]; rfl, ?_⟩
    · intro x hx
      simp only [List.mem_cons, List.mem_singleton, List.not_mem_nil, or_false] at hx
      rcases hx with rfl | rfl | rfl | rfl <;> omega
    · intro tail
      rw [hd]
      have h2' : ¬ (0xC2 ≤ b ∧ b ≤ 0xDF) := by omega
      have h3' : ¬ (0xE0 ≤ b ∧ b ≤ 0xEF) := by omega
      simp [DecodeRune, hb, h2', h3', h1, h2, h3, h4, h5, h6, h7, h8]
    · rw [hd]
      intro h
      simp only at h
      have hhi' : b = 0xF4 → b1 ≤ 0x8F := by
        intro e
        unfold acceptHi at h4
        rw [if_neg (by omega), if_pos e] at h4
        exact h4
      have hlo' : b = 0xF0 → 0x90 ≤ b1 := by
        intro e
        unfold acceptLo at h3
        rw [if_neg (by omega), if_pos e] at h3
        exact h3
      omega

/-! ### Theorems: string literals -/

theorem hex_digit (n : Nat) (h : n < 16) :
    (48 ≤ hex n ∧ hex n ≤ 57) ∨ (97 ≤ hex n ∧ hex n ≤ 102) ∨ (65 ≤ hex n ∧ hex n ≤ 70) := by
  unfold hex
  split_ifs <;> omega

/-- Inside a string literal the scanner adds a byte that is neither a control
character nor the quote nor the backslash to the literal. -/
theorem next_plain (c : Nat) (h1 : 0x20 ≤ c) (h2 : c ≠ 34) (h3 : c ≠ 92) (endTop : Bool)
    (ps : List Frame) (err : Option SyntaxError) (bytes : Nat) (lit : List Nat)
    (value : Option Value) :
    scanner.next ⟨Step.inString, endTop, ps, err, bytes, lit, value⟩ c
      = ⟨Step.inString, endTop, ps, err, bytes + 1, lit ++ [c], value⟩ := by
  have h4 : ¬ c < 32 := by omega
  simp [scanner.next, scanner.call, stateInString, h2, h3, h4]

theorem scan_plain (chunk : List Nat) (endTop : Bool) (ps : List Frame)
    (err : Option SyntaxError) (value : Option Value) :
    (∀ x ∈ chunk, 0x20 ≤ x ∧ x ≠ 34 ∧ x ≠ 92) → ∀ (bytes : Nat) (lit : List Nat),
    chunk.foldl scanner.next ⟨Step.inString, endTop, ps, err, bytes, lit, value⟩
      = ⟨Step.inString, endTop, ps, err, bytes + chunk.length, lit ++ chunk, value⟩ := by
  induction chunk with
  | nil => intro _ bytes lit; simp
  | cons c rest ih =>
    intro h bytes lit
    have hc := h c (by simp)
    rw [List.foldl_cons, next_plain c hc.1 hc.2.1 hc.2.2, ih (fun x hx => h x (by simp [hx]))]
    simp
    omega

/-- The escape of two bytes, backslash and `e`. -/
theorem scan_escape (e : Nat)
    (he : e = 98 ∨ e = 102 ∨ e = 110 ∨ e = 114 ∨ e = 116 ∨ e = 92 ∨ e = 47 ∨ e = 34)
    (endTop : Bool) (ps : List Frame) (err : Option SyntaxError) (bytes : Nat) (lit : List Nat)
    (value : Option Value) :
    [92, e].foldl scanner.next ⟨Step.inString, endTop, ps, err, bytes, lit, value⟩
      = ⟨Step.inString, endTop, ps, err, bytes + 2, lit ++ [92, e], value⟩ := by
  simp [scanner.next, scanner.call, stateInString, stateInStringEsc, he]

/-- The escape of six bytes, backslash, `u` and four hexadecimal digits. -/
theorem scan_escape_u (h1 h2 h3 h4 : Nat)
    (d1 : (48 ≤ h1 ∧ h1 ≤ 57) ∨ (97 ≤ h1 ∧ h1 ≤ 102) ∨ (65 ≤ h1 ∧ h1 ≤ 70))
    (d2 : (48 ≤ h2 ∧ h2 ≤ 57) ∨ (97 ≤ h2 ∧ h2 ≤ 102) ∨ (65 ≤ h2 ∧ h2 ≤ 70))
    (d3 : (48 ≤ h3 ∧ h3 ≤ 57) ∨ (97 ≤ h3 ∧ h3 ≤ 102) ∨ (65 ≤ h3 ∧ h3 ≤ 70))
    (d4 : (48 ≤ h4 ∧ h4 ≤ 57) ∨ (97 ≤ h4 ∧ h4 ≤ 102) ∨ (65 ≤ h4 ∧ h4 ≤ 70))
    (endTop : Bool) (ps : List Frame) (err : Option SyntaxError) (bytes : Nat) (lit : List Nat)
    (value : Option Value) :
    [92, 117, h1, h2, h3, h4].foldl scanner.next
        ⟨Step.inString, endTop, ps, err, bytes, lit, value⟩
      = ⟨Step.inString, endTop, ps, err, bytes + 6, lit ++ [92, 117, h1, h2, h3, h4], value⟩ := by
  simp [scanner.next, scanner.call, stateInString, stateInStringEsc, stateInStringEscU, d1, d2,
    d3, d4]

theorem scan_escapeByte (b : Nat) (hb : b < 0x80)
    (endTop : Bool) (ps : List Frame) (err : Option SyntaxError) (bytes : Nat) (lit : List Nat)
    (value : Option Value) :
    (escapeByte b).foldl scanner.next ⟨Step.inString, endTop, ps, err, bytes, lit, value⟩
      = ⟨Step.inString, endTop, ps, err, bytes + (escapeByte b).length, lit ++ escapeByte b,
          value⟩ := by
  unfold escapeByte
  split_ifs with c1 c2 c3 c4 c5 c6
  · exact scan_escape b (by omega) endTop ps err bytes lit value
  · exact scan_escape 98 (by omega) endTop ps err bytes lit value
  · exact scan_escape 102 (by omega) endTop ps err bytes lit value
  · exact scan_escape 110 (by omega) endTop ps err bytes lit value
  · exact scan_escape 114 (by omega) endTop ps err bytes lit value
  · exact scan_escape 116 (by omega) endTop ps err bytes lit value
  · exact scan_escape_u 48 48 (hex (b / 16)) (hex (b % 16)) (by omega) (by omega)
      (hex_digit _ (by omega)) (hex_digit _ (by omega)) endTop ps err bytes lit value

/-- The scanner reads what `appendStringLoop` writes as the inside of a string
literal. -/
theorem scan_body (endTop : Bool) (ps : List Frame) (err : Option SyntaxError)
    (value : Option Value) (fuel : Nat) : ∀ (src : List Nat) (bytes : Nat) (lit : List Nat),
    (appendStringLoop fuel src).foldl scanner.next
        ⟨Step.inString, endTop, ps, err, bytes, lit, value⟩
      = ⟨Step.inString, endTop, ps, err, bytes + (appendStringLoop fuel src).length,
          lit ++ appendStringLoop fuel src, value⟩ := by
  induction fuel with
  | zero =>
    intro src bytes lit
    cases src <;> simp [appendStringLoop]
  | succ fuel ih =>
    intro src bytes lit
    cases src with
    | nil => simp [appendStringLoop]
    | cons b rest =>
      unfold appendStringLoop
      by_cases hb : b < 0x80
      · rw [if_pos hb]
        by_cases hs : htmlSafeSet b = true
        · rw [if_pos hs, List.foldl_append]
          have hs' : 0x20 ≤ b ∧ b < 0x80 ∧ b ≠ 34 ∧ b ≠ 38 ∧ b ≠ 60 ∧ b ≠ 62 ∧ b ≠ 92 := by
            simpa [htmlSafeSet] using hs
          rw [List.foldl_cons, List.foldl_nil, next_plain b hs'.1 hs'.2.2.1 hs'.2.2.2.2.2.2, ih]
          simp
          omega
        · rw [if_neg hs, List.foldl_append, scan_escapeByte b hb, ih]
          simp
          omega
      · rw [if_neg hb]
        simp only []
        by_cases hv : (DecodeRune (b :: rest)).1 = RuneError ∧ (DecodeRune (b :: rest)).2 = 1
        · rw [if_pos hv, List.foldl_append,
            scan_escape_u 102 102 102 100 (by omega) (by omega) (by omega) (by omega), ih]
          simp
          omega
        · rw [if_neg hv]
          obtain ⟨chunk, t, hsplit, hlen, hsize, happ, hhigh, hdec, htake, hdrop, hsep⟩ :=
            DecodeRune_chunk b rest hb hv
          by_cases hl : (DecodeRune (b :: rest)).1 = 0x2028 ∨ (DecodeRune (b :: rest)).1 = 0x2029
          · rw [if_pos hl, List.foldl_append,
              scan_escape_u 50 48 50 (hex ((DecodeRune (b :: rest)).1 % 16)) (by omega)
                (by omega) (by omega) (hex_digit _ (by omega)), ih]
            simp
            omega
          · rw [if_neg hl, List.foldl_append, htake,
              scan_plain chunk endTop ps err value
                (fun x hx => by have := hhigh x hx; omega), ih]
            simp
            omega

theorem unquoteLoop_nil (fuel : Nat) : unquoteLoop fuel [] = some [] := by
  cases fuel <;> rfl

theorem unquoteLoop_succ (fuel c : Nat) (rest : List Nat) :
    unquoteLoop (fuel + 1) (c :: rest) =
      if c = 92 then
        match rest with
        | [] => none
        | e :: rest1 =>
          if e = 34 ∨ e = 92 ∨ e = 47 ∨ e = 39 then (unquoteLoop fuel rest1).map (fun t => e :: t)
          else if e = 98 then (unquoteLoop fuel rest1).map (fun t => 8 :: t)
          else if e = 102 then (unquoteLoop fuel rest1).map (fun t => 12 :: t)
          else if e = 110 then (unquoteLoop fuel rest1).map (fun t => 10 :: t)
          else if e = 114 then (unquoteLoop fuel rest1).map (fun t => 13 :: t)
          else if e = 116 then (unquoteLoop fuel rest1).map (fun t => 9 :: t)
          else if e = 117 then
            match getu4 (c :: rest) with
            | none => none
            | some rr =>
              let rest2 := rest1.drop 4
              if 0xD800 ≤ rr ∧ rr < 0xE000 then
                let dec := utf16DecodeRune rr ((getu4 rest2).getD 0)
                if dec ≠ RuneError then
                  (unquoteLoop fuel (rest2.drop 6)).map (fun t => AppendRune dec ++ t)
                else (unquoteLoop fuel rest2).map (fun t => AppendRune RuneError ++ t)
              else (unquoteLoop fuel rest2).map (fun t => AppendRune rr ++ t)
          else none
      else if c = 34 ∨ c < 32 then none
      else if c < 0x80 then (unquoteLoop fuel rest).map (fun t => c :: t)
      else
        let decoded := DecodeRune (c :: rest)
        (unquoteLoop fuel (rest.drop (decoded.2 - 1))).map
          (fun t => AppendRune decoded.1 ++ t) := rfl

theorem getu4_read (h1 h2 h3 h4 : Nat) (tail : List Nat) :
    getu4 (92 :: 117 :: h1 :: h2 :: h3 :: h4 :: tail) = getu4 [92, 117, h1, h2, h3, h4] := rfl

theorem getu4_hex (b : Nat) (hb : b < 0x80) (tail : List Nat) :
    getu4 (92 :: 117 :: 48 :: 48 :: hex (b / 16) :: hex (b % 16) :: tail) = some b := by
  rw [getu4_read]
  have h : ∀ b, b < 0x80 → getu4 [92, 117, 48, 48, hex (b / 16), hex (b % 16)] = some b := by
    decide
  exact h b hb

theorem AppendRune_ascii (b : Nat) (hb : b < 0x80) : AppendRune b = [b] := by
  simp [AppendRune, hb]

/-- One round of `unquoteLoop` on the escape that `escapeByte` writes. -/
theorem unquoteLoop_escapeByte (b : Nat) (hb : b < 0x80) (fuel : Nat) (tail : List Nat) :
    unquoteLoop (fuel + 1) (escapeByte b ++ tail)
      = (unquoteLoop fuel tail).map (fun t => b :: t) := by
  unfold escapeByte
  split_ifs with c1 c2 c3 c4 c5 c6
  · rcases c1 with rfl | rfl <;> simp [unquoteLoop_succ]
  · subst c2
    simp [unquoteLoop_succ]
  · subst c3
    simp [unquoteLoop_succ]
  · subst c4
    simp [unquoteLoop_succ]
  · subst c5
    simp [unquoteLoop_succ]
  · subst c6
    simp [unquoteLoop_succ]
  · have hsur : ¬ (0xD800 ≤ b ∧ b < 0xE000) := by omega
    simp only [List.cons_append, List.nil_append, unquoteLoop_succ]
    simp only [getu4_hex b hb, AppendRune_ascii b hb, hsur]
    simp

theorem unquoteLoop_plain (b : Nat) (hb : b < 0x80) (hs : htmlSafeSet b = true)
    (fuel : Nat) (tail : List Nat) :
    unquoteLoop (fuel + 1) (b :: tail) = (unquoteLoop fuel tail).map (fun t => b :: t) := by
  have hs' : 0x20 ≤ b ∧ b < 0x80 ∧ b ≠ 34 ∧ b ≠ 38 ∧ b ≠ 60 ∧ b ≠ 62 ∧ b ≠ 92 := by
    simpa [htmlSafeSet] using hs
  have h1 : ¬ (b = 34 ∨ b < 32) := by omega
  rw [unquoteLoop_succ, if_neg hs'.2.2.2.2.2.2, if_neg h1, if_pos hb]

/-- One round of `unquoteLoop` on a valid encoding of more than one byte. -/
theorem unquoteLoop_chunk (b : Nat) (rest chunk t : List Nat) (hb : ¬ b < 0x80)
    (hsplit : b :: rest = chunk ++ t) (hlen : 2 ≤ chunk.length)
    (hsize : (DecodeRune (b :: rest)).2 = chunk.length)
    (happ : AppendRune (DecodeRune (b :: rest)).1 = chunk)
    (hdec : ∀ tail, DecodeRune (chunk ++ tail) = DecodeRune (b :: rest))
    (fuel : Nat) (tail : List Nat) :
    unquoteLoop (fuel + 1) (chunk ++ tail)
      = (unquoteLoop fuel tail).map (fun x => chunk ++ x) := by
  cases chunk with
  | nil => simp at hlen
  | cons b' chunk' =>
    have hbb : b = b' := by
      simp only [List.cons_append, List.cons.injEq] at hsplit
      exact hsplit.1
    subst hbb
    have h1 : b ≠ 92 := by omega
    have h2 : ¬ (b = 34 ∨ b < 32) := by omega
    have hd := hdec tail
    simp only [List.cons_append] at hd
    rw [List.cons_append, unquoteLoop_succ, if_neg h1, if_neg h2, if_neg hb]
    simp only [hd, hsize, happ]
    have hdrop : (chunk' ++ tail).drop ((b :: chunk').length - 1) = tail := by
      simp
    rw [hdrop]

/-- What `appendStringLoop` writes for a valid UTF-8 string is unquoted to the
string. -/
theorem unquoteLoop_appendStringLoop (fuel : Nat) : ∀ (src : List Nat) (f1 f3 : Nat),
    src.length ≤ fuel → src.length ≤ f1 → (appendStringLoop fuel src).length ≤ f3 →
    ValidLoop f1 src = true → unquoteLoop f3 (appendStringLoop fuel src) = some src := by
  induction fuel with
  | zero =>
    intro src f1 f3 h0 _ _ _
    have : src = [] := List.length_eq_zero.mp (by omega)
    subst this
    simp [appendStringLoop, unquoteLoop_nil]
  | succ fuel ih =>
    intro src f1 f3 h0 h1 h3 hv
    cases src with
    | nil => simp [appendStringLoop, unquoteLoop_nil]
    | cons b rest =>
      obtain ⟨g1, rfl⟩ : ∃ g1, f1 = g1 + 1 := ⟨f1 - 1, by simp at h1; omega⟩
      simp only [List.length_cons] at h0 h1
      unfold ValidLoop at hv
      unfold appendStringLoop at h3 ⊢
      by_cases hb : b < 0x80
      · have hd : DecodeRune (b :: rest) = (b, 1) := by simp [DecodeRune, hb]
        rw [hd] at hv
        have hne : b ≠ RuneError := by
          unfold RuneError
          omega
        simp [hne] at hv
        rw [if_pos hb] at h3 ⊢
        by_cases hs : htmlSafeSet b = true
        · rw [if_pos hs] at h3 ⊢
          simp only [List.singleton_append, List.length_cons] at h3 ⊢
          obtain ⟨g3, rfl⟩ : ∃ g3, f3 = g3 + 1 := ⟨f3 - 1, by omega⟩
          rw [unquoteLoop_plain b hb hs, ih rest g1 g3 (by omega) (by omega) (by omega) hv]
          rfl
        · rw [if_neg hs] at h3 ⊢
          have hpos : 2 ≤ (escapeByte b).length := by
            unfold escapeByte
            split_ifs <;> simp
          simp only [List.length_append] at h3
          obtain ⟨g3, rfl⟩ : ∃ g3, f3 = g3 + 1 := ⟨f3 - 1, by omega⟩
          rw [unquoteLoop_escapeByte b hb,
            ih rest g1 g3 (by omega) (by omega) (by omega) hv]
          rfl
      · rw [if_neg hb] at h3 ⊢
        simp only [] at hv h3 ⊢
        by_cases hbad : (DecodeRune (b :: rest)).1 = RuneError ∧ (DecodeRune (b :: rest)).2 = 1
        · rw [if_pos hbad] at hv
          exact absurd hv (by simp)
        · rw [if_neg hbad] at hv h3 ⊢
          obtain ⟨chunk, t, hsplit, hlen, hsize, happ, hhigh, hdec, htake, hdrop, hsep⟩ :=
            DecodeRune_chunk b rest hb hbad
          rw [hdrop] at hv h3 ⊢
          have hlt : t.length + 2 ≤ rest.length + 1 := by
            have := congrArg List.length hsplit
            simp only [List.length_cons, List.length_append] at this
            omega
          by_cases hl : (DecodeRune (b :: rest)).1 = 0x2028 ∨ (DecodeRune (b :: rest)).1 = 0x2029
          · rw [if_pos hl] at h3 ⊢
            simp only [List.length_append, List.length_cons, List.length_nil] at h3
            obtain ⟨g3, rfl⟩ : ∃ g3, f3 = g3 + 1 := ⟨f3 - 1, by omega⟩
            have hrec := ih t g1 g3 (by omega) (by omega) (by omega) hv
            have hsur : ¬ (0xD800 ≤ (DecodeRune (b :: rest)).1 ∧
                (DecodeRune (b :: rest)).1 < 0xE000) := by omega
            have hget : getu4 (92 :: 117 :: 50 :: 48 :: 50 ::
                hex ((DecodeRune (b :: rest)).1 % 16) :: appendStringLoop fuel t)
                = some (DecodeRune (b :: rest)).1 := by
              rw [getu4_read]
              rcases hl with h | h <;> rw [h] <;> rfl
            simp only [List.cons_append, List.nil_append, unquoteLoop_succ]
            simp only [hget, hsur, happ, hrec]
            simp [hsplit]
            exact hrec
          · rw [if_neg hl, htake] at h3 ⊢
            simp only [List.length_append] at h3
            obtain ⟨g3, rfl⟩ : ∃ g3, f3 = g3 + 1 := ⟨f3 - 1, by omega⟩
            rw [unquoteLoop_chunk b rest chunk t hb hsplit hlen hsize happ hdec,
              ih t g1 g3 (by omega) (by omega) (by omega) hv]
            simp [hsplit]

theorem unquoteBytes_appendStringLoop (src : List Nat) (hv : Valid src = true) :
    unquoteBytes (appendStringLoop src.length src) = some src :=
  unquoteLoop_appendStringLoop src.length src src.length _ (le_refl _) (le_refl _) (le_refl _) hv

/-! ### Theorems: the text of a configuration -/

/-- White space is skipped before a key, before a value and after a value
inside an object or array. -/
theorem scan_spaces (st : Step) (ps : List Frame)
    (hst : st = Step.beginString ∨ st = Step.beginStringOrEmpty ∨ st = Step.beginValue ∨
      (st = Step.endValue ∧ ps ≠ []))
    (ws : List Nat) : (∀ x ∈ ws, isSpace x = true) → ∀ (bytes : Nat),
    ws.foldl scanner.next ⟨st, false, ps, none, bytes, [], none⟩
      = ⟨st, false, ps, none, bytes + ws.length, [], none⟩ := by
  induction ws with
  | nil => intro _ bytes; simp
  | cons c rest ih =>
    intro h bytes
    have hc : isSpace c = true := h c (by simp)
    have hstep : scanner.next ⟨st, false, ps, none, bytes, [], none⟩ c
        = ⟨st, false, ps, none, bytes + 1, [], none⟩ := by
      rcases hst with rfl | rfl | rfl | ⟨rfl, hps⟩
      · simp [scanner.next, scanner.call, stateBeginString, hc]
      · simp [scanner.next, scanner.call, stateBeginStringOrEmpty, hc]
      · simp [scanner.next, scanner.call, stateBeginValue, hc]
      · cases ps with
        | nil => exact absurd rfl hps
        | cons f r => simp [scanner.next, scanner.call, stateEndValue, hc]
    rw [List.foldl_cons, hstep, ih (fun x hx => h x (by simp [hx]))]
    simp
    omega

theorem isSpace_appendNewline (depth : Nat) : ∀ x ∈ appendNewline depth, isSpace x = true := by
  intro x hx
  simp only [appendNewline, List.mem_cons, List.mem_replicate] at hx
  rcases hx with rfl | ⟨_, rfl⟩ <;> rfl

/-- A string literal from behind its opening quote: what `unquoteBytes` returns
for it is stored as the value just read. -/
theorem scan_string (src t : List Nat)
    (hu : unquoteBytes (appendStringLoop src.length src) = some t) (endTop : Bool)
    (ps : List Frame) (err : Option SyntaxError) (bytes : Nat) (value : Option Value) :
    (appendStringLoop src.length src ++ [34]).foldl scanner.next
        ⟨Step.inString, endTop, ps, err, bytes, [], value⟩
      = { (scanner.store
            ⟨Step.inString, endTop, ps, err, bytes + (appendStringLoop src.length src).length + 1,
              appendStringLoop src.length src, value⟩ (Value.string t)) with
          step := Step.endValue, literal := [] } := by
  rw [List.foldl_append, scan_body]
  simp [scanner.next, scanner.call, stateInString, hu]

/-- The name of a member with its colon, after the opening brace or a comma. -/
theorem scan_key (st : Step) (hst : st = Step.beginString ∨ st = Step.beginStringOrEmpty)
    (depth : Nat) (name : List Nat) (hv : Valid name = true)
    (members : List (List Nat × Value)) (ps : List Frame) (bytes : Nat) :
    (appendNewline depth ++ appendString name ++ [58, 32]).foldl scanner.next
        ⟨st, false, Frame.parseObjectKey members none :: ps, none, bytes, [], none⟩
      = ⟨Step.beginValue, false, Frame.parseObjectValue members name :: ps, none,
          bytes + (appendNewline depth ++ appendString name ++ [58, 32]).length, [], none⟩ := by
  have hst' : st = Step.beginString ∨ st = Step.beginStringOrEmpty ∨ st = Step.beginValue ∨
      (st = Step.endValue ∧ Frame.parseObjectKey members none :: ps ≠ []) := by
    rcases hst with h | h
    · exact Or.inl h
    · exact Or.inr (Or.inl h)
  have hquote : ∀ n, scanner.next
      ⟨st, false, Frame.parseObjectKey members none :: ps, none, n, [], none⟩ 34
      = ⟨Step.inString, false, Frame.parseObjectKey members none :: ps, none, n + 1, [],
          none⟩ := by
    intro n
    rcases hst with rfl | rfl
    · simp [scanner.next, scanner.call, stateBeginString, isSpace]
    · simp [scanner.next, scanner.call, stateBeginStringOrEmpty, stateBeginString, isSpace]
  unfold appendString
  simp only [List.foldl_append, List.foldl_cons, List.foldl_nil, List.append_assoc]
  rw [scan_spaces st _ hst' _ (isSpace_appendNewline depth), hquote]
  have hs := scan_string name name (unquoteBytes_appendStringLoop name hv) false
    (Frame.parseObjectKey members none :: ps) none (bytes + (appendNewline depth).length + 1) none
  rw [List.foldl_append, List.foldl_cons, List.foldl_nil] at hs
  rw [hs]
  simp [scanner.store, scanner.next, scanner.call, stateEndValue, stateBeginValue, isSpace]
  omega

/-- A string literal as the value of a member. -/
theorem scan_value (src t : List Nat) (hu : readsBack src t = true)
    (members : List (List Nat × Value)) (key : List Nat) (ps : List Frame) (bytes : Nat) :
    (appendString src).foldl scanner.next
        ⟨Step.beginValue, false, Frame.parseObjectValue members key :: ps, none, bytes, [], none⟩
      = ⟨Step.endValue, false,
          Frame.parseObjectValue (members ++ [(key, Value.string t)]) key :: ps, none,
          bytes + (appendString src).length, [], none⟩ := by
  have hu' : unquoteBytes (appendStringLoop src.length src) = some t := by
    simpa [readsBack] using hu
  unfold appendString
  simp only [List.foldl_append, List.foldl_cons, List.foldl_nil, List.append_assoc]
  have hquote : scanner.next
      ⟨Step.beginValue, false, Frame.parseObjectValue members key :: ps, none, bytes, [], none⟩
      34
      = ⟨Step.inString, false, Frame.parseObjectValue members key :: ps, none, bytes + 1, [],
          none⟩ := by
    simp [scanner.next, scanner.call, stateBeginValue, isSpace]
  rw [hquote]
  have hs := scan_string src t hu' false (Frame.parseObjectValue members key :: ps) none
    (bytes + 1) none
  rw [List.foldl_append, List.foldl_cons, List.foldl_nil] at hs
  rw [hs]
  simp [scanner.store]
  omega

/-- The opening brace of an object. -/
theorem scan_open (ps : List Frame) (hdepth : ps.length + 1 ≤ maxNestingDepth) (bytes : Nat) :
    [123].foldl scanner.next ⟨Step.beginValue, false, ps, none, bytes, [], none⟩
      = ⟨Step.beginStringOrEmpty, false, Frame.parseObjectKey [] none :: ps, none, bytes + 1, [],
          none⟩ := by
  simp [scanner.next, scanner.call, stateBeginValue, isSpace, scanner.pushParseState, hdepth]

/-- The comma after a member. -/
theorem scan_comma (members : List (List Nat × Value)) (key : List Nat) (ps : List Frame)
    (bytes : Nat) :
    [44].foldl scanner.next
        ⟨Step.endValue, false, Frame.parseObjectValue members key :: ps, none, bytes, [], none⟩
      = ⟨Step.beginString, false, Frame.parseObjectKey members none :: ps, none, bytes + 1, [],
          none⟩ := by
  simp [scanner.next, scanner.call, stateEndValue, isSpace]

/-- The closing brace of an object that is the value of a member. -/
theorem scan_close (depth : Nat) (members outer : List (List Nat × Value)) (key name : List Nat)
    (ps : List Frame) (bytes : Nat) :
    (appendNewline depth ++ [125]).foldl scanner.next
        ⟨Step.endValue, false,
          Frame.parseObjectValue members key :: Frame.parseObjectValue outer name :: ps, none,
          bytes, [], none⟩
      = ⟨Step.endValue, false,
          Frame.parseObjectValue (outer ++ [(name, Value.object members)]) name :: ps, none,
          bytes + (appendNewline depth ++ [125]).length, [], none⟩ := by
  rw [List.foldl_append, scan_spaces Step.endValue _ (Or.inr (Or.inr (Or.inr ⟨rfl, by simp⟩))) _
    (isSpace_appendNewline depth)]
  simp [scanner.next, scanner.call, stateEndValue, isSpace, scanner.popParseState,
    scanner.store]
  omega

/-- The closing brace of the top-level object. -/
theorem scan_close_top (members : List (List Nat × Value)) (key : List Nat) (bytes : Nat) :
    (appendNewline 0 ++ [125]).foldl scanner.next
        ⟨Step.endValue, false, [Frame.parseObjectValue members key], none, bytes, [], none⟩
      = ⟨Step.endTop, true, [], none, bytes + 2, [], some (Value.object members)⟩ := by
  simp [appendNewline, scanner.next, scanner.call, stateEndValue, isSpace, scanner.popParseState,
    scanner.store]

theorem scan_key_then (st : Step) (hst : st = Step.beginString ∨ st = Step.beginStringOrEmpty)
    (depth : Nat) (name : List Nat) (hv : Valid name = true)
    (members : List (List Nat × Value)) (ps : List Frame) (bytes : Nat) (rest : List Nat) :
    (appendNewline depth ++ (appendString name ++ 58 :: 32 :: rest)).foldl scanner.next
        ⟨st, false, Frame.parseObjectKey members none :: ps, none, bytes, [], none⟩
      = rest.foldl scanner.next
          ⟨Step.beginValue, false, Frame.parseObjectValue members name :: ps, none,
            bytes + (appendNewline depth ++ appendString name ++ [58, 32]).length, [], none⟩ := by
  have h := scan_key st hst depth name hv members ps bytes
  have e : appendNewline depth ++ (appendString name ++ 58 :: 32 :: rest)
      = (appendNewline depth ++ appendString name ++ [58, 32]) ++ rest := by simp
  rw [e, List.foldl_append, h]

theorem scan_value_then (src t : List Nat) (hu : readsBack src t = true)
    (members : List (List Nat × Value)) (key : List Nat) (ps : List Frame) (bytes : Nat)
    (rest : List Nat) :
    (appendString src ++ rest).foldl scanner.next
        ⟨Step.beginValue, false, Frame.parseObjectValue members key :: ps, none, bytes, [], none⟩
      = rest.foldl scanner.next
          ⟨Step.endValue, false,
            Frame.parseObjectValue (members ++ [(key, Value.string t)]) key :: ps, none,
            bytes + (appendString src).length, [], none⟩ := by
  rw [List.foldl_append, scan_value src t hu]

theorem scan_open_then (ps : List Frame) (hdepth : ps.length + 1 ≤ maxNestingDepth)
    (bytes : Nat) (rest : List Nat) :
    (123 :: rest).foldl scanner.next ⟨Step.beginValue, false, ps, none, bytes, [], none⟩
      = rest.foldl scanner.next
          ⟨Step.beginStringOrEmpty, false, Frame.parseObjectKey [] none :: ps, none, bytes + 1,
            [], none⟩ := by
  have h := scan_open ps hdepth bytes
  rw [List.foldl_cons, List.foldl_nil] at h
  rw [List.foldl_cons, h]

theorem scan_comma_then (members : List (List Nat × Value)) (key : List Nat) (ps : List Frame)
    (bytes : Nat) (rest : List Nat) :
    (44 :: rest).foldl scanner.next
        ⟨Step.endValue, false, Frame.parseObjectValue members key :: ps, none, bytes, [], none⟩
      = rest.foldl scanner.next
          ⟨Step.beginString, false, Frame.parseObjectKey members none :: ps, none, bytes + 1, [],
            none⟩ := by
  have h := scan_comma members key ps bytes
  rw [List.foldl_cons, List.foldl_nil] at h
  rw [List.foldl_cons, h]

theorem scan_close_then (depth : Nat) (members outer : List (List Nat × Value))
    (key name : List Nat) (ps : List Frame) (bytes : Nat) (rest : List Nat) :
    (appendNewline depth ++ 125 :: rest).foldl scanner.next
        ⟨Step.endValue, false,
          Frame.parseObjectValue members key :: Frame.parseObjectValue outer name :: ps, none,
          bytes, [], none⟩
      = rest.foldl scanner.next
          ⟨Step.endValue, false,
            Frame.parseObjectValue (outer ++ [(name, Value.object members)]) name :: ps, none,
            bytes + (appendNewline depth ++ [125]).length, [], none⟩ := by
  have h := scan_close depth members outer key name ps bytes
  have e : appendNewline depth ++ 125 :: rest = (appendNewline depth ++ [125]) ++ rest := by simp
  rw [e, List.foldl_append, h]

/-- The text that `MarshalIndent` writes for a configuration is valid JSON and
denotes the value of the configuration that is read back. -/
theorem checkValid_MarshalIndent (c c' : Config) (hv : c.readsBackAs c' = true) :
    ∃ data, MarshalIndent c = Except.ok data ∧ checkValid data = Except.ok c'.toValue := by
  refine ⟨_, rfl, ?_⟩
  simp only [Config.readsBackAs, Bool.and_eq_true] at hv
  obtain ⟨⟨⟨⟨⟨⟨⟨⟨⟨⟨⟨h1, h2⟩, h3⟩, h4⟩, h5⟩, h6⟩, h7⟩, h8⟩, h9⟩, h10⟩, h11⟩, h12⟩ := hv
  unfold checkValid newScanner
  simp only [member, List.append_assoc, List.cons_append, List.nil_append]
  rw [scan_open_then _ (by simp [maxNestingDepth])]
  rw [scan_key_then _ (Or.inr rfl) _ _ (by decide : Valid (ascii "fcm_credentials") = true)]
  rw [scan_open_then _ (by simp [maxNestingDepth])]
  rw [scan_key_then _ (Or.inr rfl) _ _ (by decide : Valid (ascii "gcm") = true)]
  rw [scan_open_then _ (by simp [maxNestingDepth])]
  rw [scan_key_then _ (Or.inr rfl) _ _ (by decide : Valid (ascii "token") = true)]
  rw [scan_value_then _ _ h1]
  rw [scan_comma_then]
  rw [scan_key_then _ (Or.inl rfl) _ _ (by decide : Valid (ascii "androidId") = true)]
  rw [scan_value_then _ _ h2]
  rw [scan_comma_then]
  rw [scan_key_then _ (Or.inl rfl) _ _ (by decide : Valid (ascii "securityToken") = true)]
  rw [scan_value_then _ _ h3]
  rw [scan_comma_then]
  rw [scan_key_then _ (Or.inl rfl) _ _ (by decide : Valid (ascii "appId") = true)]
  rw [scan_value_then _ _ h4]
  rw [scan_close_then]
  rw [scan_comma_then]
  rw [scan_key_then _ (Or.inl rfl) _ _ (by decide : Valid (ascii "fcm") = true)]
  rw [scan_open_then _ (by simp [maxNestingDepth])]
  rw [scan_key_then _ (Or.inr rfl) _ _ (by decide : Valid (ascii "token") = true)]
  rw [scan_value_then _ _ h5]
  rw [scan_comma_then]
  rw [scan_key_then _ (Or.inl rfl) _ _ (by decide : Valid (ascii "pushSet") = true)]
  rw [scan_value_then _ _ h6]
  rw [scan_comma_then]
  rw [scan_key_then _ (Or.inl rfl) _ _ (by decide : Valid (ascii "keys") = true)]
  rw [scan_open_then _ (by simp [maxNestingDepth])]
  rw [scan_key_then _ (Or.inr rfl) _ _ (by decide : Valid (ascii "private") = true)]
  rw [scan_value_then _ _ h7]
  rw [scan_comma_then]
  rw [scan_key_then _ (Or.inl rfl) _ _ (by decide : Valid (ascii "public") = true)]
  rw [scan_value_then _ _ h8]
  rw [scan_comma_then]
  rw [scan_key_then _ (Or.inl rfl) _ _ (by decide : Valid (ascii "secret") = true)]
  rw [scan_value_then _ _ h9]
  rw [scan_comma_then]
  rw [scan_key_then _ (Or.inl rfl) _ _ (by decide : Valid (ascii "auth") = true)]
  rw [scan_value_then _ _ h10]
  rw [scan_close_then]
  rw [scan_close_then]
  rw [scan_close_then]
  rw [scan_comma_then]
  rw [scan_key_then _ (Or.inl rfl) _ _ (by decide : Valid (ascii "expo_push_token") = true)]
  rw [scan_value_then _ _ h11]
  rw [scan_comma_then]
  rw [scan_key_then _ (Or.inl rfl) _ _ (by decide : Valid (ascii "rustplus_auth_token") = true)]
  rw [scan_value_then _ _ h12]
  rw [scan_close_top]
  simp [scanner.eof, Config.toValue]

/-- The value of a configuration is decoded to the configuration. -/
theorem decodeConfig_toValue (c old : Config) : decodeConfig c.toValue old = (c, none) := by
  rcases c with ⟨⟨⟨a1, a2, a3, a4⟩, ⟨b1, b2, ⟨k1, k2, k3, k4⟩⟩⟩, e1, e2⟩
  have f1 : findField
      [ascii "fcm_credentials", ascii "expo_push_token", ascii "rustplus_auth_token"]
      (ascii "fcm_credentials") = some 0 := by decide
  have f2 : findField
      [ascii "fcm_credentials", ascii "expo_push_token", ascii "rustplus_auth_token"]
      (ascii "expo_push_token") = some 1 := by decide
  have f3 : findField
      [ascii "fcm_credentials", ascii "expo_push_token", ascii "rustplus_auth_token"]
      (ascii "rustplus_auth_token") = some 2 := by decide
  have g1 : findField [ascii "gcm", ascii "fcm"] (ascii "gcm") = some 0 := by decide
  have g2 : findField [ascii "gcm", ascii "fcm"] (ascii "fcm") = some 1 := by decide
  have p1 : findField [ascii "token", ascii "androidId", ascii "securityToken", ascii "appId"]
      (ascii "token") = some 0 := by decide
  have p2 : findField [ascii "token", ascii "androidId", ascii "securityToken", ascii "appId"]
      (ascii "androidId") = some 1 := by decide
  have p3 : findField [ascii "token", ascii "androidId", ascii "securityToken", ascii "appId"]
      (ascii "securityToken") = some 2 := by decide
  have p4 : findField [ascii "token", ascii "androidId", ascii "securityToken", ascii "appId"]
      (ascii "appId") = some 3 := by decide
  have q1 : findField [ascii "token", ascii "pushSet", ascii "keys"] (ascii "token") = some 0 := by
    decide
  have q2 : findField [ascii "token", ascii "pushSet", ascii "keys"] (ascii "pushSet")
      = some 1 := by decide
  have q3 : findField [ascii "token", ascii "pushSet", ascii "keys"] (ascii "keys") = some 2 := by
    decide
  have r1 : findField [ascii "private", ascii "public", ascii "secret", ascii "auth"]
      (ascii "private") = some 0 := by decide
  have r2 : findField [ascii "private", ascii "public", ascii "secret", ascii "auth"]
      (ascii "public") = some 1 := by decide
  have r3 : findField [ascii "private", ascii "public", ascii "secret", ascii "auth"]
      (ascii "secret") = some 2 := by decide
  have r4 : findField [ascii "private", ascii "public", ascii "secret", ascii "auth"]
      (ascii "auth") = some 3 := by decide
  simp only [Config.toValue, decodeConfig, decodeCredentials, decodeGCM, decodeFCM, decodeKeys,
    List.foldl_cons, List.foldl_nil, f1, f2, f3, g1, g2, p1, p2, p3, p4, q1, q2, q3, r1, r2, r3,
    r4, decodeString, saveError]

theorem Unmarshal_MarshalIndent (c c' old : Config) (hv : c.readsBackAs c' = true) :
    ∃ data, MarshalIndent c = Except.ok data ∧ Unmarshal data old = (c', none) := by
  obtain ⟨data, hm, hc⟩ := checkValid_MarshalIndent c c' hv
  refine ⟨data, hm, ?_⟩
  unfold Unmarshal
  rw [hc]
  exact decodeConfig_toValue c' old

theorem readsBack_valid (s : List Nat) (hv : Valid s = true) : readsBack s s = true := by
  simp [readsBack, unquoteBytes_appendStringLoop s hv]

/-- A configuration of valid UTF-8 strings is read back as itself. -/
theorem readsBackAs_valid (c : Config) (hv : c.validUTF8 = true) : c.readsBackAs c = true := by
  simp only [Config.validUTF8, Bool.and_eq_true] at hv
  obtain ⟨⟨⟨⟨⟨⟨⟨⟨⟨⟨⟨h1, h2⟩, h3⟩, h4⟩, h5⟩, h6⟩, h7⟩, h8⟩, h9⟩, h10⟩, h11⟩, h12⟩ := hv
  simp only [Config.readsBackAs, Bool.and_eq_true]
  exact ⟨⟨⟨⟨⟨⟨⟨⟨⟨⟨⟨readsBack_valid _ h1, readsBack_valid _ h2⟩, readsBack_valid _ h3⟩,
    readsBack_valid _ h4⟩, readsBack_valid _ h5⟩, readsBack_valid _ h6⟩, readsBack_valid _ h7⟩,
    readsBack_valid _ h8⟩, readsBack_valid _ h9⟩, readsBack_valid _ h10⟩, readsBack_valid _ h11⟩,
    readsBack_valid _ h12⟩

theorem ReadFile_WriteFile (fs : FileSystem) (name : String) (data : List Nat) :
    ReadFile (WriteFile fs name data none).1 name none = Except.ok data := by
  simp [ReadFile, WriteFile, List.lookup]

/-- Saving and reading a configuration: without a fault of the operating
system `saveConfig` returns no error and `readConfig` returns what is read back
for the configuration, and no error. -/
theorem readConfig_saveConfig (fs : FileSystem) (configFile : String) (c c' : Config)
    (hv : c.readsBackAs c' = true) :
    (saveConfig fs configFile c none).2 = none ∧
      readConfig (saveConfig fs configFile c none).1 configFile none = (c', none) := by
  obtain ⟨data, hm, hu⟩ := Unmarshal_MarshalIndent c c' zeroConfig hv
  unfold saveConfig
  rw [hm]
  refine ⟨rfl, ?_⟩
  unfold readConfig
  simp only [ReadFile_WriteFile, hu]
  rfl

set_option maxRecDepth 100000 in
/-- The text of the file written for the configuration of the repository
test. -/
theorem MarshalIndent_testConfig : MarshalIndent testConfig = Except.ok (ascii testConfigText) := by
  rfl

/-- C26 (counterexample). The configuration whose Expo push token is the
single byte `0xff` is saved without error and read back without error, with
the three bytes of U+FFFD as its Expo push token: the value read is not the
value saved. -/
theorem config_invalid_utf8_not_restored :
    (saveConfig [] "config.json" rawTokenConfig none).2 = none ∧
      readConfig (saveConfig [] "config.json" rawTokenConfig none).1 "config.json" none
        = ({ zeroConfig with ExpoPushToken := [0xEF, 0xBF, 0xBD] }, none) ∧
      readConfig (saveConfig [] "config.json" rawTokenConfig none).1 "config.json" none
        ≠ (rawTokenConfig, none) := by
  have h := readConfig_saveConfig [] "config.json" rawTokenConfig
    { zeroConfig with ExpoPushToken := [0xEF, 0xBF, 0xBD] } (by decide)
  refine ⟨h.1, h.2, ?_⟩
  rw [h.2]
  decide

/-- C26 (amended). Credentials round trip: for every configuration `c` whose
strings are all valid UTF-8, every file system and every path, when the
operating system reports no fault `saveConfig(path, c)` returns no error and
`readConfig(path)` on the resulting file system returns `c` and no error. -/
theorem config_round_trip_valid_utf8 (fs : FileSystem) (configFile : String) (c : Config)
    (hv : c.validUTF8 = true) :
    (saveConfig fs configFile c none).2 = none ∧
      readConfig (saveConfig fs configFile c none).1 configFile none = (c, none) :=
  readConfig_saveConfig fs configFile c c (readsBackAs_valid c hv)

/-- C26 (witness). The configuration of the repository test, saved to and read
from an empty file system. -/
theorem config_round_trip_valid_utf8_witness :
    testConfig.validUTF8 = true ∧
      (saveConfig [] "test-config.json" testConfig none).2 = none ∧
      readConfig (saveConfig [] "test-config.json" testConfig none).1 "test-config.json" none
        = (testConfig, none) :=
  ⟨by decide, config_round_trip_valid_utf8 [] "test-config.json" testConfig (by decide)⟩

end Cmd

end GoRustplus
